import Mathlib

/-!
# FAT32 volume engine: a shallow embedding and its verified properties

The definitions below transcribe `src/fat32.c` and `src/commands.c`.

Conventions of the embedding
* A byte is a natural number; every byte the code writes is reduced modulo 256.
* `uint32_t` arithmetic is carried out on `Nat` and wrapped with `u32`.
* The image file is a total map from byte offsets to bytes (`fseek` + `fread` /
  `fwrite` become reads and updates of that map; the length of the host file is
  not modelled).  File positions are 64-bit in the C library, so only the
  argument handed to `fseek` is wrapped to 32 bits.
* A C string is the list of its bytes; the terminating NUL is implicit.
* A `DirEntry` is the packed 32-byte record, kept as its list of bytes; the field
  accessors decode the little-endian fields at their offsets.
* `while` loops that follow a cluster chain take a `fuel` argument and return
  `none` when it runs out.
* The array that `read_directory` allocates holds `16 * max_entries` entries; a store
  beyond it has no defined behaviour in C, and `read_directory` returns `none` there.
-/

namespace Fat32

/-! ## Machine arithmetic -/

/-- Wrap-around of `uint32_t` arithmetic. -/
def u32 (n : Nat) : Nat := n % 4294967296

/-- Subtraction of `uint32_t` values, wrapping below zero. -/
def u32sub (a b : Nat) : Nat := (a % 4294967296 + 4294967296 - b % 4294967296) % 4294967296

/-! ## C strings and the name codec -/

/-- Character `i` of a C string: past the end one reads the terminating NUL. -/
def cchar (s : List Nat) (i : Nat) : Nat := s.getD i 0

/-- The bytes of a C string up to its terminator. -/
def cstr (s : List Nat) : List Nat := s.takeWhile (fun b => b != 0)

/-- The function `toupper` of the C locale. -/
def toupper (c : Nat) : Nat := if 97 ≤ c ∧ c ≤ 122 then c - 32 else c

/-- First loop of `format_filename`:
`while (input[i] && input[i] != '.' && o < 8) output[o++] = toupper(input[i++]);`
The first argument bounds the number of iterations (the loop runs at most 8 times
because of `o < 8`).  Returns `(i, output)`. -/
def format_stem (input : List Nat) : Nat → Nat → Nat → List Nat → Nat × List Nat
  | 0, i, _, output => (i, output)
  | n + 1, i, o, output =>
    if cchar input i ≠ 0 ∧ cchar input i ≠ 46 ∧ o < 8 then
      format_stem input n (i + 1) (o + 1) (output.set o (toupper (cchar input i)))
    else (i, output)

/-- Second loop of `format_filename`:
`while (input[i] && o < 11) output[o++] = toupper(input[i++]);` (at most 3 rounds). -/
def format_ext (input : List Nat) : Nat → Nat → Nat → List Nat → List Nat
  | 0, _, _, output => output
  | n + 1, i, o, output =>
    if cchar input i ≠ 0 ∧ o < 11 then
      format_ext input n (i + 1) (o + 1) (output.set o (toupper (cchar input i)))
    else output

/-- The function `format_filename`: the 11 bytes written to `output[0..10]`. -/
def format_filename (input : List Nat) : List Nat :=
  let output := List.replicate 11 32
  if cstr input = [46] then output.set 0 46
  else if cstr input = [46, 46] then (output.set 0 46).set 1 46
  else
    let r := format_stem input 8 0 0 output
    if cchar input r.1 = 46 then format_ext input 3 (r.1 + 1) 8 r.2
    else r.2

/-- First loop of `parse_filename`:
`for (i = 0; i < 8 && formatted[i] != ' '; i++) output[o++] = formatted[i];` -/
def parse_stem (formatted : List Nat) : Nat → Nat → List Nat → List Nat
  | 0, _, output => output
  | n + 1, i, output =>
    if formatted.getD i 0 ≠ 32 then
      parse_stem formatted n (i + 1) (output ++ [formatted.getD i 0])
    else output

/-- Second loop of `parse_filename`: the extension, preceded by one `.`. -/
def parse_ext (formatted : List Nat) : Nat → Nat → Bool → List Nat → List Nat
  | 0, _, _, output => output
  | n + 1, i, has_ext, output =>
    if formatted.getD i 0 ≠ 32 then
      parse_ext formatted n (i + 1) true
        ((if has_ext then output else output ++ [46]) ++ [formatted.getD i 0])
    else output

/-- The function `parse_filename`: the bytes written before the final terminator. -/
def parse_filename (formatted : List Nat) : List Nat :=
  if formatted.getD 0 0 = 46 ∧ formatted.getD 1 0 = 32 then [46]
  else if formatted.getD 0 0 = 46 ∧ formatted.getD 1 0 = 46 then [46, 46]
  else parse_ext formatted 3 8 false (parse_stem formatted 8 0 [])


/-! ## Constants of `fat32.h` -/

def MAX_OPEN_FILES : Nat := 10
def DIR_ENTRY_SIZE : Nat := 32
def ATTR_DIRECTORY : Nat := 0x10
def ATTR_ARCHIVE : Nat := 0x20
def ATTR_LONG_NAME : Nat := 0x0F

/-! ## The image file -/

/-- The image file: the byte stored at each offset. -/
abbrev Image := Nat → Nat

/-- An `fread` of `n` bytes at file position `pos`. -/
def read_bytes (img : Image) (pos n : Nat) : List Nat :=
  (List.range n).map (fun i => img (pos + i))

/-- An `fwrite` of the bytes `data` at file position `pos`. -/
def write_bytes (img : Image) (pos : Nat) (data : List Nat) : Image :=
  fun a => if pos ≤ a ∧ a < pos + data.length then data.getD (a - pos) 0 else img a

/-- The four bytes of a `uint32_t` in memory (little-endian host). -/
def le32_bytes (v : Nat) : List Nat :=
  [v % 256, v / 256 % 256, v / 65536 % 256, v / 16777216 % 256]

/-- The `uint32_t` read by `fread(&entry, 4, 1, image)` at position `pos`. -/
def read_le32 (img : Image) (pos : Nat) : Nat :=
  img pos + 256 * img (pos + 1) + 65536 * img (pos + 2) + 16777216 * img (pos + 3)

/-! ## Data model -/

/-- The fields of the boot sector that the engine uses. -/
structure BootSector where
  BPB_BytsPerSec : Nat
  BPB_SecPerClus : Nat
  BPB_RsvdSecCnt : Nat
  BPB_NumFATs : Nat
  BPB_TotSec32 : Nat
  BPB_FATSz32 : Nat
  BPB_RootClus : Nat

/-- A directory entry: the 32 bytes of the packed record. -/
abbrev DirEntry := List Nat

def DirEntry.DIR_Name (e : DirEntry) : List Nat := e.take 11
/-- The byte `DIR_Name[0]`. -/
def DirEntry.DIR_Name0 (e : DirEntry) : Nat := e.getD 0 0
def DirEntry.DIR_Attr (e : DirEntry) : Nat := e.getD 11 0
def DirEntry.DIR_FstClusHI (e : DirEntry) : Nat := e.getD 20 0 + 256 * e.getD 21 0
def DirEntry.DIR_FstClusLO (e : DirEntry) : Nat := e.getD 26 0 + 256 * e.getD 27 0
def DirEntry.DIR_FileSize (e : DirEntry) : Nat :=
  e.getD 28 0 + 256 * e.getD 29 0 + 65536 * e.getD 30 0 + 16777216 * e.getD 31 0

/-- Assignment to `DIR_Name[0..10]` (a `memcpy` of 11 bytes). -/
def DirEntry.set_DIR_Name (e : DirEntry) (name : List Nat) : DirEntry :=
  name.take 11 ++ e.drop 11
/-- Assignment to `DIR_Name[0]`. -/
def DirEntry.set_DIR_Name0 (e : DirEntry) (b : Nat) : DirEntry := e.set 0 (b % 256)
def DirEntry.set_DIR_Attr (e : DirEntry) (v : Nat) : DirEntry := e.set 11 (v % 256)
def DirEntry.set_DIR_FstClusHI (e : DirEntry) (v : Nat) : DirEntry :=
  (e.set 20 (v % 256)).set 21 (v / 256 % 256)
def DirEntry.set_DIR_FstClusLO (e : DirEntry) (v : Nat) : DirEntry :=
  (e.set 26 (v % 256)).set 27 (v / 256 % 256)
def DirEntry.set_DIR_FileSize (e : DirEntry) (v : Nat) : DirEntry :=
  (((e.set 28 (v % 256)).set 29 (v / 256 % 256)).set 30 (v / 65536 % 256)).set 31
    (v / 16777216 % 256)

/-- The first cluster of an entry: `((uint32_t)DIR_FstClusHI << 16) | DIR_FstClusLO`. -/
def DirEntry.first_cluster (e : DirEntry) : Nat :=
  (e.DIR_FstClusHI <<< 16) ||| e.DIR_FstClusLO

/-- An element of the open-file table. -/
structure OpenFile where
  filename : List Nat
  mode : List Nat
  offset : Nat
  path : List Nat
  first_cluster : Nat
  size : Nat
  is_open : Bool
deriving DecidableEq, Repr

/-- The state of a mounted volume (`image_name` is only displayed and is left out). -/
structure FileSystem where
  image : Image
  boot_sector : BootSector
  current_cluster : Nat
  current_path : List Nat
  open_files : List OpenFile
  data_start_sector : Nat
  fat_start_sector : Nat
  root_cluster : Nat
  total_clusters : Nat

/-- The state after an `fseek` to `pos` followed by an `fwrite` of `data`. -/
def fwrite_at (fs : FileSystem) (pos : Nat) (data : List Nat) : FileSystem :=
  { fs with image := write_bytes fs.image pos data }

/-- The product `BPB_BytsPerSec * BPB_SecPerClus` computed by most functions. -/
def bytes_per_cluster (fs : FileSystem) : Nat :=
  fs.boot_sector.BPB_BytsPerSec * fs.boot_sector.BPB_SecPerClus

/-! ## FAT access (`fat32.c`) -/

/-- File position of the entry of `cluster` in the first FAT copy, as `get_fat_entry`
hands it to `fseek`. -/
def fat_entry_pos (fs : FileSystem) (cluster : Nat) : Nat :=
  let fat_offset := u32 (cluster * 4)
  let fat_sector := u32 (fs.fat_start_sector + fat_offset / fs.boot_sector.BPB_BytsPerSec)
  let entry_offset := fat_offset % fs.boot_sector.BPB_BytsPerSec
  u32 (fat_sector * fs.boot_sector.BPB_BytsPerSec + entry_offset)

/-- The function `get_fat_entry`. -/
def get_fat_entry (fs : FileSystem) (cluster : Nat) : Nat :=
  read_le32 fs.image (fat_entry_pos fs cluster) &&& 0x0FFFFFFF

/-- File position at which `set_fat_entry` writes the entry of `cluster` in FAT copy `i`. -/
def fat_copy_pos (fs : FileSystem) (i cluster : Nat) : Nat :=
  let fat_offset := u32 (cluster * 4)
  let entry_offset := fat_offset % fs.boot_sector.BPB_BytsPerSec
  let fat_base := u32 (fs.fat_start_sector + u32 (i * fs.boot_sector.BPB_FATSz32))
  u32 (u32 (fat_base + fat_offset / fs.boot_sector.BPB_BytsPerSec) *
    fs.boot_sector.BPB_BytsPerSec + entry_offset)

/-- The function `set_fat_entry`: the masked value is written to every FAT copy in turn. -/
def set_fat_entry (fs : FileSystem) (cluster value : Nat) : FileSystem :=
  let value := value &&& 0x0FFFFFFF
  let image := (List.range fs.boot_sector.BPB_NumFATs).foldl
    (fun img i => write_bytes img (fat_copy_pos fs i cluster) (le32_bytes value)) fs.image
  { fs with image := image }

/-- The function `get_first_sector_of_cluster`. -/
def get_first_sector_of_cluster (fs : FileSystem) (cluster : Nat) : Nat :=
  u32 (u32 (u32sub cluster 2 * fs.boot_sector.BPB_SecPerClus) + fs.data_start_sector)

/-- File position of the first byte of a cluster, as handed to `fseek`. -/
def cluster_pos (fs : FileSystem) (cluster : Nat) : Nat :=
  u32 (get_first_sector_of_cluster fs cluster * fs.boot_sector.BPB_BytsPerSec)

/-- The function `is_valid_cluster`. -/
def is_valid_cluster (fs : FileSystem) (cluster : Nat) : Bool :=
  decide (cluster ≥ 2) && decide (cluster < u32 (fs.total_clusters + 2)) &&
    decide (cluster < 0x0FFFFFF8)

/-- The body of `allocate_cluster` once a free entry is found: mark it end-of-chain and
zero the cluster. -/
def claim_cluster (fs : FileSystem) (cluster : Nat) : FileSystem :=
  let fs1 := set_fat_entry fs cluster 0x0FFFFFFF
  let zero_buffer := List.replicate (bytes_per_cluster fs1) 0
  { fs1 with image := write_bytes fs1.image (cluster_pos fs1 cluster) zero_buffer }

/-- The `for` loop of `allocate_cluster`, with `n` candidate clusters left from `cluster`. -/
def allocate_scan (fs : FileSystem) : Nat → Nat → Nat × FileSystem
  | 0, _ => (0, fs)
  | n + 1, cluster =>
    if get_fat_entry fs cluster = 0 then (cluster, claim_cluster fs cluster)
    else allocate_scan fs n (cluster + 1)

/-- The function `allocate_cluster`: the cluster returned (0 when none is free) and the
resulting state. -/
def allocate_cluster (fs : FileSystem) : Nat × FileSystem :=
  allocate_scan fs (u32 (fs.total_clusters + 2) - 2) 2

/-- The function `free_cluster_chain`. -/
def free_cluster_chain (fs : FileSystem) : Nat → Nat → Option FileSystem
  | 0, cluster => if is_valid_cluster fs cluster then none else some fs
  | fuel + 1, cluster =>
    if is_valid_cluster fs cluster then
      free_cluster_chain (set_fat_entry fs cluster 0) fuel (get_fat_entry fs cluster)
    else some fs


/-! ## Geometry predicates used by the statements -/

/-- Size in bytes of one FAT copy. -/
def fat_bytes (fs : FileSystem) : Nat :=
  fs.boot_sector.BPB_FATSz32 * fs.boot_sector.BPB_BytsPerSec

/-- The entry of index `c` lies inside a FAT copy. -/
def InFat (fs : FileSystem) (c : Nat) : Prop := 4 * c + 4 ≤ fat_bytes fs

instance (fs : FileSystem) (c : Nat) : Decidable (InFat fs c) := by
  unfold InFat; infer_instance

/-- Byte address of `FAT[k][c]`: entry `c` of FAT copy `k` (exact arithmetic). -/
def fat_addr (fs : FileSystem) (k c : Nat) : Nat :=
  (fs.fat_start_sector + k * fs.boot_sector.BPB_FATSz32) * fs.boot_sector.BPB_BytsPerSec + 4 * c

/-- All FAT copies end at or below byte offset `2^32`. -/
def FatBelow4G (fs : FileSystem) : Prop :=
  (fs.fat_start_sector + fs.boot_sector.BPB_NumFATs * fs.boot_sector.BPB_FATSz32) *
    fs.boot_sector.BPB_BytsPerSec ≤ 4294967296

instance (fs : FileSystem) : Decidable (FatBelow4G fs) := by
  unfold FatBelow4G; infer_instance

/-- The FAT copies are byte-identical at every index. -/
def Mirrored (fs : FileSystem) : Prop :=
  ∀ k i j, k < fs.boot_sector.BPB_NumFATs → InFat fs i → j < 4 →
    fs.image (fat_addr fs k i + j) = fs.image (fat_addr fs 0 i + j)

/-- Byte address of the data region of cluster `c` (exact arithmetic). -/
def data_addr (fs : FileSystem) (c : Nat) : Nat :=
  (fs.data_start_sector + (c - 2) * fs.boot_sector.BPB_SecPerClus) *
    fs.boot_sector.BPB_BytsPerSec

/-- A well-formed mounted volume: the derived fields are the ones `mount_image` computes
without wrap-around, there is at least one FAT copy, the FAT has an entry for every
cluster, and the whole volume lies below byte offset `2^32`. -/
def WellFormed (fs : FileSystem) : Prop :=
  0 < fs.boot_sector.BPB_SecPerClus ∧
  1 ≤ fs.boot_sector.BPB_NumFATs ∧
  fs.data_start_sector =
    fs.fat_start_sector + fs.boot_sector.BPB_NumFATs * fs.boot_sector.BPB_FATSz32 ∧
  fs.data_start_sector ≤ fs.boot_sector.BPB_TotSec32 ∧
  fs.total_clusters =
    (fs.boot_sector.BPB_TotSec32 - fs.data_start_sector) / fs.boot_sector.BPB_SecPerClus ∧
  4 * (fs.total_clusters + 2) ≤ fat_bytes fs ∧
  fs.boot_sector.BPB_TotSec32 * fs.boot_sector.BPB_BytsPerSec < 4294967296

instance (fs : FileSystem) : Decidable (WellFormed fs) := by
  unfold WellFormed; infer_instance

/-- The geometry of the volume is the same in both states. -/
def SameGeometry (fs fs' : FileSystem) : Prop :=
  fs'.boot_sector = fs.boot_sector ∧ fs'.fat_start_sector = fs.fat_start_sector ∧
  fs'.data_start_sector = fs.data_start_sector ∧ fs'.total_clusters = fs.total_clusters

/-- Admissible byte of a short name: not NUL, not a space, not a dot. -/
def NameByte (b : Nat) : Prop := b ≠ 0 ∧ b ≠ 32 ∧ b ≠ 46

instance (b : Nat) : Decidable (NameByte b) := by
  unfold NameByte; infer_instance


/-! ## Directory tables (`fat32.c`) -/

/-- Number of directory slots in one cluster: `bytes_per_cluster / DIR_ENTRY_SIZE`. -/
def max_entries (fs : FileSystem) : Nat := bytes_per_cluster fs / DIR_ENTRY_SIZE

/-- The slot read by the `i`-th sequential `fread` after an `fseek` to `pos`. -/
def read_slot (img : Image) (pos i : Nat) : DirEntry :=
  read_bytes img (pos + DIR_ENTRY_SIZE * i) DIR_ENTRY_SIZE

/-- Number of entries that the array allocated by `read_directory` holds:
`malloc (max_entries * sizeof (DirEntry) * 16)`. -/
def read_directory_capacity (fs : FileSystem) : Nat := max_entries fs * 16

/-- Inner `for` loop of `read_directory` over the slots of one cluster (`n` slots left,
next slot `i`); `cap` is the number of entries that the array holds.  The flag tells that a
slot with `DIR_Name[0] == 0x00` ended the scan.  The store `entries[entry_count++] = entry`
has no bound check: with `entry_count` equal to `cap` it writes past the allocated block,
and the call has no defined result (`none`). -/
def read_directory_slots (img : Image) (pos cap : Nat) :
    Nat → Nat → List DirEntry → Option (List DirEntry × Bool)
  | 0, _, entries => some (entries, false)
  | n + 1, i, entries =>
    let entry := read_slot img pos i
    if entry.DIR_Name0 = 0x00 then some (entries, true)
    else if entry.DIR_Name0 = 0xE5 then read_directory_slots img pos cap n (i + 1) entries
    else if entry.DIR_Attr = ATTR_LONG_NAME then
      read_directory_slots img pos cap n (i + 1) entries
    else if entries.length < cap then
      read_directory_slots img pos cap n (i + 1) (entries ++ [entry])
    else none

/-- The `while` loop of `read_directory` along the cluster chain. -/
def read_directory_loop (fs : FileSystem) : Nat → Nat → List DirEntry → Option (List DirEntry)
  | 0, current_cluster, entries =>
    if is_valid_cluster fs current_cluster then none else some entries
  | fuel + 1, current_cluster, entries =>
    if is_valid_cluster fs current_cluster then
      (read_directory_slots fs.image (cluster_pos fs current_cluster)
        (read_directory_capacity fs) (max_entries fs) 0 entries).bind fun r =>
        if r.2 then some r.1
        else read_directory_loop fs fuel (get_fat_entry fs current_cluster) r.1
    else some entries

/-- The function `read_directory`: the entries that its loop stores in the allocated array,
in order (`*num_entries` is their number); `none` when the chain does not end within the
fuel or when the loop stores more than `read_directory_capacity` entries. -/
def read_directory (fs : FileSystem) (cluster fuel : Nat) : Option (List DirEntry) :=
  read_directory_loop fs fuel cluster []

/-- First entry of `entries`, from index `i` on, whose name equals `formatted`
(the `for` loop with `memcmp` used by `find_entry`, `cmd_write` and `cmd_mv`). -/
def first_match (formatted : List Nat) : List DirEntry → Nat → Option (Nat × DirEntry)
  | [], _ => none
  | e :: rest, i =>
    if e.DIR_Name = formatted then some (i, e) else first_match formatted rest (i + 1)

/-- The function `find_entry` (`none` inside stands for `NULL`). -/
def find_entry (fs : FileSystem) (cluster : Nat) (name : List Nat) (fuel : Nat) :
    Option (Option DirEntry) :=
  (read_directory fs cluster fuel).map fun entries =>
    (first_match (format_filename name) entries 0).map Prod.snd

/-- The `while` loop of `write_directory_entry` that walks to the cluster hosting the
slot.  `some none` is the early `return` on an invalid link. -/
def write_directory_entry_walk (fs : FileSystem) :
    Nat → Nat → Nat → Option (Option (Nat × Nat))
  | 0, current_cluster, current_index =>
    if current_index ≥ max_entries fs then none else some (some (current_cluster, current_index))
  | fuel + 1, current_cluster, current_index =>
    if current_index ≥ max_entries fs then
      if is_valid_cluster fs (get_fat_entry fs current_cluster) then
        write_directory_entry_walk fs fuel (get_fat_entry fs current_cluster)
          (current_index - max_entries fs)
      else some none
    else some (some (current_cluster, current_index))

/-- The function `write_directory_entry`. -/
def write_directory_entry (fs : FileSystem) (cluster : Nat) (entry : DirEntry)
    (entry_index fuel : Nat) : Option FileSystem :=
  (write_directory_entry_walk fs fuel cluster entry_index).map fun r =>
    match r with
    | none => fs
    | some (current_cluster, current_index) =>
      let sector := get_first_sector_of_cluster fs current_cluster
      let offset := u32 (sector * fs.boot_sector.BPB_BytsPerSec + current_index * DIR_ENTRY_SIZE)
      fwrite_at fs offset entry

/-- Inner `for` loop of `find_free_entry_index`: the first slot of the cluster whose name
starts with `0x00` or `0xE5`. -/
def find_free_slot (img : Image) (pos : Nat) : Nat → Nat → Option Nat
  | 0, _ => none
  | n + 1, i =>
    if (read_slot img pos i).DIR_Name0 = 0x00 ∨ (read_slot img pos i).DIR_Name0 = 0xE5 then
      some i
    else find_free_slot img pos n (i + 1)

/-- The `while` loop of `find_free_entry_index`; the index is `none` for the result `-1`. -/
def find_free_entry_index_loop :
    Nat → FileSystem → Nat → Nat → Option (FileSystem × Option Nat)
  | 0, fs, current_cluster, entry_index =>
    if is_valid_cluster fs current_cluster then none else some (fs, some entry_index)
  | fuel + 1, fs, current_cluster, entry_index =>
    if is_valid_cluster fs current_cluster then
      match find_free_slot fs.image (cluster_pos fs current_cluster) (max_entries fs) 0 with
      | some i => some (fs, some (entry_index + i))
      | none =>
        if is_valid_cluster fs (get_fat_entry fs current_cluster) then
          find_free_entry_index_loop fuel fs (get_fat_entry fs current_cluster)
            (entry_index + max_entries fs)
        else
          let r := allocate_cluster fs
          if r.1 = 0 then some (r.2, none)
          else
            find_free_entry_index_loop fuel (set_fat_entry r.2 current_cluster r.1) r.1
              (entry_index + max_entries fs)
    else some (fs, some entry_index)

/-- The function `find_free_entry_index`. -/
def find_free_entry_index (fs : FileSystem) (cluster fuel : Nat) :
    Option (FileSystem × Option Nat) :=
  find_free_entry_index_loop fuel fs cluster 0

/-- The entry built by `create_directory_entry`: zeroed, then name, attribute, first
cluster and size. -/
def new_entry (name : List Nat) (attr first_cluster size : Nat) : DirEntry :=
  let e0 : DirEntry := List.replicate 32 0
  let e1 := DirEntry.set_DIR_Name e0 (format_filename name)
  let e2 := DirEntry.set_DIR_Attr e1 attr
  let e3 := DirEntry.set_DIR_FstClusHI e2 ((first_cluster >>> 16) &&& 0xFFFF)
  let e4 := DirEntry.set_DIR_FstClusLO e3 (first_cluster &&& 0xFFFF)
  DirEntry.set_DIR_FileSize e4 size

/-- The function `create_directory_entry`; the flag is `true` for the result 0. -/
def create_directory_entry (fs : FileSystem) (parent_cluster : Nat) (name : List Nat)
    (attr first_cluster size fuel : Nat) : Option (FileSystem × Bool) :=
  match find_free_entry_index fs parent_cluster fuel with
  | none => none
  | some (fs1, none) => some (fs1, false)
  | some (fs1, some entry_index) =>
    (write_directory_entry fs1 parent_cluster (new_entry name attr first_cluster size)
      entry_index fuel).map fun fs2 => (fs2, true)

/-- Inner `for` loop of `delete_directory_entry`: `some none` when a slot with
`DIR_Name[0] == 0x00` is met, `some (some (i, entry))` at the first slot whose name
equals `formatted`, `none` when the cluster is exhausted. -/
def delete_scan (img : Image) (pos : Nat) (formatted : List Nat) :
    Nat → Nat → Option (Option (Nat × DirEntry))
  | 0, _ => none
  | n + 1, i =>
    if (read_slot img pos i).DIR_Name0 = 0x00 then some none
    else if (read_slot img pos i).DIR_Name = formatted then some (some (i, read_slot img pos i))
    else delete_scan img pos formatted n (i + 1)

/-- The `while` loop of `delete_directory_entry`; the flag is `true` for the result 0. -/
def delete_directory_entry_loop (fs : FileSystem) (cluster : Nat) (formatted : List Nat)
    (fuel0 : Nat) : Nat → Nat → Nat → Option (FileSystem × Bool)
  | 0, current_cluster, _ =>
    if is_valid_cluster fs current_cluster then none else some (fs, false)
  | fuel + 1, current_cluster, entry_index =>
    if is_valid_cluster fs current_cluster then
      match delete_scan fs.image (cluster_pos fs current_cluster) formatted (max_entries fs) 0
      with
      | some none => some (fs, false)
      | some (some (i, entry)) =>
        (write_directory_entry fs cluster (DirEntry.set_DIR_Name0 entry 0xE5) (entry_index + i)
          fuel0).map fun fs1 => (fs1, true)
      | none =>
        delete_directory_entry_loop fs cluster formatted fuel0 fuel
          (get_fat_entry fs current_cluster) (entry_index + max_entries fs)
    else some (fs, false)

/-- The function `delete_directory_entry`. -/
def delete_directory_entry (fs : FileSystem) (cluster : Nat) (name : List Nat) (fuel : Nat) :
    Option (FileSystem × Bool) :=
  delete_directory_entry_loop fs cluster (format_filename name) fuel fuel cluster 0

/-! ## The open-file table (`commands.c`) -/

/-- The loop of `find_open_file`: index and content of the first live handle whose
formatted name equals `formatted`. -/
def find_open_file_from (formatted : List Nat) : List OpenFile → Nat → Option (Nat × OpenFile)
  | [], _ => none
  | f :: rest, i =>
    if f.is_open = true ∧ format_filename f.filename = formatted then some (i, f)
    else find_open_file_from formatted rest (i + 1)

/-- The function `find_open_file`. -/
def find_open_file (fs : FileSystem) (filename : List Nat) : Option (Nat × OpenFile) :=
  find_open_file_from (format_filename filename) (fs.open_files.take MAX_OPEN_FILES) 0

/-- The loop of `add_open_file`: the first slot that is not live receives the handle. -/
def add_open_file_from (file : OpenFile) : List OpenFile → Option (List OpenFile)
  | [] => none
  | f :: rest =>
    if f.is_open = false then some (file :: rest)
    else (add_open_file_from file rest).map fun r => f :: r

/-- The function `add_open_file` (`none` for the result `-1`); `strncpy` keeps at most
11, 3 and 255 characters of the name, the mode and the path. -/
def add_open_file (fs : FileSystem) (filename mode path : List Nat)
    (first_cluster size : Nat) : Option FileSystem :=
  (add_open_file_from
      { filename := (cstr filename).take 11, mode := (cstr mode).take 3, offset := 0,
        path := (cstr path).take 255, first_cluster := first_cluster, size := size,
        is_open := true }
      (fs.open_files.take MAX_OPEN_FILES)).map fun table =>
    { fs with open_files := table ++ fs.open_files.drop MAX_OPEN_FILES }

/-- The function `remove_open_file`. -/
def remove_open_file (fs : FileSystem) (filename : List Nat) : FileSystem :=
  match find_open_file fs filename with
  | none => fs
  | some (i, file) =>
    let closed := { file with is_open := false }
    { fs with open_files := fs.open_files.set i closed }

/-! ## Commands (`commands.c`) -/

/-- The error messages printed by the commands. -/
inductive CmdError
  | already_exists          -- "Error: Directory/file already exists"
  | failed_create_file      -- "Error: Failed to create file entry"
  | invalid_mode            -- "Error: Invalid mode"
  | file_does_not_exist     -- "Error: File does not exist"
  | cannot_open_directory   -- "Error: Cannot open a directory"
  | already_open            -- "Error: File is already open"
  | too_many_open_files     -- "Error: Too many open files"
  | file_not_open           -- "Error: File is not open"
  | offset_too_large        -- "Error: Offset is larger than file size"
  | cannot_read_directory   -- "Error: Cannot read a directory"
  | not_open_for_reading    -- "Error: File is not open for reading"
  | cannot_write_directory  -- "Error: Cannot write to a directory"
  | not_open_for_writing    -- "Error: File is not open for writing"
  | no_free_clusters        -- "Error: No free clusters available"
  | source_does_not_exist   -- "Error: Source does not exist"
  | file_must_be_closed     -- "Error: File must be closed"
  | destination_is_file     -- "Error: Destination is a file"
  | exists_in_destination   -- "Error: File already exists in destination"
  | failed_create_in_dest   -- "Error: Failed to create entry in destination"
  | directory_does_not_exist  -- "Error: Directory does not exist"
  | not_a_directory         -- "Error: Not a directory"
  | failed_create_directory -- "Error: Failed to create directory entry"
  | cannot_remove_directory -- "Error: Cannot remove a directory"
  | file_is_open            -- "Error: File is open"
  | directory_not_empty     -- "Error: Directory is not empty"
  | file_open_in_directory  -- "Error: A file is open in this directory"
deriving DecidableEq, Repr

/-- What a command leaves behind: the state, the data bytes it printed, and the error
message it printed, if any. -/
structure CmdResult where
  fs : FileSystem
  out : List Nat
  err : Option CmdError

/-- A command that returns silently. -/
def CmdResult.ok (fs : FileSystem) : CmdResult := { fs := fs, out := [], err := none }

/-- A command that prints an error message and returns. -/
def CmdResult.fail (fs : FileSystem) (e : CmdError) : CmdResult :=
  { fs := fs, out := [], err := some e }

/-- The function `cmd_creat`. -/
def cmd_creat (fs : FileSystem) (filename : List Nat) (fuel : Nat) : Option CmdResult :=
  match find_entry fs fs.current_cluster filename fuel with
  | none => none
  | some (some _) => some (CmdResult.fail fs CmdError.already_exists)
  | some none =>
    (create_directory_entry fs fs.current_cluster filename ATTR_ARCHIVE 0 0 fuel).map fun r =>
      if r.2 then CmdResult.ok r.1 else CmdResult.fail r.1 CmdError.failed_create_file

/-- The function `cmd_open`. -/
def cmd_open (fs : FileSystem) (filename mode : List Nat) (fuel : Nat) : Option CmdResult :=
  if cstr mode ≠ [45, 114] ∧ cstr mode ≠ [45, 119] ∧ cstr mode ≠ [45, 114, 119] ∧
      cstr mode ≠ [45, 119, 114] then
    some (CmdResult.fail fs CmdError.invalid_mode)
  else
    (find_entry fs fs.current_cluster filename fuel).map fun found =>
      match found with
      | none => CmdResult.fail fs CmdError.file_does_not_exist
      | some entry =>
        if entry.DIR_Attr &&& ATTR_DIRECTORY ≠ 0 then
          CmdResult.fail fs CmdError.cannot_open_directory
        else if (find_open_file fs filename).isSome then
          CmdResult.fail fs CmdError.already_open
        else
          let mode_str := ((cstr mode).drop 1).take 3
          match add_open_file fs filename mode_str fs.current_path entry.first_cluster
            entry.DIR_FileSize with
          | none => CmdResult.fail fs CmdError.too_many_open_files
          | some fs1 => CmdResult.ok fs1

/-- The function `cmd_close`. -/
def cmd_close (fs : FileSystem) (filename : List Nat) (fuel : Nat) : Option CmdResult :=
  (find_entry fs fs.current_cluster filename fuel).map fun found =>
    match found with
    | none => CmdResult.fail fs CmdError.file_does_not_exist
    | some _ =>
      if (find_open_file fs filename).isSome then CmdResult.ok (remove_open_file fs filename)
      else CmdResult.fail fs CmdError.file_not_open

/-- The loop `for (i = 0; i < cluster_num && is_valid_cluster(current_cluster); i++)`
that `cmd_read` and `cmd_write` use to reach the starting cluster. -/
def navigate (fs : FileSystem) : Nat → Nat → Nat
  | 0, current_cluster => current_cluster
  | n + 1, current_cluster =>
    if is_valid_cluster fs current_cluster then
      navigate fs n (get_fat_entry fs current_cluster)
    else current_cluster

/-- The `while` loop of `cmd_read` that fills the buffer cluster by cluster; returns
`bytes_read` and the buffer. -/
def read_data (fs : FileSystem) (bytes_to_read : Nat) :
    Nat → Nat → Nat → Nat → List Nat → Option (Nat × List Nat)
  | 0, current_cluster, _, bytes_read, buffer =>
    if bytes_read < bytes_to_read ∧ is_valid_cluster fs current_cluster then none
    else some (bytes_read, buffer)
  | fuel + 1, current_cluster, offset_in_cluster, bytes_read, buffer =>
    if bytes_read < bytes_to_read ∧ is_valid_cluster fs current_cluster then
      let sector := get_first_sector_of_cluster fs current_cluster
      let bytes_in_cluster :=
        if u32 (bytes_read + u32sub (bytes_per_cluster fs) offset_in_cluster) > bytes_to_read
        then u32sub bytes_to_read bytes_read
        else u32sub (bytes_per_cluster fs) offset_in_cluster
      let pos := u32 (sector * fs.boot_sector.BPB_BytsPerSec + offset_in_cluster)
      read_data fs bytes_to_read fuel (get_fat_entry fs current_cluster) 0
        (u32 (bytes_read + bytes_in_cluster))
        (buffer.take bytes_read ++ read_bytes fs.image pos bytes_in_cluster)
    else some (bytes_read, buffer)

/-- The state after a command moved the offset of handle `i` to `offset`. -/
def set_handle_offset (fs : FileSystem) (i : Nat) (file : OpenFile) (offset : Nat) :
    FileSystem :=
  { fs with open_files := fs.open_files.set i { file with offset := offset } }

/-- The function `cmd_lseek`. -/
def cmd_lseek (fs : FileSystem) (filename : List Nat) (offset fuel : Nat) :
    Option CmdResult :=
  (find_entry fs fs.current_cluster filename fuel).map fun found =>
    match found with
    | none => CmdResult.fail fs CmdError.file_does_not_exist
    | some entry =>
      match find_open_file fs filename with
      | none => CmdResult.fail fs CmdError.file_not_open
      | some (i, file) =>
        if offset > entry.DIR_FileSize then CmdResult.fail fs CmdError.offset_too_large
        else CmdResult.ok (set_handle_offset fs i file offset)

/-- The function `cmd_read`; `out` is the sequence of bytes printed. -/
def cmd_read (fs : FileSystem) (filename : List Nat) (size fuel : Nat) : Option CmdResult :=
  match find_entry fs fs.current_cluster filename fuel with
  | none => none
  | some none => some (CmdResult.fail fs CmdError.file_does_not_exist)
  | some (some entry) =>
    if entry.DIR_Attr &&& ATTR_DIRECTORY ≠ 0 then
      some (CmdResult.fail fs CmdError.cannot_read_directory)
    else
      match find_open_file fs filename with
      | none => some (CmdResult.fail fs CmdError.file_not_open)
      | some (i, file) =>
        if 114 ∉ cstr file.mode then some (CmdResult.fail fs CmdError.not_open_for_reading)
        else
          let bytes_to_read :=
            if u32 (file.offset + size) > entry.DIR_FileSize then
              u32sub entry.DIR_FileSize file.offset
            else size
          if bytes_to_read = 0 then some (CmdResult.ok fs)
          else if entry.first_cluster = 0 then some (CmdResult.ok fs)
          else
            let cluster_num := file.offset / bytes_per_cluster fs
            let offset_in_cluster := file.offset % bytes_per_cluster fs
            let current_cluster := navigate fs cluster_num entry.first_cluster
            (read_data fs bytes_to_read fuel current_cluster offset_in_cluster 0 []).map
              fun r =>
                CmdResult.mk (set_handle_offset fs i file (u32 (file.offset + r.1)))
                  (r.2.take r.1) none

/-- The loop `while (is_valid_cluster(temp)) { clusters_allocated++; temp = ...; }`. -/
def count_clusters (fs : FileSystem) : Nat → Nat → Nat → Option Nat
  | 0, temp, count => if is_valid_cluster fs temp then none else some count
  | fuel + 1, temp, count =>
    if is_valid_cluster fs temp then count_clusters fs fuel (get_fat_entry fs temp) (count + 1)
    else some count

/-- The loop of `cmd_write` that walks to the last cluster of the chain. -/
def find_last_cluster (fs : FileSystem) : Nat → Nat → Option Nat
  | 0, last_cluster =>
    if is_valid_cluster fs (get_fat_entry fs last_cluster) then none else some last_cluster
  | fuel + 1, last_cluster =>
    if is_valid_cluster fs (get_fat_entry fs last_cluster) then
      find_last_cluster fs fuel (get_fat_entry fs last_cluster)
    else some last_cluster

/-- The loop `for (i = clusters_allocated; i < clusters_needed; i++)` of `cmd_write`, with
`n` rounds left; the flag is `false` when `allocate_cluster` fails. -/
def extend_chain : Nat → FileSystem → Nat → FileSystem × Bool
  | 0, fs, _ => (fs, true)
  | n + 1, fs, last_cluster =>
    let r := allocate_cluster fs
    if r.1 = 0 then (r.2, false)
    else
      extend_chain n (if last_cluster ≠ 0 then set_fat_entry r.2 last_cluster r.1 else r.2) r.1

/-- The `while` loop of `cmd_write` that stores the string cluster by cluster. -/
def write_data (string : List Nat) (string_len : Nat) :
    Nat → FileSystem → Nat → Nat → Nat → Option FileSystem
  | 0, fs, current_cluster, _, bytes_written =>
    if bytes_written < string_len ∧ is_valid_cluster fs current_cluster then none else some fs
  | fuel + 1, fs, current_cluster, offset_in_cluster, bytes_written =>
    if bytes_written < string_len ∧ is_valid_cluster fs current_cluster then
      let sector := get_first_sector_of_cluster fs current_cluster
      let bytes_in_cluster :=
        if u32 (bytes_written + u32sub (bytes_per_cluster fs) offset_in_cluster) > string_len
        then u32sub string_len bytes_written
        else u32sub (bytes_per_cluster fs) offset_in_cluster
      let pos := u32 (sector * fs.boot_sector.BPB_BytsPerSec + offset_in_cluster)
      let fs1 := fwrite_at fs pos ((string.drop bytes_written).take bytes_in_cluster)
      write_data string string_len fuel fs1 (get_fat_entry fs1 current_cluster) 0
        (u32 (bytes_written + bytes_in_cluster))
    else some fs

/-- Last part of `cmd_write`: when the file grew, the entry found by name among the
enumerated entries is rewritten at the index it has in the enumeration; then the handle's
offset is advanced. -/
def cmd_write_finish (fs : FileSystem) (filename : List Nat) (i : Nat) (file : OpenFile)
    (entry_size first_cluster new_size string_len fuel : Nat) : Option CmdResult :=
  if new_size > entry_size then
    let file1 := { file with size := new_size }
    let finish := fun (fs2 : FileSystem) =>
      CmdResult.ok (set_handle_offset fs2 i file1 (u32 (file1.offset + string_len)))
    match read_directory fs fs.current_cluster fuel with
    | none => none
    | some entries =>
      match first_match (format_filename filename) entries 0 with
      | none => some (finish fs)
      | some (idx, e) =>
        let e1 := DirEntry.set_DIR_FileSize e new_size
        let e2 := DirEntry.set_DIR_FstClusHI e1 ((first_cluster >>> 16) &&& 0xFFFF)
        let e3 := DirEntry.set_DIR_FstClusLO e2 (first_cluster &&& 0xFFFF)
        (write_directory_entry fs fs.current_cluster e3 idx fuel).map finish
  else
    some (CmdResult.ok (set_handle_offset fs i file (u32 (file.offset + string_len))))

/-- The part of `cmd_write` that stores the data and then updates the directory entry. -/
def cmd_write_store (fs : FileSystem) (filename string : List Nat) (i : Nat) (file : OpenFile)
    (entry_size first_cluster new_size string_len fuel : Nat) : Option CmdResult :=
  let cluster_num := file.offset / bytes_per_cluster fs
  let offset_in_cluster := file.offset % bytes_per_cluster fs
  let current_cluster := navigate fs cluster_num first_cluster
  (write_data (cstr string) string_len fuel fs current_cluster offset_in_cluster 0).bind
    fun fs2 =>
      cmd_write_finish fs2 filename i file entry_size first_cluster new_size string_len fuel

/-- The part of `cmd_write` under `if (first_cluster != 0)` that counts the clusters of the
chain. -/
def cmd_write_count (fs : FileSystem) (first_cluster fuel : Nat) : Option Nat :=
  if first_cluster ≠ 0 then count_clusters fs fuel first_cluster 0 else some 0

/-- The part of `cmd_write` under `if (clusters_needed > clusters_allocated)`: find the
last cluster and append the missing ones; the flag is `false` when a cluster could not be
allocated. -/
def cmd_write_extend (fs : FileSystem) (first_cluster clusters_needed clusters_allocated
    fuel : Nat) : Option (FileSystem × Bool) :=
  if clusters_needed > clusters_allocated then
    (if first_cluster ≠ 0 then find_last_cluster fs fuel first_cluster else some 0).map
      fun last_cluster => extend_chain (clusters_needed - clusters_allocated) fs last_cluster
  else some (fs, true)

/-- Middle part of `cmd_write`, once the first cluster is known: count the clusters,
extend the chain, store the data. -/
def cmd_write_body (fs : FileSystem) (filename string : List Nat) (i : Nat) (file : OpenFile)
    (entry_size first_cluster fuel : Nat) : Option CmdResult :=
  let string_len := u32 (cstr string).length
  let new_size := u32 (file.offset + string_len)
  let clusters_needed :=
    u32sub (u32 (new_size + bytes_per_cluster fs)) 1 / bytes_per_cluster fs
  (cmd_write_count fs first_cluster fuel).bind fun clusters_allocated =>
    (cmd_write_extend fs first_cluster clusters_needed clusters_allocated fuel).bind fun r =>
      if r.2 = true then
        cmd_write_store r.1 filename string i file entry_size first_cluster new_size
          string_len fuel
      else some (CmdResult.fail r.1 CmdError.no_free_clusters)

/-- The function `cmd_write`. -/
def cmd_write (fs : FileSystem) (filename string : List Nat) (fuel : Nat) :
    Option CmdResult :=
  match find_entry fs fs.current_cluster filename fuel with
  | none => none
  | some none => some (CmdResult.fail fs CmdError.file_does_not_exist)
  | some (some entry) =>
    if entry.DIR_Attr &&& ATTR_DIRECTORY ≠ 0 then
      some (CmdResult.fail fs CmdError.cannot_write_directory)
    else
      match find_open_file fs filename with
      | none => some (CmdResult.fail fs CmdError.file_not_open)
      | some (i, file) =>
        if 119 ∉ cstr file.mode then some (CmdResult.fail fs CmdError.not_open_for_writing)
        else if entry.first_cluster = 0 ∧ u32 (cstr string).length > 0 then
          let r := allocate_cluster fs
          if r.1 = 0 then some (CmdResult.fail r.2 CmdError.no_free_clusters)
          else cmd_write_body r.2 filename string i file entry.DIR_FileSize r.1 fuel
        else
          cmd_write_body fs filename string i file entry.DIR_FileSize entry.first_cluster fuel

/-- The rename branch of `cmd_mv`: the entry found by name among the enumerated entries
gets the new name and is rewritten at the index it has in the enumeration. -/
def cmd_mv_rename (fs : FileSystem) (source dest : List Nat) (fuel : Nat) :
    Option CmdResult :=
  match read_directory fs fs.current_cluster fuel with
  | none => none
  | some entries =>
    match first_match (format_filename source) entries 0 with
    | none => some (CmdResult.ok fs)
    | some (i, e) =>
      (write_directory_entry fs fs.current_cluster (DirEntry.set_DIR_Name e (format_filename dest)) i
        fuel).map CmdResult.ok

/-- The into-directory branch of `cmd_mv`. -/
def cmd_mv_into (fs : FileSystem) (source : List Nat) (src_entry dest_entry : DirEntry)
    (fuel : Nat) : Option CmdResult :=
  let dest_cluster := dest_entry.first_cluster
  match find_entry fs dest_cluster source fuel with
  | none => none
  | some (some _) => some (CmdResult.fail fs CmdError.exists_in_destination)
  | some none =>
    match create_directory_entry fs dest_cluster source src_entry.DIR_Attr
      src_entry.first_cluster src_entry.DIR_FileSize fuel with
    | none => none
    | some (fs1, false) => some (CmdResult.fail fs1 CmdError.failed_create_in_dest)
    | some (fs1, true) =>
      (delete_directory_entry fs1 fs1.current_cluster source fuel).map fun r =>
        CmdResult.ok r.1

/-- The function `cmd_mv`. -/
def cmd_mv (fs : FileSystem) (source dest : List Nat) (fuel : Nat) : Option CmdResult :=
  match find_entry fs fs.current_cluster source fuel with
  | none => none
  | some none => some (CmdResult.fail fs CmdError.source_does_not_exist)
  | some (some src_entry) =>
    if src_entry.DIR_Attr &&& ATTR_DIRECTORY = 0 ∧ (find_open_file fs source).isSome then
      some (CmdResult.fail fs CmdError.file_must_be_closed)
    else
      match find_entry fs fs.current_cluster dest fuel with
      | none => none
      | some (some dest_entry) =>
        if dest_entry.DIR_Attr &&& ATTR_DIRECTORY = 0 then
          some (CmdResult.fail fs CmdError.destination_is_file)
        else cmd_mv_into fs source src_entry dest_entry fuel
      | some none => cmd_mv_rename fs source dest fuel


/-! ## More commands (`commands.c`) -/

/-- Index of the last `'/'` of a path: `strrchr(path, '/')`. -/
def last_slash (path : List Nat) : Option Nat :=
  ((List.range path.length).filter fun i => path.getD i 0 = 47).getLast?

/-- The path after `cd ..`: unchanged at `"/"`, otherwise cut at its last `'/'` (and `"/"`
when that is the first character).  `none` when the path holds no `'/'`, where the code
writes through a null pointer. -/
def parent_path (path : List Nat) : Option (List Nat) :=
  if cstr path ≠ [47] then
    (last_slash (cstr path)).map fun i => if i = 0 then [47] else (cstr path).take i
  else some path

/-- The path after `cd dirname` into a child: `strcat` of `"/"` (unless at `"/"`) and of
the name as typed.  The capacity of `current_path` (256 bytes) is not modelled. -/
def child_path (path dirname : List Nat) : List Nat :=
  (if cstr path ≠ [47] then cstr path ++ [47] else cstr path) ++ cstr dirname

/-- The function `cmd_cd`. -/
def cmd_cd (fs : FileSystem) (dirname : List Nat) (fuel : Nat) : Option CmdResult :=
  if cstr dirname = [46] then some (CmdResult.ok fs)
  else
    (find_entry fs fs.current_cluster dirname fuel).bind fun found =>
      match found with
      | none => some (CmdResult.fail fs CmdError.directory_does_not_exist)
      | some entry =>
        if entry.DIR_Attr &&& ATTR_DIRECTORY = 0 then
          some (CmdResult.fail fs CmdError.not_a_directory)
        else if cstr dirname = [46, 46] then
          (parent_path fs.current_path).map fun path =>
            CmdResult.ok { fs with
              current_path := path
              current_cluster :=
                if entry.first_cluster = 0 then fs.root_cluster else entry.first_cluster }
        else
          some (CmdResult.ok { fs with
            current_path := child_path fs.current_path dirname
            current_cluster := entry.first_cluster })

/-- The `.` entry built by `cmd_mkdir`. -/
def dot_entry (new_cluster : Nat) : DirEntry :=
  let e0 : DirEntry := List.replicate 32 0
  let e1 := DirEntry.set_DIR_Name e0 (46 :: List.replicate 10 32)
  let e2 := DirEntry.set_DIR_Attr e1 ATTR_DIRECTORY
  let e3 := DirEntry.set_DIR_FstClusHI e2 ((new_cluster >>> 16) &&& 0xFFFF)
  DirEntry.set_DIR_FstClusLO e3 (new_cluster &&& 0xFFFF)

/-- The `..` entry built by `cmd_mkdir`. -/
def dotdot_entry (parent : Nat) : DirEntry :=
  let e0 : DirEntry := List.replicate 32 0
  let e1 := DirEntry.set_DIR_Name e0 (46 :: 46 :: List.replicate 9 32)
  let e2 := DirEntry.set_DIR_Attr e1 ATTR_DIRECTORY
  let e3 := DirEntry.set_DIR_FstClusHI e2 ((parent >>> 16) &&& 0xFFFF)
  DirEntry.set_DIR_FstClusLO e3 (parent &&& 0xFFFF)

/-- The part of `cmd_mkdir` after the new cluster is allocated: write `.` and `..` into
it, then create the entry in the parent; on failure free the new cluster. -/
def cmd_mkdir_fill (fs : FileSystem) (dirname : List Nat) (new_cluster fuel : Nat) :
    Option CmdResult :=
  (write_directory_entry fs new_cluster (dot_entry new_cluster) 0 fuel).bind fun fs1 =>
    let parent := if fs1.current_cluster = fs1.root_cluster then 0 else fs1.current_cluster
    (write_directory_entry fs1 new_cluster (dotdot_entry parent) 1 fuel).bind fun fs2 =>
      (create_directory_entry fs2 fs2.current_cluster dirname ATTR_DIRECTORY new_cluster 0
        fuel).bind fun r =>
        if r.2 = true then some (CmdResult.ok r.1)
        else
          (free_cluster_chain r.1 fuel new_cluster).map fun fs3 =>
            CmdResult.fail fs3 CmdError.failed_create_directory

/-- The function `cmd_mkdir`. -/
def cmd_mkdir (fs : FileSystem) (dirname : List Nat) (fuel : Nat) : Option CmdResult :=
  (find_entry fs fs.current_cluster dirname fuel).bind fun found =>
    match found with
    | some _ => some (CmdResult.fail fs CmdError.already_exists)
    | none =>
      if (allocate_cluster fs).1 = 0 then
        some (CmdResult.fail (allocate_cluster fs).2 CmdError.no_free_clusters)
      else cmd_mkdir_fill (allocate_cluster fs).2 dirname (allocate_cluster fs).1 fuel

/-- The part of `cmd_rm` after its checks: free the chain (when the first cluster is not
0), then delete the directory entry. -/
def cmd_rm_apply (fs : FileSystem) (filename : List Nat) (first_cluster fuel : Nat) :
    Option CmdResult :=
  (if first_cluster ≠ 0 then free_cluster_chain fs fuel first_cluster else some fs).bind
    fun fs1 =>
      (delete_directory_entry fs1 fs1.current_cluster filename fuel).map fun r =>
        CmdResult.ok r.1

/-- The function `cmd_rm`. -/
def cmd_rm (fs : FileSystem) (filename : List Nat) (fuel : Nat) : Option CmdResult :=
  (find_entry fs fs.current_cluster filename fuel).bind fun found =>
    match found with
    | none => some (CmdResult.fail fs CmdError.file_does_not_exist)
    | some entry =>
      if entry.DIR_Attr &&& ATTR_DIRECTORY ≠ 0 then
        some (CmdResult.fail fs CmdError.cannot_remove_directory)
      else if (find_open_file fs filename).isSome then
        some (CmdResult.fail fs CmdError.file_is_open)
      else cmd_rm_apply fs filename entry.first_cluster fuel


/-- One mutation of the FAT layer: a `set_fat_entry` inside the FAT, an
`allocate_cluster`, or a terminating `free_cluster_chain`. -/
inductive FatStep : FileSystem → FileSystem → Prop
  | set (fs : FileSystem) (c v : Nat) : InFat fs c → FatStep fs (set_fat_entry fs c v)
  | alloc (fs : FileSystem) : FatStep fs (allocate_cluster fs).2
  | free (fs fs' : FileSystem) (fuel start : Nat) :
      free_cluster_chain fs fuel start = some fs' → FatStep fs fs'

/-- An image that is zero except for the listed byte runs `(position, bytes)`. -/
def image_of (chunks : List (Nat × List Nat)) : Image :=
  fun a =>
    match chunks.find? (fun ch => decide (ch.1 ≤ a) && decide (a < ch.1 + ch.2.length)) with
    | some ch => ch.2.getD (a - ch.1) 0
    | none => 0

/-- A small volume: 512-byte sectors, one sector per cluster, 32 reserved sectors, two
FAT copies of 8 sectors, 1000 sectors in all; the root directory is cluster 2. -/
def small_volume (image : Image) : FileSystem where
  image := image
  boot_sector :=
    { BPB_BytsPerSec := 512, BPB_SecPerClus := 1, BPB_RsvdSecCnt := 32, BPB_NumFATs := 2,
      BPB_TotSec32 := 1000, BPB_FATSz32 := 8, BPB_RootClus := 2 }
  current_cluster := 2
  current_path := [47]
  open_files := List.replicate 10
    { filename := [], mode := [], offset := 0, path := [], first_cluster := 0, size := 0,
      is_open := false }
  data_start_sector := 48
  fat_start_sector := 32
  root_cluster := 2
  total_clusters := 952

/-- A volume whose two FAT copies of `2^23` sectors reach beyond byte offset `2^32`. -/
def huge_fat_volume : FileSystem where
  image := fun _ => 0
  boot_sector :=
    { BPB_BytsPerSec := 512, BPB_SecPerClus := 8, BPB_RsvdSecCnt := 32, BPB_NumFATs := 2,
      BPB_TotSec32 := 16785248, BPB_FATSz32 := 8388608, BPB_RootClus := 2 }
  current_cluster := 2
  current_path := [47]
  open_files := []
  data_start_sector := 16777248
  fat_start_sector := 32
  root_cluster := 2
  total_clusters := 1000

/-- The small volume with the root directory's FAT entry end-of-chain and the four
reserved bits of the (free) entry of cluster 5 set, both FAT copies alike. -/
def reserved_bits_volume : FileSystem :=
  small_volume (image_of
    [(16384, [0xF8, 0xFF, 0xFF, 0x0F, 0xFF, 0xFF, 0xFF, 0x0F, 0xFF, 0xFF, 0xFF, 0x0F]),
     (16404, [0, 0, 0, 0xF0]),
     (20480, [0xF8, 0xFF, 0xFF, 0x0F, 0xFF, 0xFF, 0xFF, 0x0F, 0xFF, 0xFF, 0xFF, 0x0F]),
     (20500, [0, 0, 0, 0xF0])])


/-- The first three FAT entries of the sample volumes: media byte, end-of-chain, and the
end-of-chain entry of the root directory (cluster 2). -/
def fat_head : List Nat :=
  [0xF8, 0xFF, 0xFF, 0x0F, 0xFF, 0xFF, 0xFF, 0x0F, 0xFF, 0xFF, 0xFF, 0x0F]

/-- The small volume whose root directory holds, in slot order: a deleted entry `OLD`, the
empty file `A`, the empty file `F`; no file is open. -/
def deleted_slot_volume : FileSystem :=
  small_volume (image_of
    [(16384, fat_head), (20480, fat_head),
     (24576, (new_entry [79, 76, 68] ATTR_ARCHIVE 0 0).set 0 0xE5 ++
        new_entry [65] ATTR_ARCHIVE 0 0 ++ new_entry [70] ATTR_ARCHIVE 0 0)])

/-- The small volume whose root directory holds the empty file `ABCDEFGH.TXT`; no file is
open. -/
def full_name_volume : FileSystem :=
  small_volume (image_of
    [(16384, fat_head), (20480, fat_head),
     (24576, new_entry [65, 66, 67, 68, 69, 70, 71, 72, 46, 84, 88, 84] ATTR_ARCHIVE 0 0)])

/-- A handle for the file `F` of the root directory, open for writing at offset 0. -/
def write_handle : OpenFile :=
  { filename := [70], mode := [119], offset := 0, path := [47], first_cluster := 0, size := 0,
    is_open := true }

/-- The small volume whose root directory holds the empty file `F`, with `write_handle` in
the first slot of the table of open files. -/
def empty_file_volume : FileSystem :=
  let fs := small_volume (image_of
    [(16384, fat_head), (20480, fat_head), (24576, new_entry [70] ATTR_ARCHIVE 0 0)])
  { fs with open_files := fs.open_files.set 0 write_handle }

/-- The sequence `lseek name 0; write name s; lseek name 0; read name |s|`; the result is
the one of the final `read`. -/
def lseek_write_lseek_read (fs : FileSystem) (name s : List Nat) (fuel : Nat) :
    Option CmdResult :=
  (cmd_lseek fs name 0 fuel).bind fun r1 =>
    (cmd_write r1.fs name s fuel).bind fun r2 =>
      (cmd_lseek r2.fs name 0 fuel).bind fun r3 =>
        cmd_read r3.fs name (cstr s).length fuel


/-- The small volume with an empty root directory; no file is open. -/
def empty_volume : FileSystem :=
  small_volume (image_of [(16384, fat_head), (20480, fat_head)])

/-- A sequence of commands run from a state; `none` when one of them does not return. -/
def run_all (fs : FileSystem) : List (FileSystem → Option CmdResult) → Option FileSystem
  | [] => some fs
  | c :: rest => (c fs).bind fun r => run_all r.fs rest

/-- The state after `mkdir D; cd D; creat F` on the empty small volume. -/
def subdir_file_state : Option FileSystem :=
  run_all empty_volume
    [fun fs => cmd_mkdir fs [68] 4, fun fs => cmd_cd fs [68] 4, fun fs => cmd_creat fs [70] 4]

/-- The name `ABCDEFGH.TXT`, which uses all 8 stem and 3 extension characters. -/
def full_name : List Nat := [65, 66, 67, 68, 69, 70, 71, 72, 46, 84, 88, 84]

/-- The handle that `open ABCDEFGH.TXT` stores in the root directory: `strncpy` has kept
the 11 characters `ABCDEFGH.TX` of the name. -/
def full_name_handle (mode : List Nat) : OpenFile :=
  { filename := [65, 66, 67, 68, 69, 70, 71, 72, 46, 84, 88], mode := mode, offset := 0,
    path := [47], first_cluster := 0, size := 0, is_open := true }

/-- The state after `creat N; open N -r; mkdir Q; cd Q; creat N` on the empty small
volume: `N` of the root directory is open, the current directory is `/Q` and holds another
file `N`. -/
def two_dirs_state : Option FileSystem :=
  run_all empty_volume
    [fun fs => cmd_creat fs [78] 4, fun fs => cmd_open fs [78] [45, 114] 4,
      fun fs => cmd_mkdir fs [81] 4, fun fs => cmd_cd fs [81] 4,
      fun fs => cmd_creat fs [78] 4]

/-- The state after `creat X; open X -rw; write X "HELLO"; lseek X 1` on the empty small
volume. -/
def hello_state : Option FileSystem :=
  run_all empty_volume
    [fun fs => cmd_creat fs [88] 4, fun fs => cmd_open fs [88] [45, 114, 119] 4,
      fun fs => cmd_write fs [88] [72, 69, 76, 76, 79] 4, fun fs => cmd_lseek fs [88] 1 4]


/-! ## Cluster chains and frames used by the statements about commands -/

/-- The clusters visited from `start` by following FAT links while they are valid. -/
def cluster_chain (fs : FileSystem) : Nat → Nat → Option (List Nat)
  | 0, start => if is_valid_cluster fs start then none else some []
  | fuel + 1, start =>
    if is_valid_cluster fs start then
      (cluster_chain fs fuel (get_fat_entry fs start)).map fun cs => start :: cs
    else some []

/-- Following FAT links from `c` visits the valid clusters `cs` and arrives at `d`. -/
inductive Path (fs : FileSystem) : Nat → List Nat → Nat → Prop
  | nil (c : Nat) : Path fs c [] c
  | cons (c d : Nat) (cs : List Nat) : is_valid_cluster fs c = true →
      Path fs (get_fat_entry fs c) cs d → Path fs c (c :: cs) d

/-- The chain from `c` consists of the clusters `cs` and ends at a link that is not a valid
cluster index. -/
def IsChain (fs : FileSystem) (c : Nat) (cs : List Nat) : Prop :=
  ∃ d, Path fs c cs d ∧ is_valid_cluster fs d = false

/-- Offset `a` lies in the data region of cluster `c`. -/
def InData (fs : FileSystem) (c a : Nat) : Prop :=
  data_addr fs c ≤ a ∧ a < data_addr fs c + bytes_per_cluster fs

/-- Offset `a` lies in the entry of cluster `c` of some FAT copy. -/
def InFatEntry (fs : FileSystem) (c a : Nat) : Prop :=
  ∃ k, k < fs.boot_sector.BPB_NumFATs ∧ fat_addr fs k c ≤ a ∧ a < fat_addr fs k c + 4

/-- Everything but the image is the same in both states. -/
def SameState (fs fs' : FileSystem) : Prop :=
  fs'.boot_sector = fs.boot_sector ∧ fs'.current_cluster = fs.current_cluster ∧
  fs'.current_path = fs.current_path ∧ fs'.open_files = fs.open_files ∧
  fs'.data_start_sector = fs.data_start_sector ∧
  fs'.fat_start_sector = fs.fat_start_sector ∧ fs'.root_cluster = fs.root_cluster ∧
  fs'.total_clusters = fs.total_clusters

/-- The image changed at most in the FAT entries of the clusters `fat` and in the data
regions of the clusters `data`; nothing else of the state changed. -/
def Frame (fs fs' : FileSystem) (fat data : List Nat) : Prop :=
  SameState fs fs' ∧
  ∀ a, (∀ c ∈ fat, ¬ InFatEntry fs c a) → (∀ c ∈ data, ¬ InData fs c a) →
    fs'.image a = fs.image a

/-- The raw slots of one directory cluster. -/
def cluster_slots (fs : FileSystem) (c : Nat) : List DirEntry :=
  (List.range (max_entries fs)).map fun i => read_slot fs.image (data_addr fs c) i

/-- A slot that `read_directory` yields: not deleted and not a long-name slot. -/
def live_slot (e : DirEntry) : Bool :=
  decide (e.DIR_Name0 ≠ 0xE5) && decide (e.DIR_Attr ≠ ATTR_LONG_NAME)

/-- The enumeration of a list of raw slots: the live slots before the first slot whose
name starts with `0x00`. -/
def enumerate (slots : List DirEntry) : List DirEntry :=
  (slots.takeWhile fun e => decide (e.DIR_Name0 ≠ 0x00)).filter live_slot


/-- A slot that `find_free_entry_index` accepts: its name starts with `0x00` or `0xE5`. -/
abbrev free_slot (e : DirEntry) : Prop := e.DIR_Name0 = 0x00 ∨ e.DIR_Name0 = 0xE5


/-- A slot at which the scan of `delete_directory_entry` for the name `formatted` stops: one
whose name starts with `0x00`, or whose 11 name bytes are `formatted`. -/
abbrev stop_slot (formatted : List Nat) (e : DirEntry) : Prop :=
  e.DIR_Name0 = 0x00 ∨ e.DIR_Name = formatted

/-- The slots of a directory that are in use: the ones before the first slot whose name
starts with `0x00`, deleted slots (`0xE5`) left out.  Long-name slots are in use. -/
def in_use_slots (slots : List DirEntry) : List DirEntry :=
  (slots.takeWhile fun e => decide (e.DIR_Name0 ≠ 0x00)).filter fun e =>
    decide (e.DIR_Name0 ≠ 0xE5)


/-- The FAT of `dir_and_file_volume`: the three entries of `fat_head`, then end-of-chain
for the clusters 3 and 4. -/
def fat_five : List Nat :=
  fat_head ++ [0xFF, 0xFF, 0xFF, 0x0F, 0xFF, 0xFF, 0xFF, 0x0F]

/-- The small volume whose root directory holds the directory `D` (cluster 3, holding `.`
and `..`) and the file `F` (cluster 4, 5 bytes `HELLO`); no file is open. -/
def dir_and_file_volume : FileSystem :=
  small_volume (image_of
    [(16384, fat_five), (20480, fat_five),
     (24576, new_entry [68] ATTR_DIRECTORY 3 0 ++ new_entry [70] ATTR_ARCHIVE 4 5),
     (25088, dot_entry 3 ++ dotdot_entry 0),
     (25600, [72, 69, 76, 76, 79])])

/-- The state after `creat A; creat F; rm A; open F -w; write F "x"; close F; mkdir D` on
the empty small volume. -/
def rewritten_slot_state : Option FileSystem :=
  run_all empty_volume
    [fun fs => cmd_creat fs [65] 4, fun fs => cmd_creat fs [70] 4,
      fun fs => cmd_rm fs [65] 4, fun fs => cmd_open fs [70] [45, 119] 4,
      fun fs => cmd_write fs [70] [120] 4, fun fs => cmd_close fs [70] 4,
      fun fs => cmd_mkdir fs [68] 4]


/-! ## `is_directory_empty` (`fat32.c`) and `cmd_rmdir` (`commands.c`) -/

/-- The function `is_directory_empty`: `count` is the number of returned entries whose
name starts with none of `'.'`, `0x00`, `0xE5`; the result is `count == 0`. -/
def is_directory_empty (fs : FileSystem) (cluster fuel : Nat) : Option Bool :=
  (read_directory fs cluster fuel).map fun entries =>
    decide ((entries.filter fun e =>
      decide (e.DIR_Name0 ≠ 46 ∧ e.DIR_Name0 ≠ 0x00 ∧ e.DIR_Name0 ≠ 0xE5)).length = 0)

/-- The string that `cmd_rmdir` builds in `expected_path` with `snprintf`: `"/%s"` of the
name at `"/"`, `"%s/%s"` of the current path and the name elsewhere; the buffer holds
`MAX_PATH_LENGTH + 20` bytes. -/
def expected_path (current_path dirname : List Nat) : List Nat :=
  ((if cstr current_path = [47] then [47] else cstr current_path ++ [47]) ++
    cstr dirname).take 275

/-- The test `strncmp (path, expected, strlen (expected)) == 0`. -/
def path_starts_with (path expected : List Nat) : Bool :=
  decide ((cstr path).take expected.length = expected)

/-- The loop of `cmd_rmdir` over the table of open files: some live handle has a path
that starts with the expected path. -/
def open_in_directory (fs : FileSystem) (dirname : List Nat) : Bool :=
  (fs.open_files.take MAX_OPEN_FILES).any fun h =>
    h.is_open && path_starts_with h.path (expected_path fs.current_path dirname)

/-- The function `cmd_rmdir`.  Its last two steps are, statement for statement, the ones of
`cmd_rm` (`cmd_rm_apply`). -/
def cmd_rmdir (fs : FileSystem) (dirname : List Nat) (fuel : Nat) : Option CmdResult :=
  (find_entry fs fs.current_cluster dirname fuel).bind fun found =>
    match found with
    | none => some (CmdResult.fail fs CmdError.directory_does_not_exist)
    | some entry =>
      if entry.DIR_Attr &&& ATTR_DIRECTORY = 0 then
        some (CmdResult.fail fs CmdError.not_a_directory)
      else
        (is_directory_empty fs entry.first_cluster fuel).bind fun empty =>
          if empty = false then some (CmdResult.fail fs CmdError.directory_not_empty)
          else if open_in_directory fs dirname = true then
            some (CmdResult.fail fs CmdError.file_open_in_directory)
          else cmd_rm_apply fs dirname entry.first_cluster fuel

/-! ## The shell (`main.c`) -/

/-- A command line that `shell_loop` hands to one of the commands that can change the
state, with its arguments. -/
inductive Command
  | cd (dirname : List Nat)
  | mkdir (dirname : List Nat)
  | creat (filename : List Nat)
  | open_file (filename mode : List Nat)
  | close (filename : List Nat)
  | lseek (filename : List Nat) (offset : Nat)
  | read (filename : List Nat) (size : Nat)
  | write (filename string : List Nat)
  | mv (source dest : List Nat)
  | rm (filename : List Nat)
  | rmdir (dirname : List Nat)

/-- The dispatch of `shell_loop`. -/
def run_command (fs : FileSystem) (fuel : Nat) : Command → Option CmdResult
  | Command.cd dirname => cmd_cd fs dirname fuel
  | Command.mkdir dirname => cmd_mkdir fs dirname fuel
  | Command.creat filename => cmd_creat fs filename fuel
  | Command.open_file filename mode => cmd_open fs filename mode fuel
  | Command.close filename => cmd_close fs filename fuel
  | Command.lseek filename offset => cmd_lseek fs filename offset fuel
  | Command.read filename size => cmd_read fs filename size fuel
  | Command.write filename string => cmd_write fs filename string fuel
  | Command.mv source dest => cmd_mv fs source dest fuel
  | Command.rm filename => cmd_rm fs filename fuel
  | Command.rmdir dirname => cmd_rmdir fs dirname fuel

/-- The messages with which a command rejects its arguments in one of its precondition
checks: entry missing, not a directory, is a directory, name already exists, not open,
already open, invalid mode, offset larger than size, directory not empty, source open,
file open in the directory, not readable, not writable, destination is a file, name
already in the destination. -/
def precondition_errors : List CmdError :=
  [CmdError.file_does_not_exist, CmdError.directory_does_not_exist,
    CmdError.source_does_not_exist, CmdError.not_a_directory,
    CmdError.cannot_open_directory, CmdError.cannot_read_directory,
    CmdError.cannot_write_directory, CmdError.cannot_remove_directory,
    CmdError.already_exists, CmdError.file_not_open, CmdError.already_open,
    CmdError.invalid_mode, CmdError.offset_too_large, CmdError.directory_not_empty,
    CmdError.file_must_be_closed, CmdError.file_is_open, CmdError.file_open_in_directory,
    CmdError.not_open_for_reading, CmdError.not_open_for_writing,
    CmdError.destination_is_file, CmdError.exists_in_destination]

/-! ## `mount_image` (`fat32.c`) -/

/-- The `uint16_t` field at offset `off` of a packed record. -/
def le16_at (b : List Nat) (off : Nat) : Nat := b.getD off 0 + 256 * b.getD (off + 1) 0

/-- The `uint32_t` field at offset `off` of a packed record. -/
def le32_at (b : List Nat) (off : Nat) : Nat :=
  b.getD off 0 + 256 * b.getD (off + 1) 0 + 65536 * b.getD (off + 2) 0 +
    16777216 * b.getD (off + 3) 0

/-- The fields of the packed `BootSector` (90 bytes) that the engine uses, at the offsets
the declaration gives them. -/
def read_boot_sector (b : List Nat) : BootSector where
  BPB_BytsPerSec := le16_at b 11
  BPB_SecPerClus := b.getD 13 0
  BPB_RsvdSecCnt := le16_at b 14
  BPB_NumFATs := b.getD 16 0
  BPB_TotSec32 := le32_at b 32
  BPB_FATSz32 := le32_at b 36
  BPB_RootClus := le32_at b 44

/-- The function `mount_image`.  `fs0` is the record the caller passes (not initialised),
`file` the bytes of the image file, `none` when `fopen` fails.  The result is `some none`
for the return value -1, `some (some fs)` for the return value 0 with the state `fs`, and
`none` when the function has no result: the division by `BPB_SecPerClus = 0` is
undefined. -/
def mount_image (fs0 : FileSystem) (file : Option (List Nat)) : Option (Option FileSystem) :=
  match file with
  | none => some none
  | some bytes =>
    if bytes.length < 90 then some none
    else
      let boot_sector := read_boot_sector bytes
      let fat_start_sector := boot_sector.BPB_RsvdSecCnt
      let data_start_sector :=
        u32 (boot_sector.BPB_RsvdSecCnt + u32 (boot_sector.BPB_NumFATs * boot_sector.BPB_FATSz32))
      let data_sectors := u32sub boot_sector.BPB_TotSec32 data_start_sector
      if boot_sector.BPB_SecPerClus = 0 then none
      else
        some (some
          { image := fun a => bytes.getD a 0
            boot_sector := boot_sector
            current_cluster := boot_sector.BPB_RootClus
            current_path := [47]
            open_files := (fs0.open_files.take MAX_OPEN_FILES).map fun h =>
              { h with is_open := false }
            data_start_sector := data_start_sector
            fat_start_sector := fat_start_sector
            root_cluster := boot_sector.BPB_RootClus
            total_clusters := data_sectors / boot_sector.BPB_SecPerClus })

/-! ## Free clusters -/

/-- The cluster indices, among the `total_clusters + 2` indices of the volume, whose FAT
entry reads 0. -/
def free_clusters (fs : FileSystem) : List Nat :=
  (List.range (fs.total_clusters + 2)).filter fun c => decide (get_fat_entry fs c = 0)

/-! ## More sample volumes -/

/-- A volume like `small_volume` with two clusters only (50 sectors): the root directory
(cluster 2) and cluster 3. -/
def tiny_volume (image : Image) : FileSystem where
  image := image
  boot_sector :=
    { BPB_BytsPerSec := 512, BPB_SecPerClus := 1, BPB_RsvdSecCnt := 32, BPB_NumFATs := 2,
      BPB_TotSec32 := 50, BPB_FATSz32 := 8, BPB_RootClus := 2 }
  current_cluster := 2
  current_path := [47]
  open_files := List.replicate 10
    { filename := [], mode := [], offset := 0, path := [], first_cluster := 0, size := 0,
      is_open := false }
  data_start_sector := 48
  fat_start_sector := 32
  root_cluster := 2
  total_clusters := 2

/-- The tiny volume with an empty root directory; cluster 3 is free. -/
def tiny_empty_volume : FileSystem :=
  tiny_volume (image_of [(16384, fat_head), (20480, fat_head)])

/-- The FAT entry `c` of `long_directory_volume`: the chain 2, 3, .., 18 and the end mark. -/
def long_chain_link (c : Nat) : Nat :=
  if c < 2 then 0x0FFFFFFF else if c < 18 then c + 1 else if c = 18 then 0x0FFFFFFF else 0

/-- The small volume whose root directory is the chain of the 17 clusters 2, 3, .., 18;
each of their `17 * 16` slots holds an entry of the empty file `A`. -/
def long_directory_volume : FileSystem :=
  small_volume fun a =>
    if 16384 ≤ a ∧ a < 16384 + 4096 then
      (le32_bytes (long_chain_link ((a - 16384) / 4))).getD ((a - 16384) % 4) 0
    else if 20480 ≤ a ∧ a < 20480 + 4096 then
      (le32_bytes (long_chain_link ((a - 20480) / 4))).getD ((a - 20480) % 4) 0
    else if 24576 ≤ a ∧ a < 24576 + 17 * 512 then
      (new_entry [65] ATTR_ARCHIVE 0 0).getD ((a - 24576) % 32) 0
    else 0

/-- The state after `mkdir FOO; mkdir FOOBAR; cd FOOBAR; creat X; open X -r; cd ..` on the
empty small volume: `/FOO` is empty and the only live handle has the path `/FOOBAR`. -/
def sibling_handle_state : Option FileSystem :=
  run_all empty_volume
    [fun fs => cmd_mkdir fs [70, 79, 79] 4, fun fs => cmd_mkdir fs [70, 79, 79, 66, 65, 82] 4,
      fun fs => cmd_cd fs [70, 79, 79, 66, 65, 82] 4, fun fs => cmd_creat fs [88] 4,
      fun fs => cmd_open fs [88] [45, 114] 4, fun fs => cmd_cd fs [46, 46] 4]

/-- The state after `creat F; open F -w; write F s; close F; rm F` on the tiny volume with
an empty root directory, `s` being 600 characters `X`: more than the one free cluster
holds. -/
def failed_write_state : Option FileSystem :=
  run_all tiny_empty_volume
    [fun fs => cmd_creat fs [70] 4, fun fs => cmd_open fs [70] [45, 119] 4,
      fun fs => cmd_write fs [70] (List.replicate 600 88) 4, fun fs => cmd_close fs [70] 4,
      fun fs => cmd_rm fs [70] 4]

/-- The state after `mkdir P; cd P; mkdir N` on the empty small volume, where `N` is the
name with the two bytes `0xE5 0x41`. -/
def hidden_directory_state : Option FileSystem :=
  run_all empty_volume
    [fun fs => cmd_mkdir fs [80] 4, fun fs => cmd_cd fs [80] 4,
      fun fs => cmd_mkdir fs [229, 65] 4]

/-- The small volume whose root directory holds one entry, of a file whose name is the two
bytes `0xE5 0x41`. -/
def marked_name_volume : FileSystem :=
  small_volume (image_of
    [(16384, fat_head), (20480, fat_head),
     (24576, new_entry [229, 65] ATTR_ARCHIVE 0 0)])

/-- The small volume whose root directory holds the directory `D` (cluster 3), which holds
`.`, `..` and the empty file `F`; no file is open. -/
def nonempty_dir_volume : FileSystem :=
  small_volume (image_of
    [(16384, fat_head ++ [0xFF, 0xFF, 0xFF, 0x0F]),
     (20480, fat_head ++ [0xFF, 0xFF, 0xFF, 0x0F]),
     (24576, new_entry [68] ATTR_DIRECTORY 3 0),
     (25088, dot_entry 3 ++ dotdot_entry 0 ++ new_entry [70] ATTR_ARCHIVE 0 0)])

/-- A file of 90 zero bytes. -/
def zero_boot_file : List Nat := List.replicate 90 0

/-- The first 90 bytes of an image with the geometry of `small_volume`. -/
def small_boot_file : List Nat :=
  List.replicate 11 0 ++ [0, 2, 1, 32, 0, 2] ++ List.replicate 15 0 ++
    [232, 3, 0, 0, 8, 0, 0, 0] ++ List.replicate 4 0 ++ [2, 0, 0, 0] ++ List.replicate 42 0

/-- A volume whose two FAT copies have `2^23 - 1` sectors each: the second copy starts
512 bytes below `2^32` past the first, so that the 32-bit file position of its entry `c`
is the position of the entry `c - 128` of the first copy. -/
def overlapping_fat_volume : FileSystem where
  image := fun _ => 0
  boot_sector :=
    { BPB_BytsPerSec := 512, BPB_SecPerClus := 1, BPB_RsvdSecCnt := 32, BPB_NumFATs := 2,
      BPB_TotSec32 := 16778246, BPB_FATSz32 := 8388607, BPB_RootClus := 2 }
  current_cluster := 2
  current_path := [47]
  open_files := []
  data_start_sector := 16777246
  fat_start_sector := 32
  root_cluster := 2
  total_clusters := 1000


/-! ## Termination of `free_cluster_chain`, and more sample states -/

/-- The valid cluster indices of the volume, in increasing order. -/
def valid_clusters (fs : FileSystem) : List Nat :=
  (List.range (u32 (fs.total_clusters + 2))).filter fun c => is_valid_cluster fs c

/-- The number of valid clusters whose FAT entry does not read 0. -/
def linked_clusters (fs : FileSystem) : Nat :=
  ((valid_clusters fs).filter fun c => decide (get_fat_entry fs c ≠ 0)).length

/-- The small volume with an empty root directory and a cycle in the FAT: the entry of
cluster 3 is 4, the entry of cluster 4 is 5 and the entry of cluster 5 is 3. -/
def cyclic_fat_volume : FileSystem :=
  small_volume (image_of
    [(16384, fat_head ++ [4, 0, 0, 0, 5, 0, 0, 0, 3, 0, 0, 0]),
     (20480, fat_head ++ [4, 0, 0, 0, 5, 0, 0, 0, 3, 0, 0, 0])])

/-- The state after `creat A; creat F; rm A; open F -w` on the empty small volume. -/
def deleted_before_file_state : Option FileSystem :=
  run_all empty_volume
    [fun fs => cmd_creat fs [65] 4, fun fs => cmd_creat fs [70] 4,
      fun fs => cmd_rm fs [65] 4, fun fs => cmd_open fs [70] [45, 119] 4]

/-- The state after `creat A; creat F; rm A; open F -w; write F "x"; close F` on the empty
small volume. -/
def duplicate_name_state : Option FileSystem :=
  run_all empty_volume
    [fun fs => cmd_creat fs [65] 4, fun fs => cmd_creat fs [70] 4,
      fun fs => cmd_rm fs [65] 4, fun fs => cmd_open fs [70] [45, 119] 4,
      fun fs => cmd_write fs [70] [120] 4, fun fs => cmd_close fs [70] 4]


/-! ## Volumes of 4 GiB and more, and other sample inputs -/

/-- The first 90 bytes of an image with the geometry of `small_volume` but a total sector
count of 47, one less than the first data sector. -/
def short_total_boot : List Nat :=
  List.replicate 11 0 ++ [0, 2, 1, 32, 0, 2] ++ List.replicate 15 0 ++
    [47, 0, 0, 0, 8, 0, 0, 0] ++ List.replicate 4 0 ++ [2, 0, 0, 0] ++ List.replicate 42 0

/-- The state that `mount_image` computes for the boot sector `short_total_boot`: the
difference `47 - 48` wraps, so `total_clusters` is `2^32 - 1`.  In both FAT copies the
entry of cluster 2 is an end-of-chain mark and every later entry is 0. -/
def short_total_volume : FileSystem where
  image := image_of [(16384, fat_head), (20480, fat_head)]
  boot_sector :=
    { BPB_BytsPerSec := 512, BPB_SecPerClus := 1, BPB_RsvdSecCnt := 32, BPB_NumFATs := 2,
      BPB_TotSec32 := 47, BPB_FATSz32 := 8, BPB_RootClus := 2 }
  current_cluster := 2
  current_path := [47]
  open_files := List.replicate 10
    { filename := [], mode := [], offset := 0, path := [], first_cluster := 0, size := 0,
      is_open := false }
  data_start_sector := 48
  fat_start_sector := 32
  root_cluster := 2
  total_clusters := 4294967295

/-- A volume of 8388940 sectors of 512 bytes (4 GiB and 151 KiB) with one sector per
cluster: 32 reserved sectors, two FAT copies of `2^22` sectors each, 300 clusters, root
directory in cluster 2.  The derived fields are the ones `mount_image` computes.  The data
region starts at byte `2^32 + 16384`, so the 32-bit file position of cluster `c` is
`16384 + 512 * (c - 2)`, a position inside the first FAT copy. -/
def far_data_volume (image : Image) : FileSystem where
  image := image
  boot_sector :=
    { BPB_BytsPerSec := 512, BPB_SecPerClus := 1, BPB_RsvdSecCnt := 32, BPB_NumFATs := 2,
      BPB_TotSec32 := 8388940, BPB_FATSz32 := 4194304, BPB_RootClus := 2 }
  current_cluster := 2
  current_path := [47]
  open_files := List.replicate 10
    { filename := [], mode := [], offset := 0, path := [], first_cluster := 0, size := 0,
      is_open := false }
  data_start_sector := 8388640
  fat_start_sector := 32
  root_cluster := 2
  total_clusters := 300

/-- The volume `far_data_volume` with an empty root directory: both FAT copies hold the
two reserved entries and the end-of-chain entry of cluster 2, every other byte is 0. -/
def far_empty_volume : FileSystem :=
  far_data_volume (image_of [(16384, fat_head), (2147500032, fat_head)])

/-- The state after `creat G` on `far_empty_volume`. -/
def far_file_state : Option FileSystem :=
  run_all far_empty_volume [fun fs => cmd_creat fs [71] 4]

/-- The volume `overlapping_fat_volume` with, in both FAT copies, the two reserved entries,
the end-of-chain entry of cluster 2 and the end-of-chain entry of cluster 130. -/
def overlapping_chain_volume : FileSystem :=
  { overlapping_fat_volume with
    image := image_of
      [(16384, fat_head), (16904, [0xFF, 0xFF, 0xFF, 0x0F]),
       (4294983168, fat_head), (4294983688, [0xFF, 0xFF, 0xFF, 0x0F])] }

/-- The FAT entry `c` of `huge_file_volume`: cluster 2 (the root directory) ends its
chain, the clusters 3 .. 1026 are the chain of the file `F`. -/
def huge_file_link (c : Nat) : Nat :=
  if c = 0 then 0x0FFFFFF8 else if c < 3 then 0x0FFFFFFF
  else if c < 1026 then c + 1 else if c = 1026 then 0x0FFFFFFF else 0

/-- A volume of 131874 sectors of 32768 bytes with 128 sectors (4 MiB) per cluster: 32
reserved sectors, two FAT copies of one sector, 1030 clusters.  The derived fields are the
ones `mount_image` computes.  Its root directory holds the file `F` of `2^32 - 1` bytes,
whose chain of 1024 clusters covers `2^32` bytes. -/
def huge_file_volume : FileSystem where
  image := fun a =>
    if 1048576 ≤ a ∧ a < 1048576 + 4128 then
      (le32_bytes (huge_file_link ((a - 1048576) / 4))).getD ((a - 1048576) % 4) 0
    else if 1081344 ≤ a ∧ a < 1081344 + 4128 then
      (le32_bytes (huge_file_link ((a - 1081344) / 4))).getD ((a - 1081344) % 4) 0
    else if 1114112 ≤ a ∧ a < 1114112 + 32 then
      (new_entry [70] ATTR_ARCHIVE 3 4294967295).getD (a - 1114112) 0
    else 0
  boot_sector :=
    { BPB_BytsPerSec := 32768, BPB_SecPerClus := 128, BPB_RsvdSecCnt := 32, BPB_NumFATs := 2,
      BPB_TotSec32 := 131874, BPB_FATSz32 := 1, BPB_RootClus := 2 }
  current_cluster := 2
  current_path := [47]
  open_files := List.replicate 10
    { filename := [], mode := [], offset := 0, path := [], first_cluster := 0, size := 0,
      is_open := false }
  data_start_sector := 34
  fat_start_sector := 32
  root_cluster := 2
  total_clusters := 1030

/-- The state after `open F -w; lseek F 4294967295` on `huge_file_volume`. -/
def huge_file_state : Option FileSystem :=
  run_all huge_file_volume
    [fun fs => cmd_open fs [70] [45, 119] 4, fun fs => cmd_lseek fs [70] 4294967295 4]


/-- The first 90 bytes of an image whose boot sector announces 32 reserved sectors, two FAT
copies of `2^31` sectors each, one sector of 512 bytes per cluster and 1000 sectors in
total. -/
def wide_fat_boot : List Nat :=
  List.replicate 11 0 ++ [0, 2, 1, 32, 0, 2] ++ List.replicate 15 0 ++
    [232, 3, 0, 0, 0, 0, 0, 128] ++ List.replicate 4 0 ++ [2, 0, 0, 0] ++
    List.replicate 42 0

/-- The volume `overlapping_chain_volume` with the entry of a file `F` (first cluster 130,
5 bytes) at the 32-bit file position of the root directory cluster. -/
def overlapping_file_volume : FileSystem :=
  { overlapping_fat_volume with
    image := image_of
      [(15360, new_entry [70] ATTR_ARCHIVE 130 5), (16384, fat_head),
       (16904, [0xFF, 0xFF, 0xFF, 0x0F]), (4294983168, fat_head),
       (4294983688, [0xFF, 0xFF, 0xFF, 0x0F])] }


theorem toupper_eq_zero_iff (b : Nat) : toupper b = 0 ↔ b = 0 := by
  unfold toupper; split <;> omega
theorem toupper_eq_space_iff (b : Nat) : toupper b = 32 ↔ b = 32 := by
  unfold toupper; split <;> omega
theorem toupper_eq_dot_iff (b : Nat) : toupper b = 46 ↔ b = 46 := by
  unfold toupper; split <;> omega
theorem toupper_dot : toupper 46 = 46 := by decide

set_option maxHeartbeats 4000000 in
theorem roundtrip_stem (stem : List Nat) (h1 : 1 ≤ stem.length) (h8 : stem.length ≤ 8)
    (hs : ∀ b ∈ stem, NameByte b) :
    parse_filename (format_filename stem) = stem.map toupper := by
  rcases stem with _ | ⟨a1, _ | ⟨a2, _ | ⟨a3, _ | ⟨a4, _ | ⟨a5, _ | ⟨a6, _ | ⟨a7, _ | ⟨a8, _ | ⟨a9, r⟩⟩⟩⟩⟩⟩⟩⟩⟩ <;>
    simp at h1 h8 <;>
    simp [NameByte] at hs <;>
    simp [format_filename, cstr, format_stem, format_ext, parse_filename, parse_stem, parse_ext,
      cchar, toupper_eq_zero_iff, toupper_eq_space_iff, toupper_eq_dot_iff, hs]

set_option maxHeartbeats 4000000 in
theorem roundtrip_ext (stem ext : List Nat) (h1 : 1 ≤ stem.length) (h8 : stem.length ≤ 8)
    (e1 : 1 ≤ ext.length) (e3 : ext.length ≤ 3)
    (hs : ∀ b ∈ stem, NameByte b) (he : ∀ b ∈ ext, NameByte b) :
    parse_filename (format_filename (stem ++ 46 :: ext)) = (stem ++ 46 :: ext).map toupper := by
  rcases ext with _ | ⟨b1, _ | ⟨b2, _ | ⟨b3, _ | ⟨b4, r⟩⟩⟩⟩ <;>
    simp at e1 e3 <;>
    simp [NameByte] at he <;>
  rcases stem with _ | ⟨a1, _ | ⟨a2, _ | ⟨a3, _ | ⟨a4, _ | ⟨a5, _ | ⟨a6, _ | ⟨a7, _ | ⟨a8, _ | ⟨a9, r⟩⟩⟩⟩⟩⟩⟩⟩⟩ <;>
    simp at h1 h8 <;>
    simp [NameByte] at hs <;>
    simp [format_filename, cstr, format_stem, format_ext, parse_filename, parse_stem, parse_ext,
      cchar, toupper_eq_zero_iff, toupper_eq_space_iff, toupper_eq_dot_iff, toupper_dot, hs, he]


theorem u32_of_lt {n : Nat} (h : n < 4294967296) : u32 n = n := Nat.mod_eq_of_lt h

theorem land_mask (x : Nat) : x &&& 0x0FFFFFFF = x % 268435456 :=
  Nat.and_pow_two_sub_one_eq_mod x 28

@[simp] theorem le32_bytes_length (v : Nat) : (le32_bytes v).length = 4 := rfl

theorem write_bytes_outside (img : Image) (p : Nat) (d : List Nat) (a : Nat)
    (h : a < p ∨ p + d.length ≤ a) : write_bytes img p d a = img a := by
  unfold write_bytes
  rw [if_neg]; omega

theorem write_bytes_inside (img : Image) (p : Nat) (d : List Nat) (a : Nat)
    (h1 : p ≤ a) (h2 : a < p + d.length) : write_bytes img p d a = d.getD (a - p) 0 := by
  unfold write_bytes
  rw [if_pos ⟨h1, h2⟩]

theorem read_le32_write_same (img : Image) (p v : Nat) :
    read_le32 (write_bytes img p (le32_bytes v)) p = v % 4294967296 := by
  have e0 : write_bytes img p (le32_bytes v) p = v % 256 := by
    rw [write_bytes_inside _ _ _ _ (Nat.le_refl _) (by simp)]; simp [le32_bytes]
  have e1 : write_bytes img p (le32_bytes v) (p + 1) = v / 256 % 256 := by
    rw [write_bytes_inside _ _ _ _ (by omega) (by simp)]; simp [le32_bytes]
  have e2 : write_bytes img p (le32_bytes v) (p + 2) = v / 65536 % 256 := by
    rw [write_bytes_inside _ _ _ _ (by omega) (by simp)]; simp [le32_bytes]
  have e3 : write_bytes img p (le32_bytes v) (p + 3) = v / 16777216 % 256 := by
    rw [write_bytes_inside _ _ _ _ (by omega) (by simp)]; simp [le32_bytes]
  unfold read_le32
  rw [e0, e1, e2, e3]
  omega

theorem read_le32_congr (img img' : Image) (p : Nat)
    (h : ∀ j, j < 4 → img' (p + j) = img (p + j)) : read_le32 img' p = read_le32 img p := by
  unfold read_le32
  have h0 := h 0 (by omega)
  rw [Nat.add_zero] at h0
  rw [h0, h 1 (by omega), h 2 (by omega), h 3 (by omega)]

/-- Image produced by writing the same four bytes at the positions `pos i`, `i ∈ l`. -/
theorem foldl_write_outside (pos : Nat → Nat) (d : List Nat) (a : Nat) (l : List Nat)
    (img : Image) (h : ∀ i ∈ l, a < pos i ∨ pos i + d.length ≤ a) :
    (l.foldl (fun im i => write_bytes im (pos i) d) img) a = img a := by
  induction l generalizing img with
  | nil => rfl
  | cons x xs ih =>
    rw [List.foldl_cons, ih _ (fun i hi => h i (List.mem_cons_of_mem _ hi))]
    exact write_bytes_outside _ _ _ _ (h x (List.mem_cons_self _ _))

theorem foldl_write_inside (pos : Nat → Nat) (d : List Nat) (a p0 : Nat) (l : List Nat)
    (img : Image) (hex : ∃ i ∈ l, pos i = p0) (h1 : p0 ≤ a) (h2 : a < p0 + d.length)
    (h : ∀ i ∈ l, pos i = p0 ∨ a < pos i ∨ pos i + d.length ≤ a) :
    (l.foldl (fun im i => write_bytes im (pos i) d) img) a = d.getD (a - p0) 0 := by
  induction l generalizing img with
  | nil => obtain ⟨i, hi, _⟩ := hex; cases hi
  | cons x xs ih =>
    rw [List.foldl_cons]
    by_cases hin : ∃ i ∈ xs, pos i = p0
    · exact ih _ hin (fun i hi => h i (List.mem_cons_of_mem _ hi))
    · have hx : pos x = p0 := by
        obtain ⟨i, hi, he⟩ := hex
        rcases List.mem_cons.1 hi with h' | h'
        · rw [← h']; exact he
        · exact absurd ⟨i, h', he⟩ hin
      rw [foldl_write_outside]
      · rw [hx]; exact write_bytes_inside _ _ _ _ h1 h2
      · intro i hi
        rcases h i (List.mem_cons_of_mem _ hi) with h' | h'
        · exact absurd ⟨i, hi, h'⟩ hin
        · exact h'


theorem InFat.bytsPerSec_pos {fs : FileSystem} {c : Nat} (h : InFat fs c) :
    0 < fs.boot_sector.BPB_BytsPerSec := by
  unfold InFat fat_bytes at h
  rcases Nat.eq_zero_or_pos fs.boot_sector.BPB_BytsPerSec with h0 | h0
  · rw [h0] at h; omega
  · exact h0

/-- The end of entry `c` of copy `k` is below the end of the FAT region. -/
theorem fat_addr_bound (fs : FileSystem) (k c : Nat) (hk : k < fs.boot_sector.BPB_NumFATs)
    (hc : InFat fs c) :
    fat_addr fs k c + 4 ≤ (fs.fat_start_sector +
      fs.boot_sector.BPB_NumFATs * fs.boot_sector.BPB_FATSz32) *
        fs.boot_sector.BPB_BytsPerSec := by
  unfold fat_addr
  unfold InFat fat_bytes at hc
  have h1 : (k + 1) * fs.boot_sector.BPB_FATSz32 ≤
      fs.boot_sector.BPB_NumFATs * fs.boot_sector.BPB_FATSz32 :=
    Nat.mul_le_mul_right _ hk
  have h2 : (fs.fat_start_sector + (k + 1) * fs.boot_sector.BPB_FATSz32) *
      fs.boot_sector.BPB_BytsPerSec ≤ (fs.fat_start_sector +
      fs.boot_sector.BPB_NumFATs * fs.boot_sector.BPB_FATSz32) *
        fs.boot_sector.BPB_BytsPerSec :=
    Nat.mul_le_mul_right _ (by omega)
  have h3 : (fs.fat_start_sector + (k + 1) * fs.boot_sector.BPB_FATSz32) *
      fs.boot_sector.BPB_BytsPerSec = (fs.fat_start_sector + k * fs.boot_sector.BPB_FATSz32) *
      fs.boot_sector.BPB_BytsPerSec +
        fs.boot_sector.BPB_FATSz32 * fs.boot_sector.BPB_BytsPerSec := by ring
  omega

theorem le_mul_of_pos' (x b : Nat) (hb : 0 < b) : x ≤ x * b :=
  Nat.le_mul_of_pos_right x hb

theorem fat_copy_pos_eq (fs : FileSystem) (k c : Nat) (hb : FatBelow4G fs)
    (hk : k < fs.boot_sector.BPB_NumFATs) (hc : InFat fs c) :
    fat_copy_pos fs k c = fat_addr fs k c := by
  have hB := hc.bytsPerSec_pos
  have hbound := Nat.le_trans (fat_addr_bound fs k c hk hc) hb
  unfold fat_addr at hbound
  unfold fat_copy_pos fat_addr
  generalize fs.boot_sector.BPB_BytsPerSec = B at *
  generalize fs.boot_sector.BPB_FATSz32 = F at *
  generalize fs.fat_start_sector = s at *
  have hdm : B * (4 * c / B) + 4 * c % B = 4 * c := Nat.div_add_mod _ _
  have e1 : (s + k * F + 4 * c / B) * B = (s + k * F) * B + B * (4 * c / B) := by ring
  have hs1 : s + k * F + 4 * c / B ≤ (s + k * F + 4 * c / B) * B := le_mul_of_pos' _ _ hB
  have hc4 : c * 4 = 4 * c := Nat.mul_comm _ _
  simp only []
  rw [hc4, u32_of_lt (show 4 * c < 4294967296 by omega)]
  generalize 4 * c / B = q at *
  generalize 4 * c % B = r at *
  have hlt : (s + k * F + q) * B + r < 4294967296 := by
    rw [e1]; omega
  have hlt2 : s + k * F + q < 4294967296 := by omega
  have hlt3 : k * F < 4294967296 := by omega
  rw [u32_of_lt hlt3]
  rw [u32_of_lt (show s + k * F < 4294967296 by omega)]
  rw [u32_of_lt hlt2]
  rw [u32_of_lt hlt]
  rw [e1]; omega

theorem fat_entry_pos_eq_copy (fs : FileSystem) (c : Nat) :
    fat_entry_pos fs c = fat_copy_pos fs 0 c := by
  unfold fat_entry_pos fat_copy_pos
  simp only [Nat.zero_mul]
  have : u32 0 = 0 := rfl
  rw [this, Nat.add_zero]
  unfold u32
  simp only [Nat.mod_add_mod]

theorem fat_entry_pos_eq (fs : FileSystem) (c : Nat) (hb : FatBelow4G fs)
    (hn : 1 ≤ fs.boot_sector.BPB_NumFATs) (hc : InFat fs c) :
    fat_entry_pos fs c = fat_addr fs 0 c := by
  rw [fat_entry_pos_eq_copy]
  exact fat_copy_pos_eq fs 0 c hb (by omega) hc

/-- Entries of different copies, or of different indices, do not overlap. -/
theorem fat_addr_disjoint (fs : FileSystem) (k k' c c' : Nat) (hc : InFat fs c)
    (hc' : InFat fs c') (hne : k ≠ k' ∨ c ≠ c') :
    fat_addr fs k c + 4 ≤ fat_addr fs k' c' ∨ fat_addr fs k' c' + 4 ≤ fat_addr fs k c := by
  unfold fat_addr
  unfold InFat fat_bytes at hc hc'
  generalize fs.boot_sector.BPB_BytsPerSec = B at *
  generalize fs.boot_sector.BPB_FATSz32 = F at *
  generalize fs.fat_start_sector = s at *
  rcases Nat.lt_trichotomy k k' with h | h | h
  · left
    have h1 : (k + 1) * F ≤ k' * F := Nat.mul_le_mul_right _ h
    have h2 : (s + (k + 1) * F) * B ≤ (s + k' * F) * B := Nat.mul_le_mul_right _ (by omega)
    have h3 : (s + (k + 1) * F) * B = (s + k * F) * B + F * B := by ring
    omega
  · subst h
    have : c ≠ c' := by
      rcases hne with h | h
      · exact absurd rfl h
      · exact h
    omega
  · right
    have h1 : (k' + 1) * F ≤ k * F := Nat.mul_le_mul_right _ h
    have h2 : (s + (k' + 1) * F) * B ≤ (s + k * F) * B := Nat.mul_le_mul_right _ (by omega)
    have h3 : (s + (k' + 1) * F) * B = (s + k' * F) * B + F * B := by ring
    omega

@[simp] theorem set_fat_entry_boot (fs : FileSystem) (c v : Nat) :
    (set_fat_entry fs c v).boot_sector = fs.boot_sector := rfl
@[simp] theorem set_fat_entry_fat_start (fs : FileSystem) (c v : Nat) :
    (set_fat_entry fs c v).fat_start_sector = fs.fat_start_sector := rfl
@[simp] theorem set_fat_entry_data_start (fs : FileSystem) (c v : Nat) :
    (set_fat_entry fs c v).data_start_sector = fs.data_start_sector := rfl
@[simp] theorem set_fat_entry_total (fs : FileSystem) (c v : Nat) :
    (set_fat_entry fs c v).total_clusters = fs.total_clusters := rfl

/-- After `set_fat_entry`, byte `j` of entry `c` in every copy is byte `j` of the masked value. -/
theorem set_fat_entry_image_at (fs : FileSystem) (c v k j : Nat) (hb : FatBelow4G fs)
    (hk : k < fs.boot_sector.BPB_NumFATs) (hc : InFat fs c) (hj : j < 4) :
    (set_fat_entry fs c v).image (fat_addr fs k c + j) =
      (le32_bytes (v &&& 0x0FFFFFFF)).getD j 0 := by
  unfold set_fat_entry
  simp only []
  rw [foldl_write_inside (fun i => fat_copy_pos fs i c) _ _ (fat_addr fs k c)]
  · congr 1; omega
  · exact ⟨k, List.mem_range.2 hk, fat_copy_pos_eq fs k c hb hk hc⟩
  · omega
  · simp only [le32_bytes_length]; omega
  · intro i hi
    have hi' := List.mem_range.1 hi
    rw [fat_copy_pos_eq fs i c hb hi' hc]
    by_cases hik : i = k
    · left; rw [hik]
    · right
      have := fat_addr_disjoint fs i k c c hc hc (Or.inl hik)
      simp only [le32_bytes_length]; omega

/-- The bytes of every other FAT entry are untouched by `set_fat_entry`. -/
theorem set_fat_entry_image_other (fs : FileSystem) (c v k c' j : Nat) (hb : FatBelow4G fs)
    (hc : InFat fs c) (hc' : InFat fs c') (hne : c' ≠ c) (hj : j < 4) :
    (set_fat_entry fs c v).image (fat_addr fs k c' + j) = fs.image (fat_addr fs k c' + j) := by
  unfold set_fat_entry
  simp only []
  rw [foldl_write_outside (fun i => fat_copy_pos fs i c)]
  intro i hi
  have hi' := List.mem_range.1 hi
  rw [fat_copy_pos_eq fs i c hb hi' hc]
  have := fat_addr_disjoint fs i k c c' hc hc' (Or.inr (Ne.symm hne))
  simp only [le32_bytes_length]; omega

/-- Outside the FAT region `set_fat_entry` changes nothing. -/
theorem set_fat_entry_image_outside (fs : FileSystem) (c v a : Nat) (hb : FatBelow4G fs)
    (hc : InFat fs c)
    (ha : a < fs.fat_start_sector * fs.boot_sector.BPB_BytsPerSec ∨
      (fs.fat_start_sector + fs.boot_sector.BPB_NumFATs * fs.boot_sector.BPB_FATSz32) *
        fs.boot_sector.BPB_BytsPerSec ≤ a) :
    (set_fat_entry fs c v).image a = fs.image a := by
  unfold set_fat_entry
  simp only []
  rw [foldl_write_outside (fun i => fat_copy_pos fs i c)]
  intro i hi
  have hi' := List.mem_range.1 hi
  rw [fat_copy_pos_eq fs i c hb hi' hc]
  have h1 := fat_addr_bound fs i c hi' hc
  have h2 : fs.fat_start_sector * fs.boot_sector.BPB_BytsPerSec ≤ fat_addr fs i c := by
    unfold fat_addr
    have : fs.fat_start_sector * fs.boot_sector.BPB_BytsPerSec ≤
        (fs.fat_start_sector + i * fs.boot_sector.BPB_FATSz32) *
          fs.boot_sector.BPB_BytsPerSec := Nat.mul_le_mul_right _ (by omega)
    omega
  simp only [le32_bytes_length]; omega

theorem set_fat_entry_mirrored (fs : FileSystem) (c v : Nat) (hb : FatBelow4G fs)
    (hc : InFat fs c) (hm : Mirrored fs) : Mirrored (set_fat_entry fs c v) := by
  intro k i j hk hi hj
  have hk0 : 0 < fs.boot_sector.BPB_NumFATs := by
    have : k < fs.boot_sector.BPB_NumFATs := hk
    omega
  have e : ∀ k', fat_addr (set_fat_entry fs c v) k' i = fat_addr fs k' i := fun _ => rfl
  rw [e, e]
  by_cases hic : i = c
  · subst hic
    rw [set_fat_entry_image_at fs i v k j hb hk hi hj,
      set_fat_entry_image_at fs i v 0 j hb hk0 hi hj]
  · rw [set_fat_entry_image_other fs c v k i j hb hc hi hic hj,
      set_fat_entry_image_other fs c v 0 i j hb hc hi hic hj]
    exact hm k i j hk hi hj


/-! ### Consequences of well-formedness -/

theorem WellFormed.fatBelow {fs : FileSystem} (h : WellFormed fs) : FatBelow4G fs := by
  obtain ⟨_, _, hds, hle, _, _, hlt⟩ := h
  unfold FatBelow4G
  rw [← hds]
  have := Nat.mul_le_mul_right fs.boot_sector.BPB_BytsPerSec hle
  omega

theorem WellFormed.inFat {fs : FileSystem} (h : WellFormed fs) {c : Nat}
    (hc : c < fs.total_clusters + 2) : InFat fs c := by
  obtain ⟨_, _, _, _, _, hf, _⟩ := h
  unfold InFat
  omega

theorem WellFormed.bps_pos {fs : FileSystem} (h : WellFormed fs) :
    0 < fs.boot_sector.BPB_BytsPerSec :=
  (h.inFat (c := 0) (by omega)).bytsPerSec_pos

theorem WellFormed.total_lt {fs : FileSystem} (h : WellFormed fs) :
    fs.total_clusters + 2 < 4294967296 := by
  have hb := h.fatBelow
  have hB := h.bps_pos
  obtain ⟨_, hn, _, _, _, hf, _⟩ := h
  unfold FatBelow4G at hb
  unfold fat_bytes at hf
  have h1 : 1 * fs.boot_sector.BPB_FATSz32 ≤
      fs.boot_sector.BPB_NumFATs * fs.boot_sector.BPB_FATSz32 := Nat.mul_le_mul_right _ hn
  have h2 : fs.boot_sector.BPB_FATSz32 * fs.boot_sector.BPB_BytsPerSec ≤
      (fs.fat_start_sector + fs.boot_sector.BPB_NumFATs * fs.boot_sector.BPB_FATSz32) *
        fs.boot_sector.BPB_BytsPerSec := Nat.mul_le_mul_right _ (by omega)
  omega

theorem WellFormed.u32_total {fs : FileSystem} (h : WellFormed fs) :
    u32 (fs.total_clusters + 2) = fs.total_clusters + 2 := u32_of_lt h.total_lt

/-- The data region of a valid cluster ends inside the volume. -/
theorem WellFormed.data_end {fs : FileSystem} (h : WellFormed fs) {c : Nat} (h2 : 2 ≤ c)
    (hc : c < fs.total_clusters + 2) :
    data_addr fs c + bytes_per_cluster fs ≤
      fs.boot_sector.BPB_TotSec32 * fs.boot_sector.BPB_BytsPerSec := by
  obtain ⟨hspc, _, _, hle, htc, _, _⟩ := h
  unfold data_addr bytes_per_cluster
  have h1 : fs.total_clusters * fs.boot_sector.BPB_SecPerClus ≤
      fs.boot_sector.BPB_TotSec32 - fs.data_start_sector := by
    rw [htc]; exact Nat.div_mul_le_self _ _
  have h3 : (c - 2 + 1) * fs.boot_sector.BPB_SecPerClus ≤
      fs.total_clusters * fs.boot_sector.BPB_SecPerClus :=
    Nat.mul_le_mul_right _ (by omega)
  have h4 : (c - 2 + 1) * fs.boot_sector.BPB_SecPerClus =
      (c - 2) * fs.boot_sector.BPB_SecPerClus + fs.boot_sector.BPB_SecPerClus := by ring
  have h5 : (fs.data_start_sector + (c - 2) * fs.boot_sector.BPB_SecPerClus +
      fs.boot_sector.BPB_SecPerClus) * fs.boot_sector.BPB_BytsPerSec ≤
      fs.boot_sector.BPB_TotSec32 * fs.boot_sector.BPB_BytsPerSec :=
    Nat.mul_le_mul_right _ (by omega)
  have h6 : (fs.data_start_sector + (c - 2) * fs.boot_sector.BPB_SecPerClus +
      fs.boot_sector.BPB_SecPerClus) * fs.boot_sector.BPB_BytsPerSec =
      (fs.data_start_sector + (c - 2) * fs.boot_sector.BPB_SecPerClus) *
        fs.boot_sector.BPB_BytsPerSec +
      fs.boot_sector.BPB_BytsPerSec * fs.boot_sector.BPB_SecPerClus := by ring
  omega

/-- The data region starts where the FAT region ends. -/
theorem WellFormed.data_after_fat {fs : FileSystem} (h : WellFormed fs) (c : Nat) :
    (fs.fat_start_sector + fs.boot_sector.BPB_NumFATs * fs.boot_sector.BPB_FATSz32) *
      fs.boot_sector.BPB_BytsPerSec ≤ data_addr fs c := by
  obtain ⟨_, _, hds, _, _, _, _⟩ := h
  unfold data_addr
  rw [← hds]
  exact Nat.mul_le_mul_right _ (by omega)

/-- Data regions of different clusters do not overlap. -/
theorem data_addr_disjoint (fs : FileSystem) {c c' : Nat} (h2 : 2 ≤ c) (h2' : 2 ≤ c')
    (hne : c ≠ c') :
    data_addr fs c + bytes_per_cluster fs ≤ data_addr fs c' ∨
      data_addr fs c' + bytes_per_cluster fs ≤ data_addr fs c := by
  unfold data_addr bytes_per_cluster
  generalize fs.boot_sector.BPB_BytsPerSec = B
  generalize fs.boot_sector.BPB_SecPerClus = S
  generalize fs.data_start_sector = d
  have key : ∀ x y : Nat, 2 ≤ x → x < y →
      (d + (x - 2) * S) * B + B * S ≤ (d + (y - 2) * S) * B := by
    intro x y hx hxy
    have h1 : (x - 2 + 1) * S ≤ (y - 2) * S := Nat.mul_le_mul_right _ (by omega)
    have h2 : (d + (x - 2 + 1) * S) * B ≤ (d + (y - 2) * S) * B :=
      Nat.mul_le_mul_right _ (by omega)
    have h3 : (d + (x - 2 + 1) * S) * B = (d + (x - 2) * S) * B + B * S := by ring
    omega
  rcases Nat.lt_or_gt_of_ne hne with h | h
  · left; exact key c c' h2 h
  · right; exact key c' c h2' h

theorem WellFormed.cluster_pos_eq {fs : FileSystem} (h : WellFormed fs) {c : Nat}
    (h2 : 2 ≤ c) (hc : c < fs.total_clusters + 2) : cluster_pos fs c = data_addr fs c := by
  have hend := h.data_end h2 hc
  have htl := h.total_lt
  have hB := h.bps_pos
  obtain ⟨hspc, _, _, _, _, _, hlt⟩ := h
  unfold cluster_pos get_first_sector_of_cluster u32sub
  unfold data_addr at *
  have e1 : (c % 4294967296 + 4294967296 - 2 % 4294967296) % 4294967296 = c - 2 := by omega
  rw [e1]
  generalize fs.boot_sector.BPB_BytsPerSec = B at *
  generalize fs.boot_sector.BPB_SecPerClus = S at *
  generalize fs.data_start_sector = d at *
  have h1 : d + (c - 2) * S ≤ (d + (c - 2) * S) * B := le_mul_of_pos' _ _ hB
  rw [u32_of_lt (show (c - 2) * S < 4294967296 by omega)]
  rw [u32_of_lt (show (c - 2) * S + d < 4294967296 by omega)]
  rw [Nat.add_comm ((c - 2) * S) d]
  exact u32_of_lt (by omega)

/-! ### `claim_cluster` and `allocate_cluster` -/

@[simp] theorem claim_cluster_boot (fs : FileSystem) (c : Nat) :
    (claim_cluster fs c).boot_sector = fs.boot_sector := rfl
@[simp] theorem claim_cluster_fat_start (fs : FileSystem) (c : Nat) :
    (claim_cluster fs c).fat_start_sector = fs.fat_start_sector := rfl
@[simp] theorem claim_cluster_data_start (fs : FileSystem) (c : Nat) :
    (claim_cluster fs c).data_start_sector = fs.data_start_sector := rfl
@[simp] theorem claim_cluster_total (fs : FileSystem) (c : Nat) :
    (claim_cluster fs c).total_clusters = fs.total_clusters := rfl

theorem claim_cluster_image (fs : FileSystem) (c : Nat) :
    (claim_cluster fs c).image = write_bytes (set_fat_entry fs c 0x0FFFFFFF).image
      (cluster_pos fs c) (List.replicate (bytes_per_cluster fs) 0) := rfl

/-- Inside the claimed cluster every byte is zero. -/
theorem claim_cluster_data (fs : FileSystem) (h : WellFormed fs) {c : Nat} (h2 : 2 ≤ c)
    (hc : c < fs.total_clusters + 2) {j : Nat} (hj : j < bytes_per_cluster fs) :
    (claim_cluster fs c).image (data_addr fs c + j) = 0 := by
  rw [claim_cluster_image, h.cluster_pos_eq h2 hc,
    write_bytes_inside _ _ _ _ (by omega) (by simp; omega)]
  rw [List.getD_eq_getElem?_getD, List.getElem?_replicate]
  split <;> rfl

/-- Outside the claimed cluster the image is the one left by `set_fat_entry`. -/
theorem claim_cluster_outside (fs : FileSystem) (h : WellFormed fs) {c : Nat} (h2 : 2 ≤ c)
    (hc : c < fs.total_clusters + 2) {a : Nat}
    (ha : a < data_addr fs c ∨ data_addr fs c + bytes_per_cluster fs ≤ a) :
    (claim_cluster fs c).image a = (set_fat_entry fs c 0x0FFFFFFF).image a := by
  rw [claim_cluster_image, h.cluster_pos_eq h2 hc,
    write_bytes_outside _ _ _ _ (by simp; omega)]

/-- Specification of the scan loop of `allocate_cluster`. -/
theorem allocate_scan_spec (fs : FileSystem) (n start : Nat) :
    ((allocate_scan fs n start).1 = 0 ∧ (allocate_scan fs n start).2 = fs ∧
        ∀ c, start ≤ c → c < start + n → get_fat_entry fs c ≠ 0) ∨
    (start ≤ (allocate_scan fs n start).1 ∧ (allocate_scan fs n start).1 < start + n ∧
        get_fat_entry fs (allocate_scan fs n start).1 = 0 ∧
        (∀ c, start ≤ c → c < (allocate_scan fs n start).1 → get_fat_entry fs c ≠ 0) ∧
        (allocate_scan fs n start).2 = claim_cluster fs (allocate_scan fs n start).1) := by
  induction n generalizing start with
  | zero =>
    left
    refine ⟨rfl, rfl, ?_⟩
    intro c h1 h2; omega
  | succ n ih =>
    unfold allocate_scan
    by_cases h0 : get_fat_entry fs start = 0
    · right
      rw [if_pos h0]
      refine ⟨Nat.le_refl _, by omega, h0, ?_, rfl⟩
      intro c h1 h2; omega
    · rw [if_neg h0]
      rcases ih (start + 1) with ⟨e1, e2, e3⟩ | ⟨e1, e2, e3, e4, e5⟩
      · left
        refine ⟨e1, e2, ?_⟩
        intro c h1 h2
        by_cases hcs : c = start
        · rw [hcs]; exact h0
        · exact e3 c (by omega) (by omega)
      · right
        refine ⟨by omega, by omega, e3, ?_, e5⟩
        intro c h1 h2
        by_cases hcs : c = start
        · rw [hcs]; exact h0
        · exact e4 c (by omega) h2


theorem read_le32_of_bytes (img : Image) (p v : Nat)
    (h : ∀ j, j < 4 → img (p + j) = (le32_bytes v).getD j 0) :
    read_le32 img p = v % 4294967296 := by
  unfold read_le32
  have h0 := h 0 (by omega)
  have h1 := h 1 (by omega)
  have h2 := h 2 (by omega)
  have h3 := h 3 (by omega)
  simp [le32_bytes] at h0 h1 h2 h3
  rw [h0, h1, h2, h3]
  omega

theorem land_mask_lt (v : Nat) : v &&& 0x0FFFFFFF < 268435456 := by
  rw [land_mask]; omega

/-- The word stored for `c` in every FAT copy after `set_fat_entry` is the masked value. -/
theorem set_fat_entry_word (fs : FileSystem) (c v k : Nat) (hb : FatBelow4G fs)
    (hk : k < fs.boot_sector.BPB_NumFATs) (hc : InFat fs c) :
    read_le32 (set_fat_entry fs c v).image (fat_addr fs k c) = v &&& 0x0FFFFFFF := by
  rw [read_le32_of_bytes _ _ (v &&& 0x0FFFFFFF)
    (fun j hj => set_fat_entry_image_at fs c v k j hb hk hc hj)]
  have := land_mask_lt v
  omega

theorem get_fat_entry_eq_of_bytes (fs fs' : FileSystem) (c : Nat)
    (hg : fat_entry_pos fs' c = fat_entry_pos fs c)
    (h : ∀ j, j < 4 → fs'.image (fat_entry_pos fs c + j) = fs.image (fat_entry_pos fs c + j)) :
    get_fat_entry fs' c = get_fat_entry fs c := by
  unfold get_fat_entry
  rw [hg, read_le32_congr _ _ _ h]

theorem get_set_fat_entry_same (fs : FileSystem) (c v : Nat) (hb : FatBelow4G fs)
    (hn : 1 ≤ fs.boot_sector.BPB_NumFATs) (hc : InFat fs c) :
    get_fat_entry (set_fat_entry fs c v) c = v &&& 0x0FFFFFFF := by
  unfold get_fat_entry
  have e : fat_entry_pos (set_fat_entry fs c v) c = fat_entry_pos fs c := rfl
  rw [e, fat_entry_pos_eq fs c hb hn hc, set_fat_entry_word fs c v 0 hb (by omega) hc,
    land_mask, land_mask]
  omega

theorem get_set_fat_entry_other (fs : FileSystem) (c v c' : Nat) (hb : FatBelow4G fs)
    (hn : 1 ≤ fs.boot_sector.BPB_NumFATs) (hc : InFat fs c) (hc' : InFat fs c')
    (hne : c' ≠ c) : get_fat_entry (set_fat_entry fs c v) c' = get_fat_entry fs c' := by
  refine get_fat_entry_eq_of_bytes fs (set_fat_entry fs c v) c' rfl ?_
  intro j hj
  rw [fat_entry_pos_eq fs c' hb hn hc']
  exact set_fat_entry_image_other fs c v 0 c' j hb hc hc' hne hj

theorem u32_le (n : Nat) : u32 n ≤ n := Nat.mod_le _ _

theorem is_valid_cluster_iff (fs : FileSystem) (c : Nat) :
    is_valid_cluster fs c = true ↔
      2 ≤ c ∧ c < u32 (fs.total_clusters + 2) ∧ c < 0x0FFFFFF8 := by
  unfold is_valid_cluster
  simp [Bool.and_eq_true, and_assoc]

theorem inFat_of_valid (fs : FileSystem) (c : Nat)
    (hf : 4 * (fs.total_clusters + 2) ≤ fat_bytes fs) (hv : is_valid_cluster fs c = true) :
    InFat fs c := by
  rw [is_valid_cluster_iff] at hv
  have := u32_le (fs.total_clusters + 2)
  unfold InFat
  omega

theorem free_cluster_chain_mirrored (fuel : Nat) :
    ∀ (fs fs' : FileSystem) (start : Nat), FatBelow4G fs →
      4 * (fs.total_clusters + 2) ≤ fat_bytes fs → Mirrored fs →
      free_cluster_chain fs fuel start = some fs' → Mirrored fs' := by
  induction fuel with
  | zero =>
    intro fs fs' start _ _ hm h
    unfold free_cluster_chain at h
    split at h
    · cases h
    · cases h; exact hm
  | succ n ih =>
    intro fs fs' start hb hf hm h
    unfold free_cluster_chain at h
    split at h
    · rename_i hv
      exact ih (set_fat_entry fs start 0) fs' _ hb hf
        (set_fat_entry_mirrored fs start 0 hb (inFat_of_valid fs start hf hv) hm) h
    · cases h; exact hm

theorem free_cluster_chain_geometry (fuel : Nat) :
    ∀ (fs fs' : FileSystem) (start : Nat),
      free_cluster_chain fs fuel start = some fs' → SameGeometry fs fs' := by
  induction fuel with
  | zero =>
    intro fs fs' start h
    unfold free_cluster_chain at h
    split at h
    · cases h
    · cases h; exact ⟨rfl, rfl, rfl, rfl⟩
  | succ n ih =>
    intro fs fs' start h
    unfold free_cluster_chain at h
    split at h
    · exact ih (set_fat_entry fs start 0) fs' _ h
    · cases h; exact ⟨rfl, rfl, rfl, rfl⟩

theorem allocate_cluster_cases (fs : FileSystem) :
    ((allocate_cluster fs).1 = 0 ∧ (allocate_cluster fs).2 = fs ∧
        ∀ c, 2 ≤ c → c < 2 + (u32 (fs.total_clusters + 2) - 2) → get_fat_entry fs c ≠ 0) ∨
    (2 ≤ (allocate_cluster fs).1 ∧
        (allocate_cluster fs).1 < 2 + (u32 (fs.total_clusters + 2) - 2) ∧
        get_fat_entry fs (allocate_cluster fs).1 = 0 ∧
        (∀ c, 2 ≤ c → c < (allocate_cluster fs).1 → get_fat_entry fs c ≠ 0) ∧
        (allocate_cluster fs).2 = claim_cluster fs (allocate_cluster fs).1) :=
  allocate_scan_spec fs _ 2

theorem allocate_cluster_geometry (fs : FileSystem) :
    SameGeometry fs (allocate_cluster fs).2 := by
  rcases allocate_cluster_cases fs with ⟨_, e, _⟩ | ⟨_, _, _, _, e⟩
  · rw [e]; exact ⟨rfl, rfl, rfl, rfl⟩
  · rw [e]; exact ⟨rfl, rfl, rfl, rfl⟩

theorem claim_cluster_mirrored (fs : FileSystem) (h : WellFormed fs) {c : Nat} (h2 : 2 ≤ c)
    (hc : c < fs.total_clusters + 2) (hm : Mirrored fs) : Mirrored (claim_cluster fs c) := by
  have hb := h.fatBelow
  have hm' := set_fat_entry_mirrored fs c 0x0FFFFFFF hb (h.inFat hc) hm
  intro k i j hk hi hj
  have hk' : k < fs.boot_sector.BPB_NumFATs := hk
  have hi' : InFat fs i := hi
  have e : ∀ k', fat_addr (claim_cluster fs c) k' i = fat_addr fs k' i := fun _ => rfl
  rw [e, e]
  have hd := h.data_after_fat c
  have b1 := fat_addr_bound fs k i hk' hi'
  have b0 := fat_addr_bound fs 0 i (by omega) hi'
  rw [claim_cluster_outside fs h h2 hc (Or.inl (by omega)),
    claim_cluster_outside fs h h2 hc (Or.inl (by omega))]
  exact hm' k i j hk hi hj

theorem allocate_cluster_mirrored (fs : FileSystem) (h : WellFormed fs) (hm : Mirrored fs) :
    Mirrored (allocate_cluster fs).2 := by
  rcases allocate_cluster_cases fs with ⟨_, e, _⟩ | ⟨h2, hlt, _, _, e⟩
  · rw [e]; exact hm
  · rw [e]
    rw [h.u32_total] at hlt
    exact claim_cluster_mirrored fs h h2 (by omega) hm

theorem WellFormed.of_sameGeometry {fs fs' : FileSystem} (h : WellFormed fs)
    (hg : SameGeometry fs fs') : WellFormed fs' := by
  obtain ⟨g1, g2, g3, g4⟩ := hg
  unfold WellFormed fat_bytes at *
  rw [g1, g2, g3, g4]
  exact h

theorem FatStep.sameGeometry {fs fs' : FileSystem} (h : FatStep fs fs') :
    SameGeometry fs fs' := by
  cases h with
  | set c v _ => exact ⟨rfl, rfl, rfl, rfl⟩
  | alloc => exact allocate_cluster_geometry fs
  | free _ fuel start hf => exact free_cluster_chain_geometry fuel fs fs' start hf

theorem FatStep.mirrored {fs fs' : FileSystem} (h : FatStep fs fs') (hw : WellFormed fs)
    (hm : Mirrored fs) : Mirrored fs' := by
  cases h with
  | set c v hc => exact set_fat_entry_mirrored fs c v hw.fatBelow hc hm
  | alloc => exact allocate_cluster_mirrored fs hw hm
  | free _ fuel start hf =>
    exact free_cluster_chain_mirrored fuel fs fs' start hw.fatBelow hw.2.2.2.2.2.1 hm hf

theorem fatSteps_mirrored {fs fs' : FileSystem} (h : Relation.ReflTransGen FatStep fs fs')
    (hw : WellFormed fs) (hm : Mirrored fs) : WellFormed fs' ∧ Mirrored fs' := by
  induction h with
  | refl => exact ⟨hw, hm⟩
  | tail _ hstep ih => exact ⟨ih.1.of_sameGeometry hstep.sameGeometry, hstep.mirrored ih.1 ih.2⟩


/-- FAT entries read after `claim_cluster` are the ones left by `set_fat_entry`. -/
theorem claim_cluster_fat_bytes (fs : FileSystem) (h : WellFormed fs) {c : Nat} (h2 : 2 ≤ c)
    (hc : c < fs.total_clusters + 2) (k c' j : Nat) (hk : k < fs.boot_sector.BPB_NumFATs)
    (hc' : InFat fs c') (hj : j < 4) :
    (claim_cluster fs c).image (fat_addr fs k c' + j) =
      (set_fat_entry fs c 0x0FFFFFFF).image (fat_addr fs k c' + j) := by
  have hd := h.data_after_fat c
  have b1 := fat_addr_bound fs k c' hk hc'
  exact claim_cluster_outside fs h h2 hc (Or.inl (by omega))

theorem get_fat_entry_claim_cluster (fs : FileSystem) (h : WellFormed fs) {c : Nat}
    (h2 : 2 ≤ c) (hc : c < fs.total_clusters + 2) (c' : Nat) (hc' : InFat fs c') :
    get_fat_entry (claim_cluster fs c) c' =
      get_fat_entry (set_fat_entry fs c 0x0FFFFFFF) c' := by
  refine get_fat_entry_eq_of_bytes (set_fat_entry fs c 0x0FFFFFFF) (claim_cluster fs c) c'
    rfl ?_
  intro j hj
  have e : fat_entry_pos (set_fat_entry fs c 0x0FFFFFFF) c' = fat_addr fs 0 c' :=
    fat_entry_pos_eq fs c' h.fatBelow h.2.1 hc'
  rw [e]
  exact claim_cluster_fat_bytes fs h h2 hc 0 c' j (by have := h.2.1; omega) hc' hj

/-- Effect and frame of `claim_cluster` on a well-formed volume. -/
theorem claim_cluster_effect (fs : FileSystem) (h : WellFormed fs) {c : Nat} (h2 : 2 ≤ c)
    (hc : c < fs.total_clusters + 2) :
    get_fat_entry (claim_cluster fs c) c = 0x0FFFFFFF ∧
    (∀ j, j < bytes_per_cluster fs → (claim_cluster fs c).image (data_addr fs c + j) = 0) ∧
    (∀ c', InFat fs c' → c' ≠ c →
      get_fat_entry (claim_cluster fs c) c' = get_fat_entry fs c' ∧
      ∀ k j, k < fs.boot_sector.BPB_NumFATs → j < 4 →
        (claim_cluster fs c).image (fat_addr fs k c' + j) = fs.image (fat_addr fs k c' + j)) ∧
    (∀ c' j, 2 ≤ c' → c' ≠ c → j < bytes_per_cluster fs →
      (claim_cluster fs c).image (data_addr fs c' + j) = fs.image (data_addr fs c' + j)) := by
  have hb := h.fatBelow
  have hin := h.inFat hc
  refine ⟨?_, ?_, ?_, ?_⟩
  · rw [get_fat_entry_claim_cluster fs h h2 hc c hin,
      get_set_fat_entry_same fs c _ hb h.2.1 hin]
    decide
  · intro j hj
    exact claim_cluster_data fs h h2 hc hj
  · intro c' hc' hne
    refine ⟨?_, ?_⟩
    · rw [get_fat_entry_claim_cluster fs h h2 hc c' hc',
        get_set_fat_entry_other fs c _ c' hb h.2.1 hin hc' hne]
    · intro k j hk hj
      rw [claim_cluster_fat_bytes fs h h2 hc k c' j hk hc' hj]
      exact set_fat_entry_image_other fs c _ k c' j hb hin hc' hne hj
  · intro c' j h2' hne hj
    have hdis := data_addr_disjoint fs h2 h2' (Ne.symm hne)
    rw [claim_cluster_outside fs h h2 hc (by omega)]
    exact set_fat_entry_image_outside fs c _ _ hb hin (Or.inr (by
      have := h.data_after_fat c'
      omega))


/-! ### Paths and chains -/

theorem Path.append {fs : FileSystem} {c d e : Nat} {cs cs' : List Nat}
    (h : Path fs c cs d) (h' : Path fs d cs' e) : Path fs c (cs ++ cs') e := by
  induction h with
  | nil c => exact h'
  | cons c d cs hv _ ih => exact Path.cons c _ _ hv (ih h')

theorem Path.valid_of_mem {fs : FileSystem} {c d : Nat} {cs : List Nat}
    (h : Path fs c cs d) : ∀ x ∈ cs, is_valid_cluster fs x = true := by
  induction h with
  | nil c => intro x hx; cases hx
  | cons c d cs hv _ ih =>
    intro x hx
    rcases List.mem_cons.1 hx with h1 | h1
    · rw [h1]; exact hv
    · exact ih x h1

/-- A path only depends on validity and on the FAT entries of the clusters it visits. -/
theorem Path.congr {fs fs' : FileSystem} {c d : Nat} {cs : List Nat} (h : Path fs c cs d)
    (hv : ∀ x, is_valid_cluster fs' x = is_valid_cluster fs x)
    (hg : ∀ x ∈ cs, get_fat_entry fs' x = get_fat_entry fs x) : Path fs' c cs d := by
  induction h with
  | nil c => exact Path.nil c
  | cons c d cs hvc _ ih =>
    refine Path.cons c d cs (by rw [hv]; exact hvc) ?_
    rw [hg c (List.mem_cons_self _ _)]
    exact ih (fun x hx => hg x (List.mem_cons_of_mem _ hx))

/-- Two chains from the same cluster are equal. -/
theorem Path.unique {fs : FileSystem} {c d : Nat} {cs : List Nat} (h : Path fs c cs d)
    (hd : is_valid_cluster fs d = false) :
    ∀ {d' : Nat} {cs' : List Nat}, Path fs c cs' d' → is_valid_cluster fs d' = false →
      cs' = cs ∧ d' = d := by
  induction h with
  | nil c =>
    intro d' cs' h' _
    cases h' with
    | nil => exact ⟨rfl, rfl⟩
    | cons _ _ _ hv _ => rw [hd] at hv; cases hv
  | cons c d cs hv _ ih =>
    intro d' cs' h' hd'
    cases h' with
    | nil => rw [hd'] at hv; cases hv
    | cons _ _ cs'' _ hp =>
      obtain ⟨e1, e2⟩ := ih hd hp hd'
      exact ⟨by rw [e1], e2⟩

/-- Splitting a path at one of its clusters. -/
theorem Path.split {fs : FileSystem} {c d : Nat} {cs : List Nat} (h : Path fs c cs d) :
    ∀ {x : Nat}, x ∈ cs → ∃ a b, cs = a ++ x :: b ∧ Path fs c a x ∧ Path fs x (x :: b) d := by
  induction h with
  | nil c => intro x hx; cases hx
  | cons c d cs hv hp ih =>
    intro x hx
    rcases List.mem_cons.1 hx with h1 | h1
    · subst h1
      exact ⟨[], cs, rfl, Path.nil _, Path.cons _ _ _ hv hp⟩
    · obtain ⟨a, b, e, p1, p2⟩ := ih h1
      exact ⟨c :: a, b, by rw [e]; rfl, Path.cons _ _ _ hv p1, p2⟩

/-- A chain that ends visits no cluster twice. -/
theorem Path.nodup {fs : FileSystem} {c d : Nat} {cs : List Nat} (h : Path fs c cs d)
    (hd : is_valid_cluster fs d = false) : cs.Nodup := by
  induction h with
  | nil c => exact List.nodup_nil
  | cons c d cs hv hp ih =>
    refine List.nodup_cons.2 ⟨?_, ih hd⟩
    intro hmem
    obtain ⟨a, b, e, _, p2⟩ := hp.split hmem
    have := (Path.cons c d cs hv hp).unique hd p2 hd
    have hl := congrArg List.length this.1
    rw [e] at hl
    simp at hl
    omega

theorem cluster_chain_path (fs : FileSystem) (fuel : Nat) :
    ∀ (c : Nat) (cs : List Nat), cluster_chain fs fuel c = some cs → IsChain fs c cs := by
  induction fuel with
  | zero =>
    intro c cs h
    unfold cluster_chain at h
    split at h
    · cases h
    · rename_i hv
      cases h
      exact ⟨c, Path.nil c, by simpa using hv⟩
  | succ n ih =>
    intro c cs h
    unfold cluster_chain at h
    split at h
    · rename_i hv
      cases hrec : cluster_chain fs n (get_fat_entry fs c) with
      | none => rw [hrec] at h; cases h
      | some cs' =>
        rw [hrec] at h
        cases h
        obtain ⟨d, hp, hd⟩ := ih _ _ hrec
        exact ⟨d, Path.cons c d cs' hv hp, hd⟩
    · rename_i hv
      cases h
      exact ⟨c, Path.nil c, by simpa using hv⟩

theorem path_cluster_chain {fs : FileSystem} {c d : Nat} {cs : List Nat}
    (h : Path fs c cs d) (hd : is_valid_cluster fs d = false) :
    ∀ fuel, cs.length ≤ fuel → cluster_chain fs fuel c = some cs := by
  induction h with
  | nil c =>
    intro fuel _
    cases fuel <;> simp [cluster_chain, hd]
  | cons c d cs hv _ ih =>
    intro fuel hf
    cases fuel with
    | zero => simp at hf
    | succ n =>
      unfold cluster_chain
      rw [if_pos hv, ih hd n (by simpa using hf)]
      rfl

theorem IsChain.to_cluster_chain {fs : FileSystem} {c : Nat} {cs : List Nat}
    (h : IsChain fs c cs) (fuel : Nat) (hf : cs.length ≤ fuel) :
    cluster_chain fs fuel c = some cs := by
  obtain ⟨d, hp, hd⟩ := h
  exact path_cluster_chain hp hd fuel hf


/-! ### Frames -/

theorem SameState.same_refl (fs : FileSystem) : SameState fs fs :=
  ⟨rfl, rfl, rfl, rfl, rfl, rfl, rfl, rfl⟩

theorem SameState.same_trans {a b c : FileSystem} (h1 : SameState a b) (h2 : SameState b c) :
    SameState a c := by
  obtain ⟨a1, a2, a3, a4, a5, a6, a7, a8⟩ := h1
  obtain ⟨b1, b2, b3, b4, b5, b6, b7, b8⟩ := h2
  exact ⟨b1.trans a1, b2.trans a2, b3.trans a3, b4.trans a4, b5.trans a5, b6.trans a6,
    b7.trans a7, b8.trans a8⟩

theorem SameState.eq {fs fs' : FileSystem} (h : SameState fs fs') :
    fs' = { fs with image := fs'.image } := by
  obtain ⟨a1, a2, a3, a4, a5, a6, a7, a8⟩ := h
  cases fs; cases fs'
  simp only at a1 a2 a3 a4 a5 a6 a7 a8
  subst a1 a2 a3 a4 a5 a6 a7 a8
  rfl

theorem SameState.geometry {fs fs' : FileSystem} (h : SameState fs fs') :
    SameGeometry fs fs' := ⟨h.1, h.2.2.2.2.2.1, h.2.2.2.2.1, h.2.2.2.2.2.2.2⟩

theorem SameState.valid {fs fs' : FileSystem} (h : SameState fs fs') (x : Nat) :
    is_valid_cluster fs' x = is_valid_cluster fs x := by
  rw [h.eq]; rfl

theorem SameState.data_addr {fs fs' : FileSystem} (h : SameState fs fs') (x : Nat) :
    data_addr fs' x = data_addr fs x := by
  rw [h.eq]; rfl

theorem SameState.fat_addr {fs fs' : FileSystem} (h : SameState fs fs') (k x : Nat) :
    fat_addr fs' k x = fat_addr fs k x := by
  rw [h.eq]; rfl

theorem SameState.bpc {fs fs' : FileSystem} (h : SameState fs fs') :
    bytes_per_cluster fs' = bytes_per_cluster fs := by
  rw [h.eq]; rfl

theorem SameState.max_entries {fs fs' : FileSystem} (h : SameState fs fs') :
    max_entries fs' = max_entries fs := by
  rw [h.eq]; rfl

theorem SameState.cluster_pos {fs fs' : FileSystem} (h : SameState fs fs') (x : Nat) :
    cluster_pos fs' x = cluster_pos fs x := by
  rw [h.eq]; rfl

theorem SameState.first_sector {fs fs' : FileSystem} (h : SameState fs fs') (x : Nat) :
    get_first_sector_of_cluster fs' x = get_first_sector_of_cluster fs x := by
  rw [h.eq]; rfl

theorem SameState.fat_entry_pos {fs fs' : FileSystem} (h : SameState fs fs') (x : Nat) :
    fat_entry_pos fs' x = fat_entry_pos fs x := by
  rw [h.eq]; rfl

theorem SameState.inFat_iff {fs fs' : FileSystem} (h : SameState fs fs') (x : Nat) :
    InFat fs' x ↔ InFat fs x := by
  rw [h.eq]; exact Iff.rfl

theorem SameState.inData {fs fs' : FileSystem} (h : SameState fs fs') (x a : Nat) :
    InData fs' x a ↔ InData fs x a := by
  rw [h.eq]; exact Iff.rfl

theorem SameState.inFatEntry {fs fs' : FileSystem} (h : SameState fs fs') (x a : Nat) :
    InFatEntry fs' x a ↔ InFatEntry fs x a := by
  rw [h.eq]; exact Iff.rfl

theorem SameState.wellFormed {fs fs' : FileSystem} (h : SameState fs fs')
    (hw : WellFormed fs) : WellFormed fs' :=
  hw.of_sameGeometry h.geometry

theorem Frame.refl (fs : FileSystem) (F S : List Nat) : Frame fs fs F S :=
  ⟨SameState.same_refl fs, fun _ _ _ => rfl⟩

theorem Frame.trans {a b c : FileSystem} {F1 S1 F2 S2 : List Nat} (h1 : Frame a b F1 S1)
    (h2 : Frame b c F2 S2) : Frame a c (F1 ++ F2) (S1 ++ S2) := by
  refine ⟨h1.1.same_trans h2.1, ?_⟩
  intro x hF hS
  rw [h2.2 x, h1.2 x]
  · exact fun y hy => hF y (List.mem_append_left _ hy)
  · exact fun y hy => hS y (List.mem_append_left _ hy)
  · intro y hy hc
    exact hF y (List.mem_append_right _ hy) ((h1.1.inFatEntry y x).1 hc)
  · intro y hy hc
    exact hS y (List.mem_append_right _ hy) ((h1.1.inData y x).1 hc)

theorem Frame.mono {a b : FileSystem} {F S F' S' : List Nat} (h : Frame a b F S)
    (hF : ∀ x ∈ F, x ∈ F') (hS : ∀ x ∈ S, x ∈ S') : Frame a b F' S' :=
  ⟨h.1, fun x h1 h2 => h.2 x (fun y hy => h1 y (hF y hy)) (fun y hy => h2 y (hS y hy))⟩

/-- A FAT entry outside the frame reads the same. -/
theorem Frame.get_fat_entry {fs fs' : FileSystem} {F S : List Nat} (h : Frame fs fs' F S)
    (hw : WellFormed fs) (hF : ∀ x ∈ F, InFat fs x) {c : Nat} (hc : InFat fs c)
    (hn : c ∉ F) : get_fat_entry fs' c = get_fat_entry fs c := by
  refine get_fat_entry_eq_of_bytes fs fs' c (h.1.fat_entry_pos c) ?_
  intro j hj
  rw [fat_entry_pos_eq fs c hw.fatBelow hw.2.1 hc]
  apply h.2
  · rintro y hy ⟨k, hk, h1, h2⟩
    have hne : c ≠ y := fun e => hn (e ▸ hy)
    have := fat_addr_disjoint fs 0 k c y hc (hF y hy) (Or.inr hne)
    omega
  · rintro y _ ⟨h1, _⟩
    have b := fat_addr_bound fs 0 c (by have := hw.2.1; omega) hc
    have d := hw.data_after_fat y
    omega

/-- A byte of a cluster outside the frame is the same. -/
theorem Frame.data {fs fs' : FileSystem} {F S : List Nat} (h : Frame fs fs' F S)
    (hw : WellFormed fs) (hF : ∀ x ∈ F, InFat fs x) (hS : ∀ x ∈ S, 2 ≤ x) {c : Nat}
    (h2 : 2 ≤ c) (hn : c ∉ S) {j : Nat} (hj : j < bytes_per_cluster fs) :
    fs'.image (data_addr fs c + j) = fs.image (data_addr fs c + j) := by
  apply h.2
  · rintro y hy ⟨k, hk, h1, h2⟩
    have b := fat_addr_bound fs k y hk (hF y hy)
    have d := hw.data_after_fat c
    omega
  · rintro y hy ⟨h1, h3⟩
    have hne : c ≠ y := fun e => hn (e ▸ hy)
    have := data_addr_disjoint fs h2 (hS y hy) hne
    omega

theorem set_fat_entry_frame (fs : FileSystem) (c v : Nat) (hb : FatBelow4G fs)
    (hc : InFat fs c) : Frame fs (set_fat_entry fs c v) [c] [] := by
  refine ⟨⟨rfl, rfl, rfl, rfl, rfl, rfl, rfl, rfl⟩, ?_⟩
  intro a hF _
  dsimp only [set_fat_entry]
  rw [foldl_write_outside (fun i => fat_copy_pos fs i c)]
  intro i hi
  have hi' := List.mem_range.1 hi
  have := hF c (List.mem_singleton.2 rfl)
  simp only [le32_bytes_length]
  rw [fat_copy_pos_eq fs i c hb hi' hc]
  by_contra hcon
  exact this ⟨i, hi', by omega, by omega⟩

theorem claim_cluster_frame (fs : FileSystem) (hw : WellFormed fs) {c : Nat} (h2 : 2 ≤ c)
    (hc : c < fs.total_clusters + 2) : Frame fs (claim_cluster fs c) [c] [c] := by
  refine ⟨⟨rfl, rfl, rfl, rfl, rfl, rfl, rfl, rfl⟩, ?_⟩
  intro a hF hS
  have hd := hS c (List.mem_singleton.2 rfl)
  rw [claim_cluster_outside fs hw h2 hc (by unfold InData at hd; omega)]
  exact (set_fat_entry_frame fs c _ hw.fatBelow (hw.inFat hc)).2 a hF (fun _ h => by cases h)

/-- A write that stays inside the data region of cluster `c`. -/
theorem data_write_frame (fs : FileSystem) (c off : Nat) (data : List Nat)
    (h : off + data.length ≤ bytes_per_cluster fs) :
    Frame fs (fwrite_at fs (data_addr fs c + off) data) [] [c] := by
  refine ⟨⟨rfl, rfl, rfl, rfl, rfl, rfl, rfl, rfl⟩, ?_⟩
  intro a _ hS
  have hd := hS c (List.mem_singleton.2 rfl)
  unfold InData at hd
  exact write_bytes_outside _ _ _ _ (by omega)

theorem Path.frame {fs fs' : FileSystem} {F S : List Nat} {c d : Nat} {cs : List Nat}
    (hp : Path fs c cs d) (h : Frame fs fs' F S) (hw : WellFormed fs)
    (hf : ∀ x ∈ F, InFat fs x) (hn : ∀ x ∈ cs, x ∉ F) : Path fs' c cs d := by
  refine hp.congr (h.1.valid) ?_
  intro x hx
  exact h.get_fat_entry hw hf
    (inFat_of_valid fs x hw.2.2.2.2.2.1 (hp.valid_of_mem x hx)) (hn x hx)


/-! ### The loops of `cmd_write` along a chain -/

theorem count_clusters_path {fs : FileSystem} {c d : Nat} {cs : List Nat}
    (h : Path fs c cs d) (hd : is_valid_cluster fs d = false) :
    ∀ fuel n, cs.length ≤ fuel → count_clusters fs fuel c n = some (n + cs.length) := by
  induction h with
  | nil c =>
    intro fuel n _
    cases fuel <;> simp [count_clusters, hd]
  | cons c d cs hv _ ih =>
    intro fuel n hf
    cases fuel with
    | zero => simp at hf
    | succ m =>
      unfold count_clusters
      rw [if_pos hv, ih hd m (n + 1) (by simpa using hf)]
      simp only [List.length_cons]
      congr 1
      omega

theorem find_last_cluster_path {fs : FileSystem} :
    ∀ (cs : List Nat) (c d : Nat), Path fs c (c :: cs) d → is_valid_cluster fs d = false →
      ∀ fuel, cs.length ≤ fuel →
        find_last_cluster fs fuel c = some ((c :: cs).getLast (List.cons_ne_nil _ _)) := by
  intro cs
  induction cs with
  | nil =>
    intro c d h hd fuel _
    cases h with
    | cons _ _ _ hv hp =>
      cases hp with
      | nil =>
        cases fuel <;> simp [find_last_cluster, hd]
  | cons x xs ih =>
    intro c d h hd fuel hf
    cases h with
    | cons _ _ _ hv hp =>
      have hx : get_fat_entry fs c = x := by
        cases hp with
        | cons _ _ _ _ _ => rfl
      have hvx : is_valid_cluster fs x = true := by
        cases hp with
        | cons _ _ _ hv' _ => exact hv'
      cases fuel with
      | zero => simp at hf
      | succ m =>
        unfold find_last_cluster
        rw [hx, if_pos hvx]
        rw [hx] at hp
        rw [ih x d hp hd m (by simpa using hf)]
        simp [List.getLast_cons]

theorem navigate_path {fs : FileSystem} (n : Nat) :
    ∀ {c d : Nat} {cs : List Nat}, Path fs c cs d → is_valid_cluster fs d = false →
      ∃ pre post, cs = pre ++ post ∧ Path fs (navigate fs n c) post d := by
  induction n with
  | zero =>
    intro c d cs h _
    exact ⟨[], cs, rfl, h⟩
  | succ m ih =>
    intro c d cs h hd
    cases h with
    | nil =>
      refine ⟨[], [], rfl, ?_⟩
      unfold navigate
      rw [hd]
      exact Path.nil _
    | cons _ _ cs' hv hp =>
      obtain ⟨pre, post, e, p⟩ := ih hp hd
      refine ⟨c :: pre, post, by rw [e]; rfl, ?_⟩
      unfold navigate
      rw [if_pos hv]
      exact p

/-- On a well-formed volume the position handed to `fseek` for offset `off` of a valid
cluster is the exact address. -/
theorem WellFormed.seek_eq {fs : FileSystem} (h : WellFormed fs) {c : Nat}
    (hv : is_valid_cluster fs c = true) {off : Nat} (ho : off ≤ bytes_per_cluster fs) :
    u32 (get_first_sector_of_cluster fs c * fs.boot_sector.BPB_BytsPerSec + off) =
      data_addr fs c + off := by
  rw [is_valid_cluster_iff, h.u32_total] at hv
  obtain ⟨h2, hc, _⟩ := hv
  have hend := h.data_end h2 hc
  have htl := h.total_lt
  have hB := h.bps_pos
  obtain ⟨hspc, _, _, _, _, _, hlt⟩ := h
  unfold get_first_sector_of_cluster u32sub
  unfold data_addr at *
  have e1 : (c % 4294967296 + 4294967296 - 2 % 4294967296) % 4294967296 = c - 2 := by omega
  rw [e1]
  generalize fs.boot_sector.BPB_BytsPerSec = B at *
  generalize fs.boot_sector.BPB_SecPerClus = S at *
  generalize fs.data_start_sector = d at *
  generalize bytes_per_cluster fs = bpc at *
  have h1 : d + (c - 2) * S ≤ (d + (c - 2) * S) * B := le_mul_of_pos' _ _ hB
  rw [u32_of_lt (show (c - 2) * S < 4294967296 by omega)]
  rw [u32_of_lt (show (c - 2) * S + d < 4294967296 by omega)]
  rw [Nat.add_comm ((c - 2) * S) d]
  exact u32_of_lt (by omega)

theorem WellFormed.bpc_lt {fs : FileSystem} (h : WellFormed fs) {c : Nat}
    (hv : is_valid_cluster fs c = true) : bytes_per_cluster fs < 4294967296 := by
  rw [is_valid_cluster_iff, h.u32_total] at hv
  have hend := h.data_end hv.1 hv.2.1
  have := h.2.2.2.2.2.2
  omega

theorem u32sub_of_le {a b : Nat} (ha : a < 4294967296) (hb : b ≤ a) : u32sub a b = a - b := by
  unfold u32sub; omega

/-- The data loop of `cmd_write` terminates when the chain from the current cluster ends,
and it only writes inside the data regions of that chain. -/
theorem write_data_frame (string : List Nat) (len : Nat) :
    ∀ (rest : List Nat) (fs : FileSystem) (cur d off w fuel : Nat),
      WellFormed fs → Path fs cur rest d → is_valid_cluster fs d = false →
      off < bytes_per_cluster fs → len + bytes_per_cluster fs < 4294967296 →
      rest.length ≤ fuel →
      ∃ fs2, write_data string len fuel fs cur off w = some fs2 ∧ Frame fs fs2 [] rest := by
  intro rest
  induction rest with
  | nil =>
    intro fs cur d off w fuel _ hp hd _ _ _
    cases hp with
    | nil =>
      refine ⟨fs, ?_, Frame.refl _ _ _⟩
      cases fuel <;> simp [write_data, hd]
  | cons x xs ih =>
    intro fs cur d off w fuel hw hp hd hoff hlen hf
    cases hp with
    | cons _ _ _ hv hp' =>
      cases fuel with
      | zero => simp at hf
      | succ m =>
        by_cases hcond : w < len
        · unfold write_data
          rw [if_pos ⟨hcond, hv⟩]
          simp only []
          have hbl := hw.bpc_lt hv
          have hsub : u32sub (bytes_per_cluster fs) off = bytes_per_cluster fs - off :=
            u32sub_of_le hbl (by omega)
          rw [hsub, hw.seek_eq hv (by omega)]
          have hw32 : u32 (w + (bytes_per_cluster fs - off)) =
              w + (bytes_per_cluster fs - off) := u32_of_lt (by omega)
          rw [hw32]
          generalize hbic : (if w + (bytes_per_cluster fs - off) > len then u32sub len w
            else bytes_per_cluster fs - off) = bic
          have hbic_le : bic ≤ bytes_per_cluster fs - off := by
            rw [← hbic]
            split
            · rw [u32sub_of_le (by omega) (by omega)]; omega
            · exact Nat.le_refl _
          have hfr : Frame fs (fwrite_at fs (data_addr fs x + off) ((string.drop w).take bic))
              [] [x] :=
            data_write_frame fs x off _ (by
              have := List.length_take_le bic (string.drop w)
              omega)
          have hcur : InFat fs x := inFat_of_valid fs x hw.2.2.2.2.2.1 hv
          have hg := hfr.get_fat_entry hw (fun _ h => by cases h) hcur (fun h => by cases h)
          rw [hg]
          have hw1 := hfr.1.wellFormed hw
          have hp1 : Path _ (get_fat_entry fs x) xs d :=
            hp'.frame hfr hw (fun _ h => by cases h) (fun _ _ h => by cases h)
          have hd1 := (hfr.1.valid d).trans hd
          have hpos : 0 < bytes_per_cluster fs := by omega
          obtain ⟨fs2, e, f2⟩ := ih _ (get_fat_entry fs x) d 0 (u32 (w + bic)) m hw1 hp1 hd1
            (by rw [hfr.1.bpc]; exact hpos) (by rw [hfr.1.bpc]; exact hlen)
            (by simpa using hf)
          exact ⟨fs2, e, (hfr.trans f2).mono (fun _ h => h) (fun _ h => by simpa using h)⟩
        · refine ⟨fs, ?_, Frame.refl _ _ _⟩
          unfold write_data
          rw [if_neg (fun h => hcond h.1)]


/-! ### Extending a chain -/

theorem Path.split_append {fs : FileSystem} :
    ∀ (pre : List Nat) {post : List Nat} {c d : Nat}, Path fs c (pre ++ post) d →
      ∃ m, Path fs c pre m ∧ Path fs m post d := by
  intro pre
  induction pre with
  | nil => intro post c d h; exact ⟨c, Path.nil c, h⟩
  | cons x xs ih =>
    intro post c d h
    cases h with
    | cons _ _ _ hv hp =>
      obtain ⟨m, p1, p2⟩ := ih hp
      exact ⟨m, Path.cons _ _ _ hv p1, p2⟩

theorem Path.head_eq {fs : FileSystem} {c d x : Nat} {cs : List Nat}
    (h : Path fs c (x :: cs) d) : c = x := by
  cases h with
  | cons _ _ _ _ _ => rfl

theorem Path.split_last {fs : FileSystem} {pre : List Nat} {last c d : Nat}
    (h : Path fs c (pre ++ [last]) d) :
    Path fs c pre last ∧ is_valid_cluster fs last = true ∧ get_fat_entry fs last = d := by
  obtain ⟨m, p1, p2⟩ := Path.split_append pre h
  have hm := p2.head_eq
  subst hm
  cases p2 with
  | cons _ _ _ hv hp =>
    cases hp with
    | nil => exact ⟨p1, hv, rfl⟩

theorem WellFormed.valid_of_lt {fs : FileSystem} (h : WellFormed fs)
    (hr : fs.total_clusters + 2 ≤ 0x0FFFFFF8) {c : Nat} (h2 : 2 ≤ c)
    (hc : c < fs.total_clusters + 2) : is_valid_cluster fs c = true := by
  rw [is_valid_cluster_iff, h.u32_total]
  exact ⟨h2, hc, by omega⟩

theorem WellFormed.lt_of_valid {fs : FileSystem} (h : WellFormed fs) {c : Nat}
    (hv : is_valid_cluster fs c = true) : 2 ≤ c ∧ c < fs.total_clusters + 2 ∧ c < 268435448 := by
  rw [is_valid_cluster_iff, h.u32_total] at hv
  exact hv

theorem land_mask_of_lt {v : Nat} (h : v < 268435456) : v &&& 0x0FFFFFFF = v := by
  rw [land_mask]; exact Nat.mod_eq_of_lt h

theorem eoc_not_valid (fs : FileSystem) : is_valid_cluster fs 0x0FFFFFFF = false := by
  unfold is_valid_cluster
  simp

/-- One round of the extension loop: a fresh cluster is claimed and linked after `last`. -/
theorem extend_step (fs : FileSystem) (hw : WellFormed fs)
    (hr : fs.total_clusters + 2 ≤ 0x0FFFFFF8) {first last d : Nat}
    {pre : List Nat} (hp : Path fs first (pre ++ [last]) d)
    (hd : is_valid_cluster fs d = false)
    (hnz : ∀ x ∈ pre ++ [last], get_fat_entry fs x ≠ 0) {new : Nat}
    (h2 : 2 ≤ new) (hlt : new < fs.total_clusters + 2) (hfree : get_fat_entry fs new = 0) :
    Path (set_fat_entry (claim_cluster fs new) last new) first ((pre ++ [last]) ++ [new])
        0x0FFFFFFF ∧
      Frame fs (set_fat_entry (claim_cluster fs new) last new) [last, new] [new] ∧
      (∀ x ∈ (pre ++ [last]) ++ [new],
        get_fat_entry (set_fat_entry (claim_cluster fs new) last new) x ≠ 0) ∧
      is_valid_cluster fs new = true ∧ new ∉ pre ++ [last] := by
  have hvnew := hw.valid_of_lt hr h2 hlt
  have hnew_notin : new ∉ pre ++ [last] := fun hm => hnz new hm hfree
  obtain ⟨p1, hvl, hlink⟩ := hp.split_last
  have hnodup := hp.nodup hd
  have hlast_notin : last ∉ pre := by
    intro hm
    have := List.nodup_append.1 hnodup
    exact this.2.2 hm (List.mem_singleton.2 rfl)
  have hinl : InFat fs last := inFat_of_valid fs last hw.2.2.2.2.2.1 hvl
  have hinn : InFat fs new := hw.inFat hlt
  have hne : last ≠ new := fun e => hnew_notin (by rw [← e]; simp)
  -- the two writes
  have fa := claim_cluster_frame fs hw h2 hlt
  have hwa : WellFormed (claim_cluster fs new) := fa.1.wellFormed hw
  have fb := set_fat_entry_frame (claim_cluster fs new) last new hwa.fatBelow
    ((fa.1.inFat_iff last).2 hinl)
  have hwb := fb.1.wellFormed hwa
  have fab : Frame fs (set_fat_entry (claim_cluster fs new) last new) [last, new] [new] :=
    (fa.trans fb).mono (fun x hx => by simp at hx ⊢; tauto) (fun x hx => by simpa using hx)
  have hnew28 : new < 268435456 := by have := (hw.lt_of_valid hvnew).2.2; omega
  have glast : get_fat_entry (set_fat_entry (claim_cluster fs new) last new) last = new := by
    rw [get_set_fat_entry_same _ last new hwa.fatBelow hwa.2.1 ((fa.1.inFat_iff last).2 hinl)]
    exact land_mask_of_lt hnew28
  have gnew : get_fat_entry (set_fat_entry (claim_cluster fs new) last new) new
      = 0x0FFFFFFF := by
    rw [get_set_fat_entry_other _ last new new hwa.fatBelow hwa.2.1
      ((fa.1.inFat_iff last).2 hinl) ((fa.1.inFat_iff new).2 hinn) (Ne.symm hne)]
    exact (claim_cluster_effect fs hw h2 hlt).1
  have hvalid := fab.1.valid
  refine ⟨?_, fab, ?_, hvnew, hnew_notin⟩
  · have q1 : Path (set_fat_entry (claim_cluster fs new) last new) first pre last :=
      p1.frame fab hw (fun x hx => by
          simp at hx
          rcases hx with e | e
          · rw [e]; exact hinl
          · rw [e]; exact hinn)
        (fun x hx hm => by
          simp at hm
          rcases hm with e | e
          · exact hlast_notin (e ▸ hx)
          · exact hnew_notin (by rw [← e]; simp [hx]))
    have q2 : Path (set_fat_entry (claim_cluster fs new) last new) last [last] new :=
      Path.cons _ _ _ (by rw [hvalid]; exact hvl) (by rw [glast]; exact Path.nil _)
    have q3 : Path (set_fat_entry (claim_cluster fs new) last new) new [new] 0x0FFFFFFF :=
      Path.cons _ _ _ (by rw [hvalid]; exact hvnew) (by rw [gnew]; exact Path.nil _)
    exact (q1.append q2).append q3
  · intro x hx
    rcases List.mem_append.1 hx with h1 | h1
    · by_cases hxl : x = last
      · rw [hxl, glast]; omega
      · have hxv := hp.valid_of_mem x h1
        rw [fab.get_fat_entry hw (fun y hy => by
            simp at hy
            rcases hy with e | e
            · rw [e]; exact hinl
            · rw [e]; exact hinn)
          (inFat_of_valid fs x hw.2.2.2.2.2.1 hxv) (by
            simp
            exact ⟨hxl, fun e => hnew_notin (e ▸ h1)⟩)]
        exact hnz x h1
    · rw [List.mem_singleton.1 h1, gnew]; decide

/-- The extension loop of `cmd_write`: when it succeeds, `n` fresh clusters have been
appended to the chain, and only their FAT entries and data regions and the FAT entry of
the old last cluster changed. -/
theorem extend_chain_spec (n : Nat) :
    ∀ (fs : FileSystem) (first last d : Nat) (pre : List Nat) (fs' : FileSystem),
      WellFormed fs → fs.total_clusters + 2 ≤ 0x0FFFFFF8 →
      Path fs first (pre ++ [last]) d → is_valid_cluster fs d = false →
      (∀ x ∈ pre ++ [last], get_fat_entry fs x ≠ 0) →
      extend_chain n fs last = (fs', true) →
      ∃ news dEnd, news.length = n ∧ Path fs' first ((pre ++ [last]) ++ news) dEnd ∧
        is_valid_cluster fs' dEnd = false ∧ Frame fs fs' (last :: news) news ∧
        (∀ x ∈ news, is_valid_cluster fs x = true ∧ get_fat_entry fs x = 0) ∧
        (news = [] → dEnd = d) ∧ (news ≠ [] → dEnd = 0x0FFFFFFF) := by
  induction n with
  | zero =>
    intro fs first last d pre fs' _ _ hp hd _ h
    unfold extend_chain at h
    cases h
    exact ⟨[], d, rfl, by simpa using hp, hd, Frame.refl _ _ _, (fun _ h => by cases h),
      (fun _ => rfl), (fun h => absurd rfl h)⟩
  | succ m ih =>
    intro fs first last d pre fs' hw hr hp hd hnz h
    unfold extend_chain at h
    simp only [] at h
    rcases allocate_cluster_cases fs with ⟨e1, _, _⟩ | ⟨h2, hlt, hfree, _, e⟩
    · rw [if_pos e1] at h
      cases h
    · rw [hw.u32_total] at hlt
      have hne0 : (allocate_cluster fs).1 ≠ 0 := by omega
      rw [if_neg hne0] at h
      obtain ⟨_, hvl, _⟩ := hp.split_last
      have hl0 : last ≠ 0 := by have := (hw.lt_of_valid hvl).1; omega
      rw [if_pos hl0, e] at h
      generalize (allocate_cluster fs).1 = new at *
      obtain ⟨q, fab, hnz', hvnew, hnotin⟩ :=
        extend_step fs hw hr hp hd hnz h2 (by omega) hfree
      have hwb := fab.1.wellFormed hw
      obtain ⟨news, dEnd, hlen, hpath, hdEnd, hfr, hfresh, hd1, hd2⟩ :=
        ih _ first new 0x0FFFFFFF (pre ++ [last]) fs' hwb
          (by rw [fab.1.2.2.2.2.2.2.2]; exact hr) q (eoc_not_valid _) hnz' h
      have hin : ∀ y ∈ [last, new], InFat fs y := by
        intro y hy
        simp at hy
        rcases hy with e' | e'
        · rw [e']; exact inFat_of_valid fs last hw.2.2.2.2.2.1 hvl
        · rw [e']; exact inFat_of_valid fs new hw.2.2.2.2.2.1 hvnew
      refine ⟨new :: news, dEnd, by simp [hlen], by simpa using hpath, hdEnd, ?_, ?_,
        (fun h => by cases h), (fun _ => ?_)⟩
      · exact (fab.trans hfr).mono (fun x hx => by simp at hx ⊢; tauto)
          (fun x hx => by simpa using hx)
      · intro x hx
        rcases List.mem_cons.1 hx with e' | e'
        · rw [e']; exact ⟨hvnew, hfree⟩
        · obtain ⟨v1, v2⟩ := hfresh x e'
          have hxv : is_valid_cluster fs x = true := by rw [← fab.1.valid]; exact v1
          refine ⟨hxv, ?_⟩
          have hxnot : x ∉ [last, new] := by
            intro hm
            have hmem : x ∈ (pre ++ [last]) ++ [new] := by
              simp at hm ⊢
              tauto
            exact hnz' x hmem v2
          rw [← fab.get_fat_entry hw hin (inFat_of_valid fs x hw.2.2.2.2.2.1 hxv) hxnot]
          exact v2
      · by_cases hn : news = []
        · exact hd1 hn
        · exact hd2 hn


/-! ### Enumeration of a directory -/

theorem enumerate_length_le (R : List DirEntry) : (enumerate R).length ≤ R.length := by
  unfold enumerate
  exact Nat.le_trans (List.length_filter_le _ _) (List.takeWhile_sublist _).length_le

/-- The slots `i, i+1, ..., i+n-1` read sequentially from position `pos`, when the entries
stored fit the array. -/
theorem read_directory_slots_eq (img : Image) (pos cap : Nat) :
    ∀ (n i : Nat) (acc : List DirEntry),
      (acc ++ enumerate ((List.range' i n).map (read_slot img pos))).length ≤ cap →
      read_directory_slots img pos cap n i acc =
        some (acc ++ enumerate ((List.range' i n).map (read_slot img pos)),
          ((List.range' i n).map (read_slot img pos)).any fun e => decide (e.DIR_Name0 = 0)) := by
  intro n
  induction n with
  | zero => intro i acc _; simp [read_directory_slots, enumerate]
  | succ m ih =>
    intro i acc hcap
    unfold read_directory_slots
    simp only [List.range'_succ, List.map_cons, List.any_cons] at hcap ⊢
    by_cases h0 : (read_slot img pos i).DIR_Name0 = 0
    · simp [h0, enumerate]
    · by_cases h1 : (read_slot img pos i).DIR_Name0 = 0xE5
      · have e : enumerate (read_slot img pos i ::
            (List.range' (i + 1) m).map (read_slot img pos)) =
            enumerate ((List.range' (i + 1) m).map (read_slot img pos)) := by
          simp [enumerate, List.takeWhile_cons, h0, h1, live_slot, List.filter_cons]
        rw [e] at hcap ⊢
        simp only [h0, h1, if_false, if_true]
        rw [ih _ _ hcap]
        simp [h0]
      · by_cases h2 : (read_slot img pos i).DIR_Attr = ATTR_LONG_NAME
        · have e : enumerate (read_slot img pos i ::
              (List.range' (i + 1) m).map (read_slot img pos)) =
              enumerate ((List.range' (i + 1) m).map (read_slot img pos)) := by
            simp [enumerate, List.takeWhile_cons, h0, h1, h2, live_slot, List.filter_cons]
          rw [e] at hcap ⊢
          simp only [h0, h1, h2, if_false, if_true]
          rw [ih _ _ hcap]
          simp [h0]
        · have e : enumerate (read_slot img pos i ::
              (List.range' (i + 1) m).map (read_slot img pos)) =
              read_slot img pos i ::
                enumerate ((List.range' (i + 1) m).map (read_slot img pos)) := by
            simp [enumerate, List.takeWhile_cons, h0, h1, h2, live_slot, List.filter_cons]
          rw [e] at hcap ⊢
          have hlen : acc.length < cap := by
            simp only [List.length_append, List.length_cons] at hcap
            omega
          simp only [h0, h1, h2, if_false]
          rw [if_pos hlen, ih _ _ (by simpa using hcap)]
          simp [h0]

theorem enumerate_append_of_zero (a b : List DirEntry)
    (h : a.any (fun e => decide (e.DIR_Name0 = 0)) = true) :
    enumerate (a ++ b) = enumerate a := by
  induction a with
  | nil => simp at h
  | cons x xs ih =>
    unfold enumerate
    by_cases h0 : x.DIR_Name0 = 0
    · simp [List.takeWhile_cons, h0]
    · have hx : xs.any (fun e => decide (e.DIR_Name0 = 0)) = true := by
        simpa [h0] using h
      have := ih hx
      unfold enumerate at this
      have hdec : decide (x.DIR_Name0 ≠ 0) = true := by simp [h0]
      simp only [List.cons_append, List.takeWhile_cons, hdec, if_true, List.filter_cons]
      rw [this]

theorem enumerate_append_of_no_zero (a b : List DirEntry)
    (h : a.any (fun e => decide (e.DIR_Name0 = 0)) = false) :
    enumerate (a ++ b) = a.filter live_slot ++ enumerate b := by
  induction a with
  | nil => simp
  | cons x xs ih =>
    have h0 : ¬ x.DIR_Name0 = 0 := by
      intro e; simp [e] at h
    have hx : xs.any (fun e => decide (e.DIR_Name0 = 0)) = false := by
      simpa [h0] using h
    have := ih hx
    unfold enumerate at this ⊢
    have hdec : decide (x.DIR_Name0 ≠ 0) = true := by simp [h0]
    simp only [List.cons_append, List.takeWhile_cons, hdec, if_true, List.filter_cons]
    rw [this]
    split <;> simp

theorem enumerate_of_no_zero (a : List DirEntry)
    (h : a.any (fun e => decide (e.DIR_Name0 = 0)) = false) :
    enumerate a = a.filter live_slot := by
  have := enumerate_append_of_no_zero a [] h
  simpa [enumerate] using this

theorem cluster_slots_eq (fs : FileSystem) (hw : WellFormed fs) {c : Nat}
    (hv : is_valid_cluster fs c = true) :
    (List.range' 0 (max_entries fs)).map (read_slot fs.image (cluster_pos fs c)) =
      cluster_slots fs c := by
  have h := hw.lt_of_valid hv
  rw [hw.cluster_pos_eq h.1 h.2.1]
  unfold cluster_slots
  rw [List.range_eq_range']

/-- On a well-formed directory chain whose enumeration fits the array, the loop of
`read_directory` returns the enumeration of the raw slots of the chain. -/
theorem read_directory_loop_path {fs : FileSystem} (hw : WellFormed fs) {c d : Nat}
    {cs : List Nat} (h : Path fs c cs d) (hd : is_valid_cluster fs d = false) :
    ∀ (fuel : Nat) (acc : List DirEntry), cs.length ≤ fuel →
      (acc ++ enumerate (cs.flatMap (cluster_slots fs))).length ≤ read_directory_capacity fs →
      read_directory_loop fs fuel c acc =
        some (acc ++ enumerate (cs.flatMap (cluster_slots fs))) := by
  induction h with
  | nil c =>
    intro fuel acc _ _
    cases fuel <;> simp [read_directory_loop, hd, enumerate]
  | cons c d cs hv _ ih =>
    intro fuel acc hf hcap
    cases fuel with
    | zero => simp at hf
    | succ m =>
      unfold read_directory_loop
      rw [if_pos hv]
      simp only [List.flatMap_cons] at hcap ⊢
      cases hz : (cluster_slots fs c).any fun e => decide (e.DIR_Name0 = 0) with
      | true =>
        rw [enumerate_append_of_zero _ _ hz] at hcap ⊢
        rw [read_directory_slots_eq _ _ _ _ _ _ (by rw [cluster_slots_eq fs hw hv]; exact hcap),
          cluster_slots_eq fs hw hv, Option.some_bind]
        simp only [hz, if_true]
      | false =>
        rw [enumerate_append_of_no_zero _ _ hz] at hcap ⊢
        have hcap1 : (acc ++ enumerate (cluster_slots fs c)).length ≤
            read_directory_capacity fs := by
          rw [enumerate_of_no_zero _ hz]
          simp only [List.length_append] at hcap ⊢
          omega
        rw [read_directory_slots_eq _ _ _ _ _ _
            (by rw [cluster_slots_eq fs hw hv]; exact hcap1),
          cluster_slots_eq fs hw hv, Option.some_bind]
        simp only [hz, Bool.false_eq_true, if_false]
        rw [ih hd m _ (by simpa using hf)
          (by rw [enumerate_of_no_zero _ hz, List.append_assoc]; exact hcap),
          enumerate_of_no_zero _ hz, List.append_assoc]

/-- On a well-formed directory chain whose enumeration fits the array, `read_directory`
returns the enumeration of the raw slots of the chain. -/
theorem read_directory_fit {fs : FileSystem} (hw : WellFormed fs) {c d : Nat}
    {cs : List Nat} (h : Path fs c cs d) (hd : is_valid_cluster fs d = false)
    (fuel : Nat) (hf : cs.length ≤ fuel)
    (hcap : (enumerate (cs.flatMap (cluster_slots fs))).length ≤ read_directory_capacity fs) :
    read_directory fs c fuel = some (enumerate (cs.flatMap (cluster_slots fs))) := by
  unfold read_directory
  rw [read_directory_loop_path hw h hd fuel [] hf (by simpa using hcap)]
  rfl

/-- The enumeration of a chain of at most 16 clusters fits the array of `read_directory`. -/
theorem enumerate_fits (fs : FileSystem) (cs : List Nat) (h16 : cs.length ≤ 16) :
    (enumerate (cs.flatMap (cluster_slots fs))).length ≤ read_directory_capacity fs := by
  refine Nat.le_trans (enumerate_length_le _) ?_
  have hl : (cs.flatMap (cluster_slots fs)).length = cs.length * max_entries fs := by
    induction cs with
    | nil => simp
    | cons x xs ih =>
      have hx : (cluster_slots fs x).length = max_entries fs := by
        unfold cluster_slots
        simp
      simp only [List.flatMap_cons, List.length_append, List.length_cons] at ih ⊢
      rw [hx, ih (by simp only [List.length_cons] at h16; omega)]
      ring
  rw [hl]
  unfold read_directory_capacity
  rw [Nat.mul_comm]
  exact Nat.mul_le_mul_left _ h16

/-- On a well-formed directory chain of at most 16 clusters `read_directory` returns the
enumeration of the raw slots of the chain. -/
theorem read_directory_path {fs : FileSystem} (hw : WellFormed fs) {c d : Nat}
    {cs : List Nat} (h : Path fs c cs d) (hd : is_valid_cluster fs d = false)
    (fuel : Nat) (hf : cs.length ≤ fuel) (h16 : cs.length ≤ 16) :
    read_directory fs c fuel = some (enumerate (cs.flatMap (cluster_slots fs))) :=
  read_directory_fit hw h hd fuel hf (enumerate_fits fs cs h16)


/-! ### Searching an enumeration, and rewriting one raw slot -/

theorem first_match_some (fmt : List Nat) :
    ∀ (l : List DirEntry) (i k : Nat) (e : DirEntry), first_match fmt l i = some (k, e) →
      ∃ A B, l = A ++ e :: B ∧ k = i + A.length ∧ e.DIR_Name = fmt ∧
        ∀ a ∈ A, a.DIR_Name ≠ fmt := by
  intro l
  induction l with
  | nil => intro i k e h; simp [first_match] at h
  | cons x xs ih =>
    intro i k e h
    unfold first_match at h
    by_cases hx : x.DIR_Name = fmt
    · rw [if_pos hx] at h
      cases h
      exact ⟨[], xs, rfl, rfl, hx, fun _ h => by cases h⟩
    · rw [if_neg hx] at h
      obtain ⟨A, B, e1, e2, e3, e4⟩ := ih _ _ _ h
      refine ⟨x :: A, B, by rw [e1]; rfl, by simp; omega, e3, ?_⟩
      intro a ha
      rcases List.mem_cons.1 ha with h1 | h1
      · rw [h1]; exact hx
      · exact e4 a h1

theorem first_match_append (fmt : List Nat) (e : DirEntry) (B : List DirEntry)
    (he : e.DIR_Name = fmt) :
    ∀ (A : List DirEntry) (i : Nat), (∀ a ∈ A, a.DIR_Name ≠ fmt) →
      first_match fmt (A ++ e :: B) i = some (i + A.length, e) := by
  intro A
  induction A with
  | nil => intro i _; simp [first_match, he]
  | cons x xs ih =>
    intro i h
    have hx := h x (List.mem_cons_self _ _)
    show first_match fmt (x :: (xs ++ e :: B)) i = _
    unfold first_match
    rw [if_neg hx, ih (i + 1) (fun a ha => h a (List.mem_cons_of_mem _ ha))]
    simp only [List.length_cons]
    congr 2
    omega

theorem takeWhile_set {α : Type} (p : α → Bool) (a : α) (ha : p a = true) :
    ∀ (l : List α) (i : Nat), i < (l.takeWhile p).length →
      (l.set i a).takeWhile p = (l.takeWhile p).set i a := by
  intro l
  induction l with
  | nil => intro i h; simp at h
  | cons x xs ih =>
    intro i h
    by_cases hx : p x = true
    · cases i with
      | zero => simp [List.takeWhile_cons, hx, ha]
      | succ j =>
        simp only [List.takeWhile_cons, hx, if_true, List.length_cons] at h
        simp only [List.set_cons_succ, List.takeWhile_cons, hx, if_true]
        rw [ih j (by omega)]
    · simp [List.takeWhile_cons, hx] at h

theorem set_eq_take_cons_drop {α : Type} (a : α) :
    ∀ (l : List α) (i : Nat), i < l.length → l.set i a = l.take i ++ a :: l.drop (i + 1) := by
  intro l
  induction l with
  | nil => intro i h; simp at h
  | cons x xs ih =>
    intro i h
    cases i with
    | zero => simp
    | succ j =>
      simp only [List.set_cons_succ, List.take_succ_cons, List.drop_succ_cons,
        List.cons_append]
      rw [ih j (by simpa using h)]

/-- Rewriting the raw slot whose index is the enumeration index of the first match with an
entry of the same name that is still live: the name is found again, at the rewritten
slot. -/
theorem enumerate_set_first_match (R : List DirEntry) (fmt : List Nat) (idx : Nat)
    (e e' : DirEntry) (h : first_match fmt (enumerate R) 0 = some (idx, e))
    (hn : e'.DIR_Name0 ≠ 0) (hl : live_slot e' = true) (hname : e'.DIR_Name = fmt) :
    idx < R.length ∧ ∃ k, first_match fmt (enumerate (R.set idx e')) 0 = some (k, e') := by
  obtain ⟨A0, B0, e1, e2, _, e4⟩ := first_match_some fmt _ _ _ _ h
  have hidx : idx = A0.length := by omega
  unfold enumerate at e1
  generalize hT : R.takeWhile (fun e => decide (e.DIR_Name0 ≠ 0)) = T at e1
  have hlen1 : idx < (T.filter live_slot).length := by
    rw [e1, hidx]; simp
  have hlen2 : (T.filter live_slot).length ≤ T.length := List.length_filter_le _ _
  have hlen3 : T.length ≤ R.length := by
    rw [← hT]; exact (List.takeWhile_prefix _).length_le
  refine ⟨by omega, ?_⟩
  unfold enumerate
  rw [takeWhile_set _ e' (by simpa using hn) R idx (by rw [hT]; omega), hT,
    set_eq_take_cons_drop e' T idx (by omega), List.filter_append, List.filter_cons, hl]
  simp only [if_true]
  refine ⟨_, first_match_append fmt e' _ hname _ 0 ?_⟩
  intro a ha
  have hsplit : T.filter live_slot =
      (T.take idx).filter live_slot ++ (T.drop idx).filter live_slot := by
    rw [← List.filter_append, List.take_append_drop]
  have hle : ((T.take idx).filter live_slot).length ≤ A0.length := by
    have h1 := List.length_filter_le live_slot (T.take idx)
    have h2 := List.length_take_le idx T
    omega
  rw [e1] at hsplit
  rcases List.append_eq_append_iff.1 hsplit with ⟨a', h1, _⟩ | ⟨c', h1, _⟩
  · have hl2 := congrArg List.length h1
    simp at hl2
    have hc : a' = [] := List.eq_nil_of_length_eq_zero (by omega)
    rw [hc, List.append_nil] at h1
    rw [h1] at ha
    exact e4 a ha
  · exact e4 a (by rw [h1]; exact List.mem_append_left _ ha)

/-! ### Locating a slot of a directory chain -/

theorem write_directory_entry_walk_path {fs : FileSystem} (hE : 0 < max_entries fs) :
    ∀ (cs : List Nat) (c d idx fuel : Nat), Path fs c cs d →
      idx < cs.length * max_entries fs → cs.length ≤ fuel →
      ∃ x, cs.get? (idx / max_entries fs) = some x ∧
        write_directory_entry_walk fs fuel c idx = some (some (x, idx % max_entries fs)) := by
  intro cs
  induction cs with
  | nil => intro c d idx fuel _ h _; simp at h
  | cons y ys ih =>
    intro c d idx fuel hp hidx hf
    have hc := hp.head_eq
    subst hc
    cases hp with
    | cons _ _ _ hv hp' =>
      by_cases hlt : idx < max_entries fs
      · refine ⟨c, ?_, ?_⟩
        · rw [Nat.div_eq_of_lt hlt]; rfl
        · rw [Nat.mod_eq_of_lt hlt]
          cases fuel <;> simp [write_directory_entry_walk, hlt]
      · have hge : idx ≥ max_entries fs := by omega
        cases fuel with
        | zero => simp at hf
        | succ m =>
          have hys : idx - max_entries fs < ys.length * max_entries fs := by
            simp only [List.length_cons] at hidx
            have : (ys.length + 1) * max_entries fs =
                ys.length * max_entries fs + max_entries fs := by ring
            omega
          have hne : ys ≠ [] := by
            intro e; rw [e] at hys; simp at hys
          have hvn : is_valid_cluster fs (get_fat_entry fs c) = true := by
            cases hp' with
            | nil => exact absurd rfl hne
            | cons _ _ _ hv' _ => exact hv'
          obtain ⟨x, hx1, hx2⟩ := ih _ d (idx - max_entries fs) m hp' hys (by simpa using hf)
          refine ⟨x, ?_, ?_⟩
          · have hdiv : idx / max_entries fs = (idx - max_entries fs) / max_entries fs + 1 := by
              rw [← Nat.sub_add_cancel hge, Nat.add_div_right _ hE]
              simp
            rw [hdiv]
            simpa using hx1
          · unfold write_directory_entry_walk
            rw [if_pos hge, if_pos hvn, hx2]
            have hmod : idx % max_entries fs = (idx - max_entries fs) % max_entries fs := by
              conv_lhs => rw [← Nat.sub_add_cancel hge]
              exact Nat.add_mod_right _ _
            rw [hmod]


/-! ### Rewriting a slot in the image -/

@[simp] theorem read_bytes_length (img : Image) (p n : Nat) : (read_bytes img p n).length = n := by
  simp [read_bytes]

theorem read_bytes_congr (img img' : Image) (q n : Nat)
    (h : ∀ j, j < n → img' (q + j) = img (q + j)) : read_bytes img' q n = read_bytes img q n := by
  unfold read_bytes
  apply List.map_congr_left
  intro j hj
  exact h j (List.mem_range.1 hj)

theorem read_bytes_write_same (img : Image) (p : Nat) (d : List Nat) :
    read_bytes (write_bytes img p d) p d.length = d := by
  apply List.ext_getElem
  · simp
  · intro i h1 h2
    simp only [read_bytes, List.getElem_map, List.getElem_range]
    rw [write_bytes_inside _ _ _ _ (by omega) (by omega)]
    simp [List.getD_eq_getElem?_getD, h2]

theorem read_bytes_write_disjoint (img : Image) (p : Nat) (d : List Nat) (q n : Nat)
    (h : q + n ≤ p ∨ p + d.length ≤ q) :
    read_bytes (write_bytes img p d) q n = read_bytes img q n := by
  apply read_bytes_congr
  intro j hj
  exact write_bytes_outside _ _ _ _ (by omega)

theorem read_slot_write (img : Image) (base r i : Nat) (e : DirEntry) (he : e.length = 32) :
    read_slot (write_bytes img (base + 32 * r) e) base i =
      if i = r then e else read_slot img base i := by
  unfold read_slot DIR_ENTRY_SIZE
  by_cases h : i = r
  · rw [if_pos h, h]
    have := read_bytes_write_same img (base + 32 * r) e
    rw [he] at this
    exact this
  · rw [if_neg h]
    exact read_bytes_write_disjoint _ _ _ _ _ (by rw [he]; omega)

theorem cluster_slots_length (fs : FileSystem) (c : Nat) :
    (cluster_slots fs c).length = max_entries fs := by
  simp [cluster_slots]

theorem max_entries_bound (fs : FileSystem) {r : Nat} (h : r < max_entries fs) :
    32 * r + 32 ≤ bytes_per_cluster fs := by
  unfold max_entries DIR_ENTRY_SIZE at h
  omega

/-- The slots of a cluster whose data region is outside the frame are unchanged. -/
theorem Frame.cluster_slots {fs fs' : FileSystem} {F S : List Nat} (h : Frame fs fs' F S)
    (hw : WellFormed fs) (hF : ∀ x ∈ F, InFat fs x) (hS : ∀ x ∈ S, 2 ≤ x) {c : Nat}
    (h2 : 2 ≤ c) (hn : c ∉ S) : cluster_slots fs' c = cluster_slots fs c := by
  unfold Fat32.cluster_slots
  rw [h.1.max_entries, h.1.data_addr]
  apply List.map_congr_left
  intro i hi
  have hi' := max_entries_bound fs (List.mem_range.1 hi)
  unfold read_slot DIR_ENTRY_SIZE
  apply read_bytes_congr
  intro j hj
  have := h.data hw hF hS h2 hn (j := 32 * i + j) (by omega)
  rw [Nat.add_assoc]
  exact this

theorem cluster_slots_fwrite (fs : FileSystem) (x r : Nat) (e : DirEntry)
    (he : e.length = 32) :
    cluster_slots (fwrite_at fs (data_addr fs x + 32 * r) e) x =
      (cluster_slots fs x).set r e := by
  apply List.ext_getElem
  · simp [cluster_slots_length]
    rfl
  · intro i h1 h2
    have hi : i < max_entries fs := by
      rw [cluster_slots_length] at h1; exact h1
    simp only [cluster_slots, List.getElem_map, List.getElem_range, List.getElem_set]
    show read_slot (write_bytes fs.image (data_addr fs x + 32 * r) e) (data_addr fs x) i = _
    rw [read_slot_write _ _ _ _ _ he]
    by_cases h : i = r
    · rw [if_pos h, if_pos h.symm]
    · rw [if_neg h, if_neg (Ne.symm h)]

theorem flatMap_set {α : Type} (f g : Nat → List α) (E r : Nat) (a : α) (x : Nat)
    (hr : r < E) (hgx : g x = (f x).set r a) :
    ∀ (cs : List Nat) (q : Nat), cs.get? q = some x → cs.Nodup →
      (∀ y ∈ cs, (f y).length = E) → (∀ y ∈ cs, y ≠ x → g y = f y) →
      cs.flatMap g = (cs.flatMap f).set (q * E + r) a := by
  intro cs
  induction cs with
  | nil => intro q h; simp at h
  | cons y ys ih =>
    intro q hq hnd hlen hg
    obtain ⟨hy, hnd'⟩ := List.nodup_cons.1 hnd
    cases q with
    | zero =>
      simp at hq
      subst hq
      simp only [List.flatMap_cons, Nat.zero_mul, Nat.zero_add]
      have hl := hlen y (List.mem_cons_self _ _)
      rw [List.set_append_left _ _ (by omega), hgx]
      congr 1
      apply List.flatMap_congr
      intro z hz
      exact hg z (List.mem_cons_of_mem _ hz) (fun e => hy (e ▸ hz))
    | succ p =>
      simp at hq
      have hyx : y ≠ x := by
        intro e
        subst e
        exact hy (List.getElem?_mem hq)
      simp only [List.flatMap_cons]
      have hl := hlen y (List.mem_cons_self _ _)
      rw [hg y (List.mem_cons_self _ _) hyx]
      have hidx : (p + 1) * E + r = (f y).length + (p * E + r) := by
        rw [hl]; ring
      rw [hidx, List.set_append_right _ _ (by omega)]
      congr 1
      rw [Nat.add_sub_cancel_left]
      exact ih p (by simpa using hq) hnd' (fun z hz => hlen z (List.mem_cons_of_mem _ hz))
        (fun z hz => hg z (List.mem_cons_of_mem _ hz))

theorem dir_slots_length (fs : FileSystem) (cs : List Nat) :
    (cs.flatMap (cluster_slots fs)).length = cs.length * max_entries fs := by
  induction cs with
  | nil => simp
  | cons x xs ih =>
    simp only [List.flatMap_cons, List.length_append, List.length_cons, ih,
      cluster_slots_length]
    ring

/-- The directory update of `cmd_write` (and of `cmd_mv`): the entry is written at the raw
slot `idx`, only the directory clusters change, and the name is found again with the new
entry. -/
theorem dir_update (fs : FileSystem) (hw : WellFormed fs) {cwd d : Nat} {dcs : List Nat}
    (hp : Path fs cwd dcs d) (hd : is_valid_cluster fs d = false) (fmt : List Nat)
    (idx : Nat) (e e' : DirEntry) (fuel : Nat) (hf : dcs.length ≤ fuel)
    (h16 : dcs.length ≤ 16)
    (hfm : first_match fmt (enumerate (dcs.flatMap (cluster_slots fs))) 0 = some (idx, e))
    (hlen : e'.length = 32) (hn : e'.DIR_Name0 ≠ 0) (hl : live_slot e' = true)
    (hname : e'.DIR_Name = fmt) :
    ∃ fs', write_directory_entry fs cwd e' idx fuel = some fs' ∧ Frame fs fs' [] dcs ∧
      ∃ k, (read_directory fs' cwd fuel).map (fun es => first_match fmt es 0) =
        some (some (k, e')) := by
  obtain ⟨hidx, k, hk⟩ := enumerate_set_first_match _ fmt idx e e' hfm hn hl hname
  have hRlen := dir_slots_length fs dcs
  rw [hRlen] at hidx
  have hE : 0 < max_entries fs := by
    rcases Nat.eq_zero_or_pos (max_entries fs) with h0 | h0
    · rw [h0] at hidx; simp at hidx
    · exact h0
  obtain ⟨x, hx, hwalk⟩ := write_directory_entry_walk_path hE dcs cwd d idx fuel hp hidx hf
  have hxmem : x ∈ dcs := List.get?_mem hx
  have hxv := hp.valid_of_mem x hxmem
  have hr : idx % max_entries fs < max_entries fs := Nat.mod_lt _ hE
  have hrb := max_entries_bound fs hr
  have hpos : u32 (get_first_sector_of_cluster fs x * fs.boot_sector.BPB_BytsPerSec +
      idx % max_entries fs * DIR_ENTRY_SIZE) = data_addr fs x + 32 * (idx % max_entries fs) := by
    have : idx % max_entries fs * DIR_ENTRY_SIZE = 32 * (idx % max_entries fs) := by
      unfold DIR_ENTRY_SIZE; ring
    rw [this]
    exact hw.seek_eq hxv (by omega)
  have hfr : Frame fs (fwrite_at fs (data_addr fs x + 32 * (idx % max_entries fs)) e') [] [x] :=
    data_write_frame fs x _ e' (by rw [hlen]; omega)
  refine ⟨fwrite_at fs (data_addr fs x + 32 * (idx % max_entries fs)) e', ?_, ?_, k, ?_⟩
  · unfold write_directory_entry
    rw [hwalk]
    simp only [Option.map_some']
    rw [hpos]
  · exact hfr.mono (fun _ h => h) (fun y hy => by rw [List.mem_singleton.1 hy]; exact hxmem)
  · have hw' := hfr.1.wellFormed hw
    have hp' : Path (fwrite_at fs (data_addr fs x + 32 * (idx % max_entries fs)) e') cwd dcs d :=
      hp.frame hfr hw (fun _ h => by cases h) (fun _ _ h => by cases h)
    rw [read_directory_path hw' hp' ((hfr.1.valid d).trans hd) fuel hf h16]
    simp only [Option.map_some']
    have hset : dcs.flatMap (cluster_slots
        (fwrite_at fs (data_addr fs x + 32 * (idx % max_entries fs)) e')) =
        (dcs.flatMap (cluster_slots fs)).set idx e' := by
      have := flatMap_set (cluster_slots fs)
        (cluster_slots (fwrite_at fs (data_addr fs x + 32 * (idx % max_entries fs)) e'))
        (max_entries fs) (idx % max_entries fs) e' x hr
        (cluster_slots_fwrite fs x _ e' hlen) dcs (idx / max_entries fs) hx
        (hp.nodup hd) (fun y _ => cluster_slots_length fs y)
        (fun y hy hne => hfr.cluster_slots hw (fun _ h => by cases h)
          (fun z hz => by
            rw [List.mem_singleton.1 hz]; exact (hw.lt_of_valid hxv).1)
          (hw.lt_of_valid (hp.valid_of_mem y hy)).1
          (fun h => hne (List.mem_singleton.1 h)))
      rw [this, Nat.div_add_mod']
    rw [hset, hk]


/-! ### Fields of a rewritten entry -/

theorem first_cluster_split (fc : Nat) (h : fc < 4294967296) :
    (((fc >>> 16) &&& 0xFFFF) <<< 16) ||| (fc &&& 0xFFFF) = fc := by
  have e1 : fc &&& 0xFFFF = fc % 65536 := Nat.and_pow_two_sub_one_eq_mod fc 16
  have e2 : (fc >>> 16) &&& 0xFFFF = (fc >>> 16) % 65536 :=
    Nat.and_pow_two_sub_one_eq_mod (fc >>> 16) 16
  rw [e1, e2, Nat.shiftRight_eq_div_pow, Nat.shiftLeft_eq, Nat.mul_comm]
  have : fc % 65536 < 2 ^ 16 := by omega
  rw [← Nat.mul_add_lt_is_or this]
  omega

theorem and_ffff_lt (v : Nat) : v &&& 0xFFFF < 65536 := by
  have : v &&& 0xFFFF = v % 65536 := Nat.and_pow_two_sub_one_eq_mod v 16
  omega

/-- The entry `cmd_write` writes back: size and first cluster replaced. -/
theorem updated_entry_fields (e : DirEntry) (he : e.length = 32) (size hi lo : Nat)
    (hs : size < 4294967296) (hhi : hi < 65536) (hlo : lo < 65536) :
    (DirEntry.set_DIR_FstClusLO (DirEntry.set_DIR_FstClusHI
        (DirEntry.set_DIR_FileSize e size) hi) lo).length = 32 ∧
      (DirEntry.set_DIR_FstClusLO (DirEntry.set_DIR_FstClusHI
        (DirEntry.set_DIR_FileSize e size) hi) lo).DIR_Name = e.DIR_Name ∧
      (DirEntry.set_DIR_FstClusLO (DirEntry.set_DIR_FstClusHI
        (DirEntry.set_DIR_FileSize e size) hi) lo).DIR_Name0 = e.DIR_Name0 ∧
      (DirEntry.set_DIR_FstClusLO (DirEntry.set_DIR_FstClusHI
        (DirEntry.set_DIR_FileSize e size) hi) lo).DIR_Attr = e.DIR_Attr ∧
      (DirEntry.set_DIR_FstClusLO (DirEntry.set_DIR_FstClusHI
        (DirEntry.set_DIR_FileSize e size) hi) lo).DIR_FileSize = size ∧
      (DirEntry.set_DIR_FstClusLO (DirEntry.set_DIR_FstClusHI
        (DirEntry.set_DIR_FileSize e size) hi) lo).DIR_FstClusHI = hi ∧
      (DirEntry.set_DIR_FstClusLO (DirEntry.set_DIR_FstClusHI
        (DirEntry.set_DIR_FileSize e size) hi) lo).DIR_FstClusLO = lo := by
  match e, he with
  | [b0, b1, b2, b3, b4, b5, b6, b7, b8, b9, b10, b11, b12, b13, b14, b15, b16, b17, b18, b19,
      b20, b21, b22, b23, b24, b25, b26, b27, b28, b29, b30, b31], _ =>
    simp only [DirEntry.set_DIR_FstClusLO, DirEntry.set_DIR_FstClusHI,
      DirEntry.set_DIR_FileSize, DirEntry.DIR_Name, DirEntry.DIR_Name0, DirEntry.DIR_Attr,
      DirEntry.DIR_FileSize, DirEntry.DIR_FstClusHI, DirEntry.DIR_FstClusLO, List.set,
      List.getD, List.length, List.take, List.get?, Option.getD]
    refine ⟨?_, ?_, ?_, ?_, ?_, ?_, ?_⟩ <;> first | trivial | rfl | omega

theorem live_slot_congr (e e' : DirEntry) (h0 : e'.DIR_Name0 = e.DIR_Name0)
    (ha : e'.DIR_Attr = e.DIR_Attr) : live_slot e' = live_slot e := by
  unfold live_slot
  rw [h0, ha]

/-- Every enumerated entry is a raw slot that is neither a terminator nor skipped. -/
theorem mem_enumerate {R : List DirEntry} {e : DirEntry} (h : e ∈ enumerate R) :
    e ∈ R ∧ e.DIR_Name0 ≠ 0 ∧ live_slot e = true := by
  unfold enumerate at h
  obtain ⟨h1, h2⟩ := List.mem_filter.1 h
  refine ⟨(List.takeWhile_sublist _).subset h1, ?_, h2⟩
  have := List.mem_takeWhile_imp h1
  simpa using this

theorem mem_dir_slots_length {fs : FileSystem} {cs : List Nat} {e : DirEntry}
    (h : e ∈ cs.flatMap (cluster_slots fs)) : e.length = 32 := by
  obtain ⟨c, _, hc⟩ := List.mem_flatMap.1 h
  unfold cluster_slots at hc
  obtain ⟨i, _, hi⟩ := List.mem_map.1 hc
  rw [← hi]
  simp [read_slot, DIR_ENTRY_SIZE]

/-! ### The open-file table -/

theorem find_open_file_from_set (fmt : List Nat) (f' : OpenFile) (ho : f'.is_open = true)
    (hn : format_filename f'.filename = fmt) :
    ∀ (l : List OpenFile) (j i : Nat) (f : OpenFile),
      find_open_file_from fmt l j = some (i, f) →
        j ≤ i ∧ i - j < l.length ∧
          find_open_file_from fmt (l.set (i - j) f') j = some (i, f') := by
  intro l
  induction l with
  | nil => intro j i f h; simp [find_open_file_from] at h
  | cons x xs ih =>
    intro j i f h
    unfold find_open_file_from at h
    by_cases hx : x.is_open = true ∧ format_filename x.filename = fmt
    · rw [if_pos hx] at h
      cases h
      refine ⟨Nat.le_refl _, by simp, ?_⟩
      simp only [Nat.sub_self, List.set_cons_zero]
      unfold find_open_file_from
      rw [if_pos ⟨ho, hn⟩]
    · rw [if_neg hx] at h
      obtain ⟨h1, h2, h3⟩ := ih _ _ _ h
      refine ⟨by omega, by simp; omega, ?_⟩
      have : i - j = (i - (j + 1)) + 1 := by omega
      rw [this, List.set_cons_succ]
      unfold find_open_file_from
      rw [if_neg hx]
      exact h3

theorem find_open_file_set_handle (fs : FileSystem) (filename : List Nat) (i : Nat)
    (file file' : OpenFile) (o : Nat) (h : find_open_file fs filename = some (i, file))
    (ho : file'.is_open = true)
    (hn : format_filename file'.filename = format_filename filename) :
    find_open_file (set_handle_offset fs i file' o) filename =
      some (i, { file' with offset := o }) := by
  unfold find_open_file at h ⊢
  obtain ⟨_, h2, h3⟩ := find_open_file_from_set (format_filename filename)
    { file' with offset := o } ho hn _ _ _ _ h
  simp only [Nat.sub_zero] at h2 h3
  have hi : i < MAX_OPEN_FILES := by
    have := List.length_take_le MAX_OPEN_FILES fs.open_files
    omega
  show find_open_file_from _ ((fs.open_files.set i _).take MAX_OPEN_FILES) 0 = _
  rw [List.set_take]
  exact h3

theorem find_open_file_from_prop (fmt : List Nat) :
    ∀ (l : List OpenFile) (j i : Nat) (f : OpenFile),
      find_open_file_from fmt l j = some (i, f) →
        f.is_open = true ∧ format_filename f.filename = fmt := by
  intro l
  induction l with
  | nil => intro j i f h; simp [find_open_file_from] at h
  | cons x xs ih =>
    intro j i f h
    unfold find_open_file_from at h
    by_cases hx : x.is_open = true ∧ format_filename x.filename = fmt
    · rw [if_pos hx] at h
      cases h
      exact hx
    · rw [if_neg hx] at h
      exact ih _ _ _ h


/-! ### The phases of `cmd_write` -/

theorem cluster_chain_length_le (fs : FileSystem) (fuel : Nat) :
    ∀ (c : Nat) (cs : List Nat), cluster_chain fs fuel c = some cs → cs.length ≤ fuel := by
  induction fuel with
  | zero =>
    intro c cs h
    unfold cluster_chain at h
    split at h
    · cases h
    · cases h; simp
  | succ n ih =>
    intro c cs h
    unfold cluster_chain at h
    split at h
    · cases hrec : cluster_chain fs n (get_fat_entry fs c) with
      | none => rw [hrec] at h; cases h
      | some cs' =>
        rw [hrec] at h
        cases h
        have := ih _ _ hrec
        simp
        omega
    · cases h; simp

/-- The extension phase of `cmd_write`: the chain ends up with `max k needed` clusters, and
only FAT entries and data regions of clusters outside the directory chain changed. -/
theorem extension_phase (fs1 : FileSystem) (hw : WellFormed fs1)
    (hr : fs1.total_clusters + 2 ≤ 0x0FFFFFF8) {first last d1 : Nat} {pre dcs : List Nat}
    (hp : Path fs1 first (pre ++ [last]) d1) (hd1 : is_valid_cluster fs1 d1 = false)
    (heoc : 0x0FFFFFF8 ≤ d1) (hnz : ∀ x ∈ pre ++ [last], get_fat_entry fs1 x ≠ 0)
    (hdnz : ∀ c ∈ dcs, get_fat_entry fs1 c ≠ 0) (hdisj : ∀ c ∈ pre ++ [last], c ∉ dcs)
    (needed fuel : Nat) (hf : pre.length + 1 ≤ fuel) :
    ∃ fs2 ok,
      cmd_write_extend fs1 first needed (pre.length + 1) fuel = some (fs2, ok) ∧
      (ok = true → ∃ cs2 d2 F S, Path fs2 first cs2 d2 ∧ is_valid_cluster fs2 d2 = false ∧
        0x0FFFFFF8 ≤ d2 ∧ cs2.length = max (pre.length + 1) needed ∧ Frame fs1 fs2 F S ∧
        (∀ x ∈ F, InFat fs1 x ∧ x ∉ dcs) ∧ (∀ x ∈ S, 2 ≤ x ∧ x ∉ dcs) ∧
        (∀ x ∈ cs2, x ∉ dcs)) := by
  unfold cmd_write_extend
  by_cases hn : needed > pre.length + 1
  · rw [if_pos hn]
    obtain ⟨_, hvl, _⟩ := hp.split_last
    have hfirst : first ≠ 0 := by
      have hv : is_valid_cluster fs1 first = true := by
        cases pre with
        | nil => have := hp.head_eq; rw [this]; exact hvl
        | cons y ys =>
          have := hp.head_eq
          rw [this]
          exact hp.valid_of_mem y (by simp)
      have := (hw.lt_of_valid hv).1
      omega
    rw [if_pos hfirst]
    have hlast : find_last_cluster fs1 fuel first = some last := by
      cases hpre : pre ++ [last] with
      | nil => simp at hpre
      | cons y ys =>
        have hp' := hp
        rw [hpre] at hp'
        have hy := hp'.head_eq
        subst hy
        have hl : ys.length ≤ fuel := by
          have := congrArg List.length hpre
          simp at this
          omega
        rw [find_last_cluster_path ys first d1 hp' hd1 fuel hl]
        congr 1
        have : (first :: ys).getLast (List.cons_ne_nil _ _) =
            (pre ++ [last]).getLast (by simp) := by
          congr 1
          exact hpre.symm
        rw [this]
        simp
    rw [hlast]
    simp only [Option.map_some']
    cases hext : extend_chain (needed - (pre.length + 1)) fs1 last with
    | mk fs2 ok =>
      refine ⟨fs2, ok, rfl, ?_⟩
      intro hok
      subst hok
      obtain ⟨news, dEnd, hlen, hpath, hdEnd, hfr, hfresh, _, hne⟩ :=
        extend_chain_spec _ fs1 first last d1 pre fs2 hw hr hp hd1 hnz hext
      have hnews : news ≠ [] := by
        intro e
        rw [e] at hlen
        simp at hlen
        omega
      have hfresh_dcs : ∀ x ∈ news, x ∉ dcs := fun x hx hm => hdnz x hm (hfresh x hx).2
      refine ⟨(pre ++ [last]) ++ news, dEnd, last :: news, news, hpath, hdEnd, ?_, ?_, hfr,
        ?_, ?_, ?_⟩
      · rw [hne hnews]; decide
      · simp [hlen]; omega
      · intro x hx
        rcases List.mem_cons.1 hx with e | e
        · rw [e]
          exact ⟨inFat_of_valid fs1 last hw.2.2.2.2.2.1 hvl, hdisj last (by simp)⟩
        · exact ⟨inFat_of_valid fs1 x hw.2.2.2.2.2.1 (hfresh x e).1, hfresh_dcs x e⟩
      · intro x hx
        exact ⟨(hw.lt_of_valid (hfresh x hx).1).1, hfresh_dcs x hx⟩
      · intro x hx
        rcases List.mem_append.1 hx with e | e
        · exact hdisj x e
        · exact hfresh_dcs x e
  · rw [if_neg hn]
    refine ⟨fs1, true, rfl, fun _ => ⟨pre ++ [last], d1, [], [], hp, hd1, heoc, ?_,
      Frame.refl _ _ _, (fun _ h => by cases h), (fun _ h => by cases h), hdisj⟩⟩
    simp
    omega

/-- The directory is the same after a change that stays outside its clusters. -/
theorem Frame.directory {fs fs' : FileSystem} {F S : List Nat} (h : Frame fs fs' F S)
    (hw : WellFormed fs) {cwd dd : Nat} {dcs : List Nat} (hpd : Path fs cwd dcs dd)
    (hF : ∀ x ∈ F, InFat fs x ∧ x ∉ dcs) (hS : ∀ x ∈ S, 2 ≤ x ∧ x ∉ dcs) :
    Path fs' cwd dcs dd ∧
      dcs.flatMap (Fat32.cluster_slots fs') = dcs.flatMap (Fat32.cluster_slots fs) := by
  refine ⟨hpd.frame h hw (fun x hx => (hF x hx).1) (fun x hx hm => (hF x hm).2 hx), ?_⟩
  apply List.flatMap_congr
  intro c hc
  exact h.cluster_slots hw (fun x hx => (hF x hx).1) (fun x hx => (hS x hx).1)
    (hw.lt_of_valid (hpd.valid_of_mem c hc)).1 (fun hm => (hS c hm).2 hc)

theorem find_entry_eq (fs : FileSystem) (c : Nat) (name : List Nat) (fuel : Nat) :
    find_entry fs c name fuel =
      (read_directory fs c fuel).map fun es =>
        (first_match (format_filename name) es 0).map Prod.snd := rfl

/-- Moving a handle's offset does not change what is on the disk. -/
theorem set_handle_offset_disk (fs : FileSystem) (i : Nat) (f : OpenFile) (o : Nat)
    (hw : WellFormed fs) {c d : Nat} {cs : List Nat} (hp : Path fs c cs d)
    (hd : is_valid_cluster fs d = false) :
    WellFormed (set_handle_offset fs i f o) ∧ Path (set_handle_offset fs i f o) c cs d ∧
      is_valid_cluster (set_handle_offset fs i f o) d = false ∧
      cs.flatMap (cluster_slots (set_handle_offset fs i f o)) =
        cs.flatMap (cluster_slots fs) :=
  ⟨hw, hp.congr (fun _ => rfl) (fun _ _ => rfl), hd, rfl⟩


theorem find_open_file_congr (fs fs' : FileSystem) (h : fs'.open_files = fs.open_files)
    (filename : List Nat) : find_open_file fs' filename = find_open_file fs filename := by
  unfold find_open_file
  rw [h]

theorem read_directory_set_handle (fs : FileSystem) (i : Nat) (f : OpenFile) (o : Nat)
    (hw : WellFormed fs) {c d : Nat} {cs : List Nat} (hp : Path fs c cs d)
    (hd : is_valid_cluster fs d = false) (fuel : Nat) (hf : cs.length ≤ fuel)
    (h16 : cs.length ≤ 16) :
    read_directory (set_handle_offset fs i f o) c fuel = read_directory fs c fuel := by
  obtain ⟨hw', hp', hd', hs⟩ := set_handle_offset_disk fs i f o hw hp hd
  rw [read_directory_path hw' hp' hd' fuel hf h16, read_directory_path hw hp hd fuel hf h16, hs]

/-- The last phase of `cmd_write`: the directory entry found under the name afterwards
carries the new size and first cluster when the file grew, and is the old entry
otherwise; the file's chain is untouched and the handle's offset is advanced. -/
theorem finish_phase (fs3 : FileSystem) (hw : WellFormed fs3) (filename : List Nat)
    (i : Nat) (file : OpenFile) (s first new_size string_len fuel : Nat) {dd : Nat}
    {dcs : List Nat} (hpd : Path fs3 fs3.current_cluster dcs dd)
    (hdd : is_valid_cluster fs3 dd = false) (hf : dcs.length ≤ fuel) (h16 : dcs.length ≤ 16)
    (idx : Nat)
    (e : DirEntry)
    (hfm : first_match (format_filename filename)
      (enumerate (dcs.flatMap (cluster_slots fs3))) 0 = some (idx, e))
    (hopen : find_open_file fs3 filename = some (i, file)) (hns : new_size < 4294967296)
    (hfirst : first < 4294967296) (hoff : file.offset + string_len < 4294967296)
    {cs2 : List Nat} {d2 : Nat} (hp : Path fs3 first cs2 d2)
    (hd2 : is_valid_cluster fs3 d2 = false) :
    ∃ r, cmd_write_finish fs3 filename i file s first new_size string_len fuel = some r ∧
      r.err = none ∧
      ∃ entry', find_entry r.fs r.fs.current_cluster filename fuel = some (some entry') ∧
        (new_size > s → entry'.DIR_FileSize = new_size ∧ entry'.first_cluster = first) ∧
        (¬ new_size > s → entry' = e) ∧
        Path r.fs first cs2 d2 ∧ is_valid_cluster r.fs d2 = false ∧
        (find_open_file r.fs filename).map (fun h => h.2.offset) =
          some (file.offset + string_len) := by
  have hrd := read_directory_path hw hpd hdd fuel hf h16
  obtain ⟨hop1, hop2⟩ := find_open_file_from_prop _ _ _ _ _ hopen
  unfold cmd_write_finish
  by_cases hgt : new_size > s
  · rw [if_pos hgt]
    simp only []
    rw [hrd]
    simp only []
    rw [hfm]
    simp only []
    -- the entry written back
    obtain ⟨A, B, hAB, _, hname, _⟩ := first_match_some _ _ _ _ _ hfm
    have hmem : e ∈ enumerate (dcs.flatMap (cluster_slots fs3)) := by
      rw [hAB]; simp
    obtain ⟨hmemR, hnz, hlive⟩ := mem_enumerate hmem
    have hlen := mem_dir_slots_length hmemR
    obtain ⟨f1, f2, f3, f4, f5, f6, f7⟩ := updated_entry_fields e hlen new_size
      ((first >>> 16) &&& 0xFFFF) (first &&& 0xFFFF) hns (and_ffff_lt _) (and_ffff_lt _)
    generalize he3 : DirEntry.set_DIR_FstClusLO (DirEntry.set_DIR_FstClusHI
        (DirEntry.set_DIR_FileSize e new_size) ((first >>> 16) &&& 0xFFFF))
        (first &&& 0xFFFF) = e3 at f1 f2 f3 f4 f5 f6 f7
    obtain ⟨fs4, hwr, hfr4, k, hk⟩ := dir_update fs3 hw hpd hdd (format_filename filename)
      idx e e3 fuel hf h16 hfm f1 (by rw [f3]; exact hnz)
      (by rw [live_slot_congr e e3 f3 f4]; exact hlive) (by rw [f2]; exact hname)
    rw [hwr]
    simp only [Option.map_some']
    have hw4 := hfr4.1.wellFormed hw
    have hpd4 : Path fs4 fs3.current_cluster dcs dd :=
      hpd.frame hfr4 hw (fun _ h => by cases h) (fun _ _ h => by cases h)
    have hdd4 := (hfr4.1.valid dd).trans hdd
    have hp4 : Path fs4 first cs2 d2 :=
      hp.frame hfr4 hw (fun _ h => by cases h) (fun _ _ h => by cases h)
    have hd4 := (hfr4.1.valid d2).trans hd2
    refine ⟨_, rfl, rfl, e3, ?_, ?_, ?_, ?_, ?_, ?_⟩
    · show find_entry (set_handle_offset fs4 _ _ _) fs4.current_cluster filename fuel = _
      rw [find_entry_eq, hfr4.1.2.1, read_directory_set_handle fs4 _ _ _ hw4 hpd4 hdd4 fuel hf h16]
      cases hr4 : read_directory fs4 fs3.current_cluster fuel with
      | none => rw [hr4] at hk; cases hk
      | some es =>
        rw [hr4] at hk
        simp only [Option.map_some', Option.some.injEq] at hk ⊢
        rw [hk]
        rfl
    · intro _
      refine ⟨f5, ?_⟩
      unfold DirEntry.first_cluster
      rw [f6, f7]
      exact first_cluster_split first hfirst
    · intro h; exact absurd hgt h
    · exact hp4.congr (fun _ => rfl) (fun _ _ => rfl)
    · exact hd4
    · have h4 : find_open_file fs4 filename = some (i, file) := by
        rw [find_open_file_congr fs3 fs4 hfr4.1.2.2.2.1]; exact hopen
      show (find_open_file (set_handle_offset fs4 i _ _) filename).map _ = _
      rw [find_open_file_set_handle fs4 filename i file { file with size := new_size } _ h4
        hop1 hop2]
      simp only [Option.map_some']
      exact congrArg some (u32_of_lt hoff)
  · rw [if_neg hgt]
    refine ⟨_, rfl, rfl, e, ?_, ?_, ?_, ?_, ?_, ?_⟩
    · show find_entry (set_handle_offset fs3 _ _ _) fs3.current_cluster filename fuel = _
      rw [find_entry_eq, read_directory_set_handle fs3 _ _ _ hw hpd hdd fuel hf h16, hrd]
      simp only [Option.map_some']
      rw [hfm]
      rfl
    · intro h; exact absurd h hgt
    · intro _; rfl
    · exact hp.congr (fun _ => rfl) (fun _ _ => rfl)
    · exact hd2
    · show (find_open_file (set_handle_offset fs3 i _ _) filename).map _ = _
      rw [find_open_file_set_handle fs3 filename i file _ _ hopen hop1 hop2]
      simp only [Option.map_some']
      exact congrArg some (u32_of_lt hoff)


theorem WellFormed.bpc_pos {fs : FileSystem} (h : WellFormed fs) : 0 < bytes_per_cluster fs :=
  Nat.mul_pos h.bps_pos h.1

/-- The body of `cmd_write` on a file that has a first cluster. -/
theorem cmd_write_body_spec (fs1 : FileSystem) (hw : WellFormed fs1)
    (hr : fs1.total_clusters + 2 ≤ 0x0FFFFFF8) (filename string : List Nat) (i : Nat)
    (file : OpenFile) (s fuel : Nat) {first last d1 dd : Nat} {pre dcs : List Nat}
    (hp : Path fs1 first (pre ++ [last]) d1) (hd1 : is_valid_cluster fs1 d1 = false)
    (heoc : 0x0FFFFFF8 ≤ d1) (hnz : ∀ x ∈ pre ++ [last], get_fat_entry fs1 x ≠ 0)
    (hpd : Path fs1 fs1.current_cluster dcs dd) (hdd : is_valid_cluster fs1 dd = false)
    (hdnz : ∀ c ∈ dcs, get_fat_entry fs1 c ≠ 0) (hdisj : ∀ c ∈ pre ++ [last], c ∉ dcs)
    (idx : Nat) (e : DirEntry)
    (hfm : first_match (format_filename filename)
      (enumerate (dcs.flatMap (cluster_slots fs1))) 0 = some (idx, e))
    (hopen : find_open_file fs1 filename = some (i, file))
    (hsize : file.offset + (cstr string).length + bytes_per_cluster fs1 < 4294967296)
    (hf1 : dcs.length ≤ fuel) (h16 : dcs.length ≤ 16)
    (hf2 : max (pre.length + 1)
      ((file.offset + (cstr string).length + bytes_per_cluster fs1 - 1) /
        bytes_per_cluster fs1) ≤ fuel) :
    ∃ r, cmd_write_body fs1 filename string i file s first fuel = some r ∧
      (r.err = none →
        ∃ entry' cs' d',
          find_entry r.fs r.fs.current_cluster filename fuel = some (some entry') ∧
          (file.offset + (cstr string).length > s →
            entry'.DIR_FileSize = file.offset + (cstr string).length ∧
            entry'.first_cluster = first) ∧
          (¬ file.offset + (cstr string).length > s → entry' = e) ∧
          Path r.fs first cs' d' ∧ is_valid_cluster r.fs d' = false ∧ 0x0FFFFFF8 ≤ d' ∧
          cs'.length = max (pre.length + 1)
            ((file.offset + (cstr string).length + bytes_per_cluster fs1 - 1) /
              bytes_per_cluster fs1) ∧
          (find_open_file r.fs filename).map (fun h => h.2.offset) =
            some (file.offset + (cstr string).length)) := by
  have hbpc := hw.bpc_pos
  have hvfirst : is_valid_cluster fs1 first = true := by
    cases pre with
    | nil =>
      have := hp.head_eq
      rw [this]
      exact hp.valid_of_mem last (by simp)
    | cons y ys =>
      have := hp.head_eq
      rw [this]
      exact hp.valid_of_mem y (by simp)
  have hfirst := hw.lt_of_valid hvfirst
  have hfirst0 : first ≠ 0 := by omega
  have h1 : u32 (cstr string).length = (cstr string).length := u32_of_lt (by omega)
  have h2 : u32 (file.offset + (cstr string).length) = file.offset + (cstr string).length :=
    u32_of_lt (by omega)
  have h3 : u32 (file.offset + (cstr string).length + bytes_per_cluster fs1) =
      file.offset + (cstr string).length + bytes_per_cluster fs1 := u32_of_lt hsize
  have h4 : u32sub (file.offset + (cstr string).length + bytes_per_cluster fs1) 1 =
      file.offset + (cstr string).length + bytes_per_cluster fs1 - 1 :=
    u32sub_of_le hsize (by omega)
  have hcount : cmd_write_count fs1 first fuel = some (pre.length + 1) := by
    unfold cmd_write_count
    rw [if_pos hfirst0, count_clusters_path hp hd1 fuel 0 (by simp; omega)]
    simp
  generalize hneed : (file.offset + (cstr string).length + bytes_per_cluster fs1 - 1) /
    bytes_per_cluster fs1 = needed at hf2 ⊢
  obtain ⟨fs2, ok, hext, hok⟩ := extension_phase fs1 hw hr hp hd1 heoc hnz hdnz hdisj needed
    fuel (by omega)
  have hbody : cmd_write_body fs1 filename string i file s first fuel =
      if ok = true then
        cmd_write_store fs2 filename string i file s first
          (file.offset + (cstr string).length) (cstr string).length fuel
      else some (CmdResult.fail fs2 CmdError.no_free_clusters) := by
    unfold cmd_write_body
    dsimp only
    rw [h1, h2, h3, h4, hcount, hneed]
    show (cmd_write_extend fs1 first needed (pre.length + 1) fuel).bind _ = _
    rw [hext]
    rfl
  rw [hbody]
  cases ok with
  | false =>
    refine ⟨_, rfl, ?_⟩
    intro h
    cases h
  | true =>
    rw [if_pos rfl]
    obtain ⟨cs2, d2, F, S, hp2, hd2, heoc2, hlen2, hfr2, hF, hS, hcs2⟩ := hok rfl
    have hw2 := hfr2.1.wellFormed hw
    have hb2 := hfr2.1.bpc
    obtain ⟨pre', post, hsplit, hnav⟩ :=
      navigate_path (file.offset / bytes_per_cluster fs2) hp2 hd2
    have hpost_len : post.length ≤ fuel := by
      have := congrArg List.length hsplit
      simp at this
      omega
    obtain ⟨fs3, hwd, hfr3⟩ := write_data_frame (cstr string) (cstr string).length post fs2
      _ d2 (file.offset % bytes_per_cluster fs2) 0 fuel hw2 hnav hd2
      (Nat.mod_lt _ (by rw [hb2]; exact hbpc)) (by rw [hb2]; omega) hpost_len
    have hstore : cmd_write_store fs2 filename string i file s first
        (file.offset + (cstr string).length) (cstr string).length fuel =
        cmd_write_finish fs3 filename i file s first
          (file.offset + (cstr string).length) (cstr string).length fuel := by
      unfold cmd_write_store
      dsimp only
      rw [hwd]
      rfl
    rw [hstore]
    have hw3 := hfr3.1.wellFormed hw2
    -- the directory is untouched
    obtain ⟨hpd2, hslots2⟩ := hfr2.directory hw hpd hF hS
    have hpost : ∀ x ∈ post, 2 ≤ x ∧ x ∉ dcs := by
      intro x hx
      have hx2 : x ∈ cs2 := by rw [hsplit]; exact List.mem_append_right _ hx
      exact ⟨(hw2.lt_of_valid (hp2.valid_of_mem x hx2)).1, hcs2 x hx2⟩
    obtain ⟨hpd3, hslots3⟩ := hfr3.directory hw2 hpd2 (fun _ h => by cases h) hpost
    have hcur3 : fs3.current_cluster = fs1.current_cluster :=
      hfr3.1.2.1.trans hfr2.1.2.1
    have hpd3' : Path fs3 fs3.current_cluster dcs dd := by rw [hcur3]; exact hpd3
    have hdd3 : is_valid_cluster fs3 dd = false :=
      (hfr3.1.valid dd).trans ((hfr2.1.valid dd).trans hdd)
    have hfm3 : first_match (format_filename filename)
        (enumerate (dcs.flatMap (cluster_slots fs3))) 0 = some (idx, e) := by
      rw [hslots3, hslots2]; exact hfm
    have hopen3 : find_open_file fs3 filename = some (i, file) := by
      rw [find_open_file_congr fs1 fs3 (hfr3.1.2.2.2.1.trans hfr2.1.2.2.2.1)]
      exact hopen
    have hp3 : Path fs3 first cs2 d2 :=
      hp2.frame hfr3 hw2 (fun _ h => by cases h) (fun _ _ h => by cases h)
    have hd3 : is_valid_cluster fs3 d2 = false := (hfr3.1.valid d2).trans hd2
    obtain ⟨r, hreq, _, entry', g1, g2, g3, g4, g5, g6⟩ :=
      finish_phase fs3 hw3 filename i file s first
        (file.offset + (cstr string).length) (cstr string).length fuel hpd3' hdd3 hf1 h16 idx e
        hfm3 hopen3 (by omega) (by omega) (by omega) hp3 hd3
    exact ⟨r, hreq, fun _ => ⟨entry', cs2, d2, g1, g2, g3, g4, g5, heoc2, hlen2, g6⟩⟩


/-! ### The whole of `cmd_write` -/

theorem Path.link_ne_zero {fs : FileSystem} (hw : WellFormed fs) {c d : Nat} {cs : List Nat}
    (h : Path fs c cs d) (hd : d ≠ 0) : ∀ x ∈ cs, get_fat_entry fs x ≠ 0 := by
  induction h with
  | nil c => intro x hx; cases hx
  | cons c d cs hv hp ih =>
    intro x hx
    rcases List.mem_cons.1 hx with rfl | hx
    · cases cs with
      | nil =>
        cases hp
        exact hd
      | cons y ys =>
        have he := hp.head_eq
        have hy := hw.lt_of_valid (hp.valid_of_mem y (by simp))
        omega
    · exact ih hd x hx

theorem Path.getLast_link {fs : FileSystem} {c d : Nat} {cs : List Nat} (h : Path fs c cs d) :
    ∀ l ∈ cs.getLast?, get_fat_entry fs l = d := by
  intro l hl
  rcases List.eq_nil_or_concat cs with rfl | ⟨pre, last, rfl⟩
  · simp at hl
  · rw [List.concat_eq_append] at h hl
    simp at hl
    subst hl
    exact h.split_last.2.2

theorem not_valid_zero (fs : FileSystem) : is_valid_cluster fs 0 = false := by
  cases h : is_valid_cluster fs 0 with
  | false => rfl
  | true =>
    rw [is_valid_cluster_iff] at h
    omega

theorem write_data_nothing (string : List Nat) (fuel : Nat) (fs : FileSystem) (c off : Nat) :
    write_data string 0 fuel fs c off 0 = some fs := by
  cases fuel <;> simp [write_data]

/-- The body of `cmd_write` on a file without clusters when the string is empty: nothing is
written and the entry stays. -/
theorem cmd_write_body_empty (fs : FileSystem) (hw : WellFormed fs) (filename string : List Nat)
    (i : Nat) (file : OpenFile) (s fuel : Nat) {dd : Nat} {dcs : List Nat}
    (hpd : Path fs fs.current_cluster dcs dd) (hdd : is_valid_cluster fs dd = false)
    (hf1 : dcs.length ≤ fuel) (h16 : dcs.length ≤ 16) (idx : Nat) (e : DirEntry)
    (hfm : first_match (format_filename filename)
      (enumerate (dcs.flatMap (cluster_slots fs))) 0 = some (idx, e))
    (hopen : find_open_file fs filename = some (i, file))
    (hL : (cstr string).length = 0) (ho : file.offset = 0)
    (hlt : bytes_per_cluster fs < 4294967296) :
    ∃ r, cmd_write_body fs filename string i file s 0 fuel = some r ∧ r.err = none ∧
      ∃ entry', find_entry r.fs r.fs.current_cluster filename fuel = some (some entry') ∧
        entry' = e ∧ is_valid_cluster r.fs 0 = false ∧
        (find_open_file r.fs filename).map (fun h => h.2.offset) = some 0 := by
  have hbpc := hw.bpc_pos
  have hn : u32sub (u32 (bytes_per_cluster fs)) 1 / bytes_per_cluster fs = 0 := by
    rw [u32_of_lt hlt, u32sub_of_le hlt (by omega)]
    exact Nat.div_eq_of_lt (by omega)
  have hbody : cmd_write_body fs filename string i file s 0 fuel =
      cmd_write_finish fs filename i file s 0 0 0 fuel := by
    unfold cmd_write_body
    dsimp only
    rw [hL, ho]
    have h0 : u32 0 = 0 := rfl
    simp only [h0, Nat.add_zero, Nat.zero_add, hn]
    unfold cmd_write_count cmd_write_extend cmd_write_store
    dsimp only
    rw [ho]
    simp [write_data_nothing]
  rw [hbody]
  obtain ⟨r, hreq, herr, entry', g1, _, g3, _, g5, g6⟩ :=
    finish_phase fs hw filename i file s 0 0 0 fuel hpd hdd hf1 h16 idx e hfm hopen
      (by norm_num) (by norm_num) (by omega) (Path.nil 0) (not_valid_zero fs)
  refine ⟨r, hreq, herr, entry', g1, g3 (by omega), g5, ?_⟩
  rw [g6, ho]


/-- The checks at the head of `cmd_write`, once they have passed. -/
theorem cmd_write_checked (fs : FileSystem) (filename string : List Nat) (fuel : Nat)
    (entry : DirEntry) (i : Nat) (file : OpenFile)
    (hfind : find_entry fs fs.current_cluster filename fuel = some (some entry))
    (hattr : entry.DIR_Attr &&& ATTR_DIRECTORY = 0)
    (hopen : find_open_file fs filename = some (i, file))
    (hmode : 119 ∈ cstr file.mode) :
    cmd_write fs filename string fuel =
      if entry.first_cluster = 0 ∧ u32 (cstr string).length > 0 then
        if (allocate_cluster fs).1 = 0 then
          some (CmdResult.fail (allocate_cluster fs).2 CmdError.no_free_clusters)
        else
          cmd_write_body (allocate_cluster fs).2 filename string i file entry.DIR_FileSize
            (allocate_cluster fs).1 fuel
      else
        cmd_write_body fs filename string i file entry.DIR_FileSize entry.first_cluster
          fuel := by
  unfold cmd_write
  rw [hfind]
  dsimp only
  rw [if_neg (by rw [hattr]; simp), hopen]
  dsimp only
  rw [if_neg (by simpa using hmode)]


/-! ### A write whose cluster count wraps -/

theorem cstr_replicate (n : Nat) : cstr (List.replicate n 88) = List.replicate n 88 := by
  unfold cstr
  induction n with
  | zero => rfl
  | succ k ih =>
    rw [List.replicate_succ, List.takeWhile_cons]
    simp only [ih]
    rfl

theorem write_data_stop (s : List Nat) (len fuel : Nat) (fs : FileSystem) (c off bw : Nat)
    (h : is_valid_cluster fs c = false) : write_data s len fuel fs c off bw = some fs := by
  cases fuel <;> simp [write_data, h]

/-- One round of the write loop that ends at the chain's last cluster. -/
theorem write_data_single (s : List Nat) (len fuel : Nat) (fs : FileSystem) (c off bw : Nat)
    (h : bw < len ∧ is_valid_cluster fs c = true) (n pos : Nat) (data : List Nat)
    (hn : (if u32 (bw + u32sub (bytes_per_cluster fs) off) > len then u32sub len bw
      else u32sub (bytes_per_cluster fs) off) = n)
    (hpos : u32 (get_first_sector_of_cluster fs c * fs.boot_sector.BPB_BytsPerSec + off) = pos)
    (hdata : (s.drop bw).take n = data)
    (hstop : is_valid_cluster (fwrite_at fs pos data)
      (get_fat_entry (fwrite_at fs pos data) c) = false) :
    write_data s len (fuel + 1) fs c off bw = some (fwrite_at fs pos data) := by
  subst hn hpos hdata
  rw [write_data, if_pos h]
  exact write_data_stop _ _ _ _ _ _ _ hstop

/-- On the volume with the empty file `F`, a write of a string of `2^32 - 1` bytes whose
first 512 bytes are `X` comes down to the last part of `cmd_write` on the image in which
the one allocated cluster holds 512 bytes of the string. -/
theorem cmd_write_wrap_aux (string : List Nat) (hlen : (cstr string).length = 4294967295)
    (htake : (cstr string).take 512 = List.replicate 512 88) :
    cmd_write empty_file_volume [70] string 8 =
      cmd_write_finish
        (fwrite_at (allocate_cluster empty_file_volume).2 25088 (List.replicate 512 88))
        [70] 0 write_handle 0 3 4294967295 4294967295 8 := by
  rw [cmd_write_checked empty_file_volume [70] string 8 (new_entry [70] ATTR_ARCHIVE 0 0) 0
    write_handle (by decide) (by decide) (by decide) (by decide), hlen,
    if_pos (by decide), if_neg (by decide)]
  have hA1 : (allocate_cluster empty_file_volume).1 = 3 := by decide
  have hs : DirEntry.DIR_FileSize (new_entry [70] ATTR_ARCHIVE 0 0) = 0 := by decide
  rw [hA1, hs]
  unfold cmd_write_body
  dsimp only
  rw [hlen]
  have e1 : u32 4294967295 = 4294967295 := by decide
  have e2 : u32 (write_handle.offset + 4294967295) = 4294967295 := by decide
  have e3 : u32sub (u32 (4294967295 + bytes_per_cluster (allocate_cluster empty_file_volume).2))
      1 / bytes_per_cluster (allocate_cluster empty_file_volume).2 = 0 := by decide
  have e4 : cmd_write_count (allocate_cluster empty_file_volume).2 3 8 = some 1 := by decide
  have e5 : cmd_write_extend (allocate_cluster empty_file_volume).2 3 0 1 8 =
      some ((allocate_cluster empty_file_volume).2, true) := by
    unfold cmd_write_extend
    rw [if_neg (by decide)]
  rw [e1, e2, e3, e4, Option.some_bind, e5, Option.some_bind, if_pos rfl]
  unfold cmd_write_store
  dsimp only
  have e6 : navigate (allocate_cluster empty_file_volume).2
      (write_handle.offset / bytes_per_cluster (allocate_cluster empty_file_volume).2) 3 = 3 := by
    decide
  have e7 : write_handle.offset % bytes_per_cluster (allocate_cluster empty_file_volume).2 =
      0 := by decide
  rw [e6, e7, write_data_single (cstr string) 4294967295 7 (allocate_cluster empty_file_volume).2
    3 0 0 (by decide) 512 25088 (List.replicate 512 88) (by decide) (by decide) htake
    (by decide)]
  rfl


/-! ### The open-file table -/

/-- What the loop of `find_open_file` returns: the first live handle with the formatted
name, and nothing when there is none. -/
theorem find_open_file_from_spec (fmt : List Nat) :
    ∀ (l : List OpenFile) (j : Nat),
      (∀ i f, find_open_file_from fmt l j = some (i, f) →
        j ≤ i ∧ l.get? (i - j) = some f ∧ f.is_open = true ∧ format_filename f.filename = fmt ∧
        ∀ k g, k < i - j → l.get? k = some g →
          ¬ (g.is_open = true ∧ format_filename g.filename = fmt)) ∧
      (find_open_file_from fmt l j = none →
        ∀ g ∈ l, ¬ (g.is_open = true ∧ format_filename g.filename = fmt)) := by
  intro l
  induction l with
  | nil =>
    intro j
    refine ⟨fun i f h => ?_, fun _ g hg => ?_⟩
    · simp [find_open_file_from] at h
    · cases hg
  | cons x xs ih =>
    intro j
    by_cases hx : x.is_open = true ∧ format_filename x.filename = fmt
    · refine ⟨fun i f h => ?_, fun h => ?_⟩
      · rw [find_open_file_from, if_pos hx] at h
        cases h
        refine ⟨Nat.le_refl _, by simp, hx.1, hx.2, ?_⟩
        intro k g hk
        simp at hk
      · rw [find_open_file_from, if_pos hx] at h
        cases h
    · refine ⟨fun i f h => ?_, fun h => ?_⟩
      · rw [find_open_file_from, if_neg hx] at h
        obtain ⟨h1, h2, h3, h4, h5⟩ := (ih (j + 1)).1 i f h
        have e : i - j = (i - (j + 1)) + 1 := by omega
        refine ⟨by omega, ?_, h3, h4, ?_⟩
        · rw [e]
          simpa using h2
        · intro k g hk hg
          cases k with
          | zero =>
            simp at hg
            subst hg
            exact hx
          | succ k =>
            simp at hg
            exact h5 k g (by omega) (by simpa using hg)
      · rw [find_open_file_from, if_neg hx] at h
        intro g hg
        rcases List.mem_cons.1 hg with rfl | hg
        · exact hx
        · exact (ih (j + 1)).2 h g hg

/-- The loop of `find_open_file` looks at names and live flags only. -/
theorem find_open_file_from_names (fmt : List Nat) :
    ∀ (l l' : List OpenFile) (j : Nat),
      l'.map (fun h => (h.filename, h.is_open)) = l.map (fun h => (h.filename, h.is_open)) →
      (find_open_file_from fmt l' j).map Prod.fst = (find_open_file_from fmt l j).map Prod.fst := by
  intro l
  induction l with
  | nil =>
    intro l' j h
    cases l' with
    | nil => rfl
    | cons y ys => simp at h
  | cons x xs ih =>
    intro l' j h
    cases l' with
    | nil => simp at h
    | cons y ys =>
      simp only [List.map_cons, List.cons.injEq, Prod.mk.injEq] at h
      obtain ⟨⟨h1, h2⟩, h3⟩ := h
      rw [find_open_file_from, find_open_file_from, h1, h2]
      by_cases hx : x.is_open = true ∧ format_filename x.filename = fmt
      · rw [if_pos hx, if_pos hx]
        rfl
      · rw [if_neg hx, if_neg hx]
        exact ih ys (j + 1) h3

/-- What the loop of `add_open_file` does: the first slot that is not live is replaced. -/
theorem add_open_file_from_spec (file : OpenFile) :
    ∀ (l : List OpenFile),
      ((∃ g ∈ l, g.is_open = false) →
        ∃ k g, l.get? k = some g ∧ g.is_open = false ∧
          (∀ j h, j < k → l.get? j = some h → h.is_open = true) ∧
          add_open_file_from file l = some (l.set k file)) ∧
      ((∀ g ∈ l, g.is_open = true) → add_open_file_from file l = none) := by
  intro l
  induction l with
  | nil =>
    refine ⟨fun h => ?_, fun _ => rfl⟩
    obtain ⟨g, hg, _⟩ := h
    cases hg
  | cons x xs ih =>
    by_cases hx : x.is_open = false
    · refine ⟨fun _ => ⟨0, x, rfl, hx, ?_, ?_⟩, fun h => ?_⟩
      · intro j h hj
        omega
      · rw [add_open_file_from, if_pos hx]
        rfl
      · have := h x (List.mem_cons_self _ _)
        rw [hx] at this
        cases this
    · have hx' : x.is_open = true := by
        cases h : x.is_open with
        | false => exact absurd h hx
        | true => rfl
      refine ⟨fun h => ?_, fun h => ?_⟩
      · obtain ⟨g, hg, hgo⟩ := h
        rcases List.mem_cons.1 hg with rfl | hg
        · exact absurd hgo hx
        · obtain ⟨k, g', h1, h2, h3, h4⟩ := ih.1 ⟨g, hg, hgo⟩
          refine ⟨k + 1, g', by simpa using h1, h2, ?_, ?_⟩
          · intro j h hj hget
            cases j with
            | zero =>
              simp at hget
              subst hget
              exact hx'
            | succ j => exact h3 j h (by omega) (by simpa using hget)
          · rw [add_open_file_from, if_neg hx, h4]
            rfl
      · rw [add_open_file_from, if_neg hx, ih.2 (fun g hg => h g (List.mem_cons_of_mem _ hg))]
        rfl


theorem cstr_of_no_zero (s : List Nat) (h : 0 ∉ s) : cstr s = s := by
  unfold cstr
  rw [List.takeWhile_eq_self_iff]
  intro x hx
  have : x ≠ 0 := fun e => h (e ▸ hx)
  simpa using this

/-- The effect of `add_open_file` on a table of `MAX_OPEN_FILES` slots. -/
theorem add_open_file_spec (fs : FileSystem) (filename mode path : List Nat)
    (first_cluster size : Nat) (hlen : fs.open_files.length = MAX_OPEN_FILES) :
    ((∃ g ∈ fs.open_files, g.is_open = false) →
      ∃ k g, fs.open_files.get? k = some g ∧ g.is_open = false ∧
        (∀ j h, j < k → fs.open_files.get? j = some h → h.is_open = true) ∧
        ∃ h, h = OpenFile.mk ((cstr filename).take 11) ((cstr mode).take 3) 0
            ((cstr path).take 255) first_cluster size true ∧
          add_open_file fs filename mode path first_cluster size =
            some { fs with open_files := fs.open_files.set k h }) ∧
    ((∀ g ∈ fs.open_files, g.is_open = true) →
      add_open_file fs filename mode path first_cluster size = none) := by
  have ht : fs.open_files.take MAX_OPEN_FILES = fs.open_files :=
    List.take_of_length_le (by omega)
  have hd : fs.open_files.drop MAX_OPEN_FILES = [] := List.drop_of_length_le (by omega)
  refine ⟨fun h => ?_, fun h => ?_⟩
  · obtain ⟨k, g, h1, h2, h3, h4⟩ := (add_open_file_from_spec _ fs.open_files).1 h
    refine ⟨k, g, h1, h2, h3, _, rfl, ?_⟩
    unfold add_open_file
    rw [ht, hd, h4]
    simp
  · unfold add_open_file
    rw [ht, (add_open_file_from_spec _ fs.open_files).2 h]
    rfl


/-! ### Free slots of a directory -/

theorem exists_first_split {α : Type} (p : α → Prop) :
    ∀ (l : List α), (∃ a ∈ l, p a) →
      ∃ A x B, l = A ++ x :: B ∧ (∀ a ∈ A, ¬ p a) ∧ p x := by
  classical
  intro l
  induction l with
  | nil =>
    intro h
    obtain ⟨a, ha, _⟩ := h
    cases ha
  | cons y ys ih =>
    intro h
    by_cases hy : p y
    · exact ⟨[], y, ys, rfl, (fun _ h => by cases h), hy⟩
    · obtain ⟨a, ha, hpa⟩ := h
      rcases List.mem_cons.1 ha with rfl | ha
      · exact absurd hpa hy
      · obtain ⟨A, x, B, e, h1, h2⟩ := ih ⟨a, ha, hpa⟩
        refine ⟨y :: A, x, B, by rw [e]; rfl, ?_, h2⟩
        intro b hb
        rcases List.mem_cons.1 hb with rfl | hb
        · exact hy
        · exact h1 b hb

theorem first_split_unique {α : Type} (p : α → Prop) :
    ∀ (A A' : List α) (x x' : α) (B B' : List α), A ++ x :: B = A' ++ x' :: B' →
      (∀ a ∈ A, ¬ p a) → p x → (∀ a ∈ A', ¬ p a) → p x' → A = A' ∧ x = x' ∧ B = B' := by
  intro A
  induction A with
  | nil =>
    intro A' x x' B B' h hA hx hA' hx'
    cases A' with
    | nil =>
      simp at h
      exact ⟨rfl, h.1, h.2⟩
    | cons y ys =>
      simp at h
      exact absurd (h.1 ▸ hx) (hA' y (List.mem_cons_self _ _))
  | cons z zs ih =>
    intro A' x x' B B' h hA hx hA' hx'
    cases A' with
    | nil =>
      simp at h
      exact absurd (h.1 ▸ hx') (hA z (List.mem_cons_self _ _))
    | cons y ys =>
      simp at h
      obtain ⟨h1, h2, h3⟩ := ih ys x x' B B' h.2
        (fun a ha => hA a (List.mem_cons_of_mem _ ha)) hx
        (fun a ha => hA' a (List.mem_cons_of_mem _ ha)) hx'
      exact ⟨by rw [h.1, h1], h2, h3⟩

/-- When the first list holds no element with `p` and the element `x` with `p` comes right
after `A`, the first list is a prefix of `A`. -/
theorem prefix_of_first_split {α : Type} (p : α → Prop) (S R A B : List α) (x : α)
    (h : S ++ R = A ++ x :: B) (hS : ∀ a ∈ S, ¬ p a) (hx : p x) :
    ∃ A', A = S ++ A' ∧ R = A' ++ x :: B := by
  rcases List.append_eq_append_iff.1 h with ⟨C, h1, h2⟩ | ⟨C, h1, h2⟩
  · exact ⟨C, h1, h2⟩
  · cases C with
    | nil =>
      refine ⟨[], ?_, ?_⟩
      · simpa using h1.symm
      · simpa using h2.symm
    | cons y ys =>
      simp at h2
      have : x ∈ S := by
        rw [h1, h2.1]
        simp
      exact absurd hx (hS x this)

/-- The inner loop of `find_free_entry_index` returns the first free slot of the range, if
there is one. -/
theorem find_free_slot_spec (img : Image) (pos : Nat) :
    ∀ (n i : Nat),
      (∀ A x B, (List.range' i n).map (read_slot img pos) = A ++ x :: B →
        (∀ a ∈ A, ¬ free_slot a) → free_slot x →
        find_free_slot img pos n i = some (i + A.length)) ∧
      ((∀ a ∈ (List.range' i n).map (read_slot img pos), ¬ free_slot a) →
        find_free_slot img pos n i = none) := by
  intro n
  induction n with
  | zero =>
    intro i
    refine ⟨fun A x B h => ?_, fun _ => rfl⟩
    simp at h
  | succ n ih =>
    intro i
    refine ⟨fun A x B h hA hx => ?_, fun h => ?_⟩
    · rw [List.range'_succ, List.map_cons] at h
      cases A with
      | nil =>
        simp at h
        rw [find_free_slot, if_pos (by rw [h.1]; exact hx)]
        rfl
      | cons a A' =>
        simp at h
        have ha := hA a (List.mem_cons_self _ _)
        rw [find_free_slot, if_neg (by rw [h.1]; exact ha),
          (ih (i + 1)).1 A' x B h.2 (fun b hb => hA b (List.mem_cons_of_mem _ hb)) hx]
        simp
        omega
    · rw [List.range'_succ, List.map_cons] at h
      rw [find_free_slot, if_neg (h _ (List.mem_cons_self _ _))]
      exact (ih (i + 1)).2 (fun a ha => h a (List.mem_cons_of_mem _ ha))


/-- The walk of `find_free_entry_index` stops at the first free slot of the chain. -/
theorem find_free_entry_index_loop_found {fs : FileSystem} (hw : WellFormed fs) {d : Nat} :
    ∀ (cs : List Nat) (c idx fuel : Nat) (A : List DirEntry) (x : DirEntry)
      (B : List DirEntry), Path fs c cs d → cs.length ≤ fuel →
      cs.flatMap (cluster_slots fs) = A ++ x :: B → (∀ a ∈ A, ¬ free_slot a) → free_slot x →
      find_free_entry_index_loop fuel fs c idx = some (fs, some (idx + A.length)) := by
  intro cs
  induction cs with
  | nil =>
    intro c idx fuel A x B _ _ h
    simp at h
  | cons y ys ih =>
    intro c idx fuel A x B hp hf hR hA hx
    have hc := hp.head_eq
    subst hc
    have hv := hp.valid_of_mem c (List.mem_cons_self _ _)
    cases hp with
    | cons _ _ _ _ hp' =>
      cases fuel with
      | zero => simp at hf
      | succ f =>
        rw [List.flatMap_cons] at hR
        have hslots := cluster_slots_eq fs hw hv
        rw [find_free_entry_index_loop, if_pos hv]
        by_cases hfree : ∃ a ∈ cluster_slots fs c, free_slot a
        · obtain ⟨A1, x1, B1, e1, hA1, hx1⟩ := exists_first_split free_slot _ hfree
          rw [e1, List.append_assoc, List.cons_append] at hR
          obtain ⟨eA, _, _⟩ := first_split_unique free_slot A1 A x1 x _ _ hR hA1 hx1 hA hx
          subst eA
          rw [(find_free_slot_spec fs.image (cluster_pos fs c) (max_entries fs) 0).1 A1 x1 B1
            (by rw [hslots, e1]) hA1 hx1]
          simp
        · have hno : ∀ a ∈ cluster_slots fs c, ¬ free_slot a :=
            fun a ha hfa => hfree ⟨a, ha, hfa⟩
          obtain ⟨A', eA, eR⟩ := prefix_of_first_split free_slot _ _ A B x hR hno hx
          rw [(find_free_slot_spec fs.image (cluster_pos fs c) (max_entries fs) 0).2
            (by rw [hslots]; exact hno)]
          dsimp only
          cases ys with
          | nil => simp at eR
          | cons z zs =>
            have hz := hp'.head_eq
            have hvz := hp'.valid_of_mem z (List.mem_cons_self _ _)
            rw [hz, if_pos hvz]
            rw [hz] at hp'
            rw [ih z (idx + max_entries fs) f A' x B hp' (by simpa using hf) eR
              (fun a ha => hA a (by rw [eA]; exact List.mem_append_right _ ha)) hx]
            rw [eA, List.length_append, cluster_slots_length]
            simp
            omega

/-- When the chain holds no free slot, the walk of `find_free_entry_index` reaches the
last cluster and allocates. -/
theorem find_free_entry_index_loop_full {fs : FileSystem} (hw : WellFormed fs) {d : Nat}
    (hd : is_valid_cluster fs d = false) :
    ∀ (cs : List Nat) (c idx fuel last : Nat), Path fs c cs d → cs.getLast? = some last →
      (∀ a ∈ cs.flatMap (cluster_slots fs), ¬ free_slot a) →
      find_free_entry_index_loop (fuel + cs.length) fs c idx =
        if (allocate_cluster fs).1 = 0 then some ((allocate_cluster fs).2, none)
        else
          find_free_entry_index_loop fuel
            (set_fat_entry (allocate_cluster fs).2 last (allocate_cluster fs).1)
            (allocate_cluster fs).1 (idx + cs.length * max_entries fs) := by
  intro cs
  induction cs with
  | nil =>
    intro c idx fuel last _ h
    simp at h
  | cons y ys ih =>
    intro c idx fuel last hp hlast hno
    have hc := hp.head_eq
    subst hc
    have hv := hp.valid_of_mem c (List.mem_cons_self _ _)
    cases hp with
    | cons _ _ _ _ hp' =>
      rw [List.flatMap_cons] at hno
      have hslots := cluster_slots_eq fs hw hv
      have e : fuel + (c :: ys).length = (fuel + ys.length) + 1 := by simp; omega
      rw [e, find_free_entry_index_loop, if_pos hv,
        (find_free_slot_spec fs.image (cluster_pos fs c) (max_entries fs) 0).2
          (by rw [hslots]; exact fun a ha => hno a (List.mem_append_left _ ha))]
      dsimp only
      cases ys with
      | nil =>
        cases hp'
        simp at hlast
        subst hlast
        rw [if_neg (by rw [hd]; simp)]
        simp
      | cons z zs =>
        have hz := hp'.head_eq
        have hvz := hp'.valid_of_mem z (List.mem_cons_self _ _)
        rw [hz, if_pos hvz]
        rw [hz] at hp'
        rw [ih z (idx + max_entries fs) fuel last hp' (by simpa using hlast)
          (fun a ha => hno a (List.mem_append_right _ ha))]
        have e2 : idx + max_entries fs + (z :: zs).length * max_entries fs =
            idx + (c :: z :: zs).length * max_entries fs := by
          simp only [List.length_cons]
          ring
        rw [e2]

/-- At a cluster whose first slot is free the walk of `find_free_entry_index` stops at
once. -/
theorem find_free_entry_index_loop_fresh (fs : FileSystem) (n idx fuel : Nat)
    (hv : is_valid_cluster fs n = true) (hE : 0 < max_entries fs)
    (hz : free_slot (read_slot fs.image (cluster_pos fs n) 0)) :
    find_free_entry_index_loop (fuel + 1) fs n idx = some (fs, some idx) := by
  rw [find_free_entry_index_loop, if_pos hv]
  obtain ⟨E, hEq⟩ : ∃ E, max_entries fs = E + 1 := ⟨max_entries fs - 1, by omega⟩
  rw [hEq, find_free_slot, if_pos hz]
  simp

/-- A write of a 32-byte entry at the raw slot `idx` of a directory chain replaces that
slot; only the data region of the hosting cluster changes. -/
theorem dir_write_raw (fs : FileSystem) (hw : WellFormed fs) {cwd d : Nat} {dcs : List Nat}
    (hp : Path fs cwd dcs d) (hd : is_valid_cluster fs d = false) (idx : Nat)
    (e' : DirEntry) (fuel : Nat) (hf : dcs.length ≤ fuel)
    (hidx : idx < dcs.length * max_entries fs) (hlen : e'.length = 32) :
    ∃ fs' x, x ∈ dcs ∧ write_directory_entry fs cwd e' idx fuel = some fs' ∧
      Frame fs fs' [] [x] ∧ Path fs' cwd dcs d ∧ WellFormed fs' ∧
      dcs.flatMap (cluster_slots fs') = (dcs.flatMap (cluster_slots fs)).set idx e' := by
  have hE : 0 < max_entries fs := by
    rcases Nat.eq_zero_or_pos (max_entries fs) with h0 | h0
    · rw [h0] at hidx; simp at hidx
    · exact h0
  obtain ⟨x, hx, hwalk⟩ := write_directory_entry_walk_path hE dcs cwd d idx fuel hp hidx hf
  have hxmem : x ∈ dcs := List.get?_mem hx
  have hxv := hp.valid_of_mem x hxmem
  have hr : idx % max_entries fs < max_entries fs := Nat.mod_lt _ hE
  have hrb := max_entries_bound fs hr
  have hpos : u32 (get_first_sector_of_cluster fs x * fs.boot_sector.BPB_BytsPerSec +
      idx % max_entries fs * DIR_ENTRY_SIZE) = data_addr fs x + 32 * (idx % max_entries fs) := by
    have : idx % max_entries fs * DIR_ENTRY_SIZE = 32 * (idx % max_entries fs) := by
      unfold DIR_ENTRY_SIZE; ring
    rw [this]
    exact hw.seek_eq hxv (by omega)
  have hfr : Frame fs (fwrite_at fs (data_addr fs x + 32 * (idx % max_entries fs)) e') [] [x] :=
    data_write_frame fs x _ e' (by rw [hlen]; omega)
  have hp' : Path (fwrite_at fs (data_addr fs x + 32 * (idx % max_entries fs)) e') cwd dcs d :=
    hp.frame hfr hw (fun _ h => by cases h) (fun _ _ h => by cases h)
  refine ⟨fwrite_at fs (data_addr fs x + 32 * (idx % max_entries fs)) e', x, hxmem, ?_, hfr,
    hp', hfr.1.wellFormed hw, ?_⟩
  · unfold write_directory_entry
    rw [hwalk]
    simp only [Option.map_some']
    rw [hpos]
  · have := flatMap_set (cluster_slots fs)
      (cluster_slots (fwrite_at fs (data_addr fs x + 32 * (idx % max_entries fs)) e'))
      (max_entries fs) (idx % max_entries fs) e' x hr
      (cluster_slots_fwrite fs x _ e' hlen) dcs (idx / max_entries fs) hx
      (hp.nodup hd) (fun y _ => cluster_slots_length fs y)
      (fun y hy hne => hfr.cluster_slots hw (fun _ h => by cases h)
        (fun z hz => by
          rw [List.mem_singleton.1 hz]; exact (hw.lt_of_valid hxv).1)
        (hw.lt_of_valid (hp.valid_of_mem y hy)).1
        (fun h => hne (List.mem_singleton.1 h)))
    rw [this, Nat.div_add_mod']


/-! ### The enumeration after a slot is filled or tombstoned -/

theorem any_zero_of_no_free (A : List DirEntry) (h : ∀ a ∈ A, ¬ free_slot a) :
    A.any (fun e => decide (e.DIR_Name0 = 0)) = false := by
  rw [List.any_eq_false]
  intro a ha
  have := h a ha
  simp only [decide_eq_true_eq]
  exact fun e => this (Or.inl e)

theorem filter_live_of_no_free (A : List DirEntry) (h : ∀ a ∈ A, ¬ free_slot a) :
    ∀ a ∈ A.filter live_slot, a.DIR_Name0 ≠ 0 ∧ a.DIR_Name0 ≠ 0xE5 := by
  intro a ha
  have := h a (List.mem_of_mem_filter ha)
  exact ⟨fun e => this (Or.inl e), fun e => this (Or.inr e)⟩

theorem enumerate_cons_zero (e : DirEntry) (B : List DirEntry) (h : e.DIR_Name0 = 0) :
    enumerate (e :: B) = [] := by
  unfold enumerate
  have hdec : decide (e.DIR_Name0 ≠ 0) = false := by simp [h]
  simp only [List.takeWhile_cons, hdec, Bool.false_eq_true, if_false, List.filter_nil]

theorem enumerate_cons_live (e : DirEntry) (B : List DirEntry) (h : e.DIR_Name0 ≠ 0)
    (hl : live_slot e = true) : enumerate (e :: B) = e :: enumerate B := by
  unfold enumerate
  have hdec : decide (e.DIR_Name0 ≠ 0) = true := by simp [h]
  simp only [List.takeWhile_cons, hdec, if_true, List.filter_cons, hl, Bool.false_eq_true,
    if_false]

theorem enumerate_cons_dead (e : DirEntry) (B : List DirEntry) (h : e.DIR_Name0 ≠ 0)
    (hl : live_slot e = false) : enumerate (e :: B) = enumerate B := by
  unfold enumerate
  have hdec : decide (e.DIR_Name0 ≠ 0) = true := by simp [h]
  simp only [List.takeWhile_cons, hdec, if_true, List.filter_cons, hl, Bool.false_eq_true,
    if_false]

theorem live_slot_deleted (e : DirEntry) (h : e.DIR_Name0 = 0xE5) : live_slot e = false := by
  unfold live_slot
  simp [h]

/-- Filling the first free slot of a directory with a live entry: the entries enumerated
before keep their order, and the new entry comes right after those that precede the
slot. -/
theorem enumerate_fill (A B : List DirEntry) (x e' : DirEntry)
    (hA : ∀ a ∈ A, ¬ free_slot a) (hx : free_slot x) (h0 : e'.DIR_Name0 ≠ 0)
    (hl : live_slot e' = true) :
    enumerate (A ++ e' :: B) = A.filter live_slot ++ e' :: enumerate B ∧
      (enumerate (A ++ x :: B) = A.filter live_slot ++ enumerate B ∨
        enumerate (A ++ x :: B) = A.filter live_slot) := by
  have hz := any_zero_of_no_free A hA
  rw [enumerate_append_of_no_zero _ _ hz, enumerate_append_of_no_zero _ _ hz,
    enumerate_cons_live e' B h0 hl]
  refine ⟨rfl, ?_⟩
  rcases hx with hx | hx
  · right
    rw [enumerate_cons_zero x B hx, List.append_nil]
  · left
    rw [enumerate_cons_dead x B (by rw [hx]; decide) (live_slot_deleted x hx)]

/-! ### A zeroed cluster -/

theorem read_slot_zero (img : Image) (pos i : Nat)
    (h : ∀ j, j < 32 → img (pos + 32 * i + j) = 0) :
    read_slot img pos i = List.replicate 32 0 := by
  unfold read_slot read_bytes DIR_ENTRY_SIZE
  apply List.ext_getElem
  · simp
  · intro j h1 h2
    simp at h1
    rw [List.getElem_replicate]
    simp only [List.getElem_map, List.getElem_range]
    exact h j h1

theorem cluster_slots_zero (fs : FileSystem) (c : Nat)
    (h : ∀ j, j < bytes_per_cluster fs → fs.image (data_addr fs c + j) = 0) :
    cluster_slots fs c = List.replicate (max_entries fs) (List.replicate 32 0) := by
  unfold cluster_slots
  apply List.ext_getElem
  · simp
  · intro i h1 h2
    simp at h1
    simp only [List.getElem_map, List.getElem_range, List.getElem_replicate]
    apply read_slot_zero
    intro j hj
    have := max_entries_bound fs h1
    rw [Nat.add_assoc]
    exact h _ (by omega)

theorem zero_slot_free : free_slot (List.replicate 32 0) := Or.inl rfl

theorem enumerate_zero_slots (n : Nat) :
    enumerate (List.replicate n (List.replicate 32 0)) = [] := by
  cases n with
  | zero => rfl
  | succ k =>
    rw [List.replicate_succ]
    exact enumerate_cons_zero _ _ rfl


/-! ### `create_directory_entry` -/

theorem set_append_cons {α : Type} (A B : List α) (x e : α) :
    (A ++ x :: B).set A.length e = A ++ e :: B := by
  rw [List.set_append_right _ _ (Nat.le_refl _), Nat.sub_self]
  rfl

theorem mem_in_use_of_prefix (A rest : List DirEntry) (hA : ∀ a ∈ A, ¬ free_slot a) :
    ∀ a ∈ A, a ∈ in_use_slots (A ++ rest) := by
  induction A with
  | nil => intro a ha; cases ha
  | cons y ys ih =>
    have hy := hA y (List.mem_cons_self _ _)
    have h0 : decide (y.DIR_Name0 ≠ 0x00) = true := by
      simp only [decide_eq_true_eq]
      exact fun e => hy (Or.inl e)
    have h5 : decide (y.DIR_Name0 ≠ 0xE5) = true := by
      simp only [decide_eq_true_eq]
      exact fun e => hy (Or.inr e)
    have e : in_use_slots (y :: ys ++ rest) = y :: in_use_slots (ys ++ rest) := by
      unfold in_use_slots
      rw [List.cons_append, List.takeWhile_cons, if_pos h0, List.filter_cons, if_pos h5]
    intro a ha
    rw [e]
    rcases List.mem_cons.1 ha with h | h
    · rw [h]
      exact List.mem_cons_self _ _
    · exact List.mem_cons_of_mem _ (ih (fun b hb => hA b (List.mem_cons_of_mem _ hb)) a h)

/-- The effect of `create_directory_entry` on a directory chain `dcs`: either no cluster
can be allocated and nothing changes, or the entry replaces the first free slot of the
chain, which is extended by a fresh zeroed cluster first when it holds no free slot. -/
theorem create_directory_entry_spec (fs : FileSystem) (hw : WellFormed fs)
    (hr : fs.total_clusters + 2 ≤ 0x0FFFFFF8) (hE : 0 < max_entries fs) {cwd d : Nat}
    {dcs : List Nat} (hp : Path fs cwd dcs d) (hd : is_valid_cluster fs d = false)
    (hne : dcs ≠ []) (hdnz : ∀ c ∈ dcs, get_fat_entry fs c ≠ 0)
    (name : List Nat) (attr fc size fuel : Nat) (hf : dcs.length + 1 ≤ fuel)
    (hlen : (new_entry name attr fc size).length = 32) :
    create_directory_entry fs cwd name attr fc size fuel = some (fs, false) ∨
    ∃ fs1 fs2 dcs1 d1 F S A x B y,
      create_directory_entry fs cwd name attr fc size fuel = some (fs2, true) ∧
      Frame fs fs1 F S ∧ WellFormed fs1 ∧ Path fs1 cwd dcs1 d1 ∧
      is_valid_cluster fs1 d1 = false ∧ (∀ c ∈ dcs1, get_fat_entry fs1 c ≠ 0) ∧
      (∀ z ∈ F, InFat fs z ∧ (z ∈ dcs ∨ get_fat_entry fs z = 0)) ∧
      (∀ z ∈ S, 2 ≤ z ∧ z ∉ dcs ∧ get_fat_entry fs z = 0) ∧
      ((∃ a ∈ dcs.flatMap (cluster_slots fs), free_slot a) →
        fs1 = fs ∧ dcs1 = dcs ∧ F = [] ∧ S = []) ∧
      dcs1.length ≤ dcs.length + 1 ∧ (∀ c ∈ dcs, c ∈ dcs1) ∧
      (∀ c ∈ dcs1, c ∈ dcs ∨ get_fat_entry fs c = 0) ∧
      enumerate (dcs1.flatMap (cluster_slots fs1)) =
        enumerate (dcs.flatMap (cluster_slots fs)) ∧
      dcs1.flatMap (cluster_slots fs1) = A ++ x :: B ∧ (∀ a ∈ A, ¬ free_slot a) ∧
      free_slot x ∧ y ∈ dcs1 ∧ Frame fs1 fs2 [] [y] ∧ Path fs2 cwd dcs1 d1 ∧
      WellFormed fs2 ∧
      dcs1.flatMap (cluster_slots fs2) = A ++ new_entry name attr fc size :: B ∧
      (∀ a ∈ A, a ∈ in_use_slots (dcs.flatMap (cluster_slots fs))) := by
  by_cases hfree : ∃ a ∈ dcs.flatMap (cluster_slots fs), free_slot a
  · -- a free slot exists
    right
    obtain ⟨A, x, B, eR, hA, hx⟩ := exists_first_split free_slot _ hfree
    have hffi : find_free_entry_index fs cwd fuel = some (fs, some (0 + A.length)) :=
      find_free_entry_index_loop_found hw dcs cwd 0 fuel A x B hp (by omega) eR hA hx
    rw [Nat.zero_add] at hffi
    have hidx : A.length < dcs.length * max_entries fs := by
      rw [← dir_slots_length, eR]
      simp
    obtain ⟨fs2, y, hy, hwr, hfr, hp2, hw2, hs2⟩ :=
      dir_write_raw fs hw hp hd A.length (new_entry name attr fc size) fuel (by omega) hidx
        hlen
    refine ⟨fs, fs2, dcs, d, [], [], A, x, B, y, ?_, Frame.refl fs _ _, hw, hp, hd, hdnz,
      (fun _ h => by cases h), (fun _ h => by cases h), (fun _ => ⟨rfl, rfl, rfl, rfl⟩),
      by omega, (fun _ h => h), (fun _ h => Or.inl h), rfl, eR, hA, hx, hy, hfr, hp2, hw2, ?_,
      by rw [eR]; exact mem_in_use_of_prefix A (x :: B) hA⟩
    · unfold create_directory_entry
      rw [hffi]
      simp only []
      rw [hwr]
      rfl
    · rw [hs2, eR, set_append_cons]
  · -- the chain is full
    have hno : ∀ a ∈ dcs.flatMap (cluster_slots fs), ¬ free_slot a :=
      fun a ha hfa => hfree ⟨a, ha, hfa⟩
    rcases List.eq_nil_or_concat dcs with h | ⟨pre, last, hcat⟩
    · exact absurd h hne
    rw [List.concat_eq_append] at hcat
    have hlast : dcs.getLast? = some last := by rw [hcat]; simp
    obtain ⟨f', hf'⟩ : ∃ f', fuel = (f' + 1) + dcs.length := ⟨fuel - dcs.length - 1, by omega⟩
    have hloop := find_free_entry_index_loop_full hw hd dcs cwd 0 (f' + 1) last hp hlast hno
    rw [← hf', Nat.zero_add] at hloop
    rcases allocate_cluster_cases fs with ⟨h0, hsame, _⟩ | ⟨h2, hlt, hfr0, _, hcl⟩
    · left
      rw [if_pos h0, hsame] at hloop
      unfold create_directory_entry find_free_entry_index
      rw [hloop]
    · right
      rw [if_neg (by omega), hcl] at hloop
      rw [hw.u32_total] at hlt
      generalize (allocate_cluster fs).1 = n at h2 hlt hfr0 hloop
      have hnlt : n < fs.total_clusters + 2 := by omega
      have hpc : Path fs cwd (pre ++ [last]) d := by rw [← hcat]; exact hp
      obtain ⟨hp1, hfr1, hnz1, hvn, hnot⟩ := extend_step fs hw hr hpc hd
        (by rw [← hcat]; exact hdnz) h2 hnlt hfr0
      rw [← hcat] at hp1 hnz1 hnot
      have hw1 := hfr1.1.wellFormed hw
      have hvn1 : is_valid_cluster (set_fat_entry (claim_cluster fs n) last n) n = true :=
        (hfr1.1.valid n).trans hvn
      have hlastmem : last ∈ dcs := by rw [hcat]; simp
      have hinl : InFat fs last :=
        inFat_of_valid fs last hw.2.2.2.2.2.1 (hp.valid_of_mem last hlastmem)
      have hinn : InFat fs n := hw.inFat hnlt
      -- the slots after the extension
      have hold : dcs.flatMap (cluster_slots (set_fat_entry (claim_cluster fs n) last n)) =
          dcs.flatMap (cluster_slots fs) := by
        apply List.flatMap_congr
        intro c hc
        exact hfr1.cluster_slots hw
          (fun z hz => by
            simp at hz
            rcases hz with e | e
            · rw [e]; exact hinl
            · rw [e]; exact hinn)
          (fun z hz => by rw [List.mem_singleton.1 hz]; exact h2)
          (hw.lt_of_valid (hp.valid_of_mem c hc)).1
          (fun hm => hnot (by rw [← List.mem_singleton.1 hm]; exact hc))
      have hfa := claim_cluster_frame fs hw h2 hnlt
      have hwa := hfa.1.wellFormed hw
      have hfb := set_fat_entry_frame (claim_cluster fs n) last n hwa.fatBelow
        ((hfa.1.inFat_iff last).2 hinl)
      have hzero : cluster_slots (set_fat_entry (claim_cluster fs n) last n) n =
          List.replicate (max_entries fs) (List.replicate 32 0) := by
        rw [← hfr1.1.max_entries]
        apply cluster_slots_zero
        intro j hj
        rw [hfr1.1.bpc] at hj
        rw [hfr1.1.data_addr, ← hfa.1.data_addr]
        rw [hfb.data hwa (fun z hz => by
            rw [List.mem_singleton.1 hz]; exact (hfa.1.inFat_iff last).2 hinl)
          (fun _ h => by cases h) h2 (fun h => by cases h) (by rw [hfa.1.bpc]; exact hj)]
        rw [hfa.1.data_addr]
        exact claim_cluster_data fs hw h2 hnlt hj
      obtain ⟨E', hE'⟩ : ∃ E', max_entries fs = E' + 1 := ⟨max_entries fs - 1, by omega⟩
      have hslots1 : (dcs ++ [n]).flatMap
          (cluster_slots (set_fat_entry (claim_cluster fs n) last n)) =
          dcs.flatMap (cluster_slots fs) ++
            List.replicate 32 0 :: List.replicate E' (List.replicate 32 0) := by
        rw [List.flatMap_append, hold]
        simp only [List.flatMap_cons, List.flatMap_nil, List.append_nil]
        rw [hzero, hE', List.replicate_succ]
      -- the walk stops at the fresh cluster
      have hz0 : free_slot (read_slot (set_fat_entry (claim_cluster fs n) last n).image
          (cluster_pos (set_fat_entry (claim_cluster fs n) last n) n) 0) := by
        have := cluster_slots_eq _ hw1 hvn1
        rw [hzero, hfr1.1.max_entries, hE', List.range'_succ, List.map_cons,
          List.replicate_succ] at this
        rw [(List.cons.inj this).1]
        exact zero_slot_free
      have hffi : find_free_entry_index fs cwd fuel =
          some (set_fat_entry (claim_cluster fs n) last n,
            some (dcs.length * max_entries fs)) := by
        unfold find_free_entry_index
        rw [hloop]
        exact find_free_entry_index_loop_fresh _ n _ f' hvn1
          (by rw [hfr1.1.max_entries]; exact hE) hz0
      have hidx : dcs.length * max_entries fs <
          (dcs ++ [n]).length * max_entries (set_fat_entry (claim_cluster fs n) last n) := by
        rw [hfr1.1.max_entries, List.length_append, List.length_singleton]
        nlinarith
      obtain ⟨fs2, y, hy, hwr, hfr2, hp2, hw2, hs2⟩ :=
        dir_write_raw _ hw1 hp1 (eoc_not_valid _) (dcs.length * max_entries fs)
          (new_entry name attr fc size) fuel (by simp; omega) hidx hlen
      refine ⟨set_fat_entry (claim_cluster fs n) last n, fs2, dcs ++ [n], 0x0FFFFFFF,
        [last, n], [n], dcs.flatMap (cluster_slots fs), List.replicate 32 0,
        List.replicate E' (List.replicate 32 0), y, ?_, hfr1, hw1, hp1, eoc_not_valid _, hnz1,
        ?_, ?_, (fun h => absurd h hfree), by simp, (fun c hc => List.mem_append_left _ hc),
        ?_, ?_, hslots1, hno, zero_slot_free, hy, hfr2, hp2, hw2, ?_,
        by have := mem_in_use_of_prefix _ [] hno; rw [List.append_nil] at this; exact this⟩
      · unfold create_directory_entry
        rw [hffi]
        simp only []
        rw [hwr]
        rfl
      · intro z hz
        simp at hz
        rcases hz with e | e
        · rw [e]; exact ⟨hinl, Or.inl hlastmem⟩
        · rw [e]; exact ⟨hinn, Or.inr hfr0⟩
      · intro z hz
        rw [List.mem_singleton.1 hz]
        exact ⟨h2, hnot, hfr0⟩
      · intro c hc
        rcases List.mem_append.1 hc with h | h
        · exact Or.inl h
        · rw [List.mem_singleton.1 h]; exact Or.inr hfr0
      · rw [hslots1, enumerate_append_of_no_zero _ _ (any_zero_of_no_free _ hno),
          enumerate_of_no_zero _ (any_zero_of_no_free _ hno), ← List.replicate_succ,
          enumerate_zero_slots, List.append_nil]
      · rw [hs2, hslots1, ← dir_slots_length, set_append_cons]


/-! ### The formatted name and the entries built from it -/

theorem format_stem_length (input : List Nat) :
    ∀ (n i o : Nat) (out : List Nat), (format_stem input n i o out).2.length = out.length := by
  intro n
  induction n with
  | zero => intro i o out; rfl
  | succ n ih =>
    intro i o out
    rw [format_stem]
    split
    · rw [ih]; simp
    · rfl

theorem format_ext_length (input : List Nat) :
    ∀ (n i o : Nat) (out : List Nat), (format_ext input n i o out).length = out.length := by
  intro n
  induction n with
  | zero => intro i o out; rfl
  | succ n ih =>
    intro i o out
    rw [format_ext]
    split
    · rw [ih]; simp
    · rfl

theorem format_stem_getD (input : List Nat) :
    ∀ (n i o : Nat) (out : List Nat) (j : Nat), j < o →
      (format_stem input n i o out).2.getD j 0 = out.getD j 0 := by
  intro n
  induction n with
  | zero => intro i o out j _; rfl
  | succ n ih =>
    intro i o out j hj
    rw [format_stem]
    split
    · rw [ih _ _ _ _ (by omega)]
      simp only [List.getD_eq_getElem?_getD]
      rw [List.getElem?_set_ne (by omega)]
    · rfl

theorem format_ext_getD (input : List Nat) :
    ∀ (n i o : Nat) (out : List Nat) (j : Nat), j < o →
      (format_ext input n i o out).getD j 0 = out.getD j 0 := by
  intro n
  induction n with
  | zero => intro i o out j _; rfl
  | succ n ih =>
    intro i o out j hj
    rw [format_ext]
    split
    · rw [ih _ _ _ _ (by omega)]
      simp only [List.getD_eq_getElem?_getD]
      rw [List.getElem?_set_ne (by omega)]
    · rfl

theorem format_filename_length (name : List Nat) : (format_filename name).length = 11 := by
  unfold format_filename
  dsimp only
  split
  · simp
  · split
    · simp
    · split
      · rw [format_ext_length, format_stem_length]; simp
      · rw [format_stem_length]; simp

theorem toupper_ne_deleted (c : Nat) (h : c ≠ 0xE5) : toupper c ≠ 0xE5 := by
  unfold toupper
  split <;> omega

/-- The first byte of a formatted name is never `0x00`, and it is `0xE5` only when the
name as typed starts with that byte. -/
theorem format_filename_head (name : List Nat) :
    (format_filename name).getD 0 0 ≠ 0 ∧
      (cchar name 0 ≠ 0xE5 → (format_filename name).getD 0 0 ≠ 0xE5) := by
  have hstem : (format_stem name 8 0 0 (List.replicate 11 32)).2.getD 0 0 ≠ 0 ∧
      (cchar name 0 ≠ 0xE5 →
        (format_stem name 8 0 0 (List.replicate 11 32)).2.getD 0 0 ≠ 0xE5) := by
    rw [format_stem]
    split
    · rename_i hc
      rw [format_stem_getD _ _ _ _ _ _ (by omega)]
      have e : ((List.replicate 11 32).set 0 (toupper (cchar name 0))).getD 0 0 =
          toupper (cchar name 0) := rfl
      rw [e]
      exact ⟨fun h => hc.1 ((toupper_eq_zero_iff _).1 h), fun h => toupper_ne_deleted _ h⟩
    · exact ⟨by decide, fun _ => by decide⟩
  unfold format_filename
  dsimp only
  split
  · exact ⟨by decide, fun _ => by decide⟩
  · split
    · exact ⟨by decide, fun _ => by decide⟩
    · split
      · rw [format_ext_getD _ _ _ _ _ _ (by omega)]
        exact hstem
      · exact hstem

/-- The bytes of an entry built from zeroed bytes by setting name, attribute, first
cluster and size in this order. -/
theorem built_entry_eq (b0 b1 b2 b3 b4 b5 b6 b7 b8 b9 b10 attr hi lo size : Nat) :
    DirEntry.set_DIR_FileSize (DirEntry.set_DIR_FstClusLO (DirEntry.set_DIR_FstClusHI
      (DirEntry.set_DIR_Attr (DirEntry.set_DIR_Name (List.replicate 32 0)
        [b0, b1, b2, b3, b4, b5, b6, b7, b8, b9, b10]) attr) hi) lo) size =
      [b0, b1, b2, b3, b4, b5, b6, b7, b8, b9, b10, attr % 256, 0, 0, 0, 0, 0, 0, 0, 0,
        hi % 256, hi / 256 % 256, 0, 0, 0, 0, lo % 256, lo / 256 % 256,
        size % 256, size / 256 % 256, size / 65536 % 256, size / 16777216 % 256] := rfl

/-- The fields of an entry built from zeroed bytes by setting name, attribute, first
cluster and size in this order. -/
theorem built_entry_fields (fmt : List Nat) (hfmt : fmt.length = 11) (attr hi lo size : Nat)
    (ha : attr < 256) (hhi : hi < 65536) (hlo : lo < 65536) (hs : size < 4294967296) :
    (DirEntry.set_DIR_FileSize (DirEntry.set_DIR_FstClusLO (DirEntry.set_DIR_FstClusHI
        (DirEntry.set_DIR_Attr (DirEntry.set_DIR_Name (List.replicate 32 0) fmt) attr)
        hi) lo) size).length = 32 ∧
      (DirEntry.set_DIR_FileSize (DirEntry.set_DIR_FstClusLO (DirEntry.set_DIR_FstClusHI
        (DirEntry.set_DIR_Attr (DirEntry.set_DIR_Name (List.replicate 32 0) fmt) attr)
        hi) lo) size).DIR_Name = fmt ∧
      (DirEntry.set_DIR_FileSize (DirEntry.set_DIR_FstClusLO (DirEntry.set_DIR_FstClusHI
        (DirEntry.set_DIR_Attr (DirEntry.set_DIR_Name (List.replicate 32 0) fmt) attr)
        hi) lo) size).DIR_Name0 = fmt.getD 0 0 ∧
      (DirEntry.set_DIR_FileSize (DirEntry.set_DIR_FstClusLO (DirEntry.set_DIR_FstClusHI
        (DirEntry.set_DIR_Attr (DirEntry.set_DIR_Name (List.replicate 32 0) fmt) attr)
        hi) lo) size).DIR_Attr = attr ∧
      (DirEntry.set_DIR_FileSize (DirEntry.set_DIR_FstClusLO (DirEntry.set_DIR_FstClusHI
        (DirEntry.set_DIR_Attr (DirEntry.set_DIR_Name (List.replicate 32 0) fmt) attr)
        hi) lo) size).DIR_FstClusHI = hi ∧
      (DirEntry.set_DIR_FileSize (DirEntry.set_DIR_FstClusLO (DirEntry.set_DIR_FstClusHI
        (DirEntry.set_DIR_Attr (DirEntry.set_DIR_Name (List.replicate 32 0) fmt) attr)
        hi) lo) size).DIR_FstClusLO = lo ∧
      (DirEntry.set_DIR_FileSize (DirEntry.set_DIR_FstClusLO (DirEntry.set_DIR_FstClusHI
        (DirEntry.set_DIR_Attr (DirEntry.set_DIR_Name (List.replicate 32 0) fmt) attr)
        hi) lo) size).DIR_FileSize = size := by
  match fmt, hfmt with
  | [b0, b1, b2, b3, b4, b5, b6, b7, b8, b9, b10], _ =>
    rw [built_entry_eq]
    simp only [DirEntry.DIR_Name, DirEntry.DIR_Name0, DirEntry.DIR_Attr,
      DirEntry.DIR_FileSize, DirEntry.DIR_FstClusHI, DirEntry.DIR_FstClusLO,
      List.getD_cons_zero, List.getD_cons_succ, List.length_cons, List.length_nil,
      List.take_succ_cons, List.take_zero]
    refine ⟨trivial, trivial, trivial, ?_, ?_, ?_, ?_⟩ <;> omega


/-- The bytes of a FAT entry outside the frame are the same, in every FAT copy. -/
theorem Frame.fat_bytes {fs fs' : FileSystem} {F S : List Nat} (h : Frame fs fs' F S)
    (hw : WellFormed fs) (hF : ∀ x ∈ F, InFat fs x) {c k j : Nat} (hc : InFat fs c)
    (hn : c ∉ F) (hk : k < fs.boot_sector.BPB_NumFATs) (hj : j < 4) :
    fs'.image (fat_addr fs k c + j) = fs.image (fat_addr fs k c + j) := by
  apply h.2
  · rintro y hy ⟨k', hk', h1, h2⟩
    have hne : c ≠ y := fun e => hn (e ▸ hy)
    have := fat_addr_disjoint fs k k' c y hc (hF y hy) (Or.inr hne)
    omega
  · rintro y _ ⟨h1, _⟩
    have b := fat_addr_bound fs k c hk hc
    have d := hw.data_after_fat y
    omega

theorem first_match_none (fmt : List Nat) :
    ∀ (l : List DirEntry) (i : Nat),
      first_match fmt l i = none ↔ ∀ a ∈ l, a.DIR_Name ≠ fmt := by
  intro l
  induction l with
  | nil => intro i; simp [first_match]
  | cons x xs ih =>
    intro i
    rw [first_match]
    by_cases hx : x.DIR_Name = fmt
    · rw [if_pos hx]
      simp [hx]
    · rw [if_neg hx, ih]
      simp [hx]

/-- The fields of the entry built by `create_directory_entry`. -/
theorem new_entry_fields (name : List Nat) (attr fc size : Nat) (ha : attr < 256)
    (hfc : fc < 4294967296) (hs : size < 4294967296) :
    (new_entry name attr fc size).length = 32 ∧
      (new_entry name attr fc size).DIR_Name = format_filename name ∧
      (new_entry name attr fc size).DIR_Name0 = (format_filename name).getD 0 0 ∧
      (new_entry name attr fc size).DIR_Attr = attr ∧
      (new_entry name attr fc size).first_cluster = fc ∧
      (new_entry name attr fc size).DIR_FileSize = size := by
  obtain ⟨h1, h2, h3, h4, h5, h6, h7⟩ :=
    built_entry_fields (format_filename name) (format_filename_length name) attr
      ((fc >>> 16) &&& 0xFFFF) (fc &&& 0xFFFF) size ha (and_ffff_lt _) (and_ffff_lt _) hs
  refine ⟨h1, h2, h3, h4, ?_, h7⟩
  unfold DirEntry.first_cluster
  unfold new_entry
  dsimp only
  rw [h5, h6]
  exact first_cluster_split fc hfc

theorem new_entry_live (name : List Nat) (attr fc size : Nat) (ha : attr < 256)
    (hfc : fc < 4294967296) (hs : size < 4294967296) (hname : cchar name 0 ≠ 0xE5)
    (hattr : attr ≠ ATTR_LONG_NAME) :
    (new_entry name attr fc size).DIR_Name0 ≠ 0 ∧
      live_slot (new_entry name attr fc size) = true := by
  obtain ⟨_, _, h3, h4, _, _⟩ := new_entry_fields name attr fc size ha hfc hs
  obtain ⟨g1, g2⟩ := format_filename_head name
  refine ⟨by rw [h3]; exact g1, ?_⟩
  unfold live_slot
  rw [h3, h4]
  simp only [Bool.and_eq_true, decide_eq_true_eq]
  exact ⟨g2 hname, hattr⟩


/-! ### `free_cluster_chain` -/

/-- Freeing a chain returns once the fuel covers its length: the FAT entries of its
clusters are zero in every copy, and nothing else changed. -/
theorem free_cluster_chain_path :
    ∀ (cs : List Nat) (fs : FileSystem) (c d fuel : Nat), WellFormed fs → Path fs c cs d →
      is_valid_cluster fs d = false → cs.length ≤ fuel →
      ∃ fs', free_cluster_chain fs fuel c = some fs' ∧ Frame fs fs' cs [] ∧
        ∀ x ∈ cs, ∀ k j, k < fs.boot_sector.BPB_NumFATs → j < 4 →
          fs'.image (fat_addr fs k x + j) = 0 := by
  intro cs
  induction cs with
  | nil =>
    intro fs c d fuel _ hp hd _
    cases hp
    refine ⟨fs, ?_, Frame.refl fs _ _, fun _ h => by cases h⟩
    cases fuel <;> simp [free_cluster_chain, hd]
  | cons y ys ih =>
    intro fs c d fuel hw hp hd hf
    have hc := hp.head_eq
    subst hc
    have hv := hp.valid_of_mem c (List.mem_cons_self _ _)
    have hnd := hp.nodup hd
    obtain ⟨hcn, _⟩ := List.nodup_cons.1 hnd
    cases hp with
    | cons _ _ _ _ hp' =>
      cases fuel with
      | zero => simp at hf
      | succ f =>
        have hin : InFat fs c := inFat_of_valid fs c hw.2.2.2.2.2.1 hv
        have hfa := set_fat_entry_frame fs c 0 hw.fatBelow hin
        have hwa := hfa.1.wellFormed hw
        have hpa : Path (set_fat_entry fs c 0) (get_fat_entry fs c) ys d :=
          hp'.frame hfa hw (fun x hx => by rw [List.mem_singleton.1 hx]; exact hin)
            (fun x hx hm => hcn (by rw [← List.mem_singleton.1 hm]; exact hx))
        obtain ⟨fs', hfree, hfr, hzero⟩ :=
          ih (set_fat_entry fs c 0) (get_fat_entry fs c) d f hwa hpa
            ((hfa.1.valid d).trans hd) (by simpa using hf)
        refine ⟨fs', ?_, ?_, ?_⟩
        · rw [free_cluster_chain, if_pos hv]
          exact hfree
        · exact (hfa.trans hfr).mono (fun x hx => by simpa using hx) (fun x hx => by simpa using hx)
        · intro x hx k j hk hj
          rcases List.mem_cons.1 hx with e | hx'
          · subst e
            have h1 := hfr.fat_bytes hwa
              (fun z hz => (hfa.1.inFat_iff z).2
                (inFat_of_valid fs z hw.2.2.2.2.2.1 (hp'.valid_of_mem z hz)))
              ((hfa.1.inFat_iff x).2 hin) hcn (k := k) (j := j) hk hj
            rw [hfa.1.fat_addr] at h1
            rw [h1, set_fat_entry_image_at fs x 0 k j hw.fatBelow hk hin hj]
            have e0 : le32_bytes (0 &&& 0x0FFFFFFF) = [0, 0, 0, 0] := by decide
            rw [e0]
            have : j = 0 ∨ j = 1 ∨ j = 2 ∨ j = 3 := by omega
            rcases this with e | e | e | e <;> rw [e] <;> rfl
          · have := hzero x hx' k j hk hj
            rw [hfa.1.fat_addr] at this
            exact this


/-! ### The entries `.` and `..` -/

theorem dot_entry_eq (c : Nat) :
    dot_entry c =
      [46, 32, 32, 32, 32, 32, 32, 32, 32, 32, 32, 16, 0, 0, 0, 0, 0, 0, 0, 0,
        ((c >>> 16) &&& 0xFFFF) % 256, ((c >>> 16) &&& 0xFFFF) / 256 % 256, 0, 0, 0, 0,
        (c &&& 0xFFFF) % 256, (c &&& 0xFFFF) / 256 % 256, 0, 0, 0, 0] := rfl

theorem dotdot_entry_eq (c : Nat) :
    dotdot_entry c =
      [46, 46, 32, 32, 32, 32, 32, 32, 32, 32, 32, 16, 0, 0, 0, 0, 0, 0, 0, 0,
        ((c >>> 16) &&& 0xFFFF) % 256, ((c >>> 16) &&& 0xFFFF) / 256 % 256, 0, 0, 0, 0,
        (c &&& 0xFFFF) % 256, (c &&& 0xFFFF) / 256 % 256, 0, 0, 0, 0] := rfl

theorem dot_first_cluster (a0 a1 a2 a3 a4 a5 a6 a7 a8 a9 a10 a11 s0 s1 s2 s3 c : Nat)
    (hc : c < 4294967296) :
    DirEntry.first_cluster
      [a0, a1, a2, a3, a4, a5, a6, a7, a8, a9, a10, a11, 0, 0, 0, 0, 0, 0, 0, 0,
        ((c >>> 16) &&& 0xFFFF) % 256, ((c >>> 16) &&& 0xFFFF) / 256 % 256, 0, 0, 0, 0,
        (c &&& 0xFFFF) % 256, (c &&& 0xFFFF) / 256 % 256, s0, s1, s2, s3] = c := by
  unfold DirEntry.first_cluster DirEntry.DIR_FstClusHI DirEntry.DIR_FstClusLO
  simp only [List.getD_cons_zero, List.getD_cons_succ]
  have h1 := and_ffff_lt (c >>> 16)
  have h2 := and_ffff_lt c
  have e1 : ((c >>> 16) &&& 0xFFFF) % 256 + 256 * (((c >>> 16) &&& 0xFFFF) / 256 % 256) =
      (c >>> 16) &&& 0xFFFF := by omega
  have e2 : (c &&& 0xFFFF) % 256 + 256 * ((c &&& 0xFFFF) / 256 % 256) = c &&& 0xFFFF := by
    omega
  rw [e1, e2]
  exact first_cluster_split c hc

/-- The fields of the `.` entry of `cmd_mkdir`. -/
theorem dot_entry_fields (c : Nat) (hc : c < 4294967296) :
    (dot_entry c).length = 32 ∧ (dot_entry c).DIR_Name = format_filename [46] ∧
      (dot_entry c).DIR_Attr = ATTR_DIRECTORY ∧ (dot_entry c).first_cluster = c := by
  have hn : [46, 32, 32, 32, 32, 32, 32, 32, 32, 32, 32] = format_filename [46] := by decide
  refine ⟨rfl, hn, rfl, ?_⟩
  rw [dot_entry_eq]
  exact dot_first_cluster _ _ _ _ _ _ _ _ _ _ _ _ _ _ _ _ c hc

/-- The fields of the `..` entry of `cmd_mkdir`. -/
theorem dotdot_entry_fields (c : Nat) (hc : c < 4294967296) :
    (dotdot_entry c).length = 32 ∧ (dotdot_entry c).DIR_Name = format_filename [46, 46] ∧
      (dotdot_entry c).DIR_Attr = ATTR_DIRECTORY ∧ (dotdot_entry c).first_cluster = c := by
  have hn : [46, 46, 32, 32, 32, 32, 32, 32, 32, 32, 32] = format_filename [46, 46] := by
    decide
  refine ⟨rfl, hn, rfl, ?_⟩
  rw [dotdot_entry_eq]
  exact dot_first_cluster _ _ _ _ _ _ _ _ _ _ _ _ _ _ _ _ c hc

theorem flatMap_singleton_slots (fs : FileSystem) (c : Nat) :
    [c].flatMap (cluster_slots fs) = cluster_slots fs c := by
  simp


/-! ### `cmd_mkdir` -/

/-- The first half of `cmd_mkdir` once a free cluster `C` is found: the cluster is
claimed and `.` and `..` are written into its slots 0 and 1; only the FAT entry and the
data region of `C` change. -/
theorem mkdir_new_cluster (fs : FileSystem) (hw : WellFormed fs)
    (hr : fs.total_clusters + 2 ≤ 0x0FFFFFF8) (hbpc : 64 ≤ bytes_per_cluster fs) {C : Nat}
    (h2 : 2 ≤ C) (hlt : C < fs.total_clusters + 2) (fuel : Nat) (hfuel : 1 ≤ fuel) :
    ∃ fsB fsC,
      write_directory_entry (claim_cluster fs C) C (dot_entry C) 0 fuel = some fsB ∧
      write_directory_entry fsB C
        (dotdot_entry (if fsB.current_cluster = fsB.root_cluster then 0
          else fsB.current_cluster)) 1 fuel = some fsC ∧
      Frame fs fsC [C] [C] ∧ WellFormed fsC ∧ Path fsC C [C] 0x0FFFFFFF ∧
      get_fat_entry fsC C = 0x0FFFFFFF ∧
      cluster_slots fsC C =
        dot_entry C ::
          dotdot_entry (if fs.current_cluster = fs.root_cluster then 0
            else fs.current_cluster) ::
          List.replicate (max_entries fs - 2) (List.replicate 32 0) := by
  have hv := hw.valid_of_lt hr h2 hlt
  have hfrA := claim_cluster_frame fs hw h2 hlt
  have heff := claim_cluster_effect fs hw h2 hlt
  have hwA := hfrA.1.wellFormed hw
  have hvA : is_valid_cluster (claim_cluster fs C) C = true := (hfrA.1.valid C).trans hv
  have hpA : Path (claim_cluster fs C) C [C] 0x0FFFFFFF := by
    refine Path.cons C _ [] hvA ?_
    rw [heff.1]
    exact Path.nil _
  have hEA : max_entries (claim_cluster fs C) = max_entries fs := hfrA.1.max_entries
  have hE2 : 2 ≤ max_entries fs := by
    unfold max_entries DIR_ENTRY_SIZE
    exact (Nat.le_div_iff_mul_le (by norm_num)).2 (by omega)
  have hzero : cluster_slots (claim_cluster fs C) C =
      List.replicate (max_entries fs) (List.replicate 32 0) := by
    rw [← hEA]
    apply cluster_slots_zero
    intro j hj
    rw [hfrA.1.bpc] at hj
    rw [hfrA.1.data_addr]
    exact heff.2.1 j hj
  -- the entry `.`
  obtain ⟨fsB, x1, hx1, hwr1, hfrB, hpB, hwB, hsB⟩ :=
    dir_write_raw _ hwA hpA (eoc_not_valid _) 0 (dot_entry C) fuel (by simpa using hfuel)
      (by rw [hEA]; simp; omega) rfl
  rw [List.mem_singleton] at hx1
  subst hx1
  rw [flatMap_singleton_slots, flatMap_singleton_slots, hzero] at hsB
  -- the entry `..`
  have hcurB : fsB.current_cluster = fs.current_cluster := hfrB.1.2.1.trans hfrA.1.2.1
  have hrootB : fsB.root_cluster = fs.root_cluster :=
    hfrB.1.2.2.2.2.2.2.1.trans hfrA.1.2.2.2.2.2.2.1
  have hEB : max_entries fsB = max_entries fs := hfrB.1.max_entries.trans hEA
  obtain ⟨fsC, x2, hx2, hwr2, hfrC, hpC, hwC, hsC⟩ :=
    dir_write_raw _ hwB hpB (eoc_not_valid _) 1
      (dotdot_entry (if fsB.current_cluster = fsB.root_cluster then 0
        else fsB.current_cluster)) fuel (by simpa using hfuel)
      (by rw [hEB]; simp; omega) rfl
  rw [List.mem_singleton] at hx2
  subst hx2
  rw [flatMap_singleton_slots, flatMap_singleton_slots, hsB, hcurB, hrootB] at hsC
  have hfr : Frame fs fsC [x2] [x2] :=
    ((hfrA.trans hfrB).trans hfrC).mono (fun z hz => by simpa using hz)
      (fun z hz => by simpa using hz)
  have hAC : Frame (claim_cluster fs x2) fsC [] [x2] :=
    (hfrB.trans hfrC).mono (fun z hz => by simpa using hz) (fun z hz => by simpa using hz)
  have hg : get_fat_entry fsC x2 = 0x0FFFFFFF := by
    rw [hAC.get_fat_entry hwA (fun _ h => by cases h) ((hfrA.1.inFat_iff x2).2 (hw.inFat hlt))
      (fun h => by cases h)]
    exact heff.1
  refine ⟨fsB, fsC, hwr1, hwr2, hfr, hwC, hpC, hg, ?_⟩
  rw [hsC]
  obtain ⟨E, hE⟩ : ∃ E, max_entries fs = E + 2 := ⟨max_entries fs - 2, by omega⟩
  rw [hE]
  show ((List.replicate (E + 2) (List.replicate 32 0)).set 0 _).set 1 _ = _
  rw [List.replicate_succ, List.replicate_succ]
  rfl


/-! ### `delete_directory_entry` -/

theorem delete_scan_spec (img : Image) (pos : Nat) (fmt : List Nat) :
    ∀ (n i : Nat),
      (∀ A x B, (List.range' i n).map (read_slot img pos) = A ++ x :: B →
        (∀ a ∈ A, ¬ stop_slot fmt a) → x.DIR_Name0 ≠ 0x00 → x.DIR_Name = fmt →
        delete_scan img pos fmt n i = some (some (i + A.length, x))) ∧
      ((∀ a ∈ (List.range' i n).map (read_slot img pos), ¬ stop_slot fmt a) →
        delete_scan img pos fmt n i = none) := by
  intro n
  induction n with
  | zero =>
    intro i
    refine ⟨fun A x B h => ?_, fun _ => rfl⟩
    simp at h
  | succ n ih =>
    intro i
    refine ⟨fun A x B h hA hx0 hx => ?_, fun h => ?_⟩
    · rw [List.range'_succ, List.map_cons] at h
      cases A with
      | nil =>
        simp only [List.nil_append, List.cons.injEq] at h
        rw [delete_scan, if_neg (by rw [h.1]; exact hx0), if_pos (by rw [h.1]; exact hx), h.1]
        rfl
      | cons a A' =>
        simp only [List.cons_append, List.cons.injEq] at h
        have ha := hA a (List.mem_cons_self _ _)
        rw [delete_scan, if_neg (by rw [h.1]; exact fun q => ha (Or.inl q)),
          if_neg (by rw [h.1]; exact fun q => ha (Or.inr q)),
          (ih (i + 1)).1 A' x B h.2 (fun b hb => hA b (List.mem_cons_of_mem _ hb)) hx0 hx]
        simp only [List.length_cons]
        congr 3
        omega
    · rw [List.range'_succ, List.map_cons] at h
      have h0 := h _ (List.mem_cons_self _ _)
      rw [delete_scan, if_neg (fun q => h0 (Or.inl q)), if_neg (fun q => h0 (Or.inr q))]
      exact (ih (i + 1)).2 (fun a ha => h a (List.mem_cons_of_mem _ ha))

/-- The walk of `delete_directory_entry` stops at the first slot of the chain that carries
the name, and rewrites the slot of that index. -/
theorem delete_directory_entry_loop_found {fs : FileSystem} (hw : WellFormed fs) {d : Nat}
    (cwd : Nat) (fmt : List Nat) (fuel0 : Nat) :
    ∀ (cs : List Nat) (c idx fuel : Nat) (A : List DirEntry) (x : DirEntry)
      (B : List DirEntry), Path fs c cs d → cs.length ≤ fuel →
      cs.flatMap (cluster_slots fs) = A ++ x :: B → (∀ a ∈ A, ¬ stop_slot fmt a) →
      x.DIR_Name0 ≠ 0x00 → x.DIR_Name = fmt →
      delete_directory_entry_loop fs cwd fmt fuel0 fuel c idx =
        (write_directory_entry fs cwd (DirEntry.set_DIR_Name0 x 0xE5) (idx + A.length)
          fuel0).map fun fs1 => (fs1, true) := by
  intro cs
  induction cs with
  | nil =>
    intro c idx fuel A x B _ _ h
    simp at h
  | cons y ys ih =>
    intro c idx fuel A x B hp hf hR hA hx0 hx
    have hc := hp.head_eq
    subst hc
    have hv := hp.valid_of_mem c (List.mem_cons_self _ _)
    have hxs : stop_slot fmt x := Or.inr hx
    cases hp with
    | cons _ _ _ _ hp' =>
      cases fuel with
      | zero => simp at hf
      | succ f =>
        rw [List.flatMap_cons] at hR
        have hslots := cluster_slots_eq fs hw hv
        rw [delete_directory_entry_loop, if_pos hv]
        by_cases hstop : ∃ a ∈ cluster_slots fs c, stop_slot fmt a
        · obtain ⟨A1, x1, B1, e1, hA1, hx1⟩ := exists_first_split (stop_slot fmt) _ hstop
          rw [e1, List.append_assoc, List.cons_append] at hR
          obtain ⟨eA, ex, _⟩ :=
            first_split_unique (stop_slot fmt) A1 A x1 x _ _ hR hA1 hx1 hA hxs
          subst eA
          subst ex
          rw [(delete_scan_spec fs.image (cluster_pos fs c) fmt (max_entries fs) 0).1 A1 x1 B1
            (by rw [hslots, e1]) hA1 hx0 hx]
          simp only [Nat.zero_add]
        · have hno : ∀ a ∈ cluster_slots fs c, ¬ stop_slot fmt a :=
            fun a ha hfa => hstop ⟨a, ha, hfa⟩
          obtain ⟨A', eA, eR⟩ := prefix_of_first_split (stop_slot fmt) _ _ A B x hR hno hxs
          rw [(delete_scan_spec fs.image (cluster_pos fs c) fmt (max_entries fs) 0).2
            (by rw [hslots]; exact hno)]
          dsimp only
          rw [ih _ (idx + max_entries fs) f A' x B hp' (by simpa using hf) eR
            (fun a ha => hA a (by rw [eA]; exact List.mem_append_right _ ha)) hx0 hx]
          rw [eA, List.length_append, cluster_slots_length, Nat.add_assoc]

/-- The effect of `delete_directory_entry` when the chain holds the name: the first slot
that carries it, among the slots before any `0x00` slot, gets `0xE5` as first name byte;
only the data region of the hosting cluster changes. -/
theorem delete_directory_entry_spec (fs : FileSystem) (hw : WellFormed fs) {cwd d : Nat}
    {dcs : List Nat} (hp : Path fs cwd dcs d) (hd : is_valid_cluster fs d = false)
    (name : List Nat) (fuel : Nat) (hf : dcs.length ≤ fuel) (A : List DirEntry)
    (x : DirEntry) (B : List DirEntry) (hR : dcs.flatMap (cluster_slots fs) = A ++ x :: B)
    (hA : ∀ a ∈ A, ¬ stop_slot (format_filename name) a) (hx0 : x.DIR_Name0 ≠ 0x00)
    (hx : x.DIR_Name = format_filename name) (hlen : x.length = 32) :
    ∃ fs' y, y ∈ dcs ∧ delete_directory_entry fs cwd name fuel = some (fs', true) ∧
      Frame fs fs' [] [y] ∧ Path fs' cwd dcs d ∧ WellFormed fs' ∧
      dcs.flatMap (cluster_slots fs') = A ++ DirEntry.set_DIR_Name0 x 0xE5 :: B := by
  have hlenR : (dcs.flatMap (cluster_slots fs)).length = dcs.length * max_entries fs :=
    dir_slots_length fs dcs
  have hidx : A.length < dcs.length * max_entries fs := by
    rw [← hlenR, hR]
    simp
  obtain ⟨fs', y, hy, hwr, hfr, hp', hw', hs⟩ :=
    dir_write_raw fs hw hp hd A.length (DirEntry.set_DIR_Name0 x 0xE5) fuel hf hidx
      (by unfold DirEntry.set_DIR_Name0; rw [List.length_set]; exact hlen)
  refine ⟨fs', y, hy, ?_, hfr, hp', hw', ?_⟩
  · unfold delete_directory_entry
    rw [delete_directory_entry_loop_found hw cwd _ fuel dcs cwd 0 fuel A x B hp hf hR hA hx0 hx,
      Nat.zero_add, hwr]
    rfl
  · rw [hs, hR, set_append_cons]


/-! ### Directories whose slots in use carry pairwise distinct names -/

theorem name0_of_name (e : DirEntry) : e.DIR_Name0 = e.DIR_Name.getD 0 0 := by
  cases e with
  | nil => rfl
  | cons a l => rfl

theorem name0_eq_of_name_eq {a b : DirEntry} (h : a.DIR_Name = b.DIR_Name) :
    a.DIR_Name0 = b.DIR_Name0 := by
  rw [name0_of_name, name0_of_name, h]

theorem any_zero_of_no_stop (fmt : List Nat) (A : List DirEntry)
    (h : ∀ a ∈ A, ¬ stop_slot fmt a) :
    A.any (fun e => decide (e.DIR_Name0 = 0)) = false := by
  rw [List.any_eq_false]
  intro a ha
  have := h a ha
  simp only [decide_eq_true_eq]
  exact fun e => this (Or.inl e)

theorem in_use_append_of_no_zero (a b : List DirEntry)
    (h : a.any (fun e => decide (e.DIR_Name0 = 0)) = false) :
    in_use_slots (a ++ b) =
      a.filter (fun e => decide (e.DIR_Name0 ≠ 0xE5)) ++ in_use_slots b := by
  induction a with
  | nil => simp
  | cons x xs ih =>
    have h0 : ¬ x.DIR_Name0 = 0 := by
      intro e; simp [e] at h
    have hx : xs.any (fun e => decide (e.DIR_Name0 = 0)) = false := by
      simpa [h0] using h
    have := ih hx
    unfold in_use_slots at this ⊢
    have hdec : decide (x.DIR_Name0 ≠ 0) = true := by simp [h0]
    simp only [List.cons_append, List.takeWhile_cons, hdec, if_true, List.filter_cons]
    rw [this]
    split <;> rfl

theorem in_use_cons (x : DirEntry) (B : List DirEntry) (h0 : x.DIR_Name0 ≠ 0)
    (h5 : x.DIR_Name0 ≠ 0xE5) : in_use_slots (x :: B) = x :: in_use_slots B := by
  unfold in_use_slots
  have hdec : decide (x.DIR_Name0 ≠ 0) = true := by simp [h0]
  have hdec5 : decide (x.DIR_Name0 ≠ 0xE5) = true := by simp [h5]
  simp only [List.takeWhile_cons, hdec, if_true, List.filter_cons, hdec5]

theorem enumerate_subset_in_use (B : List DirEntry) :
    ∀ b ∈ enumerate B, b ∈ in_use_slots B := by
  intro b hb
  unfold enumerate at hb
  obtain ⟨h1, h2⟩ := List.mem_filter.1 hb
  unfold in_use_slots
  refine List.mem_filter.2 ⟨h1, ?_⟩
  unfold live_slot at h2
  simp only [Bool.and_eq_true] at h2
  exact h2.1

/-- In a directory whose slots in use carry pairwise distinct names, the entry that
`find_entry` yields for a name sits in the first slot at which the scan of
`delete_directory_entry` stops, and no other enumerated entry has the name. -/
theorem unique_name_split (R : List DirEntry) (fmt : List Nat) (i : Nat) (e : DirEntry)
    (hfm : first_match fmt (enumerate R) 0 = some (i, e))
    (hdist : ((in_use_slots R).map DirEntry.DIR_Name).Nodup) :
    ∃ A B, R = A ++ e :: B ∧ (∀ a ∈ A, ¬ stop_slot fmt a) ∧ e.DIR_Name0 ≠ 0 ∧
      e.DIR_Name = fmt ∧ live_slot e = true ∧ (∀ b ∈ enumerate B, b.DIR_Name ≠ fmt) ∧
      enumerate R = A.filter live_slot ++ e :: enumerate B := by
  obtain ⟨P, Q, hPQ, _, hname, _⟩ := first_match_some fmt _ _ _ _ hfm
  have hmem : e ∈ enumerate R := by rw [hPQ]; simp
  obtain ⟨heR, he0, hel⟩ := mem_enumerate hmem
  have he5 : e.DIR_Name0 ≠ 0xE5 := by
    unfold live_slot at hel
    simp only [Bool.and_eq_true, decide_eq_true_eq] at hel
    exact hel.1
  obtain ⟨A, x, B, hR, hA, hx⟩ :=
    exists_first_split (stop_slot fmt) R ⟨e, heR, Or.inr hname⟩
  have hz := any_zero_of_no_stop fmt A hA
  have hAn : ∀ a ∈ A.filter live_slot, a.DIR_Name ≠ fmt := fun a ha q =>
    hA a (List.mem_of_mem_filter ha) (Or.inr q)
  have henum : enumerate R = A.filter live_slot ++ enumerate (x :: B) := by
    rw [hR, enumerate_append_of_no_zero _ _ hz]
  by_cases hx0 : x.DIR_Name0 = 0
  · rw [enumerate_cons_zero x B hx0, List.append_nil] at henum
    rw [henum] at hmem
    exact absurd hname (hAn e hmem)
  · have hxn : x.DIR_Name = fmt := by
      rcases hx with h | h
      · exact absurd h hx0
      · exact h
    have hx5 : x.DIR_Name0 ≠ 0xE5 := by
      rw [name0_eq_of_name_eq (hxn.trans hname.symm)]
      exact he5
    have hB : ∀ b ∈ enumerate B, b.DIR_Name ≠ fmt := by
      intro b hb q
      rw [hR, in_use_append_of_no_zero _ _ hz, in_use_cons x B hx0 hx5, List.map_append,
        List.map_cons] at hdist
      have h1 := (List.nodup_append.1 hdist).2.1
      have h2 := (List.nodup_cons.1 h1).1
      apply h2
      rw [hxn, ← q]
      exact List.mem_map_of_mem _ (enumerate_subset_in_use B b hb)
    by_cases hxl : live_slot x = true
    · rw [enumerate_cons_live x B hx0 hxl] at henum
      rw [henum, first_match_append fmt x _ hxn _ 0 hAn] at hfm
      have hxe : x = e := by
        simp only [Option.some.injEq, Prod.mk.injEq] at hfm
        exact hfm.2
      subst hxe
      exact ⟨A, B, hR, hA, hx0, hxn, hxl, hB, henum⟩
    · rw [enumerate_cons_dead x B hx0 (by simpa using hxl)] at henum
      have : first_match fmt (enumerate R) 0 = none := by
        rw [first_match_none, henum]
        intro a ha
        rcases List.mem_append.1 ha with h | h
        · exact hAn a h
        · exact hB a h
      rw [this] at hfm
      cases hfm

/-- The enumeration once the slot is marked deleted. -/
theorem enumerate_tombstone (A B : List DirEntry) (fmt : List Nat) (x' : DirEntry)
    (hA : ∀ a ∈ A, ¬ stop_slot fmt a) (hx : x'.DIR_Name0 = 0xE5) :
    enumerate (A ++ x' :: B) = A.filter live_slot ++ enumerate B := by
  rw [enumerate_append_of_no_zero _ _ (any_zero_of_no_stop fmt A hA),
    enumerate_cons_dead x' B (by rw [hx]; decide) (live_slot_deleted x' hx)]

theorem set_name0_deleted (e : DirEntry) (h : e.length = 32) :
    DirEntry.set_DIR_Name0 e 0xE5 = e.set 0 0xE5 ∧
      (DirEntry.set_DIR_Name0 e 0xE5).DIR_Name0 = 0xE5 ∧
      (DirEntry.set_DIR_Name0 e 0xE5).length = 32 := by
  refine ⟨rfl, ?_, by unfold DirEntry.set_DIR_Name0; rw [List.length_set]; exact h⟩
  cases e with
  | nil => simp at h
  | cons a l => rfl


/-! ### Fields of an entry read from the image -/

theorem getD_lt_of_bytes (e : List Nat) (h : ∀ b ∈ e, b < 256) (k : Nat) :
    e.getD k 0 < 256 := by
  by_cases hk : k < e.length
  · rw [List.getD_eq_getElem _ _ hk]
    exact h _ (List.getElem_mem _)
  · rw [List.getD_eq_default _ _ (by omega)]
    norm_num

theorem entry_field_bounds (e : DirEntry) (h : ∀ b ∈ e, b < 256) :
    e.DIR_Attr < 256 ∧ e.first_cluster < 4294967296 ∧ e.DIR_FileSize < 4294967296 := by
  have g := getD_lt_of_bytes e h
  refine ⟨g 11, ?_, ?_⟩
  · unfold DirEntry.first_cluster DirEntry.DIR_FstClusHI DirEntry.DIR_FstClusLO
    have h20 := g 20
    have h21 := g 21
    have h26 := g 26
    have h27 := g 27
    have hhi : e.getD 20 0 + 256 * e.getD 21 0 < 65536 := by omega
    have hlo : e.getD 26 0 + 256 * e.getD 27 0 < 65536 := by omega
    generalize e.getD 20 0 + 256 * e.getD 21 0 = hi at hhi ⊢
    generalize e.getD 26 0 + 256 * e.getD 27 0 = lo at hlo ⊢
    have e32 : (4294967296 : Nat) = 2 ^ 32 := by norm_num
    rw [e32]
    apply Nat.or_lt_two_pow
    · rw [Nat.shiftLeft_eq]
      omega
    · omega
  · unfold DirEntry.DIR_FileSize
    have h28 := g 28
    have h29 := g 29
    have h30 := g 30
    have h31 := g 31
    omega


/-! ### Rejected commands leave the state as it is -/

theorem cmd_cd_rejected (fs : FileSystem) (dirname : List Nat) (fuel : Nat) (r : CmdResult)
    (e : CmdError) (h : cmd_cd fs dirname fuel = some r) (he : r.err = some e) :
    r.fs = fs := by
  unfold cmd_cd at h
  split at h
  · cases h; cases he
  · obtain ⟨found, _, h⟩ := Option.bind_eq_some.1 h
    split at h
    · cases h; rfl
    · split at h
      · cases h; rfl
      · split at h
        · obtain ⟨p, _, h⟩ := Option.map_eq_some'.1 h
          rw [← h] at he; cases he
        · cases h; cases he

theorem cmd_mkdir_fill_err (fs : FileSystem) (dirname : List Nat) (c fuel : Nat)
    (r : CmdResult) (h : cmd_mkdir_fill fs dirname c fuel = some r) :
    r.err = none ∨ r.err = some CmdError.failed_create_directory := by
  unfold cmd_mkdir_fill at h
  obtain ⟨fs1, _, h⟩ := Option.bind_eq_some.1 h
  obtain ⟨fs2, _, h⟩ := Option.bind_eq_some.1 h
  obtain ⟨q, _, h⟩ := Option.bind_eq_some.1 h
  split at h
  · cases h; exact Or.inl rfl
  · obtain ⟨fs3, _, h⟩ := Option.map_eq_some'.1 h
    rw [← h]; exact Or.inr rfl

theorem cmd_mkdir_rejected (fs : FileSystem) (dirname : List Nat) (fuel : Nat)
    (r : CmdResult) (e : CmdError) (h : cmd_mkdir fs dirname fuel = some r)
    (he : r.err = some e) (hp : e ∈ precondition_errors) : r.fs = fs := by
  unfold cmd_mkdir at h
  obtain ⟨found, _, h⟩ := Option.bind_eq_some.1 h
  split at h
  · cases h; rfl
  · split at h
    · cases h
      cases he
      exact absurd hp (by decide)
    · rcases cmd_mkdir_fill_err _ _ _ _ _ h with h1 | h1
      · rw [h1] at he; cases he
      · rw [h1] at he; cases he
        exact absurd hp (by decide)

theorem cmd_creat_rejected (fs : FileSystem) (filename : List Nat) (fuel : Nat)
    (r : CmdResult) (e : CmdError) (h : cmd_creat fs filename fuel = some r)
    (he : r.err = some e) (hp : e ∈ precondition_errors) : r.fs = fs := by
  unfold cmd_creat at h
  split at h
  · cases h
  · cases h; rfl
  · obtain ⟨q, _, h⟩ := Option.map_eq_some'.1 h
    split at h
    · rw [← h] at he; cases he
    · rw [← h] at he; cases he
      exact absurd hp (by decide)

theorem cmd_open_rejected (fs : FileSystem) (filename mode : List Nat) (fuel : Nat)
    (r : CmdResult) (e : CmdError) (h : cmd_open fs filename mode fuel = some r)
    (he : r.err = some e) : r.fs = fs := by
  unfold cmd_open at h
  split at h
  · cases h; rfl
  · obtain ⟨found, _, h⟩ := Option.map_eq_some'.1 h
    split at h
    · rw [← h]; rfl
    · split at h
      · rw [← h]; rfl
      · split at h
        · rw [← h]; rfl
        · dsimp only at h
          split at h
          · rw [← h]; rfl
          · rw [← h] at he; cases he

theorem cmd_close_rejected (fs : FileSystem) (filename : List Nat) (fuel : Nat)
    (r : CmdResult) (e : CmdError) (h : cmd_close fs filename fuel = some r)
    (he : r.err = some e) : r.fs = fs := by
  unfold cmd_close at h
  obtain ⟨found, _, h⟩ := Option.map_eq_some'.1 h
  split at h
  · rw [← h]; rfl
  · split at h
    · rw [← h] at he; cases he
    · rw [← h]; rfl

theorem cmd_lseek_rejected (fs : FileSystem) (filename : List Nat) (offset fuel : Nat)
    (r : CmdResult) (e : CmdError) (h : cmd_lseek fs filename offset fuel = some r)
    (he : r.err = some e) : r.fs = fs := by
  unfold cmd_lseek at h
  obtain ⟨found, _, h⟩ := Option.map_eq_some'.1 h
  split at h
  · rw [← h]; rfl
  · split at h
    · rw [← h]; rfl
    · split at h
      · rw [← h]; rfl
      · rw [← h] at he; cases he

theorem cmd_read_rejected (fs : FileSystem) (filename : List Nat) (size fuel : Nat)
    (r : CmdResult) (e : CmdError) (h : cmd_read fs filename size fuel = some r)
    (he : r.err = some e) : r.fs = fs := by
  unfold cmd_read at h
  dsimp only at h
  repeat' split at h
  all_goals first
    | (cases h <;> first | rfl | (cases he))
    | (obtain ⟨q, _, h⟩ := Option.map_eq_some'.1 h; rw [← h] at he; cases he)


theorem cmd_write_finish_err (fs : FileSystem) (filename : List Nat) (i : Nat)
    (file : OpenFile) (entry_size first_cluster new_size string_len fuel : Nat)
    (r : CmdResult)
    (h : cmd_write_finish fs filename i file entry_size first_cluster new_size string_len
      fuel = some r) : r.err = none := by
  unfold cmd_write_finish at h
  dsimp only at h
  repeat' split at h
  all_goals first
    | (cases h <;> rfl)
    | (obtain ⟨q, _, h⟩ := Option.map_eq_some'.1 h; rw [← h]; rfl)

theorem cmd_write_body_err (fs : FileSystem) (filename string : List Nat) (i : Nat)
    (file : OpenFile) (entry_size first_cluster fuel : Nat) (r : CmdResult)
    (h : cmd_write_body fs filename string i file entry_size first_cluster fuel = some r) :
    r.err = none ∨ r.err = some CmdError.no_free_clusters := by
  unfold cmd_write_body at h
  dsimp only at h
  obtain ⟨n, _, h⟩ := Option.bind_eq_some.1 h
  obtain ⟨q, _, h⟩ := Option.bind_eq_some.1 h
  split at h
  · unfold cmd_write_store at h
    dsimp only at h
    obtain ⟨fs2, _, h⟩ := Option.bind_eq_some.1 h
    exact Or.inl (cmd_write_finish_err _ _ _ _ _ _ _ _ _ _ h)
  · cases h; exact Or.inr rfl

theorem cmd_write_rejected (fs : FileSystem) (filename string : List Nat) (fuel : Nat)
    (r : CmdResult) (e : CmdError) (h : cmd_write fs filename string fuel = some r)
    (he : r.err = some e) (hp : e ∈ precondition_errors) : r.fs = fs := by
  have hbody : ∀ (fs' : FileSystem) (i : Nat) (file : OpenFile) (a b : Nat),
      cmd_write_body fs' filename string i file a b fuel = some r → r.fs = fs := by
    intro fs' i file a b hb
    rcases cmd_write_body_err _ _ _ _ _ _ _ _ _ hb with h1 | h1
    · rw [h1] at he; cases he
    · rw [h1] at he; cases he
      exact absurd hp (by decide)
  unfold cmd_write at h
  split at h
  · cases h
  · cases h; rfl
  · split at h
    · cases h; rfl
    · split at h
      · cases h; rfl
      · split at h
        · cases h; rfl
        · split at h
          · dsimp only at h
            split at h
            · cases h
              cases he
              exact absurd hp (by decide)
            · exact hbody _ _ _ _ _ h
          · exact hbody _ _ _ _ _ h

theorem cmd_mv_rejected (fs : FileSystem) (source dest : List Nat) (fuel : Nat)
    (r : CmdResult) (e : CmdError) (h : cmd_mv fs source dest fuel = some r)
    (he : r.err = some e) (hp : e ∈ precondition_errors) : r.fs = fs := by
  unfold cmd_mv at h
  split at h
  · cases h
  · cases h; rfl
  · split at h
    · cases h; rfl
    · split at h
      · cases h
      · split at h
        · cases h; rfl
        · unfold cmd_mv_into at h
          dsimp only at h
          split at h
          · cases h
          · cases h; rfl
          · split at h
            · cases h
            · cases h
              cases he
              exact absurd hp (by decide)
            · obtain ⟨q, _, h⟩ := Option.map_eq_some'.1 h
              rw [← h] at he; cases he
      · unfold cmd_mv_rename at h
        repeat' split at h
        all_goals first
          | (cases h <;> cases he)
          | (obtain ⟨q, _, h⟩ := Option.map_eq_some'.1 h; rw [← h] at he; cases he)

theorem cmd_rm_apply_err (fs : FileSystem) (filename : List Nat) (c fuel : Nat)
    (r : CmdResult) (h : cmd_rm_apply fs filename c fuel = some r) : r.err = none := by
  unfold cmd_rm_apply at h
  obtain ⟨fs1, _, h⟩ := Option.bind_eq_some.1 h
  obtain ⟨q, _, h⟩ := Option.map_eq_some'.1 h
  rw [← h]; rfl

theorem cmd_rm_rejected (fs : FileSystem) (filename : List Nat) (fuel : Nat)
    (r : CmdResult) (e : CmdError) (h : cmd_rm fs filename fuel = some r)
    (he : r.err = some e) : r.fs = fs := by
  unfold cmd_rm at h
  obtain ⟨found, _, h⟩ := Option.bind_eq_some.1 h
  split at h
  · cases h; rfl
  · split at h
    · cases h; rfl
    · split at h
      · cases h; rfl
      · rw [cmd_rm_apply_err _ _ _ _ _ h] at he; cases he

theorem cmd_rmdir_rejected (fs : FileSystem) (dirname : List Nat) (fuel : Nat)
    (r : CmdResult) (e : CmdError) (h : cmd_rmdir fs dirname fuel = some r)
    (he : r.err = some e) : r.fs = fs := by
  unfold cmd_rmdir at h
  obtain ⟨found, _, h⟩ := Option.bind_eq_some.1 h
  split at h
  · cases h; rfl
  · split at h
    · cases h; rfl
    · obtain ⟨b, _, h⟩ := Option.bind_eq_some.1 h
      split at h
      · cases h; rfl
      · split at h
        · cases h; rfl
        · rw [cmd_rm_apply_err _ _ _ _ _ h] at he; cases he


theorem delete_scan_zero (img : Image) (pos : Nat) (fmt : List Nat) :
    ∀ (n i : Nat) (A : List DirEntry) (x : DirEntry) (B : List DirEntry),
      (List.range' i n).map (read_slot img pos) = A ++ x :: B →
      (∀ a ∈ A, ¬ stop_slot fmt a) → x.DIR_Name0 = 0x00 →
      delete_scan img pos fmt n i = some none := by
  intro n
  induction n with
  | zero =>
    intro i A x B h
    simp at h
  | succ n ih =>
    intro i A x B h hA hx0
    rw [List.range'_succ, List.map_cons] at h
    cases A with
    | nil =>
      simp only [List.nil_append, List.cons.injEq] at h
      rw [delete_scan, if_pos (by rw [h.1]; exact hx0)]
    | cons a A' =>
      simp only [List.cons_append, List.cons.injEq] at h
      have ha := hA a (List.mem_cons_self _ _)
      rw [delete_scan, if_neg (by rw [h.1]; exact fun q => ha (Or.inl q)),
        if_neg (by rw [h.1]; exact fun q => ha (Or.inr q))]
      exact ih (i + 1) A' x B h.2 (fun b hb => hA b (List.mem_cons_of_mem _ hb)) hx0

/-! ### The byte that `delete_directory_entry` changes -/

/-- Writing back the 32 bytes read at `p` with the first one replaced changes the byte at
`p` only. -/
theorem write_bytes_set_head (img : Image) (p v a : Nat) :
    write_bytes img p ((read_bytes img p 32).set 0 v) a = if a = p then v else img a := by
  by_cases h1 : a < p ∨ p + 32 ≤ a
  · rw [write_bytes_outside _ _ _ _ (by simpa using h1), if_neg (by omega)]
  · rw [write_bytes_inside _ _ _ _ (by omega) (by simp; omega)]
    by_cases h2 : a = p
    · rw [if_pos h2, h2, Nat.sub_self]
      simp [read_bytes, List.range_succ_eq_map]
    · rw [if_neg h2]
      have h3 : a - p ≠ 0 := by omega
      rw [List.getD_eq_getElem _ _ (by simp; omega), List.getElem_set_ne (by omega)]
      simp only [read_bytes, List.getElem_map, List.getElem_range]
      congr 1
      omega

theorem flatMap_get_slot {α : Type} (f : Nat → List α) (E : Nat) (hE : 0 < E)
    (hlen : ∀ c, (f c).length = E) :
    ∀ (cs : List Nat) (idx y : Nat), cs.get? (idx / E) = some y →
      (cs.flatMap f).get? idx = (f y).get? (idx % E) := by
  intro cs
  induction cs with
  | nil => intro idx y h; simp at h
  | cons c cs ih =>
    intro idx y h
    rw [List.flatMap_cons]
    by_cases hlt : idx < E
    · rw [Nat.div_eq_of_lt hlt] at h
      simp at h
      subst h
      rw [Nat.mod_eq_of_lt hlt]
      simp only [List.get?_eq_getElem?]
      rw [List.getElem?_append_left (by rw [hlen]; exact hlt)]
    · have hge : E ≤ idx := by omega
      have hdiv : idx / E = (idx - E) / E + 1 := by
        rw [← Nat.sub_add_cancel hge, Nat.add_div_right _ hE]
        simp
      have hmod : idx % E = (idx - E) % E := by
        conv_lhs => rw [← Nat.sub_add_cancel hge]
        exact Nat.add_mod_right _ _
      rw [hdiv] at h
      simp at h
      have := ih (idx - E) y (by simpa using h)
      simp only [List.get?_eq_getElem?] at this ⊢
      rw [List.getElem?_append_right (by rw [hlen]; exact hge), hlen, this, hmod]

/-- The state that a write of a 32-byte entry at the raw slot `idx` of a directory chain
leaves, and the slot it replaces. -/
theorem dir_write_raw_at (fs : FileSystem) (hw : WellFormed fs) {cwd d : Nat}
    {dcs : List Nat} (hp : Path fs cwd dcs d) (idx : Nat) (e' : DirEntry) (fuel : Nat)
    (hf : dcs.length ≤ fuel) (hidx : idx < dcs.length * max_entries fs) :
    ∃ y, dcs.get? (idx / max_entries fs) = some y ∧
      write_directory_entry fs cwd e' idx fuel =
        some (fwrite_at fs (data_addr fs y + 32 * (idx % max_entries fs)) e') ∧
      (dcs.flatMap (cluster_slots fs)).get? idx =
        some (read_bytes fs.image (data_addr fs y + 32 * (idx % max_entries fs)) 32) := by
  have hE : 0 < max_entries fs := by
    rcases Nat.eq_zero_or_pos (max_entries fs) with h0 | h0
    · rw [h0] at hidx; simp at hidx
    · exact h0
  obtain ⟨x, hx, hwalk⟩ := write_directory_entry_walk_path hE dcs cwd d idx fuel hp hidx hf
  have hxv := hp.valid_of_mem x (List.get?_mem hx)
  have hr : idx % max_entries fs < max_entries fs := Nat.mod_lt _ hE
  have hrb := max_entries_bound fs hr
  have hpos : u32 (get_first_sector_of_cluster fs x * fs.boot_sector.BPB_BytsPerSec +
      idx % max_entries fs * DIR_ENTRY_SIZE) = data_addr fs x + 32 * (idx % max_entries fs) := by
    have : idx % max_entries fs * DIR_ENTRY_SIZE = 32 * (idx % max_entries fs) := by
      unfold DIR_ENTRY_SIZE; ring
    rw [this]
    exact hw.seek_eq hxv (by omega)
  refine ⟨x, hx, ?_, ?_⟩
  · unfold write_directory_entry
    rw [hwalk]
    simp only [Option.map_some']
    rw [hpos]
  · rw [flatMap_get_slot (cluster_slots fs) (max_entries fs) hE (cluster_slots_length fs) dcs
      idx x hx]
    unfold cluster_slots
    simp only [List.get?_eq_getElem?]
    rw [List.getElem?_map, List.getElem?_range hr]
    rfl

/-! ### `delete_directory_entry` when the name is not met -/

/-- The walk of `delete_directory_entry` stops at a slot whose name starts with `0x00`. -/
theorem delete_directory_entry_loop_end {fs : FileSystem} (hw : WellFormed fs) {d : Nat}
    (cwd : Nat) (fmt : List Nat) (fuel0 : Nat) :
    ∀ (cs : List Nat) (c idx fuel : Nat) (A : List DirEntry) (x : DirEntry)
      (B : List DirEntry), Path fs c cs d → cs.length ≤ fuel →
      cs.flatMap (cluster_slots fs) = A ++ x :: B → (∀ a ∈ A, ¬ stop_slot fmt a) →
      x.DIR_Name0 = 0x00 →
      delete_directory_entry_loop fs cwd fmt fuel0 fuel c idx = some (fs, false) := by
  intro cs
  induction cs with
  | nil =>
    intro c idx fuel A x B _ _ h
    simp at h
  | cons y ys ih =>
    intro c idx fuel A x B hp hf hR hA hx0
    have hc := hp.head_eq
    subst hc
    have hv := hp.valid_of_mem c (List.mem_cons_self _ _)
    have hxs : stop_slot fmt x := Or.inl hx0
    cases hp with
    | cons _ _ _ _ hp' =>
      cases fuel with
      | zero => simp at hf
      | succ f =>
        rw [List.flatMap_cons] at hR
        have hslots := cluster_slots_eq fs hw hv
        rw [delete_directory_entry_loop, if_pos hv]
        by_cases hstop : ∃ a ∈ cluster_slots fs c, stop_slot fmt a
        · obtain ⟨A1, x1, B1, e1, hA1, hx1⟩ := exists_first_split (stop_slot fmt) _ hstop
          rw [e1, List.append_assoc, List.cons_append] at hR
          obtain ⟨eA, ex, _⟩ :=
            first_split_unique (stop_slot fmt) A1 A x1 x _ _ hR hA1 hx1 hA hxs
          subst eA
          subst ex
          have hscan : delete_scan fs.image (cluster_pos fs c) fmt (max_entries fs) 0 =
              some none := by
            have := delete_scan_zero fs.image (cluster_pos fs c) fmt (max_entries fs) 0 A1 x1 B1
              (by rw [hslots, e1]) hA1 hx0
            exact this
          rw [hscan]
        · have hno : ∀ a ∈ cluster_slots fs c, ¬ stop_slot fmt a :=
            fun a ha hfa => hstop ⟨a, ha, hfa⟩
          obtain ⟨A', eA, eR⟩ := prefix_of_first_split (stop_slot fmt) _ _ A B x hR hno hxs
          rw [(delete_scan_spec fs.image (cluster_pos fs c) fmt (max_entries fs) 0).2
            (by rw [hslots]; exact hno)]
          dsimp only
          exact ih _ (idx + max_entries fs) f A' x B hp' (by simpa using hf) eR
            (fun a ha => hA a (by rw [eA]; exact List.mem_append_right _ ha)) hx0

/-- The walk of `delete_directory_entry` runs off the chain when no slot stops it. -/
theorem delete_directory_entry_loop_off {fs : FileSystem} (hw : WellFormed fs) {d : Nat}
    (hd : is_valid_cluster fs d = false) (cwd : Nat) (fmt : List Nat) (fuel0 : Nat) :
    ∀ (cs : List Nat) (c idx fuel : Nat), Path fs c cs d → cs.length ≤ fuel →
      (∀ a ∈ cs.flatMap (cluster_slots fs), ¬ stop_slot fmt a) →
      delete_directory_entry_loop fs cwd fmt fuel0 fuel c idx = some (fs, false) := by
  intro cs
  induction cs with
  | nil =>
    intro c idx fuel hp _ _
    cases hp
    cases fuel <;> simp [delete_directory_entry_loop, hd]
  | cons y ys ih =>
    intro c idx fuel hp hf hno
    have hc := hp.head_eq
    subst hc
    have hv := hp.valid_of_mem c (List.mem_cons_self _ _)
    cases hp with
    | cons _ _ _ _ hp' =>
      cases fuel with
      | zero => simp at hf
      | succ f =>
        rw [List.flatMap_cons] at hno
        have hslots := cluster_slots_eq fs hw hv
        rw [delete_directory_entry_loop, if_pos hv,
          (delete_scan_spec fs.image (cluster_pos fs c) fmt (max_entries fs) 0).2
            (by rw [hslots]; exact fun a ha => hno a (List.mem_append_left _ ha))]
        dsimp only
        exact ih _ (idx + max_entries fs) f hp' (by simpa using hf)
          (fun a ha => hno a (List.mem_append_right _ ha))


theorem takeWhile_first_split (p : DirEntry → Bool) (A B : List DirEntry) (x : DirEntry)
    (hA : ∀ a ∈ A, p a = true) :
    (A ++ x :: B).takeWhile p = if p x = true then A ++ x :: B.takeWhile p else A := by
  induction A with
  | nil =>
    by_cases hx : p x = true
    · simp [List.takeWhile_cons, hx]
    · simp [List.takeWhile_cons, hx]
  | cons a A ih =>
    have ha := hA a (List.mem_cons_self _ _)
    have := ih (fun b hb => hA b (List.mem_cons_of_mem _ hb))
    rw [List.cons_append, List.takeWhile_cons, if_pos ha, this]
    split <;> rfl

/-- What `delete_directory_entry` does on a directory chain `dcs`, in terms of the raw
slots `R` of the chain.  When some slot before the first `0x00` slot carries the name, the
first slot that does is `x`, at index `|A|` of the chain; the function returns 0 and the
new image is the old one with the first byte of that slot set to `0xE5`.  Otherwise it
returns -1 and the state is the same. -/
theorem delete_directory_entry_cases (fs : FileSystem) (hw : WellFormed fs) {dir d : Nat}
    {dcs : List Nat} (hp : Path fs dir dcs d) (hd : is_valid_cluster fs d = false)
    (name : List Nat) (fuel : Nat) (hf : dcs.length ≤ fuel) :
    ((∃ x ∈ (dcs.flatMap (cluster_slots fs)).takeWhile (fun e => decide (e.DIR_Name0 ≠ 0x00)),
        x.DIR_Name = format_filename name) →
      ∃ (A : List DirEntry) (x : DirEntry) (B : List DirEntry) (y : Nat) (fs' : FileSystem),
        dcs.flatMap (cluster_slots fs) = A ++ x :: B ∧
        (∀ a ∈ A, ¬ stop_slot (format_filename name) a) ∧
        x.DIR_Name0 ≠ 0x00 ∧ x.DIR_Name = format_filename name ∧
        dcs.get? (A.length / max_entries fs) = some y ∧
        x = read_bytes fs.image (data_addr fs y + 32 * (A.length % max_entries fs)) 32 ∧
        delete_directory_entry fs dir name fuel = some (fs', true) ∧
        fs' = fwrite_at fs (data_addr fs y + 32 * (A.length % max_entries fs))
          (x.set 0 0xE5) ∧
        (∀ a, fs'.image a =
          if a = data_addr fs y + 32 * (A.length % max_entries fs) then 0xE5
          else fs.image a) ∧
        fs.image (data_addr fs y + 32 * (A.length % max_entries fs)) = x.DIR_Name0 ∧
        dcs.flatMap (cluster_slots fs') = A ++ x.set 0 0xE5 :: B) ∧
    ((¬ ∃ x ∈ (dcs.flatMap (cluster_slots fs)).takeWhile
          (fun e => decide (e.DIR_Name0 ≠ 0x00)), x.DIR_Name = format_filename name) →
      delete_directory_entry fs dir name fuel = some (fs, false)) := by
  have hnz : ∀ (A : List DirEntry), (∀ a ∈ A, ¬ stop_slot (format_filename name) a) →
      ∀ a ∈ A, (fun e : DirEntry => decide (e.DIR_Name0 ≠ 0x00)) a = true := by
    intro A hA a ha
    simp only [decide_eq_true_eq]
    exact fun q => hA a ha (Or.inl q)
  refine ⟨?_, ?_⟩
  · rintro ⟨x0, hx0m, hx0n⟩
    have hx0R : x0 ∈ dcs.flatMap (cluster_slots fs) := (List.takeWhile_sublist _).subset hx0m
    obtain ⟨A, x, B, hR, hA, hx⟩ :=
      exists_first_split (stop_slot (format_filename name)) _ ⟨x0, hx0R, Or.inr hx0n⟩
    have hxnz : x.DIR_Name0 ≠ 0x00 := by
      intro hz
      rw [hR, takeWhile_first_split _ A B x (hnz A hA), if_neg (by simp [hz])] at hx0m
      exact hA x0 hx0m (Or.inr hx0n)
    have hxn : x.DIR_Name = format_filename name := by
      rcases hx with h | h
      · exact absurd h hxnz
      · exact h
    have hidx : A.length < dcs.length * max_entries fs := by
      rw [← dir_slots_length fs dcs, hR]
      simp
    have hxlen : x.length = 32 :=
      @mem_dir_slots_length fs dcs x (by rw [hR]; simp)
    obtain ⟨y, hy, hwr, hget⟩ :=
      dir_write_raw_at fs hw hp A.length (DirEntry.set_DIR_Name0 x 0xE5) fuel hf hidx
    have hxe : x = read_bytes fs.image
        (data_addr fs y + 32 * (A.length % max_entries fs)) 32 := by
      rw [hR] at hget
      simp only [List.get?_eq_getElem?] at hget
      rw [List.getElem?_append_right (Nat.le_refl _), Nat.sub_self] at hget
      simpa using hget
    obtain ⟨fs2, y2, _, hwr2, _, _, _, hs2⟩ :=
      dir_write_raw fs hw hp hd A.length (DirEntry.set_DIR_Name0 x 0xE5) fuel hf hidx
        (by unfold DirEntry.set_DIR_Name0; rw [List.length_set]; exact hxlen)
    rw [hwr] at hwr2
    have hfs2 := Option.some.inj hwr2
    refine ⟨A, x, B, y, _, hR, hA, hxnz, hxn, hy, hxe, ?_, rfl, ?_, ?_, ?_⟩
    · unfold delete_directory_entry
      rw [delete_directory_entry_loop_found hw dir _ fuel dcs dir 0 fuel A x B hp hf hR hA
        hxnz hxn, Nat.zero_add, hwr]
      rfl
    · intro a
      show write_bytes fs.image _ (x.set 0 0xE5) a = _
      conv_lhs => rw [hxe]
      exact write_bytes_set_head fs.image _ 0xE5 a
    · conv_rhs => rw [hxe]
      unfold DirEntry.DIR_Name0 read_bytes
      simp [List.range_succ_eq_map]
    · have e1 : fwrite_at fs (data_addr fs y + 32 * (A.length % max_entries fs))
          (x.set 0 0xE5) = fs2 := hfs2
      rw [e1, hs2, hR, set_append_cons]
      rfl
  · intro hno
    unfold delete_directory_entry
    by_cases hstop : ∃ a ∈ dcs.flatMap (cluster_slots fs), stop_slot (format_filename name) a
    · obtain ⟨A, x, B, hR, hA, hx⟩ := exists_first_split (stop_slot (format_filename name)) _ hstop
      have hx0 : x.DIR_Name0 = 0x00 := by
        by_contra hxnz
        have hxn : x.DIR_Name = format_filename name := by
          rcases hx with h | h
          · exact absurd h hxnz
          · exact h
        apply hno
        refine ⟨x, ?_, hxn⟩
        rw [hR, takeWhile_first_split _ A B x (hnz A hA), if_pos (by simpa using hxnz)]
        simp
      exact delete_directory_entry_loop_end hw dir _ fuel dcs dir 0 fuel A x B hp hf hR hA hx0
    · exact delete_directory_entry_loop_off hw hd dir _ fuel dcs dir 0 fuel hp hf
        (fun a ha hs => hstop ⟨a, ha, hs⟩)


theorem getD_append_cons_self {α : Type} (A B : List α) (x d : α) :
    (A ++ x :: B).getD A.length d = x := by
  induction A with
  | nil => rfl
  | cons a A ih => simpa using ih

theorem getD_append_cons_ne {α : Type} (A B : List α) (x x' d : α) :
    ∀ i, i ≠ A.length → (A ++ x' :: B).getD i d = (A ++ x :: B).getD i d := by
  induction A with
  | nil =>
    intro i hi
    cases i with
    | zero => exact absurd rfl hi
    | succ j => rfl
  | cons a A ih =>
    intro i hi
    cases i with
    | zero => rfl
    | succ j =>
      have := ih j (by simpa using hi)
      simpa using this


theorem get_fat_entry_zero_of_bytes (fs : FileSystem) (hw : WellFormed fs) (c : Nat)
    (hc : InFat fs c) (h : ∀ j, j < 4 → fs.image (fat_addr fs 0 c + j) = 0) :
    get_fat_entry fs c = 0 := by
  unfold get_fat_entry
  rw [fat_entry_pos_eq fs c hw.fatBelow hw.2.1 hc,
    read_le32_of_bytes fs.image _ 0 (fun j hj => by
      rw [h j hj]
      have : j = 0 ∨ j = 1 ∨ j = 2 ∨ j = 3 := by omega
      rcases this with e | e | e | e <;> rw [e] <;> rfl)]
  rfl

/-- The first part of `cmd_mkdir` when the name is not found and a cluster `C` is free:
`C` is claimed, `.` and `..` are written into it, and the command goes on with
`create_directory_entry` in the parent directory. -/
theorem cmd_mkdir_start (fs : FileSystem) (name : List Nat) (fuel : Nat) (dcs : List Nat)
    (hw : WellFormed fs) (hr : fs.total_clusters + 2 ≤ 0x0FFFFFF8)
    (hbpc : 64 ≤ bytes_per_cluster fs)
    (hfind : find_entry fs fs.current_cluster name fuel = some none)
    (hfuel : 1 ≤ fuel) (halloc : (allocate_cluster fs).1 ≠ 0) :
    2 ≤ (allocate_cluster fs).1 ∧ (allocate_cluster fs).1 < fs.total_clusters + 2 ∧
      get_fat_entry fs (allocate_cluster fs).1 = 0 ∧
      ∃ fsC, Frame fs fsC [(allocate_cluster fs).1] [(allocate_cluster fs).1] ∧
        WellFormed fsC ∧ Path fsC (allocate_cluster fs).1 [(allocate_cluster fs).1] 0x0FFFFFFF ∧
        get_fat_entry fsC (allocate_cluster fs).1 = 0x0FFFFFFF ∧
        cluster_slots fsC (allocate_cluster fs).1 =
          dot_entry (allocate_cluster fs).1 ::
            dotdot_entry (if fs.current_cluster = fs.root_cluster then 0
              else fs.current_cluster) ::
            List.replicate (max_entries fs - 2) (List.replicate 32 0) ∧
        cmd_mkdir fs name fuel =
          (create_directory_entry fsC fs.current_cluster name ATTR_DIRECTORY
            (allocate_cluster fs).1 0 fuel).bind fun r =>
            if r.2 = true then some (CmdResult.ok r.1)
            else (free_cluster_chain r.1 fuel (allocate_cluster fs).1).map fun fs3 =>
              CmdResult.fail fs3 CmdError.failed_create_directory := by
  have hcmd : cmd_mkdir fs name fuel =
      if (allocate_cluster fs).1 = 0 then
        some (CmdResult.fail (allocate_cluster fs).2 CmdError.no_free_clusters)
      else cmd_mkdir_fill (allocate_cluster fs).2 name (allocate_cluster fs).1 fuel := by
    unfold cmd_mkdir
    rw [hfind]
    rfl
  rcases allocate_cluster_cases fs with ⟨h0, _, _⟩ | ⟨h2, hlt, hfree, _, hcl⟩
  · exact absurd h0 halloc
  rw [if_neg halloc, hcl] at hcmd
  generalize (allocate_cluster fs).1 = C at *
  rw [hw.u32_total] at hlt
  have hlt2 : C < fs.total_clusters + 2 := by omega
  obtain ⟨fsB, fsC, hwr1, hwr2, hfr, hwC, hpC, hgC, hslots⟩ :=
    mkdir_new_cluster fs hw hr hbpc h2 hlt2 fuel hfuel
  refine ⟨h2, hlt2, hfree, fsC, hfr, hwC, hpC, hgC, hslots, ?_⟩
  rw [hcmd]
  unfold cmd_mkdir_fill
  rw [hwr1, Option.some_bind]
  dsimp only
  rw [hwr2, Option.some_bind, hfr.1.2.1]

/-- The state after a `cmd_mkdir` that reports no error, on a directory chain `dcs` that
does not contain the name: the new cluster `C` is a one-cluster chain holding `.`, `..`
and zero slots, and the entry of the new directory stands in the first reusable slot of
the parent's chain `dcs1`. -/
theorem cmd_mkdir_done (fs : FileSystem) (name : List Nat) (fuel : Nat) (dcs : List Nat)
    (hw : WellFormed fs) (hr : fs.total_clusters + 2 ≤ 0x0FFFFFF8)
    (hbpc : 64 ≤ bytes_per_cluster fs)
    (hdir : cluster_chain fs fuel fs.current_cluster = some dcs) (hne : dcs ≠ [])
    (hdnz : ∀ c ∈ dcs, get_fat_entry fs c ≠ 0)
    (hfind : find_entry fs fs.current_cluster name fuel = some none)
    (hfuel : dcs.length + 1 ≤ fuel) (h16 : dcs.length ≤ 16) (r : CmdResult)
    (hcmd : cmd_mkdir fs name fuel = some r) (herr : r.err = none) :
    2 ≤ (allocate_cluster fs).1 ∧ (allocate_cluster fs).1 < fs.total_clusters + 2 ∧
      SameState fs r.fs ∧ WellFormed r.fs ∧
      Path r.fs (allocate_cluster fs).1 [(allocate_cluster fs).1] 0x0FFFFFFF ∧
      cluster_slots r.fs (allocate_cluster fs).1 =
        dot_entry (allocate_cluster fs).1 ::
          dotdot_entry (if fs.current_cluster = fs.root_cluster then 0
            else fs.current_cluster) ::
          List.replicate (max_entries fs - 2) (List.replicate 32 0) ∧
      ∃ (dcs1 : List Nat) (d1 : Nat) (A B : List DirEntry),
        Path r.fs fs.current_cluster dcs1 d1 ∧ is_valid_cluster r.fs d1 = false ∧
        dcs1.length ≤ dcs.length + 1 ∧ (allocate_cluster fs).1 ∉ dcs1 ∧
        dcs1.flatMap (cluster_slots r.fs) =
          A ++ new_entry name ATTR_DIRECTORY (allocate_cluster fs).1 0 :: B ∧
        (∀ a ∈ A, ¬ free_slot a) ∧
        (∀ a ∈ A.filter live_slot, a.DIR_Name ≠ format_filename name) ∧
        (∀ a ∈ A, a ∈ in_use_slots (dcs.flatMap (cluster_slots fs))) := by
  obtain ⟨d, hp, hd⟩ := cluster_chain_path fs fuel _ _ hdir
  have hE : 0 < max_entries fs := by
    unfold max_entries DIR_ENTRY_SIZE
    exact Nat.div_pos (by omega) (by norm_num)
  have hrd := read_directory_path hw hp hd fuel (by omega) h16
  have hnone : ∀ a ∈ enumerate (dcs.flatMap (cluster_slots fs)),
      a.DIR_Name ≠ format_filename name := by
    rw [find_entry_eq, hrd] at hfind
    simp only [Option.map_some', Option.some.injEq, Option.map_eq_none'] at hfind
    exact (first_match_none _ _ 0).1 hfind
  have halloc : (allocate_cluster fs).1 ≠ 0 := by
    intro h0
    unfold cmd_mkdir at hcmd
    rw [hfind, Option.some_bind] at hcmd
    dsimp only at hcmd
    rw [if_pos h0] at hcmd
    cases hcmd
    cases herr
  obtain ⟨h2, hlt, hfree, fsC, hfr, hwC, hpC, hgC, hslots, hstart⟩ :=
    cmd_mkdir_start fs name fuel dcs hw hr hbpc hfind (by omega) halloc
  rw [hstart] at hcmd
  generalize (allocate_cluster fs).1 = C at *
  have hCin : InFat fs C := hw.inFat hlt
  have hCF : ∀ x ∈ [C], InFat fs x := fun x hx => by
    rw [List.mem_singleton] at hx
    rw [hx]
    exact hCin
  have hCd : C ∉ dcs := fun h => hdnz C h hfree
  have hnotC : ∀ c ∈ dcs, c ∉ [C] := fun c hc h =>
    hCd (by rw [List.mem_singleton] at h; rw [← h]; exact hc)
  have hpP : Path fsC fs.current_cluster dcs d := hp.frame hfr hw hCF hnotC
  have hdC : is_valid_cluster fsC d = false := (hfr.1.valid d).trans hd
  have hdnzC : ∀ c ∈ dcs, get_fat_entry fsC c ≠ 0 := fun c hc => by
    rw [hfr.get_fat_entry hw hCF
      (inFat_of_valid fs c hw.2.2.2.2.2.1 (hp.valid_of_mem c hc)) (hnotC c hc)]
    exact hdnz c hc
  have hslotsP : dcs.flatMap (cluster_slots fsC) = dcs.flatMap (cluster_slots fs) := by
    apply List.flatMap_congr
    intro c hc
    exact hfr.cluster_slots hw hCF (fun x hx => by rw [List.mem_singleton] at hx; omega)
      ((is_valid_cluster_iff fs c).1 (hp.valid_of_mem c hc)).1 (hnotC c hc)
  have hEC : max_entries fsC = max_entries fs := hfr.1.max_entries
  have hrC : fsC.total_clusters + 2 ≤ 0x0FFFFFF8 := by
    rw [hfr.1.2.2.2.2.2.2.2]
    exact hr
  obtain ⟨f1, _, _, _, _, _⟩ :=
    new_entry_fields name ATTR_DIRECTORY C 0 (by decide) (by omega) (by norm_num)
  rcases create_directory_entry_spec fsC hwC hrC (by rw [hEC]; exact hE) hpP hdC hne hdnzC name
    ATTR_DIRECTORY C 0 fuel hfuel f1 with hfail | ⟨fs1, fs2, dcs1, d1, F, S, A, x, B, y, hc,
      hfr1, hw1, hp1, hd1, _, hF, hS, _, hlen1, _, hsub, henum, hs1, hA, hx, hy, hfr2, hp2, hw2,
      hs2, huse⟩
  · exfalso
    rw [hfail, Option.some_bind] at hcmd
    have hcmd2 : (free_cluster_chain fsC fuel C).map (fun fs3 =>
        CmdResult.fail fs3 CmdError.failed_create_directory) = some r := hcmd
    obtain ⟨fs3, _, h3⟩ := Option.map_eq_some'.1 hcmd2
    rw [← h3] at herr
    cases herr
  · rw [hc, Option.some_bind] at hcmd
    have hcmd2 : some (CmdResult.ok fs2) = some r := hcmd
    cases hcmd2
    have hd2 : is_valid_cluster fs2 d1 = false := (hfr2.1.valid d1).trans hd1
    have hCS : C ∉ S := fun h => by
      have := (hS C h).2.2
      rw [hgC] at this
      cases this
    have hCdcs1 : C ∉ dcs1 := fun h => by
      rcases hsub C h with h1 | h1
      · exact hCd h1
      · rw [hgC] at h1
        cases h1
    have hyC : C ∉ [y] := fun h => by
      rw [List.mem_singleton] at h
      rw [h] at hCdcs1
      exact hCdcs1 hy
    have hFC : ∀ z ∈ F, InFat fsC z := fun z hz => (hF z hz).1
    have hy2 : 2 ≤ y := ((is_valid_cluster_iff fs1 y).1 (hp1.valid_of_mem y hy)).1
    have hsl2 : cluster_slots fs2 C = cluster_slots fsC C := by
      rw [hfr2.cluster_slots hw1 (fun _ h => by cases h)
        (fun z hz => by rw [List.mem_singleton.1 hz]; exact hy2) h2 hyC]
      exact hfr1.cluster_slots hwC hFC (fun z hz => (hS z hz).1) h2 hCS
    -- the chain of the new cluster is untouched
    have hCF1 : C ∉ F := fun h => by
      rcases (hF C h).2 with h1 | h1
      · exact hCd h1
      · rw [hgC] at h1
        cases h1
    have hpC1 : Path fs1 C [C] 0x0FFFFFFF :=
      hpC.frame hfr1 hwC hFC (fun z hz h => by
        rw [List.mem_singleton.1 hz] at h
        exact hCF1 h)
    have hpC2 : Path fs2 C [C] 0x0FFFFFFF :=
      hpC1.frame hfr2 hw1 (fun _ h => by cases h) (fun _ _ h => by cases h)
    have hold : enumerate (dcs.flatMap (cluster_slots fs)) = A.filter live_slot ++ enumerate B ∨
        enumerate (dcs.flatMap (cluster_slots fs)) = A.filter live_slot := by
      rw [← hslotsP, ← henum, hs1]
      have hz := any_zero_of_no_free A hA
      rw [enumerate_append_of_no_zero _ _ hz]
      rcases hx with h0 | h5
      · right
        rw [enumerate_cons_zero x B h0, List.append_nil]
      · left
        rw [enumerate_cons_dead x B (by rw [h5]; decide) (live_slot_deleted x h5)]
    have hpre : ∀ a ∈ A.filter live_slot, a.DIR_Name ≠ format_filename name := by
      intro a ha
      apply hnone
      rcases hold with h | h
      · rw [h]; exact List.mem_append_left _ ha
      · rw [h]; exact ha
    refine ⟨h2, hlt, (hfr.1.same_trans hfr1.1).same_trans hfr2.1, hw2, hpC2, ?_, dcs1, d1, A, B,
      hp2, hd2, hlen1, hCdcs1, hs2, hA, hpre, by rw [← hslotsP]; exact huse⟩
    show cluster_slots fs2 C = _
    rw [hsl2, hslots]


/-! ### `is_directory_empty` and `cmd_rmdir` -/

theorem live_name0 {e : DirEntry} (h : live_slot e = true) : e.DIR_Name0 ≠ 0xE5 := by
  unfold live_slot at h
  simp only [Bool.and_eq_true, decide_eq_true_eq] at h
  exact h.1

/-- The result of `is_directory_empty` in terms of the enumeration of the chain. -/
theorem is_directory_empty_path {fs : FileSystem} (hw : WellFormed fs) {c d : Nat}
    {cs : List Nat} (hp : Path fs c cs d) (hd : is_valid_cluster fs d = false) (fuel : Nat)
    (hf : cs.length ≤ fuel) (h16 : cs.length ≤ 16) :
    ∃ b, is_directory_empty fs c fuel = some b ∧
      (b = true ↔ ∀ e ∈ enumerate (cs.flatMap (cluster_slots fs)), e.DIR_Name0 = 46) := by
  refine ⟨decide (((enumerate (cs.flatMap (cluster_slots fs))).filter fun e =>
      decide (e.DIR_Name0 ≠ 46 ∧ e.DIR_Name0 ≠ 0x00 ∧ e.DIR_Name0 ≠ 0xE5)).length = 0),
    ?_, ?_⟩
  · unfold is_directory_empty
    rw [read_directory_path hw hp hd fuel hf h16]
    rfl
  · simp only [decide_eq_true_eq, List.length_eq_zero, List.filter_eq_nil_iff]
    constructor
    · intro h e he
      have := h e he
      obtain ⟨_, h0, hl⟩ := mem_enumerate he
      have h5 := live_name0 hl
      by_contra hne
      exact this ⟨hne, h0, h5⟩
    · intro h e he q
      exact q.1 (h e he)

theorem dot_entry_name0 (c : Nat) :
    (dot_entry c).DIR_Name0 = 46 ∧ (dot_entry c).DIR_Attr = ATTR_DIRECTORY := ⟨rfl, rfl⟩

theorem dotdot_entry_name0 (c : Nat) :
    (dotdot_entry c).DIR_Name0 = 46 ∧ (dotdot_entry c).DIR_Attr = ATTR_DIRECTORY := ⟨rfl, rfl⟩

/-- The enumeration of a cluster as `cmd_mkdir` fills it. -/
theorem enumerate_new_directory (c p n : Nat) :
    enumerate (dot_entry c :: dotdot_entry p :: List.replicate n (List.replicate 32 0)) =
      [dot_entry c, dotdot_entry p] := by
  have l1 : live_slot (dot_entry c) = true := by
    unfold live_slot
    rw [(dot_entry_name0 c).1, (dot_entry_name0 c).2]
    decide
  have l2 : live_slot (dotdot_entry p) = true := by
    unfold live_slot
    rw [(dotdot_entry_name0 p).1, (dotdot_entry_name0 p).2]
    decide
  rw [enumerate_cons_live _ _ (by rw [(dot_entry_name0 c).1]; decide) l1,
    enumerate_cons_live _ _ (by rw [(dotdot_entry_name0 p).1]; decide) l2,
    enumerate_zero_slots]

/-- On a directory chain `delete_directory_entry` returns. -/
theorem delete_directory_entry_returns (fs : FileSystem) (hw : WellFormed fs) {dir d : Nat}
    {dcs : List Nat} (hp : Path fs dir dcs d) (hd : is_valid_cluster fs d = false)
    (name : List Nat) (fuel : Nat) (hf : dcs.length ≤ fuel) :
    ∃ q, delete_directory_entry fs dir name fuel = some q := by
  obtain ⟨c1, c2⟩ := delete_directory_entry_cases fs hw hp hd name fuel hf
  by_cases h : ∃ x ∈ (dcs.flatMap (cluster_slots fs)).takeWhile
      (fun e => decide (e.DIR_Name0 ≠ 0x00)), x.DIR_Name = format_filename name
  · obtain ⟨_, _, _, _, fs', _, _, _, _, _, _, hdel, _⟩ := c1 h
    exact ⟨_, hdel⟩
  · exact ⟨_, c2 h⟩


/-- On a directory chain of allocated clusters that does not contain the name,
`cmd_mkdir` returns. -/
theorem cmd_mkdir_returns (fs : FileSystem) (name : List Nat) (fuel : Nat) (dcs : List Nat)
    (hw : WellFormed fs) (hr : fs.total_clusters + 2 ≤ 0x0FFFFFF8)
    (hbpc : 64 ≤ bytes_per_cluster fs)
    (hdir : cluster_chain fs fuel fs.current_cluster = some dcs) (hne : dcs ≠ [])
    (hdnz : ∀ c ∈ dcs, get_fat_entry fs c ≠ 0)
    (hfind : find_entry fs fs.current_cluster name fuel = some none)
    (hfuel : dcs.length + 1 ≤ fuel) : ∃ r, cmd_mkdir fs name fuel = some r := by
  by_cases halloc : (allocate_cluster fs).1 = 0
  · refine ⟨CmdResult.fail (allocate_cluster fs).2 CmdError.no_free_clusters, ?_⟩
    unfold cmd_mkdir
    rw [hfind, Option.some_bind]
    dsimp only
    rw [if_pos halloc]
  obtain ⟨d, hp, hd⟩ := cluster_chain_path fs fuel _ _ hdir
  have hE : 0 < max_entries fs := by
    unfold max_entries DIR_ENTRY_SIZE
    exact Nat.div_pos (by omega) (by norm_num)
  obtain ⟨h2, hlt, hfree, fsC, hfr, hwC, hpC, hgC, hslots, hstart⟩ :=
    cmd_mkdir_start fs name fuel dcs hw hr hbpc hfind (by omega) halloc
  rw [hstart]
  generalize (allocate_cluster fs).1 = C at *
  have hCin : InFat fs C := hw.inFat hlt
  have hCF : ∀ x ∈ [C], InFat fs x := fun x hx => by
    rw [List.mem_singleton] at hx
    rw [hx]
    exact hCin
  have hCd : C ∉ dcs := fun h => hdnz C h hfree
  have hnotC : ∀ c ∈ dcs, c ∉ [C] := fun c hc h =>
    hCd (by rw [List.mem_singleton] at h; rw [← h]; exact hc)
  have hpP : Path fsC fs.current_cluster dcs d := hp.frame hfr hw hCF hnotC
  have hdC : is_valid_cluster fsC d = false := (hfr.1.valid d).trans hd
  have hdnzC : ∀ c ∈ dcs, get_fat_entry fsC c ≠ 0 := fun c hc => by
    rw [hfr.get_fat_entry hw hCF
      (inFat_of_valid fs c hw.2.2.2.2.2.1 (hp.valid_of_mem c hc)) (hnotC c hc)]
    exact hdnz c hc
  have hEC : max_entries fsC = max_entries fs := hfr.1.max_entries
  have hrC : fsC.total_clusters + 2 ≤ 0x0FFFFFF8 := by
    rw [hfr.1.2.2.2.2.2.2.2]
    exact hr
  obtain ⟨f1, _, _, _, _, _⟩ :=
    new_entry_fields name ATTR_DIRECTORY C 0 (by decide) (by omega) (by norm_num)
  rcases create_directory_entry_spec fsC hwC hrC (by rw [hEC]; exact hE) hpP hdC hne hdnzC name
    ATTR_DIRECTORY C 0 fuel hfuel f1 with hfail | ⟨fs1, fs2, dcs1, d1, F, S, A, x, B, y, hc, _⟩
  · rw [hfail, Option.some_bind]
    obtain ⟨fs3, hfree3, _, _⟩ :=
      free_cluster_chain_path [C] fsC C _ fuel hwC hpC (eoc_not_valid _) (by simp; omega)
    refine ⟨CmdResult.fail fs3 CmdError.failed_create_directory, ?_⟩
    show (free_cluster_chain fsC fuel C).map _ = _
    rw [hfree3]
    rfl
  · rw [hc, Option.some_bind]
    exact ⟨_, rfl⟩


/-! ### Paths of `cmd_cd` -/

theorem zero_not_mem_cstr (s : List Nat) : 0 ∉ cstr s := by
  intro h
  unfold cstr at h
  have := List.mem_takeWhile_imp h
  simp at this

theorem last_slash_append (a m : List Nat) (hm : 47 ∉ m) :
    last_slash (a ++ 47 :: m) = some a.length := by
  unfold last_slash
  have hlen : (a ++ 47 :: m).length = (a.length + 1) + m.length := by
    simp only [List.length_append, List.length_cons]
    omega
  rw [hlen, List.range_add, List.filter_append, List.range_succ, List.filter_append]
  have h1 : List.filter (fun i => decide ((a ++ 47 :: m).getD i 0 = 47)) [a.length] =
      [a.length] := by
    rw [List.filter_cons, getD_append_cons_self]
    rfl
  have h2 : List.filter (fun i => decide ((a ++ 47 :: m).getD i 0 = 47))
      ((List.range m.length).map fun x => a.length + 1 + x) = [] := by
    rw [List.filter_eq_nil_iff]
    intro i hi
    obtain ⟨j, hj, rfl⟩ := List.mem_map.1 hi
    have hj' := List.mem_range.1 hj
    simp only [decide_eq_true_eq]
    intro h47
    apply hm
    have e : (a ++ 47 :: m).getD (a.length + 1 + j) 0 = m.getD j 0 := by
      rw [List.getD_eq_getElem?_getD, List.getD_eq_getElem?_getD,
        List.getElem?_append_right (by omega)]
      have : a.length + 1 + j - a.length = j + 1 := by omega
      rw [this, List.getElem?_cons_succ]
    rw [e, List.getD_eq_getElem _ _ hj'] at h47
    rw [← h47]
    exact List.getElem_mem _
  rw [h1, h2, List.append_nil, List.getLast?_append, List.getLast?_singleton]
  rfl

/-- Stripping the last segment of the path that `cmd_cd` built for a child whose name holds
no `'/'` gives back the path string it started from. -/
theorem parent_path_child_path (P name : List Nat) (hP : cstr P ≠ [])
    (hs : 47 ∉ cstr name) : parent_path (child_path P name) = some (cstr P) := by
  have z1 := zero_not_mem_cstr P
  have z2 := zero_not_mem_cstr name
  by_cases hroot : cstr P = [47]
  · have hc : child_path P name = 47 :: cstr name := by
      unfold child_path
      rw [if_neg (not_not.2 hroot), hroot]
      rfl
    have hcs : cstr (47 :: cstr name) = 47 :: cstr name :=
      cstr_of_no_zero _ (by
        intro h
        rcases List.mem_cons.1 h with h | h
        · cases h
        · exact z2 h)
    rw [hc, hroot]
    unfold parent_path
    rw [hcs]
    by_cases hn : cstr name = []
    · rw [hn, if_neg (not_not.2 rfl)]
    · rw [if_pos (by
        intro h
        apply hn
        simpa using h)]
      have := last_slash_append [] (cstr name) hs
      rw [List.nil_append] at this
      rw [this]
      rfl
  · have hc : child_path P name = cstr P ++ 47 :: cstr name := by
      unfold child_path
      rw [if_pos hroot]
      simp
    have hcs : cstr (cstr P ++ 47 :: cstr name) = cstr P ++ 47 :: cstr name :=
      cstr_of_no_zero _ (by
        intro h
        rcases List.mem_append.1 h with h | h
        · exact z1 h
        · rcases List.mem_cons.1 h with h | h
          · cases h
          · exact z2 h)
    have hl : 0 < (cstr P).length := List.length_pos.2 hP
    rw [hc]
    unfold parent_path
    rw [hcs, if_pos (by
      intro h
      have := congrArg List.length h
      simp at this
      omega), last_slash_append _ _ hs]
    simp only [Option.map_some']
    rw [if_neg (by omega), List.take_left']
    rfl

/-! ### The state after `cmd_mkdir` -/

/-- After a `cmd_mkdir` that reports no error, for a name that does not start with `0xE5`:
`find_entry` yields the new entry in the current directory, and the new directory
enumerates as `.` and `..`. -/
theorem cmd_mkdir_found (fs : FileSystem) (name : List Nat) (fuel : Nat) (dcs : List Nat)
    (hw : WellFormed fs) (hr : fs.total_clusters + 2 ≤ 0x0FFFFFF8)
    (hbpc : 64 ≤ bytes_per_cluster fs)
    (hdir : cluster_chain fs fuel fs.current_cluster = some dcs) (hne : dcs ≠ [])
    (hdnz : ∀ c ∈ dcs, get_fat_entry fs c ≠ 0)
    (hfind : find_entry fs fs.current_cluster name fuel = some none)
    (hfuel : dcs.length + 1 ≤ fuel) (h16 : dcs.length < 16) (hname : cchar name 0 ≠ 0xE5)
    (r : CmdResult)
    (hcmd : cmd_mkdir fs name fuel = some r) (herr : r.err = none) :
    find_entry r.fs fs.current_cluster name fuel =
        some (some (new_entry name ATTR_DIRECTORY (allocate_cluster fs).1 0)) ∧
      read_directory r.fs (allocate_cluster fs).1 fuel =
        some [dot_entry (allocate_cluster fs).1,
          dotdot_entry (if fs.current_cluster = fs.root_cluster then 0
            else fs.current_cluster)] := by
  obtain ⟨h2, hlt, hss, hwW, hpC, hslots, dcs1, d1, A, B, hp1, hd1, hlen1, hC, hs, hA, hpre, _⟩ :=
    cmd_mkdir_done fs name fuel dcs hw hr hbpc hdir hne hdnz hfind hfuel (by omega) r hcmd herr
  obtain ⟨_, f2, _, _, _, _⟩ :=
    new_entry_fields name ATTR_DIRECTORY (allocate_cluster fs).1 0 (by decide) (by omega)
      (by norm_num)
  obtain ⟨n0, nl⟩ :=
    new_entry_live name ATTR_DIRECTORY (allocate_cluster fs).1 0 (by decide) (by omega)
      (by norm_num) hname (by decide)
  constructor
  · rw [find_entry_eq, read_directory_path hwW hp1 hd1 fuel (by omega) (by omega), hs,
      enumerate_append_of_no_zero _ _ (any_zero_of_no_free A hA), enumerate_cons_live _ B n0 nl]
    simp only [Option.map_some']
    rw [first_match_append _ _ _ f2 _ 0 hpre]
    rfl
  · rw [read_directory_path hwW hpC (eoc_not_valid _) fuel (by simp; omega) (by simp)]
    simp only [List.flatMap_cons, List.flatMap_nil, List.append_nil]
    rw [hslots, enumerate_new_directory]


/-- Reading a directory does not depend on the current directory of the state. -/
theorem read_directory_moved (fs : FileSystem) (hw : WellFormed fs) (p : List Nat) (c : Nat)
    {x d : Nat} {cs : List Nat} (hp : Path fs x cs d) (hd : is_valid_cluster fs d = false)
    (fuel : Nat) (hf : cs.length ≤ fuel) (h16 : cs.length ≤ 16) :
    read_directory { fs with current_path := p, current_cluster := c } x fuel =
      read_directory fs x fuel := by
  rw [read_directory_path hw hp hd fuel hf h16]
  exact @read_directory_path { fs with current_path := p, current_cluster := c } hw x d cs
    (hp.congr (fun _ => rfl) (fun _ _ => rfl)) hd fuel hf h16


theorem toupper_ne_dot (c : Nat) (h : c ≠ 46) : toupper c ≠ 46 := by
  unfold toupper
  split <;> omega

/-- The formatted name starts with `'.'` for the names `.` and `..` only. -/
theorem format_filename_dot (name : List Nat) :
    (format_filename name).getD 0 0 = 46 ↔ cstr name = [46] ∨ cstr name = [46, 46] := by
  have hstem : (format_stem name 8 0 0 (List.replicate 11 32)).2.getD 0 0 ≠ 46 := by
    rw [format_stem]
    split
    · rename_i hc
      rw [format_stem_getD _ _ _ _ _ _ (by omega)]
      have e : ((List.replicate 11 32).set 0 (toupper (cchar name 0))).getD 0 0 =
          toupper (cchar name 0) := rfl
      rw [e]
      exact toupper_ne_dot _ hc.2.1
    · decide
  unfold format_filename
  dsimp only
  split
  · rename_i h
    exact ⟨fun _ => Or.inl h, fun _ => by decide⟩
  · rename_i h1
    split
    · rename_i h
      exact ⟨fun _ => Or.inr h, fun _ => by decide⟩
    · rename_i h2
      have hno : ¬ (cstr name = [46] ∨ cstr name = [46, 46]) := fun h => h.elim h1 h2
      split
      · rw [format_ext_getD _ _ _ _ _ _ (by omega)]
        exact ⟨fun h => absurd h hstem, fun h => absurd h hno⟩
      · exact ⟨fun h => absurd h hstem, fun h => absurd h hno⟩


/-! ### Termination of `free_cluster_chain` on every FAT content -/

theorem free_cluster_chain_invalid (fs : FileSystem) (fuel start : Nat)
    (h : is_valid_cluster fs start = false) : free_cluster_chain fs fuel start = some fs := by
  cases fuel <;> simp [free_cluster_chain, h]

/-- More fuel does not change the result of `free_cluster_chain`. -/
theorem free_cluster_chain_fuel_mono :
    ∀ (n : Nat) (fs fs' : FileSystem) (start m : Nat),
      free_cluster_chain fs n start = some fs' → n ≤ m →
      free_cluster_chain fs m start = some fs' := by
  intro n
  induction n with
  | zero =>
    intro fs fs' start m h _
    unfold free_cluster_chain at h
    split at h
    · cases h
    · rename_i hv
      cases h
      exact free_cluster_chain_invalid fs m start (by simpa using hv)
  | succ n ih =>
    intro fs fs' start m h hm
    cases m with
    | zero => omega
    | succ m =>
      unfold free_cluster_chain at h ⊢
      split
      · rename_i hv
        rw [if_pos hv] at h
        exact ih _ _ _ m h (by omega)
      · rename_i hv
        rw [if_neg hv] at h
        exact h

theorem le32_zero_getD (i : Nat) : (le32_bytes 0).getD i 0 = 0 := by
  match i with
  | 0 => rfl
  | 1 => rfl
  | 2 => rfl
  | 3 => rfl
  | _ + 4 => rfl

theorem write_zero_byte (img : Image) (p a : Nat) :
    write_bytes img p (le32_bytes 0) a = img a ∨ write_bytes img p (le32_bytes 0) a = 0 := by
  unfold write_bytes
  split
  · right
    exact le32_zero_getD _
  · left
    rfl

/-- Writing zero words leaves every byte as it was or sets it to 0. -/
theorem foldl_write_zero (pos : Nat → Nat) (l : List Nat) (img : Image) (a : Nat) :
    (l.foldl (fun im i => write_bytes im (pos i) (le32_bytes 0)) img) a = img a ∨
      (l.foldl (fun im i => write_bytes im (pos i) (le32_bytes 0)) img) a = 0 := by
  induction l generalizing img with
  | nil => exact Or.inl rfl
  | cons x xs ih =>
    rw [List.foldl_cons]
    rcases ih (write_bytes img (pos x) (le32_bytes 0)) with h | h
    · rcases write_zero_byte img (pos x) a with h' | h'
      · exact Or.inl (h.trans h')
      · exact Or.inr (h.trans h')
    · exact Or.inr h

theorem set_fat_entry_zero_image (fs : FileSystem) (c : Nat) :
    (set_fat_entry fs c 0).image =
      (List.range fs.boot_sector.BPB_NumFATs).foldl
        (fun im i => write_bytes im (fat_copy_pos fs i c) (le32_bytes 0)) fs.image := rfl

/-- After `set_fat_entry c 0` every byte of the image is as it was or is 0. -/
theorem set_fat_entry_zero_byte (fs : FileSystem) (c a : Nat) :
    (set_fat_entry fs c 0).image a = fs.image a ∨ (set_fat_entry fs c 0).image a = 0 := by
  rw [set_fat_entry_zero_image]
  exact foldl_write_zero _ _ _ _

/-- After `set_fat_entry c 0`, with at least one FAT copy, the four bytes that
`get_fat_entry c` reads are 0: the first copy is written at the position that is read, and
the later writes store zeros only. -/
theorem set_fat_entry_zero_entry (fs : FileSystem) (c : Nat)
    (hn : 1 ≤ fs.boot_sector.BPB_NumFATs) (j : Nat) (hj : j < 4) :
    (set_fat_entry fs c 0).image (fat_entry_pos fs c + j) = 0 := by
  rw [set_fat_entry_zero_image]
  obtain ⟨n, hn'⟩ : ∃ n, fs.boot_sector.BPB_NumFATs = n + 1 := ⟨_, (Nat.sub_add_cancel hn).symm⟩
  rw [hn', List.range_succ_eq_map, List.foldl_cons]
  have h0 : write_bytes fs.image (fat_copy_pos fs 0 c) (le32_bytes 0)
      (fat_entry_pos fs c + j) = 0 := by
    rw [fat_entry_pos_eq_copy, write_bytes_inside _ _ _ _ (by omega) (by simp; omega)]
    exact le32_zero_getD _
  rcases foldl_write_zero (fun i => fat_copy_pos fs i c) (List.map Nat.succ (List.range n))
      (write_bytes fs.image (fat_copy_pos fs 0 c) (le32_bytes 0))
      (fat_entry_pos fs c + j) with h | h
  · exact h.trans h0
  · exact h

theorem get_set_fat_entry_zero (fs : FileSystem) (c : Nat)
    (hn : 1 ≤ fs.boot_sector.BPB_NumFATs) : get_fat_entry (set_fat_entry fs c 0) c = 0 := by
  unfold get_fat_entry
  have hp : fat_entry_pos (set_fat_entry fs c 0) c = fat_entry_pos fs c := rfl
  rw [hp]
  unfold read_le32
  have h0 := set_fat_entry_zero_entry fs c hn 0 (by omega)
  rw [Nat.add_zero] at h0
  rw [h0, set_fat_entry_zero_entry fs c hn 1 (by omega),
    set_fat_entry_zero_entry fs c hn 2 (by omega), set_fat_entry_zero_entry fs c hn 3 (by omega)]
  rfl

/-- A word of bytes that reads 0 under the 28-bit mask still does after some of its bytes
were set to 0. -/
theorem masked_zero_stays (img img' : Image) (p : Nat) (hb : ∀ a, img a < 256)
    (hm : ∀ a, img' a = img a ∨ img' a = 0)
    (h : read_le32 img p &&& 0x0FFFFFFF = 0) : read_le32 img' p &&& 0x0FFFFFFF = 0 := by
  rw [land_mask] at h ⊢
  unfold read_le32 at h ⊢
  have b0 := hb p
  have b1 := hb (p + 1)
  have b2 := hb (p + 2)
  have b3 := hb (p + 3)
  rcases hm p with m0 | m0 <;> rcases hm (p + 1) with m1 | m1 <;>
    rcases hm (p + 2) with m2 | m2 <;> rcases hm (p + 3) with m3 | m3 <;>
    rw [m0, m1, m2, m3] <;> omega

/-- An entry that reads 0 still reads 0 after `set_fat_entry c 0`. -/
theorem get_fat_entry_zero_stays (fs : FileSystem) (c c' : Nat) (hb : ∀ a, fs.image a < 256)
    (h : get_fat_entry fs c' = 0) : get_fat_entry (set_fat_entry fs c 0) c' = 0 := by
  unfold get_fat_entry at h ⊢
  have hp : fat_entry_pos (set_fat_entry fs c 0) c' = fat_entry_pos fs c' := rfl
  rw [hp]
  exact masked_zero_stays fs.image _ _ hb (set_fat_entry_zero_byte fs c) h

theorem set_fat_entry_zero_bytes_lt (fs : FileSystem) (c : Nat) (hb : ∀ a, fs.image a < 256)
    (a : Nat) : (set_fat_entry fs c 0).image a < 256 := by
  rcases set_fat_entry_zero_byte fs c a with h | h
  · rw [h]
    exact hb a
  · rw [h]
    norm_num

theorem filter_length_le_of_imp {α : Type} (p q : α → Bool) (l : List α)
    (himp : ∀ a ∈ l, q a = true → p a = true) :
    (l.filter q).length ≤ (l.filter p).length := by
  induction l with
  | nil => exact Nat.le_refl _
  | cons y ys ih =>
    have ih' := ih (fun a ha => himp a (List.mem_cons_of_mem _ ha))
    have hy := himp y (List.mem_cons_self _ _)
    rw [List.filter_cons, List.filter_cons]
    by_cases hq : q y = true
    · rw [if_pos hq, if_pos (hy hq)]
      simp only [List.length_cons]
      omega
    · rw [if_neg hq]
      split
      · simp only [List.length_cons]
        omega
      · exact ih'

theorem filter_length_lt_of_imp {α : Type} (p q : α → Bool) (l : List α) (x : α)
    (hx : x ∈ l) (hpx : p x = true) (hqx : q x = false)
    (himp : ∀ a ∈ l, q a = true → p a = true) :
    (l.filter q).length < (l.filter p).length := by
  induction l with
  | nil => cases hx
  | cons y ys ih =>
    have hle := filter_length_le_of_imp p q ys (fun a ha => himp a (List.mem_cons_of_mem _ ha))
    have hy := himp y (List.mem_cons_self _ _)
    rw [List.filter_cons, List.filter_cons]
    rcases List.mem_cons.1 hx with h | h
    · rw [← h, if_neg (by rw [hqx]; decide), if_pos hpx]
      simp only [List.length_cons]
      omega
    · have ih' := ih h (fun a ha => himp a (List.mem_cons_of_mem _ ha))
      by_cases hq : q y = true
      · rw [if_pos hq, if_pos (hy hq)]
        simp only [List.length_cons]
        omega
      · rw [if_neg hq]
        split
        · simp only [List.length_cons]
          omega
        · exact ih'

theorem filter_range_length_le (p : Nat → Bool) (hp : ∀ c, p c = true → 2 ≤ c) :
    ∀ n, ((List.range n).filter p).length ≤ n - 2 := by
  intro n
  induction n with
  | zero => simp
  | succ n ih =>
    rw [List.range_succ, List.filter_append, List.length_append, List.filter_cons,
      List.filter_nil]
    by_cases hn : p n = true
    · rw [if_pos hn]
      have := hp n hn
      simp only [List.length_cons, List.length_nil]
      omega
    · rw [if_neg hn]
      simp only [List.length_nil]
      omega

/-- At most `total_clusters` entries of valid clusters are not 0. -/
theorem linked_clusters_le (fs : FileSystem) : linked_clusters fs ≤ fs.total_clusters := by
  unfold linked_clusters
  refine Nat.le_trans (List.length_filter_le _ _) ?_
  unfold valid_clusters
  have h := filter_range_length_le (fun c => is_valid_cluster fs c)
    (fun c hc => ((is_valid_cluster_iff fs c).1 hc).1) (u32 (fs.total_clusters + 2))
  have := u32_le (fs.total_clusters + 2)
  omega

/-- With at least one FAT copy, `free_cluster_chain` returns within one iteration more than
the number of valid clusters whose entry is not 0: every iteration that goes on to a valid
cluster has set one such entry to 0, and no entry that reads 0 is changed. -/
theorem free_cluster_chain_terminates :
    ∀ (fuel : Nat) (fs : FileSystem) (start : Nat), 1 ≤ fs.boot_sector.BPB_NumFATs →
      (∀ a, fs.image a < 256) → linked_clusters fs + 1 ≤ fuel →
      ∃ fs', free_cluster_chain fs fuel start = some fs' := by
  intro fuel
  induction fuel with
  | zero => intro fs start _ _ h; omega
  | succ n ih =>
    intro fs start hn hb hf
    by_cases hv : is_valid_cluster fs start = true
    · unfold free_cluster_chain
      rw [if_pos hv]
      by_cases hv2 : is_valid_cluster fs (get_fat_entry fs start) = true
      · apply ih (set_fat_entry fs start 0) (get_fat_entry fs start) hn
          (set_fat_entry_zero_bytes_lt fs start hb)
        have hlt : linked_clusters (set_fat_entry fs start 0) < linked_clusters fs := by
          unfold linked_clusters
          have hvc : valid_clusters (set_fat_entry fs start 0) = valid_clusters fs := rfl
          rw [hvc]
          apply filter_length_lt_of_imp _ _ _ start
          · unfold valid_clusters
            rw [List.mem_filter, List.mem_range]
            exact ⟨((is_valid_cluster_iff fs start).1 hv).2.1, hv⟩
          · have := ((is_valid_cluster_iff fs _).1 hv2).1
            simp only [decide_eq_true_eq]
            omega
          · rw [get_set_fat_entry_zero fs start hn]
            decide
          · intro a _ ha
            simp only [decide_eq_true_eq] at ha ⊢
            exact fun h0 => ha (get_fat_entry_zero_stays fs start a hb h0)
        omega
      · exact ⟨_, free_cluster_chain_invalid _ _ _ (by
          have : is_valid_cluster (set_fat_entry fs start 0) (get_fat_entry fs start) =
              is_valid_cluster fs (get_fat_entry fs start) := rfl
          rw [this]
          simpa using hv2)⟩
    · exact ⟨fs, free_cluster_chain_invalid _ _ _ (by simpa using hv)⟩

/-- Every byte of an image built by `image_of` from bytes below 256 is below 256. -/
theorem image_of_lt (chunks : List (Nat × List Nat))
    (h : ∀ ch ∈ chunks, ∀ b ∈ ch.2, b < 256) (a : Nat) : image_of chunks a < 256 := by
  unfold image_of
  split
  · rename_i ch hfind
    have hmem := List.mem_of_find?_eq_some hfind
    have hcond := List.find?_some hfind
    simp only [Bool.and_eq_true, decide_eq_true_eq] at hcond
    rw [List.getD_eq_getElem _ _ (by omega)]
    exact h ch hmem _ (List.getElem_mem _)
  · norm_num


/-- The effect of `free_cluster_chain` on the FAT entries as `get_fat_entry` reads them,
on a volume whose FAT copies end at or below `2^32` and hold an entry for every cluster:
the entries of the chain read 0, every other entry inside the FAT reads as before, and
only bytes of the FAT entries of the chain changed. -/
theorem free_cluster_chain_fat :
    ∀ (cs : List Nat) (fs : FileSystem) (c d fuel : Nat), FatBelow4G fs →
      1 ≤ fs.boot_sector.BPB_NumFATs → 4 * (fs.total_clusters + 2) ≤ fat_bytes fs →
      Path fs c cs d → is_valid_cluster fs d = false → cs.length ≤ fuel →
      ∃ fs', free_cluster_chain fs fuel c = some fs' ∧ Frame fs fs' cs [] ∧
        (∀ x ∈ cs, get_fat_entry fs' x = 0) ∧
        (∀ x, InFat fs x → x ∉ cs → get_fat_entry fs' x = get_fat_entry fs x) := by
  intro cs
  induction cs with
  | nil =>
    intro fs c d fuel _ _ _ hp hd _
    cases hp
    refine ⟨fs, ?_, Frame.refl fs _ _, fun _ h => absurd h (List.not_mem_nil _),
      fun _ _ _ => rfl⟩
    cases fuel <;> simp [free_cluster_chain, hd]
  | cons y ys ih =>
    intro fs c d fuel hb hn hf hp hd hlen
    have hc := hp.head_eq
    subst hc
    have hv := hp.valid_of_mem c (List.mem_cons_self _ _)
    have hnd := hp.nodup hd
    obtain ⟨hcn, _⟩ := List.nodup_cons.1 hnd
    cases hp with
    | cons _ _ _ _ hp' =>
      cases fuel with
      | zero => simp at hlen
      | succ f =>
        have hin : InFat fs c := inFat_of_valid fs c hf hv
        have hfa := set_fat_entry_frame fs c 0 hb hin
        have hpa : Path (set_fat_entry fs c 0) (get_fat_entry fs c) ys d := by
          refine hp'.congr (fun _ => rfl) ?_
          intro x hx
          exact get_set_fat_entry_other fs c 0 x hb hn hin
            (inFat_of_valid fs x hf (hp'.valid_of_mem x hx)) (fun e => hcn (e ▸ hx))
        obtain ⟨fs', hfree, hfr, hzero, hother⟩ :=
          ih (set_fat_entry fs c 0) (get_fat_entry fs c) d f hb hn hf hpa hd
            (by simpa using hlen)
        refine ⟨fs', ?_, ?_, ?_, ?_⟩
        · rw [free_cluster_chain, if_pos hv]
          exact hfree
        · exact (hfa.trans hfr).mono (fun x hx => by simpa using hx)
            (fun x hx => by simpa using hx)
        · intro x hx
          rcases List.mem_cons.1 hx with e | hx'
          · subst e
            rw [hother x hin hcn, get_set_fat_entry_same fs x 0 hb hn hin]
            rfl
          · exact hzero x hx'
        · intro x hx hxn
          rw [hother x hx (fun h => hxn (List.mem_cons_of_mem _ h))]
          exact get_set_fat_entry_other fs c 0 x hb hn hin hx
            (fun e => hxn (e ▸ List.mem_cons_self _ _))


/-- C1. Name codec round trip: for a stem of 1 to 8 bytes and an extension of 0 to 3 bytes
(joined by a single `.` when the extension is not empty), none of the bytes being NUL, a
space or a dot, `parse_filename (format_filename N)` is `N` with its ASCII letters
uppercased; and `.` and `..` are mapped back to themselves. -/
theorem parse_format_roundtrip (stem ext : List Nat)
    (h1 : 1 ≤ stem.length) (h8 : stem.length ≤ 8) (e3 : ext.length ≤ 3)
    (hs : ∀ b ∈ stem, NameByte b) (he : ∀ b ∈ ext, NameByte b) :
    parse_filename (format_filename (if ext = [] then stem else stem ++ 46 :: ext)) =
        (if ext = [] then stem else stem ++ 46 :: ext).map toupper ∧
      parse_filename (format_filename [46]) = [46] ∧
      parse_filename (format_filename [46, 46]) = [46, 46] := by
  refine ⟨?_, by decide, by decide⟩
  by_cases hx : ext = []
  · rw [if_pos hx]
    exact roundtrip_stem stem h1 h8 hs
  · rw [if_neg hx]
    have : 1 ≤ ext.length := by
      rcases ext with _ | ⟨b, r⟩
      · exact absurd rfl hx
      · simp
    exact roundtrip_ext stem ext h1 h8 this e3 hs he

/-- Witness for C1 at the name `a.txt`. -/
theorem parse_format_roundtrip_witness :
    parse_filename (format_filename [97, 46, 116, 120, 116]) = [65, 46, 84, 88, 84] :=
  (parse_format_roundtrip [97] [116, 120, 116] (by decide) (by decide) (by decide)
    (by decide) (by decide)).1

/-- C2 (code at the failing input). For the name `ABCDEFGHI.TXT`, whose stem has nine
characters, `format_filename` stops the stem loop at `o = 8` on the character `I`, finds
no `.` there, and leaves bytes 8..10 as spaces instead of `TXT`. -/
theorem format_filename_long_stem_drops_ext :
    format_filename [65, 66, 67, 68, 69, 70, 71, 72, 73, 46, 84, 88, 84] =
      [65, 66, 67, 68, 69, 70, 71, 72, 32, 32, 32] := by
  decide

/-- C3 (counterexample). On a volume whose two FAT copies of `2^23` sectors are identical
(all zero) and hold an entry for every cluster, `set_fat_entry 2 5` wraps the file
position of the second copy to 32 bits: it rewrites the first copy and leaves `FAT[1][2]`
unchanged, so the copies differ afterwards. -/
theorem set_fat_entry_breaks_mirroring_beyond_4G :
    Mirrored huge_fat_volume ∧
      4 * (huge_fat_volume.total_clusters + 2) ≤ fat_bytes huge_fat_volume ∧
      InFat huge_fat_volume 2 ∧
      ¬ Mirrored (set_fat_entry huge_fat_volume 2 5) := by
  refine ⟨fun _ _ _ _ _ _ => rfl, by decide, by decide, ?_⟩
  intro h
  have h1 := h 1 2 0 (by decide) (by decide) (by decide)
  revert h1
  decide

/-- C3 (amended). On a volume whose FAT copies are identical at every index, whose FAT
holds at least `total_clusters + 2` entries and whose FAT copies all end at or below byte
offset `2^32`, the copies are still identical after `set_fat_entry c v` for any index `c`
inside the FAT; and on a well-formed volume they are still identical after any sequence
of such `set_fat_entry`, `allocate_cluster` and `free_cluster_chain` calls. -/
theorem fat_mirroring_preserved (fs : FileSystem) (hm : Mirrored fs)
    (hf : 4 * (fs.total_clusters + 2) ≤ fat_bytes fs) (hb : FatBelow4G fs) :
    (∀ c v, InFat fs c → Mirrored (set_fat_entry fs c v)) ∧
      (∀ fuel start fs', free_cluster_chain fs fuel start = some fs' → Mirrored fs') ∧
      (WellFormed fs → ∀ fs', Relation.ReflTransGen FatStep fs fs' → Mirrored fs') :=
  ⟨fun c v hc => set_fat_entry_mirrored fs c v hb hc hm,
    fun fuel start fs' h => free_cluster_chain_mirrored fuel fs fs' start hb hf hm h,
    fun hw _ h => (fatSteps_mirrored h hw hm).2⟩

/-- Witness for C3 (amended) on the small volume with an all-zero image. -/
theorem fat_mirroring_preserved_witness :
    Mirrored (set_fat_entry (small_volume (fun _ => 0)) 5 7) :=
  (fat_mirroring_preserved (small_volume (fun _ => 0)) (fun _ _ _ _ _ _ => rfl)
    (by decide) (by decide)).1 5 7 (by decide)

/-- C4 (counterexample). The entry of cluster 5 holds `0xF0000000`; after
`set_fat_entry 5 0x0FFFFFFF` its top four bits are 0, not the 15 stored before. -/
theorem set_fat_entry_clears_reserved_bits :
    read_le32 reserved_bits_volume.image (fat_addr reserved_bits_volume 0 5) / 268435456 % 16
        = 15 ∧
      read_le32 (set_fat_entry reserved_bits_volume 5 0x0FFFFFFF).image
        (fat_addr reserved_bits_volume 0 5) / 268435456 % 16 = 0 ∧
      ¬ (read_le32 (set_fat_entry reserved_bits_volume 5 0x0FFFFFFF).image
          (fat_addr reserved_bits_volume 0 5) / 268435456 % 16 =
        read_le32 reserved_bits_volume.image (fat_addr reserved_bits_volume 0 5)
          / 268435456 % 16) := by
  decide

/-- C4 (amended). For every image, every cluster index `c` inside the FAT and every value
`v`, when the FAT copies end at or below byte offset `2^32`: after `set_fat_entry c v`
the 32-bit little-endian word stored at index `c` of each FAT copy has its top 4 bits
cleared and its low 28 bits equal to `v & 0x0FFFFFFF`. -/
theorem set_fat_entry_stores_masked_value (fs : FileSystem) (c v k : Nat)
    (hb : FatBelow4G fs) (hc : InFat fs c) (hk : k < fs.boot_sector.BPB_NumFATs) :
    read_le32 (set_fat_entry fs c v).image (fat_addr fs k c) / 268435456 % 16 = 0 ∧
      read_le32 (set_fat_entry fs c v).image (fat_addr fs k c) % 268435456 =
        v &&& 0x0FFFFFFF := by
  rw [set_fat_entry_word fs c v k hb hk hc]
  have := land_mask_lt v
  omega

/-- Witness for C4 (amended) on the volume whose entry 5 had its reserved bits set. -/
theorem set_fat_entry_stores_masked_value_witness :
    read_le32 (set_fat_entry reserved_bits_volume 5 0x1FFFFFFF).image
        (fat_addr reserved_bits_volume 1 5) / 268435456 % 16 = 0 ∧
      read_le32 (set_fat_entry reserved_bits_volume 5 0x1FFFFFFF).image
        (fat_addr reserved_bits_volume 1 5) % 268435456 = 0x1FFFFFFF &&& 0x0FFFFFFF :=
  set_fat_entry_stores_masked_value reserved_bits_volume 5 0x1FFFFFFF 1 (by decide)
    (by decide) (by decide)

/-- Claim C5, amended. On a state whose sector size is non-zero and whose
`total_clusters + 2` is below `2^32` (it fits the `uint32_t` the loop bound is computed
in), `allocate_cluster` returns the smallest cluster index `c` with
`2 ≤ c < total_clusters + 2` whose FAT entry reads 0; it returns 0 if and only if there is
no such index, and then the state (hence the image) is unchanged. -/
theorem allocate_cluster_first_free (fs : FileSystem)
    (_hbps : 0 < fs.boot_sector.BPB_BytsPerSec)
    (htc : fs.total_clusters + 2 < 4294967296) :
    ((allocate_cluster fs).1 ≠ 0 →
        2 ≤ (allocate_cluster fs).1 ∧ (allocate_cluster fs).1 < fs.total_clusters + 2 ∧
        get_fat_entry fs (allocate_cluster fs).1 = 0 ∧
        ∀ c, 2 ≤ c → c < (allocate_cluster fs).1 → get_fat_entry fs c ≠ 0) ∧
      ((allocate_cluster fs).1 = 0 ↔
        ¬ ∃ c, 2 ≤ c ∧ c < fs.total_clusters + 2 ∧ get_fat_entry fs c = 0) ∧
      ((allocate_cluster fs).1 = 0 → (allocate_cluster fs).2 = fs) := by
  have hu : u32 (fs.total_clusters + 2) = fs.total_clusters + 2 := u32_of_lt htc
  have hcases := allocate_cluster_cases fs
  rw [hu] at hcases
  rcases hcases with ⟨e1, e2, e3⟩ | ⟨e1, e2, e3, e4, _⟩
  · refine ⟨fun h => absurd e1 h, ⟨fun _ => ?_, fun _ => e1⟩, fun _ => e2⟩
    rintro ⟨c, h2, hlt, h0⟩
    exact e3 c h2 (by omega) h0
  · refine ⟨fun _ => ⟨e1, by omega, e3, e4⟩, ⟨fun h => ?_, fun h => ?_⟩, fun h => ?_⟩
    · omega
    · exact absurd ⟨_, e1, by omega, e3⟩ h
    · omega

/-- Witness for C5 (amended): on the volume whose root cluster is in use, cluster 3 is returned. -/
theorem allocate_cluster_first_free_witness :
    (allocate_cluster reserved_bits_volume).1 = 3 ∧
      get_fat_entry reserved_bits_volume 3 = 0 ∧
      get_fat_entry reserved_bits_volume 2 ≠ 0 := by
  have h := (allocate_cluster_first_free reserved_bits_volume (by decide) (by decide)).1
  have h3 : (allocate_cluster reserved_bits_volume).1 = 3 := by decide
  rw [h3] at h
  exact ⟨h3, (h (by decide)).2.2.1, (h (by decide)).2.2.2 2 (by decide) (by decide)⟩

/-- C6. When `allocate_cluster` returns `c ≠ 0` on a well-formed volume, afterwards
`get_fat_entry c = 0x0FFFFFFF`, every byte of the data region of cluster `c` is 0, every
other FAT entry (read through `get_fat_entry`, and byte for byte in every copy) is
unchanged, and every byte of every other cluster's data region is unchanged. -/
theorem allocate_cluster_effect (fs : FileSystem) (hw : WellFormed fs)
    (hc : (allocate_cluster fs).1 ≠ 0) :
    get_fat_entry (allocate_cluster fs).2 (allocate_cluster fs).1 = 0x0FFFFFFF ∧
    (∀ j, j < bytes_per_cluster fs →
      (allocate_cluster fs).2.image (data_addr fs (allocate_cluster fs).1 + j) = 0) ∧
    (∀ c', InFat fs c' → c' ≠ (allocate_cluster fs).1 →
      get_fat_entry (allocate_cluster fs).2 c' = get_fat_entry fs c' ∧
      ∀ k j, k < fs.boot_sector.BPB_NumFATs → j < 4 →
        (allocate_cluster fs).2.image (fat_addr fs k c' + j) =
          fs.image (fat_addr fs k c' + j)) ∧
    (∀ c' j, 2 ≤ c' → c' ≠ (allocate_cluster fs).1 → j < bytes_per_cluster fs →
      (allocate_cluster fs).2.image (data_addr fs c' + j) =
        fs.image (data_addr fs c' + j)) := by
  rcases allocate_cluster_cases fs with ⟨e1, _, _⟩ | ⟨h2, hlt, _, _, e⟩
  · exact absurd e1 hc
  · rw [hw.u32_total] at hlt
    rw [e]
    exact claim_cluster_effect fs hw h2 (by omega)

/-- Witness for C6 on the small volume: cluster 3 is claimed. -/
theorem allocate_cluster_effect_witness :
    get_fat_entry (allocate_cluster reserved_bits_volume).2
      (allocate_cluster reserved_bits_volume).1 = 0x0FFFFFFF :=
  (allocate_cluster_effect reserved_bits_volume (by decide) (by decide)).1


/-- C7 (code at the failing input). On the volume whose root directory holds the file
`ABCDEFGH.TXT`, `open ABCDEFGH.TXT -rw` succeeds, but `add_open_file` keeps only the first
11 characters of the name, so `find_open_file` never finds the handle again: the sequence
`lseek 0; write "HELLO"; lseek 0; read 5` is rejected with "File is not open" and emits no
data byte. -/
theorem read_after_write_lost_for_full_name :
    (cmd_open full_name_volume [65, 66, 67, 68, 69, 70, 71, 72, 46, 84, 88, 84]
        [45, 114, 119] 4).map (fun r => (r.err, (r.fs.open_files.take 1).map
          fun f => (f.filename, f.mode, f.is_open))) =
        some (none, [([65, 66, 67, 68, 69, 70, 71, 72, 46, 84, 88], [114, 119], true)]) ∧
      ((cmd_open full_name_volume [65, 66, 67, 68, 69, 70, 71, 72, 46, 84, 88, 84]
        [45, 114, 119] 4).bind fun r =>
          lseek_write_lseek_read r.fs [65, 66, 67, 68, 69, 70, 71, 72, 46, 84, 88, 84]
            [72, 69, 76, 76, 79] 4).map (fun r => (r.err, r.out)) =
        some (some CmdError.file_not_open, []) := by
  decide


/-- The wrap of `clusters_needed` at the level of `cmd_write` alone (the shell reads lines
of at most 1024 bytes and cannot pass such a string). On the small volume (512-byte
clusters, 952 clusters) a string of `L = 2^32 - 1` bytes is written at offset 0 to the
empty file `F`. The 32-bit sum `new_size + bytes_per_cluster - 1` wraps to 510, so `clusters_needed` is 0 and no cluster
is appended to the one just allocated: the command reports no error, the entry found under
`F` has `file_size = L` and the handle's offset is `L`, but the chain is `[3]`, one
cluster and not `ceil (L / 512) = 8388608`. -/
theorem cmd_write_wraps_clusters_needed :
    ((cmd_write empty_file_volume [70] (List.replicate 4294967295 88) 8).map
        (fun r => r.err) = some none ∧
      (cmd_write empty_file_volume [70] (List.replicate 4294967295 88) 8).bind
        (fun r => (find_entry r.fs r.fs.current_cluster [70] 8).map
          (Option.map DirEntry.DIR_FileSize)) = some (some 4294967295) ∧
      (cmd_write empty_file_volume [70] (List.replicate 4294967295 88) 8).bind
        (fun r => (find_entry r.fs r.fs.current_cluster [70] 8).map
          (Option.map fun e => cluster_chain r.fs 8 e.first_cluster)) =
        some (some (some [3])) ∧
      (cmd_write empty_file_volume [70] (List.replicate 4294967295 88) 8).bind
        (fun r => (find_open_file r.fs [70]).map fun h => h.2.offset) = some 4294967295) ∧
    (4294967295 + bytes_per_cluster empty_file_volume - 1) /
      bytes_per_cluster empty_file_volume = 8388608 := by
  refine ⟨?_, by decide⟩
  rw [cmd_write_wrap_aux (List.replicate 4294967295 88)
    (by rw [cstr_replicate, List.length_replicate])
    (by rw [cstr_replicate, List.take_replicate]; rfl)]
  refine ⟨by decide, by decide, by decide, by decide⟩


/-- Claim C8, amended. On a well-formed volume with `total_clusters + 2 ≤ 0x0FFFFFF8`, let
the current directory be a chain of at most 16 clusters, all allocated in the FAT, let the
entry found under `filename` in it be a file whose chain `cs` ends at an end-of-chain
marker, covers the on-disk size `s` and shares no cluster with the directory's chain (its
first cluster is 0 when the chain is empty), and let the handle found for `filename` be
open for writing at offset `o ≤ s`, with `o + L + bytes_per_cluster < 2^32`.
Then `cmd_write` of a string of length `L` returns, and when it reports no error the entry
found under that name has `file_size = max s (o + L)`, its chain has exactly
`max k (ceil ((o + L) / bytes_per_cluster))` clusters, the last one's FAT entry is an
end-of-chain marker, and the handle's offset is `o + L`. -/
theorem cmd_write_size_chain_offset (fs : FileSystem) (filename string : List Nat)
    (fuel : Nat) (entry : DirEntry) (i : Nat) (file : OpenFile) (dcs cs : List Nat)
    (hw : WellFormed fs) (hr : fs.total_clusters + 2 ≤ 0x0FFFFFF8)
    (hdir : cluster_chain fs fuel fs.current_cluster = some dcs) (h16 : dcs.length ≤ 16)
    (hdnz : ∀ c ∈ dcs, get_fat_entry fs c ≠ 0)
    (hfind : find_entry fs fs.current_cluster filename fuel = some (some entry))
    (hattr : entry.DIR_Attr &&& ATTR_DIRECTORY = 0)
    (hopen : find_open_file fs filename = some (i, file))
    (hmode : 119 ∈ cstr file.mode)
    (hchain : cluster_chain fs fuel entry.first_cluster = some cs)
    (hzero : cs = [] → entry.first_cluster = 0)
    (heoc : ∀ l ∈ cs.getLast?, 0x0FFFFFF8 ≤ get_fat_entry fs l)
    (hdisj : ∀ c ∈ cs, c ∉ dcs)
    (hoff : file.offset ≤ entry.DIR_FileSize)
    (hcover : entry.DIR_FileSize ≤ cs.length * bytes_per_cluster fs)
    (hsize : file.offset + (cstr string).length + bytes_per_cluster fs < 4294967296)
    (hfuel : (file.offset + (cstr string).length + bytes_per_cluster fs - 1) /
      bytes_per_cluster fs ≤ fuel) :
    ∃ r, cmd_write fs filename string fuel = some r ∧
      (r.err = none →
        ∃ entry' cs',
          find_entry r.fs r.fs.current_cluster filename fuel = some (some entry') ∧
          entry'.DIR_FileSize = max entry.DIR_FileSize (file.offset + (cstr string).length) ∧
          cluster_chain r.fs fuel entry'.first_cluster = some cs' ∧
          cs'.length = max cs.length
            ((file.offset + (cstr string).length + bytes_per_cluster fs - 1) /
              bytes_per_cluster fs) ∧
          (∀ l ∈ cs'.getLast?, 0x0FFFFFF8 ≤ get_fat_entry r.fs l) ∧
          (find_open_file r.fs filename).map (fun h => h.2.offset) =
            some (file.offset + (cstr string).length)) := by
  have hbpc := hw.bpc_pos
  obtain ⟨dd, hpd, hdd⟩ := cluster_chain_path fs fuel _ _ hdir
  have hf1 := cluster_chain_length_le fs fuel _ _ hdir
  obtain ⟨d1, hp, hd1⟩ := cluster_chain_path fs fuel _ _ hchain
  have hk := cluster_chain_length_le fs fuel _ _ hchain
  have hL : u32 (cstr string).length = (cstr string).length := u32_of_lt (by omega)
  have hcmd := cmd_write_checked fs filename string fuel entry i file hfind hattr hopen hmode
  rw [hL] at hcmd
  -- the entry is the first match in the enumeration
  have hrd := read_directory_path hw hpd hdd fuel hf1 h16
  obtain ⟨idx, hfm⟩ : ∃ idx, first_match (format_filename filename)
      (enumerate (dcs.flatMap (cluster_slots fs))) 0 = some (idx, entry) := by
    rw [find_entry_eq, hrd] at hfind
    simp only [Option.map_some'] at hfind
    cases hm : first_match (format_filename filename)
        (enumerate (dcs.flatMap (cluster_slots fs))) 0 with
    | none => rw [hm] at hfind; simp at hfind
    | some p =>
      rw [hm] at hfind
      simp at hfind
      exact ⟨p.1, by rw [← hfind]⟩
  generalize hneed : (file.offset + (cstr string).length + bytes_per_cluster fs - 1) /
    bytes_per_cluster fs = needed at hfuel ⊢
  by_cases hz : entry.first_cluster = 0
  · -- the file has no cluster yet
    have hcs : cs = [] := by
      have := path_cluster_chain (Path.nil 0) (not_valid_zero fs) fuel (Nat.zero_le _)
      rw [hz, this] at hchain
      cases hchain
      rfl
    subst hcs
    have hs0 : entry.DIR_FileSize = 0 := by simpa using hcover
    have ho0 : file.offset = 0 := by omega
    by_cases hlen : (cstr string).length > 0
    · -- a first cluster is allocated
      rw [if_pos ⟨hz, hlen⟩] at hcmd
      rcases allocate_cluster_cases fs with ⟨h0, _, _⟩ | ⟨h2, hlt, hfree, _, hcl⟩
      · rw [if_pos h0] at hcmd
        refine ⟨_, hcmd, ?_⟩
        intro h
        cases h
      · rw [if_neg (by omega), hcl] at hcmd
        rw [hw.u32_total] at hlt
        generalize (allocate_cluster fs).1 = new at h2 hlt hfree hcmd
        have hnew_lt : new < fs.total_clusters + 2 := by omega
        have hfr := claim_cluster_frame fs hw h2 hnew_lt
        have heff := claim_cluster_effect fs hw h2 hnew_lt
        have hnd : new ∉ dcs := fun hm => hdnz _ hm hfree
        have hin : InFat fs new := hw.inFat hnew_lt
        obtain ⟨hpd1, hslots1⟩ := hfr.directory hw hpd
          (fun x hx => by
            rw [List.mem_singleton] at hx
            subst hx
            exact ⟨hin, hnd⟩)
          (fun x hx => by
            rw [List.mem_singleton] at hx
            subst hx
            exact ⟨h2, hnd⟩)
        have hw1 := hfr.1.wellFormed hw
        have hb1 := hfr.1.bpc
        have hv1 : is_valid_cluster (claim_cluster fs new) new = true :=
          (hfr.1.valid new).trans (hw.valid_of_lt hr h2 hnew_lt)
        have hp1 : Path (claim_cluster fs new) new ([] ++ [new]) 0x0FFFFFFF := by
          refine Path.cons new _ [] hv1 ?_
          rw [heff.1]
          exact Path.nil _
        have hnz1 : ∀ x ∈ ([] : List Nat) ++ [new],
            get_fat_entry (claim_cluster fs new) x ≠ 0 := by
          intro x hx
          simp at hx
          subst hx
          rw [heff.1]
          decide
        have hdnz1 : ∀ c ∈ dcs, get_fat_entry (claim_cluster fs new) c ≠ 0 := by
          intro c hc
          have hci := inFat_of_valid fs c hw.2.2.2.2.2.1 (hpd.valid_of_mem c hc)
          rw [(heff.2.2.1 c hci (fun e => hnd (e ▸ hc))).1]
          exact hdnz c hc
        have hdisj1 : ∀ c ∈ ([] : List Nat) ++ [new], c ∉ dcs := by
          intro c hc
          simp at hc
          subst hc
          exact hnd
        have hopen1 : find_open_file (claim_cluster fs new) filename = some (i, file) := by
          rw [find_open_file_congr fs _ hfr.1.2.2.2.1]
          exact hopen
        have hn1 : 1 ≤ needed := by
          rw [← hneed]
          exact (Nat.le_div_iff_mul_le hbpc).2 (by omega)
        obtain ⟨r, hreq, hres⟩ := cmd_write_body_spec (claim_cluster fs new) hw1
          (by rw [hfr.1.2.2.2.2.2.2.2]; exact hr) filename string i file entry.DIR_FileSize
          fuel hp1 (eoc_not_valid _) (by norm_num) hnz1
          (by rw [hfr.1.2.1]; exact hpd1) ((hfr.1.valid dd).trans hdd) hdnz1 hdisj1 idx entry
          (by rw [hslots1]; exact hfm) hopen1 (by rw [hb1]; exact hsize) hf1 h16
          (by rw [hb1, hneed]; simp; omega)
        rw [hb1, hneed] at hres
        refine ⟨r, hcmd.trans hreq, fun herr => ?_⟩
        obtain ⟨entry', cs', d', g1, g2, _, g4, g5, g6, g7, g8⟩ := hres herr
        obtain ⟨e1, e2⟩ := g2 (by omega)
        refine ⟨entry', cs', g1, ?_, ?_, ?_, ?_, g8⟩
        · rw [e1, hs0]
          simp
        · rw [e2]
          exact path_cluster_chain g4 g5 fuel (by rw [g7]; simp; omega)
        · rw [g7]
          simp
          omega
        · intro l hl
          rw [g4.getLast_link l hl]
          exact g6
    · -- nothing to write
      have hL0 : (cstr string).length = 0 := by omega
      rw [if_neg (fun h => hlen h.2), hz] at hcmd
      obtain ⟨r, hreq, herr, entry', g1, g2, g3, g4⟩ :=
        cmd_write_body_empty fs hw filename string i file entry.DIR_FileSize fuel hpd hdd hf1
          h16 idx entry hfm hopen hL0 ho0 (by omega)
      refine ⟨r, hcmd.trans hreq, fun _ => ⟨entry', [], g1, ?_, ?_, ?_, ?_, ?_⟩⟩
      · rw [g2, hs0, ho0, hL0]
        rfl
      · rw [g2, hz]
        exact path_cluster_chain (Path.nil 0) g3 fuel (Nat.zero_le _)
      · have : needed = 0 := by
          rw [← hneed, ho0, hL0]
          exact Nat.div_eq_of_lt (by omega)
        rw [this]
        rfl
      · intro l hl
        simp at hl
      · rw [g4, ho0, hL0]
  · -- the file has a chain
    have hne : cs ≠ [] := fun h => hz (hzero h)
    rcases List.eq_nil_or_concat cs with h | ⟨pre, last, rfl⟩
    · exact absurd h hne
    · rw [List.concat_eq_append] at hp heoc hdisj hcover hk ⊢
      have hd1e : get_fat_entry fs last = d1 := hp.split_last.2.2
      have heoc1 : 0x0FFFFFF8 ≤ d1 := by
        rw [← hd1e]
        exact heoc last (by simp)
      have hnz := hp.link_ne_zero hw (by omega)
      rw [if_neg (fun h => hz h.1)] at hcmd
      have hk1 : pre.length + 1 ≤ fuel := by simpa using hk
      obtain ⟨r, hreq, hres⟩ := cmd_write_body_spec fs hw hr filename string i file
        entry.DIR_FileSize fuel hp hd1 heoc1 hnz hpd hdd hdnz hdisj idx entry hfm hopen hsize
        hf1 h16 (by rw [hneed]; simp; omega)
      rw [hneed] at hres
      refine ⟨r, hcmd.trans hreq, fun herr => ?_⟩
      obtain ⟨entry', cs', d', g1, g2, g3, g4, g5, g6, g7, g8⟩ := hres herr
      have hfc : entry'.first_cluster = entry.first_cluster := by
        by_cases hgt : file.offset + (cstr string).length > entry.DIR_FileSize
        · exact (g2 hgt).2
        · rw [g3 hgt]
      refine ⟨entry', cs', g1, ?_, ?_, ?_, ?_, g8⟩
      · by_cases hgt : file.offset + (cstr string).length > entry.DIR_FileSize
        · rw [(g2 hgt).1]
          omega
        · rw [g3 hgt]
          omega
      · rw [hfc]
        exact path_cluster_chain g4 g5 fuel (by rw [g7]; simp; omega)
      · rw [g7]
        simp
      · intro l hl
        rw [g4.getLast_link l hl]
        exact g6


set_option maxRecDepth 1000000 in
/-- Witness for C8 (amended): writing 600 bytes to the empty file `F` of the small volume (512-byte
clusters) yields size 600, a chain of 2 clusters that ends in an end-of-chain marker, and
the handle at offset 600; the write reports no error. -/
theorem cmd_write_size_chain_offset_witness :
    (cmd_write empty_file_volume [70] (List.replicate 600 88) 8).map (fun r => r.err) =
      some none ∧
    ∃ r, cmd_write empty_file_volume [70] (List.replicate 600 88) 8 = some r ∧
      (r.err = none →
        ∃ entry' cs',
          find_entry r.fs r.fs.current_cluster [70] 8 = some (some entry') ∧
          entry'.DIR_FileSize = 600 ∧
          cluster_chain r.fs 8 entry'.first_cluster = some cs' ∧
          cs'.length = 2 ∧
          (∀ l ∈ cs'.getLast?, 0x0FFFFFF8 ≤ get_fat_entry r.fs l) ∧
          (find_open_file r.fs [70]).map (fun h => h.2.offset) = some 600) :=
  ⟨by decide,
  cmd_write_size_chain_offset empty_file_volume [70] (List.replicate 600 88) 8
    (new_entry [70] ATTR_ARCHIVE 0 0) 0 write_handle [2] [] (by decide) (by decide)
    (by decide) (by decide) (by decide) (by decide) (by decide) (by decide) (by decide)
    (by decide)
    (by decide) (by decide) (by decide) (by decide) (by decide) (by decide) (by decide)⟩


/-- C9 (code at the failing input). In the root directory `[deleted OLD, A, F]`, after
`open F -rw; write F "HELLO"` the slot of the other file `A` (slot 1, the index `F` has
among the enumerated entries) holds `F`'s updated entry, and the slot that held `F`
(slot 2) is unchanged. -/
theorem cmd_write_rewrites_wrong_slot :
    read_slot deleted_slot_volume.image 24576 1 = new_entry [65] ATTR_ARCHIVE 0 0 ∧
      ((cmd_open deleted_slot_volume [70] [45, 114, 119] 4).bind fun r =>
        cmd_write r.fs [70] [72, 69, 76, 76, 79] 4).map (fun r =>
          (r.err, read_slot r.fs.image 24576 1, read_slot r.fs.image 24576 2)) =
        some (none, new_entry [70] ATTR_ARCHIVE 3 5, new_entry [70] ATTR_ARCHIVE 0 0) := by
  decide

/-- C10 (code at the failing input). In the root directory `[deleted OLD, A, F]`, after
`mv F G` (no `G` exists) the name `F` is still found, the slot that held `F` (slot 2) is
unchanged, and the slot of the other file `A` (slot 1) now holds the entry named `G`. -/
theorem cmd_mv_rename_rewrites_wrong_slot :
    find_entry deleted_slot_volume 2 [71] 4 = some none ∧
      (cmd_mv deleted_slot_volume [70] [71] 4).map (fun r =>
          (r.err, find_entry r.fs 2 [70] 4, read_slot r.fs.image 24576 1,
            read_slot r.fs.image 24576 2)) =
        some (none, some (some (new_entry [70] ATTR_ARCHIVE 0 0)),
          new_entry [71] ATTR_ARCHIVE 0 0, new_entry [70] ATTR_ARCHIVE 0 0) := by
  decide


/-- C5 (counterexample). `mount_image` accepts the boot sector `short_total_boot`, whose
total sector count 47 is below the first data sector 48; the difference is taken in
`uint32_t`, so `total_clusters` is `2^32 - 1`.  On that state, `short_total_volume`, the
entry of cluster 3 reads 0 and `3 < total_clusters + 2`, yet `allocate_cluster` returns 0:
the loop bound `total_clusters + 2` wraps to 1 and the loop body never runs. -/
theorem allocate_cluster_bound_wraps :
    short_total_boot.length = 90 ∧
    (mount_image empty_volume (some short_total_boot)).map (fun o => o.map fun fs =>
        (fs.data_start_sector, fs.boot_sector.BPB_TotSec32, fs.total_clusters)) =
      some (some (48, 47, 4294967295)) ∧
    (short_total_volume.data_start_sector, short_total_volume.boot_sector.BPB_TotSec32,
        short_total_volume.total_clusters) = (48, 47, 4294967295) ∧
    get_fat_entry short_total_volume 3 = 0 ∧ 3 < short_total_volume.total_clusters + 2 ∧
    (allocate_cluster short_total_volume).1 = 0 := by
  refine ⟨by decide, by decide, by decide, by decide, by decide, by decide⟩


set_option maxRecDepth 10000000 in
/-- C8 (counterexample). On `huge_file_volume` the file `F` has `2^32 - 1` bytes and a
chain of 1024 clusters of 4 MiB, which covers them.  After `open F -w` and
`lseek F 4294967295` (the shell passes `atoi` of `-1`) the handle is at offset
`o = 2^32 - 1 ≤ s`.  `write F x` (`L = 1`) reports no error; the sum `o + L` is taken in
`uint32_t`, so the handle's offset afterwards is 0, not `o + L`. -/
theorem cmd_write_offset_wraps :
    ((cmd_open huge_file_volume [70] [45, 119] 4).bind fun r1 =>
      (cmd_lseek r1.fs [70] 4294967295 4).map fun r2 => (r1.err, r2.err)) =
      some (none, none) ∧
    huge_file_state.map (fun fs =>
        ((find_open_file fs [70]).map (fun h => h.2.offset),
          (find_entry fs 2 [70] 4).map (fun o => o.map fun e =>
            (e.DIR_FileSize, e.first_cluster)))) =
      some (some 4294967295, some (some (4294967295, 3))) ∧
    (cluster_chain huge_file_volume 1100 3).map List.length = some 1024 ∧
    1024 * bytes_per_cluster huge_file_volume = 4294967296 ∧
    (huge_file_state.bind fun fs => cmd_write fs [70] [120] 1100).map (fun r =>
        (r.err, (find_open_file r.fs [70]).map (fun h => h.2.offset))) =
      some (none, some 0) := by
  refine ⟨by decide!, by decide!, by decide!, by decide, by decide!⟩


/-- C11 (counterexample). On the empty small volume, after `creat A; creat F; rm A;
open F -w; write F "x"; close F; mkdir D` the file `F` is closed, `D` is a directory of the
current directory that does not contain the name `F`, and `mv F D` reports no error; yet
the current directory still finds `F`: it held two slots named `F` (the write had rewritten
the slot of the deleted `A`), and the move removed the first one only. -/
theorem cmd_mv_into_leaves_second_slot :
    rewritten_slot_state.map (fun fs => find_open_file fs [70]) = some none ∧
    rewritten_slot_state.map (fun fs =>
        (find_entry fs fs.current_cluster [68] 4).map (fun o => o.map (fun d =>
          (d.DIR_Attr, find_entry fs d.first_cluster [70] 4)))) =
      some (some (some (ATTR_DIRECTORY, some none))) ∧
    rewritten_slot_state.map (fun fs =>
        (find_entry fs fs.current_cluster [70] 4).map (fun o => o.map (fun f =>
          (f.first_cluster, f.DIR_FileSize)))) = some (some (some (3, 1))) ∧
    (rewritten_slot_state.bind fun fs => cmd_mv fs [70] [68] 4).map (fun r => r.err) =
      some none ∧
    (rewritten_slot_state.bind fun fs => cmd_mv fs [70] [68] 4).map (fun r =>
        (find_entry r.fs r.fs.current_cluster [70] 4).map (fun o => o.map (fun f =>
          (f.first_cluster, f.DIR_FileSize)))) = some (some (some (0, 0))) := by
  refine ⟨by decide!, by decide!, by decide!, by decide!, by decide!⟩


/-- Claim C11, amended. On a well-formed volume (`total_clusters + 2 ≤ 0x0FFFFFF8`,
clusters of at least 32 bytes) let the current directory be a chain `dcs` of at most 16
allocated clusters whose slots in use (long-name slots included) carry pairwise distinct
names; let `find_entry` yield for `F` an entry `e` (32 bytes below 256) that is a directory
or not open, and for `D` a directory entry whose chain `ddcs` is not empty, has at most 15
clusters, all allocated, is disjoint from `dcs` and does not contain the name `F`; let the
chain `fcs` of `e` consist of allocated clusters outside `ddcs`.  Then `cmd_mv F D`
returns, and when it reports no error: the current directory no longer finds or
enumerates `F`, its enumeration being the former one without `e`; the
directory `D` finds and enumerates an entry with the name, attribute, first cluster and
size of `e`, among the entries it enumerated before; the chain of `e` is still `fcs`, and
no byte of the FAT entries of its clusters has changed in any FAT copy. -/
theorem cmd_mv_into_effect (fs : FileSystem) (src dst : List Nat) (fuel : Nat)
    (dcs ddcs fcs : List Nat) (e de : DirEntry)
    (hw : WellFormed fs) (hr : fs.total_clusters + 2 ≤ 0x0FFFFFF8)
    (hbpc : 32 ≤ bytes_per_cluster fs)
    (hdir : cluster_chain fs fuel fs.current_cluster = some dcs) (h16 : dcs.length ≤ 16)
    (hdnz : ∀ c ∈ dcs, get_fat_entry fs c ≠ 0)
    (hdist : ((in_use_slots (dcs.flatMap (cluster_slots fs))).map DirEntry.DIR_Name).Nodup)
    (hsrc : find_entry fs fs.current_cluster src fuel = some (some e))
    (hbytes : ∀ b ∈ e, b < 256)
    (hclosed : e.DIR_Attr &&& ATTR_DIRECTORY ≠ 0 ∨ find_open_file fs src = none)
    (hdst : find_entry fs fs.current_cluster dst fuel = some (some de))
    (hdattr : de.DIR_Attr &&& ATTR_DIRECTORY ≠ 0)
    (hddir : cluster_chain fs fuel de.first_cluster = some ddcs) (hne : ddcs ≠ [])
    (h16d : ddcs.length < 16)
    (hddnz : ∀ c ∈ ddcs, get_fat_entry fs c ≠ 0) (hdd : ∀ c ∈ ddcs, c ∉ dcs)
    (hnot : find_entry fs de.first_cluster src fuel = some none)
    (hchain : cluster_chain fs fuel e.first_cluster = some fcs)
    (hfcs : ∀ c ∈ fcs, c ∉ ddcs ∧ get_fat_entry fs c ≠ 0)
    (hfuel : ddcs.length + 1 ≤ fuel) :
    ∃ r, cmd_mv fs src dst fuel = some r ∧
      (r.err = none →
        r.fs.current_cluster = fs.current_cluster ∧
        find_entry r.fs fs.current_cluster src fuel = some none ∧
        (∃ pre post,
          read_directory fs fs.current_cluster fuel = some (pre ++ e :: post) ∧
          read_directory r.fs fs.current_cluster fuel = some (pre ++ post) ∧
          ∀ a ∈ pre ++ post, a.DIR_Name ≠ format_filename src) ∧
        (∃ e', find_entry r.fs de.first_cluster src fuel = some (some e') ∧
          e'.DIR_Name = format_filename src ∧ e'.DIR_Attr = e.DIR_Attr ∧
          e'.first_cluster = e.first_cluster ∧ e'.DIR_FileSize = e.DIR_FileSize ∧
          ∃ pre post,
            read_directory r.fs de.first_cluster fuel = some (pre ++ e' :: post) ∧
            (read_directory fs de.first_cluster fuel = some (pre ++ post) ∨
              read_directory fs de.first_cluster fuel = some pre)) ∧
        cluster_chain r.fs fuel e.first_cluster = some fcs ∧
        ∀ c ∈ fcs, ∀ k j, k < fs.boot_sector.BPB_NumFATs → j < 4 →
          r.fs.image (fat_addr fs k c + j) = fs.image (fat_addr fs k c + j)) := by
  obtain ⟨d, hp, hd⟩ := cluster_chain_path fs fuel _ _ hdir
  obtain ⟨dd, hpD, hdD⟩ := cluster_chain_path fs fuel _ _ hddir
  obtain ⟨fd, hfp, hfd⟩ := cluster_chain_path fs fuel _ _ hchain
  have hlen := cluster_chain_length_le fs fuel _ _ hdir
  have hflen := cluster_chain_length_le fs fuel _ _ hchain
  have hE : 0 < max_entries fs := by
    unfold max_entries DIR_ENTRY_SIZE
    exact Nat.div_pos hbpc (by norm_num)
  have hrd := read_directory_path hw hp hd fuel hlen h16
  have hrdD := read_directory_path hw hpD hdD fuel (by omega) (by omega)
  -- the slot of `e` in the current directory
  obtain ⟨i, hfm⟩ : ∃ i, first_match (format_filename src)
      (enumerate (dcs.flatMap (cluster_slots fs))) 0 = some (i, e) := by
    have hsrc2 := hsrc
    rw [find_entry_eq, hrd] at hsrc2
    simp only [Option.map_some', Option.some.injEq] at hsrc2
    cases hq : first_match (format_filename src)
        (enumerate (dcs.flatMap (cluster_slots fs))) 0 with
    | none => rw [hq] at hsrc2; cases hsrc2
    | some p =>
      rw [hq] at hsrc2
      simp only [Option.map_some', Option.some.injEq] at hsrc2
      exact ⟨p.1, by rw [← hsrc2]⟩
  obtain ⟨A, B, hR, hA, he0, hen, hel, hB, henum⟩ := unique_name_split _ _ i e hfm hdist
  have helen : e.length = 32 :=
    @mem_dir_slots_length fs dcs e (by rw [hR]; simp)
  obtain ⟨_, s2, _⟩ := set_name0_deleted e helen
  -- the entry built for the destination
  obtain ⟨b1, b2, b3⟩ := entry_field_bounds e hbytes
  obtain ⟨f1, f2, f3, f4, f5, f6⟩ :=
    new_entry_fields src e.DIR_Attr e.first_cluster e.DIR_FileSize b1 b2 b3
  have g1 : (new_entry src e.DIR_Attr e.first_cluster e.DIR_FileSize).DIR_Name0 ≠ 0 := by
    rw [name0_eq_of_name_eq (f2.trans hen.symm)]
    exact he0
  have g2 : live_slot (new_entry src e.DIR_Attr e.first_cluster e.DIR_FileSize) = true := by
    rw [live_slot_congr e _ (name0_eq_of_name_eq (f2.trans hen.symm)) f4]
    exact hel
  have hnone : ∀ a ∈ enumerate (ddcs.flatMap (cluster_slots fs)),
      a.DIR_Name ≠ format_filename src := by
    have hnot2 := hnot
    rw [find_entry_eq, hrdD] at hnot2
    simp only [Option.map_some', Option.some.injEq, Option.map_eq_none'] at hnot2
    exact (first_match_none _ _ 0).1 hnot2
  have hncl : ¬ (e.DIR_Attr &&& ATTR_DIRECTORY = 0 ∧ (find_open_file fs src).isSome = true) := by
    rintro ⟨q1, q2⟩
    rcases hclosed with h | h
    · exact h q1
    · rw [h] at q2
      cases q2
  rcases create_directory_entry_spec fs hw hr hE hpD hdD hne hddnz src e.DIR_Attr
    e.first_cluster e.DIR_FileSize fuel hfuel f1 with hfail | ⟨fs1, fs2, dcs1, d1, F, S, A1, x1,
      B1, y, hc, hfr1, hw1, hp1, hd1, _, hF, hS, _, hlen1, _, hsub, henum1, hs1, hA1, hx1, hy,
      hfr2, hp2, hw2, hs2, _⟩
  · refine ⟨CmdResult.fail fs CmdError.failed_create_in_dest, ?_, ?_⟩
    · unfold cmd_mv
      rw [hsrc]
      dsimp only
      rw [if_neg hncl, hdst]
      dsimp only
      rw [if_neg hdattr]
      unfold cmd_mv_into
      dsimp only
      rw [hnot]
      dsimp only
      rw [hfail]
    · intro h
      cases h
  · -- facts about the clusters touched by `create_directory_entry`
    have hFd : ∀ z ∈ F, z ∉ dcs := fun z hz hzd => by
      rcases (hF z hz).2 with h | h
      · exact hdd z h hzd
      · exact hdnz z hzd h
    have hSd : ∀ z ∈ S, z ∉ dcs := fun z hz hzd => hdnz z hzd (hS z hz).2.2
    have h1d : ∀ z ∈ dcs1, z ∉ dcs := fun z hz hzd => by
      rcases hsub z hz with h | h
      · exact hdd z h hzd
      · exact hdnz z hzd h
    have hFf : ∀ z ∈ F, z ∉ fcs := fun z hz hzf => by
      rcases (hF z hz).2 with h | h
      · exact (hfcs z hzf).1 h
      · exact (hfcs z hzf).2 h
    have hy2 : 2 ≤ y := ((is_valid_cluster_iff fs1 y).1 (hp1.valid_of_mem y hy)).1
    have h12 : Frame fs fs2 F (S ++ [y]) :=
      (hfr1.trans hfr2).mono (fun z hz => by simpa using hz) (fun z hz => hz)
    have hFin : ∀ z ∈ F, InFat fs z := fun z hz => (hF z hz).1
    have hS2 : ∀ z ∈ S ++ [y], 2 ≤ z := fun z hz => by
      rcases List.mem_append.1 hz with h | h
      · exact (hS z h).1
      · rw [List.mem_singleton.1 h]; exact hy2
    have hSy : ∀ z ∈ dcs, z ∉ S ++ [y] := fun z hz h => by
      rcases List.mem_append.1 h with q | q
      · exact hSd z q hz
      · rw [List.mem_singleton.1 q] at hz
        exact h1d y hy hz
    have hcur2 : fs2.current_cluster = fs.current_cluster := h12.1.2.1
    have hpc2 : Path fs2 fs.current_cluster dcs d :=
      hp.frame h12 hw hFin (fun z hz h => hFd z h hz)
    have hdc2 : is_valid_cluster fs2 d = false := (h12.1.valid d).trans hd
    have hR2 : dcs.flatMap (cluster_slots fs2) = A ++ e :: B := by
      rw [← hR]
      apply List.flatMap_congr
      intro c hc'
      exact h12.cluster_slots hw hFin hS2
        ((is_valid_cluster_iff fs c).1 (hp.valid_of_mem c hc')).1 (hSy c hc')
    -- the source entry is marked deleted
    obtain ⟨fs3, y', hy', hdel, hfr3, hp3, hw3, hR3⟩ :=
      delete_directory_entry_spec fs2 hw2 hpc2 hdc2 src fuel hlen A e B hR2 hA he0 hen helen
    have hcmd : cmd_mv fs src dst fuel = some (CmdResult.ok fs3) := by
      unfold cmd_mv
      rw [hsrc]
      dsimp only
      rw [if_neg hncl, hdst]
      dsimp only
      rw [if_neg hdattr]
      unfold cmd_mv_into
      dsimp only
      rw [hnot]
      dsimp only
      rw [hc]
      dsimp only
      rw [hcur2, hdel]
      rfl
    refine ⟨CmdResult.ok fs3, hcmd, fun _ => ?_⟩
    have hy'2 : 2 ≤ y' := ((is_valid_cluster_iff fs y').1 (hp.valid_of_mem y' hy')).1
    have hd3 : is_valid_cluster fs3 d = false := (hfr3.1.valid d).trans hdc2
    have hrd3 : read_directory fs3 fs.current_cluster fuel =
        some (A.filter live_slot ++ enumerate B) := by
      rw [read_directory_path hw3 hp3 hd3 fuel hlen h16, hR3, enumerate_tombstone A B _ _ hA s2]
    have hnoneC : ∀ a ∈ A.filter live_slot ++ enumerate B,
        a.DIR_Name ≠ format_filename src := by
      intro a ha
      rcases List.mem_append.1 ha with h | h
      · exact fun q => hA a (List.mem_of_mem_filter h) (Or.inr q)
      · exact hB a h
    -- the destination directory
    have hpD3 : Path fs3 de.first_cluster dcs1 d1 :=
      hp2.frame hfr3 hw2 (fun _ h => by cases h) (fun _ _ h => by cases h)
    have hdD3 : is_valid_cluster fs3 d1 = false :=
      (hfr3.1.valid d1).trans ((hfr2.1.valid d1).trans hd1)
    have hsD3 : dcs1.flatMap (cluster_slots fs3) =
        A1 ++ new_entry src e.DIR_Attr e.first_cluster e.DIR_FileSize :: B1 := by
      rw [← hs2]
      apply List.flatMap_congr
      intro c hc'
      exact hfr3.cluster_slots hw2 (fun _ h => by cases h)
        (fun z hz => by rw [List.mem_singleton.1 hz]; exact hy'2)
        ((is_valid_cluster_iff fs1 c).1 (hp1.valid_of_mem c hc')).1
        (fun h => h1d c hc' (by rw [List.mem_singleton.1 h]; exact hy'))
    obtain ⟨e1, e2⟩ := enumerate_fill A1 B1 x1
      (new_entry src e.DIR_Attr e.first_cluster e.DIR_FileSize) hA1 hx1 g1 g2
    have hrdD3 : read_directory fs3 de.first_cluster fuel =
        some (A1.filter live_slot ++
          new_entry src e.DIR_Attr e.first_cluster e.DIR_FileSize :: enumerate B1) := by
      rw [read_directory_path hw3 hpD3 hdD3 fuel (by omega) (by omega), hsD3, e1]
    have hold : enumerate (ddcs.flatMap (cluster_slots fs)) =
          A1.filter live_slot ++ enumerate B1 ∨
        enumerate (ddcs.flatMap (cluster_slots fs)) = A1.filter live_slot := by
      rw [← henum1, hs1]
      exact e2
    have hpre : ∀ a ∈ A1.filter live_slot, a.DIR_Name ≠ format_filename src := by
      intro a ha
      apply hnone
      rcases hold with h | h
      · rw [h]; exact List.mem_append_left _ ha
      · rw [h]; exact ha
    -- the chain of the moved entry
    have h13 : Frame fs fs3 F (S ++ [y] ++ [y']) :=
      (h12.trans hfr3).mono (fun z hz => by simpa using hz) (fun z hz => hz)
    have hfp3 : Path fs3 e.first_cluster fcs fd :=
      hfp.frame h13 hw hFin (fun z hz h => hFf z h hz)
    have hfd3 : is_valid_cluster fs3 fd = false := (h13.1.valid fd).trans hfd
    show fs3.current_cluster = _ ∧ find_entry fs3 fs.current_cluster src fuel = _ ∧
      (∃ pre post, _ ∧ read_directory fs3 fs.current_cluster fuel = _ ∧ _) ∧
      (∃ e', find_entry fs3 de.first_cluster src fuel = _ ∧ _ ∧ _ ∧ _ ∧ _ ∧
        ∃ pre post, read_directory fs3 de.first_cluster fuel = _ ∧ _) ∧
      cluster_chain fs3 fuel e.first_cluster = _ ∧
      ∀ c ∈ fcs, ∀ k j, _ → _ → fs3.image _ = _
    refine ⟨h13.1.2.1, ?_, ⟨_, _, by rw [hrd, henum], hrd3, hnoneC⟩,
      ⟨_, ?_, f2, f4, f5, f6, _, _, hrdD3, ?_⟩, path_cluster_chain hfp3 hfd3 fuel hflen, ?_⟩
    · rw [find_entry_eq, hrd3]
      simp only [Option.map_some', Option.some.injEq, Option.map_eq_none']
      exact (first_match_none _ _ 0).2 hnoneC
    · rw [find_entry_eq, hrdD3]
      simp only [Option.map_some']
      rw [first_match_append _ _ _ f2 _ 0 hpre]
      rfl
    · rw [hrdD]
      rcases hold with h | h
      · left; rw [h]
      · right; rw [h]
    · intro c hc' k j hk hj
      exact h13.fat_bytes hw hFin
        (inFat_of_valid fs c hw.2.2.2.2.2.1 (hfp.valid_of_mem c hc'))
        (fun h => hFf c h hc') hk hj

/-- Witness for C11 (amended): `mv F D` in the root directory of the small volume that holds the
directory `D` and the one-cluster file `F`; the move succeeds. -/
theorem cmd_mv_into_effect_witness :
    (cmd_mv dir_and_file_volume [70] [68] 4).map (fun r => r.err) = some none ∧
    (∃ r, cmd_mv dir_and_file_volume [70] [68] 4 = some r ∧
      (r.err = none →
        r.fs.current_cluster = dir_and_file_volume.current_cluster ∧
        find_entry r.fs dir_and_file_volume.current_cluster [70] 4 = some none ∧
        (∃ pre post,
          read_directory dir_and_file_volume dir_and_file_volume.current_cluster 4 =
              some (pre ++ (new_entry [70] ATTR_ARCHIVE 4 5) :: post) ∧
          read_directory r.fs dir_and_file_volume.current_cluster 4 = some (pre ++ post) ∧
          ∀ a ∈ pre ++ post, a.DIR_Name ≠ format_filename [70]) ∧
        (∃ e', find_entry r.fs (new_entry [68] ATTR_DIRECTORY 3 0).first_cluster [70] 4 =
            some (some e') ∧
          e'.DIR_Name = format_filename [70] ∧ e'.DIR_Attr =
              (new_entry [70] ATTR_ARCHIVE 4 5).DIR_Attr ∧
          e'.first_cluster = (new_entry [70] ATTR_ARCHIVE 4 5).first_cluster ∧ e'.DIR_FileSize =
              (new_entry [70] ATTR_ARCHIVE 4 5).DIR_FileSize ∧
          ∃ pre post,
            read_directory r.fs (new_entry [68] ATTR_DIRECTORY 3 0).first_cluster 4 =
                some (pre ++ e' :: post) ∧
            (read_directory dir_and_file_volume (new_entry [68] ATTR_DIRECTORY 3 0).first_cluster 4 = some (pre ++ post) ∨
              read_directory dir_and_file_volume (new_entry [68] ATTR_DIRECTORY 3 0).first_cluster 4 = some pre)) ∧
        cluster_chain r.fs 4 (new_entry [70] ATTR_ARCHIVE 4 5).first_cluster = some [4] ∧
        ∀ c ∈ [4], ∀ k j, k < dir_and_file_volume.boot_sector.BPB_NumFATs → j < 4 →
          r.fs.image (fat_addr dir_and_file_volume k c + j) =
              dir_and_file_volume.image (fat_addr dir_and_file_volume k c + j))) :=
  ⟨by decide!,
    cmd_mv_into_effect dir_and_file_volume [70] [68] 4 [2] [3] [4]
      (new_entry [70] ATTR_ARCHIVE 4 5) (new_entry [68] ATTR_DIRECTORY 3 0)
      (by decide) (by decide) (by decide) (by decide) (by decide) (by decide) (by decide)
      (by decide) (by decide) (by decide) (by decide) (by decide) (by decide) (by decide)
      (by decide) (by decide) (by decide) (by decide) (by decide) (by decide) (by decide)⟩


/-- C12 (code at the failing input). On the empty small volume, after `mkdir D; cd D;
creat F` (current directory `/D`, cluster 3, holding `F`) the command `mv F ..` reports
no error, yet `F` is found neither in the root directory nor in `D`: the destination
cluster 0 stored in `..` is used as it is, and the 32 bytes of `F`'s entry are written at
byte 23552, which is the entry of cluster 768 in the second FAT copy (all zero before),
outside every directory cluster. -/
theorem cmd_mv_dotdot_writes_into_fat :
    subdir_file_state.map (fun fs => (fs.current_path, fs.current_cluster)) =
      some ([47, 68], 3) ∧
    subdir_file_state.map (fun fs =>
      (find_entry fs fs.current_cluster [70] 4, read_bytes fs.image 23552 32)) =
      some (some (some (new_entry [70] ATTR_ARCHIVE 0 0)), List.replicate 32 0) ∧
    (subdir_file_state.bind fun fs => cmd_mv fs [70] [46, 46] 4).map (fun r =>
        (r.err, find_entry r.fs r.fs.root_cluster [70] 4,
          find_entry r.fs r.fs.current_cluster [70] 4)) = some (none, some none, some none) ∧
    (subdir_file_state.bind fun fs => cmd_mv fs [70] [46, 46] 4).map (fun r =>
        read_bytes r.fs.image 23552 32) = some (new_entry [70] ATTR_ARCHIVE 0 0) ∧
    fat_addr empty_volume 1 768 = 23552 := by
  refine ⟨by decide!, by decide!, by decide!, by decide!, by decide!⟩


/-- C13 (code at the failing input). On the volume whose root directory holds the file
`ABCDEFGH.TXT`, `open ABCDEFGH.TXT -r` followed by `open ABCDEFGH.TXT -w` both succeed: the
first handle is stored under the 11 characters `ABCDEFGH.TX`, whose formatted name differs
from the one of `ABCDEFGH.TXT`, so the open check does not find it.  The table then holds
two live handles with the same path `/` and the same stored name. -/
theorem cmd_open_twice_full_name :
    ((cmd_open full_name_volume full_name [45, 114] 4).bind fun r1 =>
      (cmd_open r1.fs full_name [45, 119] 4).map fun r2 =>
        (r1.err, r2.err, r2.fs.open_files.take 2)) =
      some (none, none, [full_name_handle [114], full_name_handle [119]]) ∧
    format_filename (full_name_handle [114]).filename ≠ format_filename full_name := by
  refine ⟨by decide!, by decide⟩

/-- C14 (code at the failing input). On the volume whose root directory holds the file
`ABCDEFGH.TXT`, after a successful `open ABCDEFGH.TXT -r` the command `rm ABCDEFGH.TXT` is
not rejected: it reports no error, the file is no longer found, and the handle is still
live.  `close ABCDEFGH.TXT` instead reports that the file is not open. -/
theorem cmd_rm_removes_open_full_name :
    ((cmd_open full_name_volume full_name [45, 114] 4).bind fun r1 =>
      (cmd_rm r1.fs full_name 4).map fun r2 =>
        (r1.err, r2.err, find_entry r2.fs r2.fs.current_cluster full_name 4)) =
      some (none, none, some none) ∧
    ((cmd_open full_name_volume full_name [45, 114] 4).bind fun r1 =>
      (cmd_rm r1.fs full_name 4).map fun r2 => r2.fs.open_files.take 1) =
      some [full_name_handle [114]] ∧
    ((cmd_open full_name_volume full_name [45, 114] 4).bind fun r1 =>
      (cmd_close r1.fs full_name 4).map fun r2 => (r2.err, r2.fs.open_files.take 1)) =
      some (some CmdError.file_not_open, [full_name_handle [114]]) := by
  refine ⟨by decide!, by decide!, by decide!⟩

/-- C15 (counterexample). With `N` of the root directory open and the current directory
`/Q` holding another file `N`: `open N -w` is rejected as already open, and `close N`
reports no error and clears the handle of the root directory's `N` (the only live one). -/
theorem handle_lookup_ignores_path :
    two_dirs_state.map (fun fs =>
        (fs.current_path, (find_entry fs fs.current_cluster [78] 4).map Option.isSome)) =
      some ([47, 81], some true) ∧
    two_dirs_state.map (fun fs => fs.open_files.take 1) =
      some [{ filename := [78], mode := [114], offset := 0, path := [47], first_cluster := 0,
              size := 0, is_open := true }] ∧
    two_dirs_state.map (fun fs => (fs.open_files.drop 1).all fun h => !h.is_open) =
      some true ∧
    (two_dirs_state.bind fun fs => cmd_open fs [78] [45, 119] 4).map (fun r =>
        (r.err, (r.fs.open_files.map fun h => h.is_open).count true)) =
      some (some CmdError.already_open, 1) ∧
    (two_dirs_state.bind fun fs => cmd_close fs [78] 4).map (fun r =>
        (r.err, r.fs.open_files.take 1)) =
      some (none, [{ filename := [78], mode := [114], offset := 0, path := [47],
                     first_cluster := 0, size := 0, is_open := false }]) := by
  refine ⟨by decide!, by decide!, by decide!, by decide!, by decide!⟩

/-- C17 (code at the failing input). The file `X` holds `HELLO` (size 5, one cluster of 512
bytes) and is open for reading at offset 1.  `read X 4294967295`: the 32-bit sum
`offset + size` wraps to 0, which is not above the file size, so the count is not clamped;
the loop reads to the end of the cluster.  The command emits 511 bytes, not
`min (n, s - o) = 4`, among them the bytes at positions 5 .. 511, and moves the offset to
512. -/
theorem cmd_read_count_wraps :
    hello_state.map (fun fs =>
        ((find_entry fs fs.current_cluster [88] 4).map (Option.map DirEntry.DIR_FileSize),
          fs.open_files.take 1)) =
      some (some (some 5),
        [{ filename := [88], mode := [114, 119], offset := 1, path := [47],
           first_cluster := 0, size := 5, is_open := true }]) ∧
    (hello_state.bind fun fs => cmd_read fs [88] 4294967295 4).map (fun r =>
        (r.err, r.out.length, r.out.take 6)) = some (none, 511, [69, 76, 76, 79, 0, 0]) ∧
    (hello_state.bind fun fs => cmd_read fs [88] 4294967295 4).map (fun r =>
        (r.fs.open_files.take 1).map fun h => h.offset) = some [512] := by
  refine ⟨by decide!, by decide!, by decide!⟩

/-- C18 (counterexample). `mkdir` of the name with the bytes `0xE5 0x41` on the empty small
volume reports no error, claims cluster 3 and writes the parent entry into slot 0 of the
root directory; its name starts with `0xE5`, the mark of a deleted slot, so the root
directory enumerates no entry and the name is not found. -/
theorem cmd_mkdir_deleted_mark_name :
    (cmd_mkdir empty_volume [229, 65] 4).map (fun r =>
        (r.err, read_directory r.fs 2 4, find_entry r.fs 2 [229, 65] 4)) =
      some (none, some [], some none) ∧
    (cmd_mkdir empty_volume [229, 65] 4).map (fun r =>
        (read_slot r.fs.image 24576 0, get_fat_entry r.fs 3)) =
      some (new_entry [229, 65] ATTR_DIRECTORY 3 0, 0x0FFFFFFF) := by
  refine ⟨by decide!, by decide!⟩


/-- C15 (amended). Handle identity is the formatted short name alone.  `find_open_file`,
the lookup that `cmd_open`, `cmd_close`, `cmd_lseek`, `cmd_read`, `cmd_write`, `cmd_rm`
and `cmd_mv` all use, returns the lowest-indexed live handle whose stored name formats to
the formatted argument, and nothing when there is no such handle; its result does not
depend on any stored path nor on the current directory (two states whose tables agree on
names and live flags give the same index).  So while a handle of that name is live,
whatever its path, `cmd_open` of a file of that name in the current directory is rejected
as already open, and `cmd_close` of it clears that handle. -/
theorem find_open_file_by_name_only (fs : FileSystem) (filename : List Nat) :
    (∀ i f, find_open_file fs filename = some (i, f) →
      i < MAX_OPEN_FILES ∧ fs.open_files.get? i = some f ∧ f.is_open = true ∧
      format_filename f.filename = format_filename filename ∧
      ∀ k g, k < i → fs.open_files.get? k = some g →
        ¬ (g.is_open = true ∧ format_filename g.filename = format_filename filename)) ∧
    (find_open_file fs filename = none →
      ∀ k g, k < MAX_OPEN_FILES → fs.open_files.get? k = some g →
        ¬ (g.is_open = true ∧ format_filename g.filename = format_filename filename)) ∧
    (∀ fs' : FileSystem,
      fs'.open_files.map (fun h => (h.filename, h.is_open)) =
        fs.open_files.map (fun h => (h.filename, h.is_open)) →
      (find_open_file fs' filename).map Prod.fst = (find_open_file fs filename).map Prod.fst) ∧
    (∀ i f mode fuel entry, find_open_file fs filename = some (i, f) →
      find_entry fs fs.current_cluster filename fuel = some (some entry) →
      entry.DIR_Attr &&& ATTR_DIRECTORY = 0 →
      (cstr mode = [45, 114] ∨ cstr mode = [45, 119] ∨ cstr mode = [45, 114, 119] ∨
        cstr mode = [45, 119, 114]) →
      cmd_open fs filename mode fuel = some (CmdResult.fail fs CmdError.already_open)) ∧
    (∀ i f fuel entry, find_open_file fs filename = some (i, f) →
      find_entry fs fs.current_cluster filename fuel = some (some entry) →
      (cmd_close fs filename fuel).map (fun r => (r.err, r.fs.open_files)) =
        some (none, fs.open_files.set i { f with is_open := false })) := by
  refine ⟨?_, ?_, ?_, ?_, ?_⟩
  · intro i f h
    obtain ⟨_, h2, h3, h4, h5⟩ :=
      (find_open_file_from_spec (format_filename filename)
        (fs.open_files.take MAX_OPEN_FILES) 0).1 i f h
    rw [Nat.sub_zero] at h2 h5
    rw [List.get?_take_eq_if] at h2
    split at h2
    · rename_i hi
      refine ⟨hi, h2, h3, h4, ?_⟩
      intro k g hk hg
      refine h5 k g hk ?_
      rw [List.get?_take_eq_if, if_pos (by omega)]
      exact hg
    · cases h2
  · intro h k g hk hg
    refine (find_open_file_from_spec (format_filename filename)
      (fs.open_files.take MAX_OPEN_FILES) 0).2 h g ?_
    apply List.get?_mem (n := k)
    rw [List.get?_take_eq_if, if_pos hk]
    exact hg
  · intro fs' h
    unfold find_open_file
    apply find_open_file_from_names
    rw [List.map_take, List.map_take, h]
  · intro i f mode fuel entry hopen hfind hattr hmode
    unfold cmd_open
    rw [if_neg (by
      intro hc
      rcases hmode with h | h | h | h
      · exact hc.1 h
      · exact hc.2.1 h
      · exact hc.2.2.1 h
      · exact hc.2.2.2 h), hfind]
    simp [hattr, hopen]
  · intro i f fuel entry hopen hfind
    unfold cmd_close
    rw [hfind]
    simp [hopen, remove_open_file, CmdResult.ok]

/-- Witness for C15 (amended): on the volume with `write_handle` for `F` live in slot 0,
the lookup of `F` returns that handle. -/
theorem find_open_file_by_name_only_witness :
    0 < MAX_OPEN_FILES ∧ empty_file_volume.open_files.get? 0 = some write_handle ∧
      write_handle.is_open = true ∧
      format_filename write_handle.filename = format_filename [70] ∧
      ∀ k g, k < 0 → empty_file_volume.open_files.get? k = some g →
        ¬ (g.is_open = true ∧ format_filename g.filename = format_filename [70]) :=
  (find_open_file_by_name_only empty_file_volume [70]).1 0 write_handle (by decide)


/-- Claim C16. Let `mode` be one of `-r`, `-w`, `-rw`, `-wr`, let `name` be found in the
current directory as an entry that is not a directory, and let no live handle be found
for it; the table has `MAX_OPEN_FILES` slots and the current path is a C string of at most
255 characters.  If some slot is not live, `cmd_open` reports no error and changes
nothing but the lowest-indexed slot `k` that is not live: it becomes live with the mode
string without its `-`, offset 0, the current path, and the entry's first cluster and
size.  If all slots are live, `cmd_open` reports too many open files and changes
nothing. -/
theorem cmd_open_effect (fs : FileSystem) (filename mode : List Nat) (fuel : Nat)
    (entry : DirEntry)
    (hmode : cstr mode = [45, 114] ∨ cstr mode = [45, 119] ∨ cstr mode = [45, 114, 119] ∨
      cstr mode = [45, 119, 114])
    (hfind : find_entry fs fs.current_cluster filename fuel = some (some entry))
    (hattr : entry.DIR_Attr &&& ATTR_DIRECTORY = 0)
    (hclosed : find_open_file fs filename = none)
    (hlen : fs.open_files.length = MAX_OPEN_FILES)
    (hpath : 0 ∉ fs.current_path) (hpathlen : fs.current_path.length ≤ 255) :
    ((∃ g ∈ fs.open_files, g.is_open = false) →
      ∃ k g h, fs.open_files.get? k = some g ∧ g.is_open = false ∧
        (∀ j g', j < k → fs.open_files.get? j = some g' → g'.is_open = true) ∧
        h.is_open = true ∧ h.mode = (cstr mode).drop 1 ∧ h.offset = 0 ∧
        h.path = fs.current_path ∧ h.first_cluster = entry.first_cluster ∧
        h.size = entry.DIR_FileSize ∧
        cmd_open fs filename mode fuel =
          some (CmdResult.ok { fs with open_files := fs.open_files.set k h })) ∧
    ((∀ g ∈ fs.open_files, g.is_open = true) →
      cmd_open fs filename mode fuel =
        some (CmdResult.fail fs CmdError.too_many_open_files)) := by
  have hm : ¬ (cstr mode ≠ [45, 114] ∧ cstr mode ≠ [45, 119] ∧ cstr mode ≠ [45, 114, 119] ∧
      cstr mode ≠ [45, 119, 114]) := by
    intro hc
    rcases hmode with h | h | h | h
    · exact hc.1 h
    · exact hc.2.1 h
    · exact hc.2.2.1 h
    · exact hc.2.2.2 h
  have hms : (cstr (((cstr mode).drop 1).take 3)).take 3 = (cstr mode).drop 1 := by
    rcases hmode with h | h | h | h <;> rw [h] <;> rfl
  have hp : (cstr fs.current_path).take 255 = fs.current_path := by
    rw [cstr_of_no_zero _ hpath]
    exact List.take_of_length_le hpathlen
  have hcmd : cmd_open fs filename mode fuel =
      some (match add_open_file fs filename (((cstr mode).drop 1).take 3) fs.current_path
          entry.first_cluster entry.DIR_FileSize with
        | none => CmdResult.fail fs CmdError.too_many_open_files
        | some fs1 => CmdResult.ok fs1) := by
    unfold cmd_open
    rw [if_neg hm, hfind]
    dsimp only [Option.map]
    rw [if_neg (by rw [hattr]; simp), hclosed]
    rfl
  refine ⟨fun h => ?_, fun h => ?_⟩
  · obtain ⟨k, g, h1, h2, h3, x, hx, h4⟩ :=
      (add_open_file_spec fs filename (((cstr mode).drop 1).take 3) fs.current_path
        entry.first_cluster entry.DIR_FileSize hlen).1 h
    rw [hms, hp] at hx
    refine ⟨k, g, x, h1, h2, h3, ?_, ?_, ?_, ?_, ?_, ?_, by rw [hcmd, h4]⟩ <;> rw [hx]
  · rw [hcmd, (add_open_file_spec fs filename _ fs.current_path entry.first_cluster
      entry.DIR_FileSize hlen).2 h]

/-- Witness for C16: `open F -rw` on the volume `[deleted OLD, A, F]` with no live handle
fills slot 0. -/
theorem cmd_open_effect_witness :
    ∃ k g h, deleted_slot_volume.open_files.get? k = some g ∧ g.is_open = false ∧
      (∀ j g', j < k → deleted_slot_volume.open_files.get? j = some g' →
        g'.is_open = true) ∧
      h.is_open = true ∧ h.mode = (cstr [45, 114, 119]).drop 1 ∧ h.offset = 0 ∧
      h.path = deleted_slot_volume.current_path ∧
      h.first_cluster = (new_entry [70] ATTR_ARCHIVE 0 0).first_cluster ∧
      h.size = (new_entry [70] ATTR_ARCHIVE 0 0).DIR_FileSize ∧
      cmd_open deleted_slot_volume [70] [45, 114, 119] 4 =
        some (CmdResult.ok { deleted_slot_volume with
          open_files := deleted_slot_volume.open_files.set k h }) :=
  (cmd_open_effect deleted_slot_volume [70] [45, 114, 119] 4 (new_entry [70] ATTR_ARCHIVE 0 0)
    (by decide) (by decide) (by decide) (by decide) (by decide) (by decide) (by decide)).1
    (by decide)


/-- C19 (counterexample). The volume `far_empty_volume` has 8388940 sectors of 512 bytes
(4 GiB and 151 KiB); its root directory is the chain of cluster 2, whose 16 slots all start
with `0x00` and so are reusable, and it does not contain the name `G`.  `cmd_creat G`
reports no error, yet the FAT entry of cluster 8, which read 0, reads 2105415 afterwards:
the file position of the directory cluster is taken in `uint32_t` and wraps into the first
FAT copy, where the new entry is written. -/
theorem cmd_creat_writes_into_fat :
    far_empty_volume.boot_sector.BPB_TotSec32 * far_empty_volume.boot_sector.BPB_BytsPerSec =
      4295137280 ∧
    cluster_chain far_empty_volume 4 far_empty_volume.current_cluster = some [2] ∧
    (cluster_slots far_empty_volume 2).all (fun e => decide (e.DIR_Name0 = 0x00)) = true ∧
    find_entry far_empty_volume far_empty_volume.current_cluster [71] 4 = some none ∧
    is_valid_cluster far_empty_volume 8 = true ∧ get_fat_entry far_empty_volume 8 = 0 ∧
    (cmd_creat far_empty_volume [71] 4).map (fun r => (r.err, get_fat_entry r.fs 8)) =
      some (none, 2105415) := by
  refine ⟨by decide, by decide, by decide, by decide, by decide, by decide, by decide!⟩


/-- Claim C19, amended. On a well-formed volume (the whole volume below 2^32 bytes,
`total_clusters + 2 ≤ 0x0FFFFFF8`) with clusters of at least 32 bytes, let the current
directory be a non-empty chain `dcs` of at most 15 allocated clusters that does not contain
the name `N`, and let `N` not begin with the byte `0xE5`.  Then `cmd_creat N` returns, and when it reports
no error: `find_entry` of `N` in the current directory returns the entry with name
`format_filename N`, attribute ARCHIVE, first cluster 0 and size 0; the entries
enumerated before are all still enumerated, unchanged and in the same order, the new
entry standing between them (`pre ++ new :: post` after, `pre ++ post` or `pre` before);
and when the chain held a reusable slot no byte of any FAT entry, in any FAT copy, has
changed. -/
theorem cmd_creat_effect (fs : FileSystem) (name : List Nat) (fuel : Nat) (dcs : List Nat)
    (hw : WellFormed fs) (hr : fs.total_clusters + 2 ≤ 0x0FFFFFF8)
    (hbpc : 32 ≤ bytes_per_cluster fs)
    (hdir : cluster_chain fs fuel fs.current_cluster = some dcs) (hne : dcs ≠ [])
    (h16 : dcs.length < 16)
    (hdnz : ∀ c ∈ dcs, get_fat_entry fs c ≠ 0)
    (hfind : find_entry fs fs.current_cluster name fuel = some none)
    (hname : cchar name 0 ≠ 0xE5) (hfuel : dcs.length + 1 ≤ fuel) :
    ∃ r, cmd_creat fs name fuel = some r ∧
      (r.err = none →
        find_entry r.fs r.fs.current_cluster name fuel =
          some (some (new_entry name ATTR_ARCHIVE 0 0)) ∧
        (new_entry name ATTR_ARCHIVE 0 0).DIR_Name = format_filename name ∧
        (new_entry name ATTR_ARCHIVE 0 0).DIR_Attr = ATTR_ARCHIVE ∧
        (new_entry name ATTR_ARCHIVE 0 0).first_cluster = 0 ∧
        (new_entry name ATTR_ARCHIVE 0 0).DIR_FileSize = 0 ∧
        (∃ pre post,
          read_directory r.fs r.fs.current_cluster fuel =
            some (pre ++ new_entry name ATTR_ARCHIVE 0 0 :: post) ∧
          (read_directory fs fs.current_cluster fuel = some (pre ++ post) ∨
            read_directory fs fs.current_cluster fuel = some pre)) ∧
        ((∃ a ∈ dcs.flatMap (cluster_slots fs), free_slot a) →
          ∀ k c j, k < fs.boot_sector.BPB_NumFATs → InFat fs c → j < 4 →
            r.fs.image (fat_addr fs k c + j) = fs.image (fat_addr fs k c + j))) := by
  obtain ⟨d, hp, hd⟩ := cluster_chain_path fs fuel _ _ hdir
  have hE : 0 < max_entries fs := by
    unfold max_entries DIR_ENTRY_SIZE
    exact Nat.div_pos hbpc (by norm_num)
  have hrd := read_directory_path hw hp hd fuel (by omega) (by omega)
  obtain ⟨f1, f2, _, f4, f5, f6⟩ :=
    new_entry_fields name ATTR_ARCHIVE 0 0 (by decide) (by norm_num) (by norm_num)
  obtain ⟨g1, g2⟩ := new_entry_live name ATTR_ARCHIVE 0 0 (by decide) (by norm_num)
    (by norm_num) hname (by decide)
  have hnone : ∀ a ∈ enumerate (dcs.flatMap (cluster_slots fs)),
      a.DIR_Name ≠ format_filename name := by
    rw [find_entry_eq, hrd] at hfind
    simp only [Option.map_some', Option.some.injEq, Option.map_eq_none'] at hfind
    exact (first_match_none _ _ 0).1 hfind
  have hcmd : cmd_creat fs name fuel =
      (create_directory_entry fs fs.current_cluster name ATTR_ARCHIVE 0 0 fuel).map fun r =>
        if r.2 then CmdResult.ok r.1 else CmdResult.fail r.1 CmdError.failed_create_file := by
    unfold cmd_creat
    rw [hfind]
  rcases create_directory_entry_spec fs hw hr hE hp hd hne hdnz name ATTR_ARCHIVE 0 0 fuel
    hfuel f1 with hfail | ⟨fs1, fs2, dcs1, d1, F, S, A, x, B, y, hc, hfr1, hw1, hp1, hd1, _, hF,
      _, hsame, hlen1, _, _, henum, hs1, hA, hx, _, hfr2, hp2, hw2, hs2, _⟩
  · rw [hfail] at hcmd
    refine ⟨_, hcmd, ?_⟩
    intro h
    cases h
  · rw [hc] at hcmd
    have hcmd2 : cmd_creat fs name fuel = some (CmdResult.ok fs2) := hcmd
    refine ⟨CmdResult.ok fs2, hcmd2, fun _ => ?_⟩
    have hcur : fs2.current_cluster = fs.current_cluster := hfr2.1.2.1.trans hfr1.1.2.1
    have hd2 : is_valid_cluster fs2 d1 = false := (hfr2.1.valid d1).trans hd1
    obtain ⟨e1, e2⟩ := enumerate_fill A B x (new_entry name ATTR_ARCHIVE 0 0) hA hx g1 g2
    have hrd2 : read_directory fs2 fs.current_cluster fuel =
        some (A.filter live_slot ++ new_entry name ATTR_ARCHIVE 0 0 :: enumerate B) := by
      rw [read_directory_path hw2 hp2 hd2 fuel (by omega) (by omega), hs2, e1]
    have hold : enumerate (dcs.flatMap (cluster_slots fs)) = A.filter live_slot ++ enumerate B ∨
        enumerate (dcs.flatMap (cluster_slots fs)) = A.filter live_slot := by
      rw [← henum, hs1]
      exact e2
    have hpre : ∀ a ∈ A.filter live_slot, a.DIR_Name ≠ format_filename name := by
      intro a ha
      apply hnone
      rcases hold with h | h
      · rw [h]; exact List.mem_append_left _ ha
      · rw [h]; exact ha
    show find_entry fs2 fs2.current_cluster name fuel = _ ∧ _ ∧ _ ∧ _ ∧ _ ∧
      (∃ pre post, read_directory fs2 fs2.current_cluster fuel = _ ∧ _) ∧
      (_ → ∀ k c j, _ → _ → _ → fs2.image _ = _)
    rw [hcur]
    refine ⟨?_, f2, f4, f5, f6, ⟨_, _, hrd2, ?_⟩, ?_⟩
    · rw [find_entry_eq, hrd2]
      simp only [Option.map_some']
      rw [first_match_append _ _ _ f2 _ 0 hpre]
      rfl
    · rw [hrd]
      rcases hold with h | h
      · left; rw [h]
      · right; rw [h]
    · intro hfree k c j hk hc' hj
      obtain ⟨q1, _, _, _⟩ := hsame hfree
      subst q1
      exact hfr2.fat_bytes hw (fun _ h => by cases h) hc' (fun h => by cases h) hk hj

/-- Witness for C19 (amended): `creat G` in the root directory `[deleted OLD, A, F]` of the small
volume, which succeeds. -/
theorem cmd_creat_effect_witness :
    (cmd_creat deleted_slot_volume [71] 4).map (fun r => r.err) = some none ∧
    (∃ r, cmd_creat deleted_slot_volume [71] 4 = some r ∧
      (r.err = none →
        find_entry r.fs r.fs.current_cluster [71] 4 =
          some (some (new_entry [71] ATTR_ARCHIVE 0 0)) ∧
        (new_entry [71] ATTR_ARCHIVE 0 0).DIR_Name = format_filename [71] ∧
        (new_entry [71] ATTR_ARCHIVE 0 0).DIR_Attr = ATTR_ARCHIVE ∧
        (new_entry [71] ATTR_ARCHIVE 0 0).first_cluster = 0 ∧
        (new_entry [71] ATTR_ARCHIVE 0 0).DIR_FileSize = 0 ∧
        (∃ pre post,
          read_directory r.fs r.fs.current_cluster 4 =
            some (pre ++ new_entry [71] ATTR_ARCHIVE 0 0 :: post) ∧
          (read_directory deleted_slot_volume deleted_slot_volume.current_cluster 4 =
              some (pre ++ post) ∨
            read_directory deleted_slot_volume deleted_slot_volume.current_cluster 4 =
              some pre)) ∧
        ((∃ a ∈ [2].flatMap (cluster_slots deleted_slot_volume), free_slot a) →
          ∀ k c j, k < deleted_slot_volume.boot_sector.BPB_NumFATs →
            InFat deleted_slot_volume c → j < 4 →
            r.fs.image (fat_addr deleted_slot_volume k c + j) =
              deleted_slot_volume.image (fat_addr deleted_slot_volume k c + j)))) :=
  ⟨by decide!,
    cmd_creat_effect deleted_slot_volume [71] 4 [2] (by decide) (by decide) (by decide)
      (by decide) (by decide) (by decide) (by decide) (by decide) (by decide) (by decide)⟩


/-- Claim C18, amended. On a well-formed volume (the whole volume below 2^32 bytes,
`total_clusters + 2 ≤ 0x0FFFFFF8`) with clusters of at least 64 bytes, let the current
directory `P` be a non-empty chain `dcs` of at most 15 allocated clusters (so that the
enumeration buffer of `16 * max_entries` entries holds its entries, also after the chain
grew by one cluster) that does not contain the name `N`, and let `N` not begin with the
byte `0xE5`.  Then `cmd_mkdir N` returns, and
when it reports no error, with `C` the cluster handed out by `allocate_cluster`: slot 0 of
`C` is the entry `.` with attribute DIRECTORY and first cluster `C`; slot 1 is the entry
`..` with attribute DIRECTORY and first cluster `P` (0 when `P` is the root); every later
slot of `C` is zero, so its `name[0]` is `0x00`; `find_entry` of `N` in `P` returns the
entry with name `format_filename N`, attribute DIRECTORY, first cluster `C` and size 0;
and `P` enumerates that entry among the entries it enumerated before. -/
theorem cmd_mkdir_effect (fs : FileSystem) (name : List Nat) (fuel : Nat) (dcs : List Nat)
    (hw : WellFormed fs) (hr : fs.total_clusters + 2 ≤ 0x0FFFFFF8)
    (hbpc : 64 ≤ bytes_per_cluster fs)
    (hdir : cluster_chain fs fuel fs.current_cluster = some dcs) (hne : dcs ≠ [])
    (h16 : dcs.length < 16)
    (hdnz : ∀ c ∈ dcs, get_fat_entry fs c ≠ 0)
    (hfind : find_entry fs fs.current_cluster name fuel = some none)
    (hname : cchar name 0 ≠ 0xE5) (hfuel : dcs.length + 1 ≤ fuel) :
    ∃ r, cmd_mkdir fs name fuel = some r ∧
      (r.err = none →
        r.fs.current_cluster = fs.current_cluster ∧
        cluster_slots r.fs (allocate_cluster fs).1 =
          dot_entry (allocate_cluster fs).1 ::
            dotdot_entry (if fs.current_cluster = fs.root_cluster then 0
              else fs.current_cluster) ::
            List.replicate (max_entries fs - 2) (List.replicate 32 0) ∧
        (∀ e ∈ (cluster_slots r.fs (allocate_cluster fs).1).drop 2, e.DIR_Name0 = 0x00) ∧
        ((dot_entry (allocate_cluster fs).1).DIR_Name = format_filename [46] ∧
          (dot_entry (allocate_cluster fs).1).DIR_Attr = ATTR_DIRECTORY ∧
          (dot_entry (allocate_cluster fs).1).first_cluster = (allocate_cluster fs).1) ∧
        ((dotdot_entry (if fs.current_cluster = fs.root_cluster then 0
              else fs.current_cluster)).DIR_Name = format_filename [46, 46] ∧
          (dotdot_entry (if fs.current_cluster = fs.root_cluster then 0
              else fs.current_cluster)).DIR_Attr = ATTR_DIRECTORY ∧
          (dotdot_entry (if fs.current_cluster = fs.root_cluster then 0
              else fs.current_cluster)).first_cluster =
            (if fs.current_cluster = fs.root_cluster then 0 else fs.current_cluster)) ∧
        find_entry r.fs fs.current_cluster name fuel =
          some (some (new_entry name ATTR_DIRECTORY (allocate_cluster fs).1 0)) ∧
        ((new_entry name ATTR_DIRECTORY (allocate_cluster fs).1 0).DIR_Name =
            format_filename name ∧
          (new_entry name ATTR_DIRECTORY (allocate_cluster fs).1 0).DIR_Attr =
            ATTR_DIRECTORY ∧
          (new_entry name ATTR_DIRECTORY (allocate_cluster fs).1 0).first_cluster =
            (allocate_cluster fs).1 ∧
          (new_entry name ATTR_DIRECTORY (allocate_cluster fs).1 0).DIR_FileSize = 0) ∧
        ∃ pre post,
          read_directory r.fs fs.current_cluster fuel =
            some (pre ++ new_entry name ATTR_DIRECTORY (allocate_cluster fs).1 0 :: post) ∧
          (read_directory fs fs.current_cluster fuel = some (pre ++ post) ∨
            read_directory fs fs.current_cluster fuel = some pre)) := by
  obtain ⟨d, hp, hd⟩ := cluster_chain_path fs fuel _ _ hdir
  have hE : 0 < max_entries fs := by
    unfold max_entries DIR_ENTRY_SIZE
    exact Nat.div_pos (by omega) (by norm_num)
  have hrd := read_directory_path hw hp hd fuel (by omega) (by omega)
  have hnone : ∀ a ∈ enumerate (dcs.flatMap (cluster_slots fs)),
      a.DIR_Name ≠ format_filename name := by
    rw [find_entry_eq, hrd] at hfind
    simp only [Option.map_some', Option.some.injEq, Option.map_eq_none'] at hfind
    exact (first_match_none _ _ 0).1 hfind
  have hcmd : cmd_mkdir fs name fuel =
      if (allocate_cluster fs).1 = 0 then
        some (CmdResult.fail (allocate_cluster fs).2 CmdError.no_free_clusters)
      else cmd_mkdir_fill (allocate_cluster fs).2 name (allocate_cluster fs).1 fuel := by
    unfold cmd_mkdir
    rw [hfind]
    rfl
  rcases allocate_cluster_cases fs with ⟨h0, _, _⟩ | ⟨h2, hlt, hfree, _, halloc⟩
  · rw [if_pos h0] at hcmd
    refine ⟨_, hcmd, ?_⟩
    intro h
    cases h
  rw [if_neg (by omega), halloc] at hcmd
  generalize (allocate_cluster fs).1 = C at *
  rw [hw.u32_total] at hlt
  have hlt2 : C < fs.total_clusters + 2 := by omega
  have hcur_lt : fs.current_cluster < 4294967296 := by
    cases hp with
    | nil => exact absurd rfl hne
    | cons _ _ _ hv _ =>
      have := hw.lt_of_valid hv
      omega
  obtain ⟨fsB, fsC, hwr1, hwr2, hfr, hwC, hpC, hgC, hslots⟩ :=
    mkdir_new_cluster fs hw hr hbpc h2 hlt2 fuel (by omega)
  have hCin : InFat fs C := hw.inFat hlt2
  have hCF : ∀ x ∈ [C], InFat fs x := fun x hx => by
    rw [List.mem_singleton] at hx
    rw [hx]
    exact hCin
  have hCd : C ∉ dcs := fun h => hdnz C h hfree
  have hcurC : fsC.current_cluster = fs.current_cluster := hfr.1.2.1
  have hpP : Path fsC fs.current_cluster dcs d :=
    hp.frame hfr hw hCF (fun x hx h => hCd (by rw [List.mem_singleton] at h; rw [← h]; exact hx))
  have hdC : is_valid_cluster fsC d = false := (hfr.1.valid d).trans hd
  have hgP : ∀ c ∈ dcs, get_fat_entry fsC c = get_fat_entry fs c := fun c hc =>
    hfr.get_fat_entry hw hCF (inFat_of_valid fs c hw.2.2.2.2.2.1 (hp.valid_of_mem c hc))
      (fun h => hCd (by rw [List.mem_singleton] at h; rw [← h]; exact hc))
  have hdnzC : ∀ c ∈ dcs, get_fat_entry fsC c ≠ 0 := fun c hc => by
    rw [hgP c hc]
    exact hdnz c hc
  have hslotsP : dcs.flatMap (cluster_slots fsC) = dcs.flatMap (cluster_slots fs) := by
    apply List.flatMap_congr
    intro c hc
    exact hfr.cluster_slots hw hCF (fun x hx => by rw [List.mem_singleton] at hx; omega)
      ((is_valid_cluster_iff fs c).1 (hp.valid_of_mem c hc)).1
      (fun h => hCd (by rw [List.mem_singleton] at h; rw [← h]; exact hc))
  have hEC : max_entries fsC = max_entries fs := hfr.1.max_entries
  have hrC : fsC.total_clusters + 2 ≤ 0x0FFFFFF8 := by
    rw [hfr.1.2.2.2.2.2.2.2]
    exact hr
  obtain ⟨f1, f2, _, f4, f5, f6⟩ :=
    new_entry_fields name ATTR_DIRECTORY C 0 (by decide) (by omega) (by norm_num)
  obtain ⟨g1, g2⟩ := new_entry_live name ATTR_DIRECTORY C 0 (by decide) (by omega)
    (by norm_num) hname (by decide)
  have hfill : cmd_mkdir_fill (claim_cluster fs C) name C fuel =
      (create_directory_entry fsC fs.current_cluster name ATTR_DIRECTORY C 0 fuel).bind
        fun r =>
          if r.2 = true then some (CmdResult.ok r.1)
          else (free_cluster_chain r.1 fuel C).map fun fs3 =>
            CmdResult.fail fs3 CmdError.failed_create_directory := by
    unfold cmd_mkdir_fill
    rw [hwr1, Option.some_bind]
    dsimp only
    rw [hwr2, Option.some_bind, hcurC]
  rw [hfill] at hcmd
  rcases create_directory_entry_spec fsC hwC hrC (by rw [hEC]; exact hE) hpP hdC hne hdnzC name
    ATTR_DIRECTORY C 0 fuel hfuel f1 with hfail | ⟨fs1, fs2, dcs1, d1, F, S, A, x, B, y, hc,
      hfr1, hw1, hp1, hd1, _, hF, hS, _, hlen1, _, hsub, henum, hs1, hA, hx, hy, hfr2, hp2, hw2,
      hs2, _⟩
  · rw [hfail, Option.some_bind] at hcmd
    obtain ⟨fs3, hfree3, _, _⟩ :=
      free_cluster_chain_path [C] fsC C _ fuel hwC hpC (eoc_not_valid _) (by simp; omega)
    have hcmd2 : cmd_mkdir fs name fuel =
        (free_cluster_chain fsC fuel C).map fun fs3 =>
          CmdResult.fail fs3 CmdError.failed_create_directory := hcmd
    rw [hfree3] at hcmd2
    refine ⟨_, hcmd2, ?_⟩
    intro h
    cases h
  · rw [hc, Option.some_bind] at hcmd
    have hcmd2 : cmd_mkdir fs name fuel = some (CmdResult.ok fs2) := hcmd
    refine ⟨CmdResult.ok fs2, hcmd2, fun _ => ?_⟩
    have hcur : fs2.current_cluster = fs.current_cluster :=
      (hfr2.1.2.1.trans hfr1.1.2.1).trans hcurC
    have hd2 : is_valid_cluster fs2 d1 = false := (hfr2.1.valid d1).trans hd1
    obtain ⟨e1, e2⟩ := enumerate_fill A B x (new_entry name ATTR_DIRECTORY C 0) hA hx g1 g2
    have hrd2 : read_directory fs2 fs.current_cluster fuel =
        some (A.filter live_slot ++ new_entry name ATTR_DIRECTORY C 0 :: enumerate B) := by
      rw [read_directory_path hw2 hp2 hd2 fuel (by omega) (by omega), hs2, e1]
    have hold : enumerate (dcs.flatMap (cluster_slots fs)) = A.filter live_slot ++ enumerate B ∨
        enumerate (dcs.flatMap (cluster_slots fs)) = A.filter live_slot := by
      rw [← hslotsP, ← henum, hs1]
      exact e2
    have hpre : ∀ a ∈ A.filter live_slot, a.DIR_Name ≠ format_filename name := by
      intro a ha
      apply hnone
      rcases hold with h | h
      · rw [h]; exact List.mem_append_left _ ha
      · rw [h]; exact ha
    -- the new cluster is outside everything `create_directory_entry` touched
    have hCS : C ∉ S := fun h => by
      have := (hS C h).2.2
      rw [hgC] at this
      cases this
    have hCdcs1 : C ∉ dcs1 := fun h => by
      rcases hsub C h with h1 | h1
      · exact hCd h1
      · rw [hgC] at h1
        cases h1
    have hyC : C ∉ [y] := fun h => by
      rw [List.mem_singleton] at h
      rw [h] at hCdcs1
      exact hCdcs1 hy
    have hsl2 : cluster_slots fs2 C = cluster_slots fsC C := by
      rw [hfr2.cluster_slots hw1 (fun _ h => by cases h)
        (fun z hz => by
          rw [List.mem_singleton] at hz
          rw [hz]
          exact ((is_valid_cluster_iff fs1 y).1 (hp1.valid_of_mem y hy)).1) h2 hyC]
      exact hfr1.cluster_slots hwC (fun z hz => (hF z hz).1) (fun z hz => (hS z hz).1) h2 hCS
    obtain ⟨_, p2, p3, p4⟩ := dot_entry_fields C (by omega)
    obtain ⟨_, q2, q3, q4⟩ := dotdot_entry_fields
      (if fs.current_cluster = fs.root_cluster then 0 else fs.current_cluster)
      (by split <;> omega)
    show fs2.current_cluster = _ ∧ cluster_slots fs2 C = _ ∧
      (∀ e ∈ (cluster_slots fs2 C).drop 2, _) ∧ _ ∧ _ ∧
      find_entry fs2 fs.current_cluster name fuel = _ ∧ _ ∧
      ∃ pre post, read_directory fs2 fs.current_cluster fuel = _ ∧ _
    rw [hsl2, hslots]
    refine ⟨hcur, rfl, ?_, ⟨p2, p3, p4⟩, ⟨q2, q3, q4⟩, ?_, ⟨f2, f4, f5, f6⟩, _, _, hrd2, ?_⟩
    · intro e he
      rw [List.drop_succ_cons, List.drop_succ_cons, List.drop_zero] at he
      rw [List.eq_of_mem_replicate he]
      rfl
    · rw [find_entry_eq, hrd2]
      simp only [Option.map_some']
      rw [first_match_append _ _ _ f2 _ 0 hpre]
      rfl
    · rw [hrd]
      rcases hold with h | h
      · left; rw [h]
      · right; rw [h]

/-- Witness for C18 (amended): `mkdir D` in the empty root directory of the small volume, which
succeeds. -/
theorem cmd_mkdir_effect_witness :
    (cmd_mkdir empty_volume [68] 4).map (fun r => r.err) = some none ∧
    (∃ r, cmd_mkdir empty_volume [68] 4 = some r ∧
      (r.err = none →
        r.fs.current_cluster = empty_volume.current_cluster ∧
        cluster_slots r.fs (allocate_cluster empty_volume).1 =
          dot_entry (allocate_cluster empty_volume).1 ::
            dotdot_entry (if empty_volume.current_cluster = empty_volume.root_cluster then 0
              else empty_volume.current_cluster) ::
            List.replicate (max_entries empty_volume - 2) (List.replicate 32 0) ∧
        (∀ e ∈ (cluster_slots r.fs (allocate_cluster empty_volume).1).drop 2,
          e.DIR_Name0 = 0x00) ∧
        ((dot_entry (allocate_cluster empty_volume).1).DIR_Name = format_filename [46] ∧
          (dot_entry (allocate_cluster empty_volume).1).DIR_Attr = ATTR_DIRECTORY ∧
          (dot_entry (allocate_cluster empty_volume).1).first_cluster =
            (allocate_cluster empty_volume).1) ∧
        ((dotdot_entry (if empty_volume.current_cluster = empty_volume.root_cluster then 0
              else empty_volume.current_cluster)).DIR_Name = format_filename [46, 46] ∧
          (dotdot_entry (if empty_volume.current_cluster = empty_volume.root_cluster then 0
              else empty_volume.current_cluster)).DIR_Attr = ATTR_DIRECTORY ∧
          (dotdot_entry (if empty_volume.current_cluster = empty_volume.root_cluster then 0
              else empty_volume.current_cluster)).first_cluster =
            (if empty_volume.current_cluster = empty_volume.root_cluster then 0
              else empty_volume.current_cluster)) ∧
        find_entry r.fs empty_volume.current_cluster [68] 4 =
          some (some (new_entry [68] ATTR_DIRECTORY (allocate_cluster empty_volume).1 0)) ∧
        ((new_entry [68] ATTR_DIRECTORY (allocate_cluster empty_volume).1 0).DIR_Name =
            format_filename [68] ∧
          (new_entry [68] ATTR_DIRECTORY (allocate_cluster empty_volume).1 0).DIR_Attr =
            ATTR_DIRECTORY ∧
          (new_entry [68] ATTR_DIRECTORY (allocate_cluster empty_volume).1 0).first_cluster =
            (allocate_cluster empty_volume).1 ∧
          (new_entry [68] ATTR_DIRECTORY (allocate_cluster empty_volume).1 0).DIR_FileSize = 0) ∧
        ∃ pre post,
          read_directory r.fs empty_volume.current_cluster 4 =
            some (pre ++
              new_entry [68] ATTR_DIRECTORY (allocate_cluster empty_volume).1 0 :: post) ∧
          (read_directory empty_volume empty_volume.current_cluster 4 = some (pre ++ post) ∨
            read_directory empty_volume empty_volume.current_cluster 4 = some pre))) :=
  ⟨by decide!,
    cmd_mkdir_effect empty_volume [68] 4 [2] (by decide) (by decide) (by decide)
      (by decide) (by decide) (by decide) (by decide) (by decide) (by decide) (by decide)⟩


/-- C20 (counterexample). In `far_file_state`, the volume of 4 GiB and 151 KiB after
`creat G`, `find_entry` yields for `G` a closed file without clusters, and the slots of the
root directory cluster hold no entry at all, so no two carry the same name.  `cmd_rm G`
reports no error, yet the FAT entry of cluster 8, which is not on the (empty) chain of
`G`, changes from 2105415 to 2105573: the slot that is marked lies at the 32-bit file
position of the directory cluster, inside the first FAT copy. -/
theorem cmd_rm_writes_into_fat :
    far_file_state.map (fun fs =>
        (fs.boot_sector.BPB_TotSec32 * fs.boot_sector.BPB_BytsPerSec,
          find_entry fs fs.current_cluster [71] 4, find_open_file fs [71])) =
      some (4295137280, some (some (new_entry [71] ATTR_ARCHIVE 0 0)), none) ∧
    far_file_state.map (fun fs =>
        (cluster_chain fs 4 fs.current_cluster, cluster_chain fs 4 0,
          in_use_slots ([2].flatMap (cluster_slots fs)))) = some (some [2], some [], []) ∧
    far_file_state.map (fun fs => (is_valid_cluster fs 8, get_fat_entry fs 8)) =
      some (true, 2105415) ∧
    (far_file_state.bind fun fs =>
      (cmd_rm fs [71] 4).map fun r => (r.err, get_fat_entry r.fs 8)) =
      some (none, 2105573) := by
  refine ⟨by decide!, by decide!, by decide!, by decide!⟩


/-- Claim C20, amended. On a well-formed volume (the whole volume below 2^32 bytes) let
the current directory be a chain `dcs` of at most 16 clusters whose slots in use (every
slot before the first `0x00` slot that is not marked `0xE5`, long-name slots included)
carry pairwise distinct names, let `find_entry` yield for `N` an entry `e` that is not a
directory and not open, and let `fcs` be the chain of `e`, disjoint from `dcs`.  Then `cmd_rm N` returns without error, and afterwards: every
byte of the FAT entry of every cluster of `fcs` is 0 in every FAT copy; `N` is neither
found nor enumerated in the current directory, whose enumeration is the former one without
`e`; the slots of the directory are the former ones except that the slot of `e` has
`0xE5` as first name byte; the slots of every cluster outside the directory chain and
every byte of the FAT entries outside `fcs` are unchanged. -/
theorem cmd_rm_effect (fs : FileSystem) (name : List Nat) (fuel : Nat) (dcs fcs : List Nat)
    (e : DirEntry) (hw : WellFormed fs)
    (hdir : cluster_chain fs fuel fs.current_cluster = some dcs) (h16 : dcs.length ≤ 16)
    (hdist : ((in_use_slots (dcs.flatMap (cluster_slots fs))).map DirEntry.DIR_Name).Nodup)
    (hfind : find_entry fs fs.current_cluster name fuel = some (some e))
    (hattr : e.DIR_Attr &&& ATTR_DIRECTORY = 0) (hclosed : find_open_file fs name = none)
    (hchain : cluster_chain fs fuel e.first_cluster = some fcs)
    (hdisj : ∀ c ∈ fcs, c ∉ dcs) :
    ∃ r, cmd_rm fs name fuel = some r ∧ r.err = none ∧
      (∀ c ∈ fcs, ∀ k j, k < fs.boot_sector.BPB_NumFATs → j < 4 →
        r.fs.image (fat_addr fs k c + j) = 0) ∧
      find_entry r.fs r.fs.current_cluster name fuel = some none ∧
      (∃ pre post,
        read_directory fs fs.current_cluster fuel = some (pre ++ e :: post) ∧
        read_directory r.fs r.fs.current_cluster fuel = some (pre ++ post) ∧
        ∀ a ∈ pre ++ post, a.DIR_Name ≠ format_filename name) ∧
      (∃ A B,
        dcs.flatMap (cluster_slots fs) = A ++ e :: B ∧
        dcs.flatMap (cluster_slots r.fs) = A ++ e.set 0 0xE5 :: B) ∧
      (∀ c, 2 ≤ c → c ∉ dcs → cluster_slots r.fs c = cluster_slots fs c) ∧
      (∀ c, InFat fs c → c ∉ fcs → ∀ k j, k < fs.boot_sector.BPB_NumFATs → j < 4 →
        r.fs.image (fat_addr fs k c + j) = fs.image (fat_addr fs k c + j)) := by
  obtain ⟨d, hp, hd⟩ := cluster_chain_path fs fuel _ _ hdir
  obtain ⟨fd, hfp, hfd⟩ := cluster_chain_path fs fuel _ _ hchain
  have hlen := cluster_chain_length_le fs fuel _ _ hdir
  have hflen := cluster_chain_length_le fs fuel _ _ hchain
  have hrd := read_directory_path hw hp hd fuel hlen h16
  -- the slot of `e`
  obtain ⟨i, hfm⟩ : ∃ i, first_match (format_filename name)
      (enumerate (dcs.flatMap (cluster_slots fs))) 0 = some (i, e) := by
    rw [find_entry_eq, hrd] at hfind
    simp only [Option.map_some', Option.some.injEq] at hfind
    cases hq : first_match (format_filename name)
        (enumerate (dcs.flatMap (cluster_slots fs))) 0 with
    | none => rw [hq] at hfind; cases hfind
    | some p =>
      rw [hq] at hfind
      simp only [Option.map_some', Option.some.injEq] at hfind
      exact ⟨p.1, by rw [← hfind]⟩
  obtain ⟨A, B, hR, hA, he0, hen, _, hB, henum⟩ := unique_name_split _ _ i e hfm hdist
  have helen : e.length = 32 :=
    @mem_dir_slots_length fs dcs e (by rw [hR]; simp)
  obtain ⟨s1, s2, _⟩ := set_name0_deleted e helen
  -- the chain is freed
  obtain ⟨fs1, hfree, hfr1, hzero⟩ :=
    free_cluster_chain_path fcs fs e.first_cluster fd fuel hw hfp hfd hflen
  have hfree2 : (if e.first_cluster ≠ 0 then free_cluster_chain fs fuel e.first_cluster
      else some fs) = some fs1 := by
    by_cases h0 : e.first_cluster = 0
    · rw [if_neg (not_not.2 h0)]
      rw [h0] at hfree
      cases fuel <;> simpa [free_cluster_chain, is_valid_cluster] using hfree
    · rw [if_pos h0, hfree]
  have hfin : ∀ x ∈ fcs, InFat fs x := fun x hx =>
    inFat_of_valid fs x hw.2.2.2.2.2.1 (hfp.valid_of_mem x hx)
  have hw1 := hfr1.1.wellFormed hw
  have hp1 : Path fs1 fs.current_cluster dcs d :=
    hp.frame hfr1 hw hfin (fun x hx h => hdisj x h hx)
  have hd1 : is_valid_cluster fs1 d = false := (hfr1.1.valid d).trans hd
  have hsl1 : ∀ c, 2 ≤ c → cluster_slots fs1 c = cluster_slots fs c := fun c hc =>
    hfr1.cluster_slots hw hfin (fun _ h => by cases h) hc (fun h => by cases h)
  have hR1 : dcs.flatMap (cluster_slots fs1) = A ++ e :: B := by
    rw [← hR]
    apply List.flatMap_congr
    intro c hc
    exact hsl1 c ((is_valid_cluster_iff fs c).1 (hp.valid_of_mem c hc)).1
  have hcur1 : fs1.current_cluster = fs.current_cluster := hfr1.1.2.1
  -- the entry is marked deleted
  obtain ⟨fs2, y, hy, hdel, hfr2, hp2, hw2, hR2⟩ :=
    delete_directory_entry_spec fs1 hw1 hp1 hd1 name fuel hlen A e B hR1 hA he0 hen helen
  have hd2 : is_valid_cluster fs2 d = false := (hfr2.1.valid d).trans hd1
  have hcmd : cmd_rm fs name fuel = some (CmdResult.ok fs2) := by
    unfold cmd_rm
    rw [hfind, Option.some_bind]
    dsimp only
    rw [if_neg (not_not.2 hattr), hclosed, if_neg (by simp)]
    unfold cmd_rm_apply
    rw [hfree2, Option.some_bind, hcur1, hdel]
    rfl
  have hcur2 : fs2.current_cluster = fs.current_cluster := hfr2.1.2.1.trans hcur1
  have hrd2 : read_directory fs2 fs.current_cluster fuel =
      some (A.filter live_slot ++ enumerate B) := by
    rw [read_directory_path hw2 hp2 hd2 fuel hlen h16, hR2,
      enumerate_tombstone A B _ _ hA s2]
  have hnone : ∀ a ∈ A.filter live_slot ++ enumerate B, a.DIR_Name ≠ format_filename name := by
    intro a ha
    rcases List.mem_append.1 ha with h | h
    · exact fun q => hA a (List.mem_of_mem_filter h) (Or.inr q)
    · exact hB a h
  have hfr : Frame fs fs2 fcs [y] :=
    (hfr1.trans hfr2).mono (fun z hz => by simpa using hz) (fun z hz => by simpa using hz)
  refine ⟨CmdResult.ok fs2, hcmd, rfl, ?_⟩
  show (∀ c ∈ fcs, ∀ k j, _ → _ → fs2.image _ = 0) ∧
    find_entry fs2 fs2.current_cluster name fuel = some none ∧
    (∃ pre post, _ ∧ read_directory fs2 fs2.current_cluster fuel = _ ∧ _) ∧
    (∃ A B, _ ∧ dcs.flatMap (cluster_slots fs2) = _) ∧
    (∀ c, _ → _ → cluster_slots fs2 c = _) ∧
    (∀ c, _ → _ → ∀ k j, _ → _ → fs2.image _ = _)
  rw [hcur2]
  refine ⟨?_, ?_, ⟨_, _, by rw [hrd, henum], hrd2, hnone⟩, ⟨A, B, hR, by rw [hR2, s1]⟩, ?_, ?_⟩
  · intro c hc k j hk hj
    have hk1 : k < fs1.boot_sector.BPB_NumFATs := by rw [hfr1.1.1]; exact hk
    have := hfr2.fat_bytes hw1 (fun _ h => by cases h) ((hfr1.1.inFat_iff c).2 (hfin c hc))
      (fun h => by cases h) hk1 hj
    rw [hfr1.1.fat_addr] at this
    rw [this]
    exact hzero c hc k j hk hj
  · rw [find_entry_eq, hrd2]
    simp only [Option.map_some', Option.some.injEq, Option.map_eq_none']
    exact (first_match_none _ _ 0).2 hnone
  · intro c hc hcd
    rw [← hsl1 c hc]
    exact hfr2.cluster_slots hw1 (fun _ h => by cases h)
      (fun z hz => by
        rw [List.mem_singleton] at hz
        rw [hz]
        exact ((is_valid_cluster_iff fs y).1 (hp.valid_of_mem y hy)).1) hc
      (fun h => hcd (by rw [List.mem_singleton] at h; rw [h]; exact hy))
  · intro c hc hcf k j hk hj
    exact hfr.fat_bytes hw hfin hc hcf hk hj

/-- Witness for C20 (amended): `rm F` in the root directory of the small volume that holds the
directory `D` and the one-cluster file `F`. -/
theorem cmd_rm_effect_witness :
    ∃ r, cmd_rm dir_and_file_volume [70] 4 = some r ∧ r.err = none ∧
      (∀ c ∈ [4], ∀ k j, k < dir_and_file_volume.boot_sector.BPB_NumFATs → j < 4 →
        r.fs.image (fat_addr dir_and_file_volume k c + j) = 0) ∧
      find_entry r.fs r.fs.current_cluster [70] 4 = some none ∧
      (∃ pre post,
        read_directory dir_and_file_volume dir_and_file_volume.current_cluster 4 =
            some (pre ++ (new_entry [70] ATTR_ARCHIVE 4 5) :: post) ∧
        read_directory r.fs r.fs.current_cluster 4 = some (pre ++ post) ∧
        ∀ a ∈ pre ++ post, a.DIR_Name ≠ format_filename [70]) ∧
      (∃ A B,
        [2].flatMap (cluster_slots dir_and_file_volume) =
            A ++ (new_entry [70] ATTR_ARCHIVE 4 5) :: B ∧
        [2].flatMap (cluster_slots r.fs) = A ++ (new_entry [70] ATTR_ARCHIVE 4 5).set 0 0xE5 :: B) ∧
      (∀ c, 2 ≤ c → c ∉ [2] → cluster_slots r.fs c = cluster_slots dir_and_file_volume c) ∧
      (∀ c, InFat dir_and_file_volume c → c ∉ [4] →
          ∀ k j, k < dir_and_file_volume.boot_sector.BPB_NumFATs → j < 4 →
        r.fs.image (fat_addr dir_and_file_volume k c + j) =
            dir_and_file_volume.image (fat_addr dir_and_file_volume k c + j)) :=
  cmd_rm_effect dir_and_file_volume [70] 4 [2] [4] (new_entry [70] ATTR_ARCHIVE 4 5)
    (by decide) (by decide) (by decide) (by decide) (by decide) (by decide) (by decide)
    (by decide) (by decide)


/-- C21 (code at the failing input). On the empty small volume, after `mkdir FOO;
mkdir FOOBAR; cd FOOBAR; creat X; open X -r; cd ..` the directory `FOO` is empty and the
only live handle has the path `/FOOBAR`, which neither equals `/FOO` nor begins with
`/FOO/`; yet `rmdir FOO` is rejected with "A file is open in this directory": the guard
compares the first `strlen ("/FOO")` characters only. -/
theorem cmd_rmdir_rejects_sibling_prefix :
    sibling_handle_state.map (fun fs =>
        (fs.current_path, (fs.open_files.filter fun h => h.is_open).map fun h => h.path)) =
      some ([47], [[47, 70, 79, 79, 66, 65, 82]]) ∧
    sibling_handle_state.map (fun fs =>
        (find_entry fs fs.current_cluster [70, 79, 79] 4).map (fun o => o.map (fun d =>
          (d.DIR_Attr, is_directory_empty fs d.first_cluster 4)))) =
      some (some (some (ATTR_DIRECTORY, some true))) ∧
    expected_path [47] [70, 79, 79] = [47, 70, 79, 79] ∧
    (sibling_handle_state.bind fun fs => cmd_rmdir fs [70, 79, 79] 4).map (fun r => r.err) =
      some (some CmdError.file_open_in_directory) ∧
    (sibling_handle_state.bind fun fs => cmd_rmdir fs [70, 79, 79] 4).map (fun r =>
        (find_entry r.fs r.fs.current_cluster [70, 79, 79] 4).map Option.isSome) =
      some (some true) := by
  refine ⟨by decide!, by decide!, by decide, by decide!, by decide!⟩


/-- C22 (counterexample). On the empty small volume the name with the bytes `0xE5 0x41` is
not in the root directory and no file is open.  `cmd_mkdir` of that name reports no error,
and `cmd_rmdir` of the same name, right after it, reports "Directory does not exist": the
stored name starts with `0xE5`, the mark of a deleted slot, so the enumeration skips the
freshly made directory. -/
theorem cmd_rmdir_misses_fresh_directory :
    find_entry empty_volume empty_volume.current_cluster [229, 65] 4 = some none ∧
    open_in_directory empty_volume [229, 65] = false ∧
    (cmd_mkdir empty_volume [229, 65] 4).map (fun r => r.err) = some none ∧
    ((cmd_mkdir empty_volume [229, 65] 4).bind fun r =>
      (cmd_rmdir r.fs [229, 65] 4).map fun r2 => r2.err) =
      some (some CmdError.directory_does_not_exist) := by
  refine ⟨by decide, by decide, by decide!, by decide!⟩


/-- Claim C22, amended. On a well-formed volume (the whole volume below 2^32 bytes):
(1) for a cluster `c` whose chain `cs` has at most 16 clusters, `is_directory_empty`
returns, and returns true if and only if every entry enumerated from the chain (the slots
before the first `0x00` slot that are neither deleted nor long-name slots) has `'.'` as
first name byte; (2) when `find_entry` yields for `N` a directory whose chain, of at most
16 clusters, enumerates an entry whose name does not start with `'.'`, `cmd_rmdir N`
reports "Directory is not empty" and returns the state it was given; (3) with
`total_clusters + 2 ≤ 0x0FFFFFF8` and clusters of at least 64 bytes, let the current
directory be a non-empty chain `dcs` of at most 15 allocated clusters none of whose slots in
use (long-name slots included) carries the name `N`, let `N` not start with `0xE5` and let
no live handle have a path that starts with the path of `N`: then `cmd_mkdir N` returns,
and when it reports no error, with `C` the cluster it allocated, `cmd_rmdir N` returns
without error, afterwards the FAT entry of `C` reads 0 again, and the slots of the
directory chain are those left by `cmd_mkdir` except that the slot of `N` has `0xE5` as
first name byte; (4) the 11 name bytes that `format_filename` builds start with `'.'` for
the names `.` and `..` only. -/
theorem is_directory_empty_rmdir :
    (∀ (fs : FileSystem) (c fuel : Nat) (cs : List Nat), WellFormed fs →
      cluster_chain fs fuel c = some cs → cs.length ≤ 16 →
      ∃ b, is_directory_empty fs c fuel = some b ∧
        (b = true ↔ ∀ e ∈ enumerate (cs.flatMap (cluster_slots fs)), e.DIR_Name0 = 46)) ∧
    (∀ (fs : FileSystem) (name : List Nat) (fuel : Nat) (e : DirEntry) (cs : List Nat),
      WellFormed fs → find_entry fs fs.current_cluster name fuel = some (some e) →
      e.DIR_Attr &&& ATTR_DIRECTORY ≠ 0 →
      cluster_chain fs fuel e.first_cluster = some cs → cs.length ≤ 16 →
      (∃ x ∈ enumerate (cs.flatMap (cluster_slots fs)), x.DIR_Name0 ≠ 46) →
      cmd_rmdir fs name fuel = some (CmdResult.fail fs CmdError.directory_not_empty)) ∧
    (∀ (fs : FileSystem) (name : List Nat) (fuel : Nat) (dcs : List Nat), WellFormed fs →
      fs.total_clusters + 2 ≤ 0x0FFFFFF8 → 64 ≤ bytes_per_cluster fs →
      cluster_chain fs fuel fs.current_cluster = some dcs → dcs ≠ [] → dcs.length < 16 →
      (∀ c ∈ dcs, get_fat_entry fs c ≠ 0) →
      (∀ a ∈ in_use_slots (dcs.flatMap (cluster_slots fs)),
        a.DIR_Name ≠ format_filename name) →
      dcs.length + 1 ≤ fuel →
      cchar name 0 ≠ 0xE5 → open_in_directory fs name = false →
      ∃ r, cmd_mkdir fs name fuel = some r ∧
        (r.err = none → ∃ r2, cmd_rmdir r.fs name fuel = some r2 ∧ r2.err = none ∧
          get_fat_entry r2.fs (allocate_cluster fs).1 = 0 ∧
          ∃ (dcs1 : List Nat) (A B : List DirEntry),
            cluster_chain r.fs fuel fs.current_cluster = some dcs1 ∧
            cluster_chain r2.fs fuel fs.current_cluster = some dcs1 ∧
            dcs1.flatMap (cluster_slots r.fs) =
              A ++ new_entry name ATTR_DIRECTORY (allocate_cluster fs).1 0 :: B ∧
            dcs1.flatMap (cluster_slots r2.fs) =
              A ++ (new_entry name ATTR_DIRECTORY (allocate_cluster fs).1 0).set 0 0xE5 ::
                B)) ∧
    (∀ name : List Nat,
      (format_filename name).getD 0 0 = 46 ↔ cstr name = [46] ∨ cstr name = [46, 46]) := by
  refine ⟨?_, ?_, ?_, format_filename_dot⟩
  · intro fs c fuel cs hw hc h16
    obtain ⟨d, hp, hd⟩ := cluster_chain_path fs fuel _ _ hc
    exact is_directory_empty_path hw hp hd fuel (cluster_chain_length_le fs fuel _ _ hc) h16
  · intro fs name fuel e cs hw hfind hattr hc h16 ⟨x, hx, hx46⟩
    obtain ⟨d, hp, hd⟩ := cluster_chain_path fs fuel _ _ hc
    obtain ⟨b, hb, hiff⟩ :=
      is_directory_empty_path hw hp hd fuel (cluster_chain_length_le fs fuel _ _ hc) h16
    have hbf : b = false := by
      cases b with
      | false => rfl
      | true => exact absurd (hiff.1 rfl x hx) hx46
    unfold cmd_rmdir
    rw [hfind, Option.some_bind]
    dsimp only
    rw [if_neg hattr, hb, Option.some_bind, if_pos hbf]
  · intro fs name fuel dcs hw hr hbpc hdir hne h16 hdnz hnone hfuel hname hopen
    obtain ⟨d0, hp0, hd0⟩ := cluster_chain_path fs fuel _ _ hdir
    have hfind : find_entry fs fs.current_cluster name fuel = some none := by
      rw [find_entry_eq, read_directory_path hw hp0 hd0 fuel (by omega) (by omega)]
      simp only [Option.map_some', Option.some.injEq, Option.map_eq_none']
      apply (first_match_none _ _ 0).2
      intro a ha
      apply hnone
      unfold enumerate at ha
      unfold in_use_slots
      rw [List.mem_filter] at ha ⊢
      refine ⟨ha.1, ?_⟩
      have h2 := ha.2
      unfold live_slot at h2
      rw [Bool.and_eq_true] at h2
      exact h2.1
    obtain ⟨r, hcmd⟩ := cmd_mkdir_returns fs name fuel dcs hw hr hbpc hdir hne hdnz hfind hfuel
    refine ⟨r, hcmd, fun herr => ?_⟩
    obtain ⟨h2, hlt, hss, hwW, hpC, hslots, dcs1, d1, A, B, hp1, hd1, hlen1, hC, hs, hA,
      hpre, hin⟩ := cmd_mkdir_done fs name fuel dcs hw hr hbpc hdir hne hdnz hfind hfuel
        (by omega) r hcmd herr
    obtain ⟨hfound, hlist⟩ :=
      cmd_mkdir_found fs name fuel dcs hw hr hbpc hdir hne hdnz hfind hfuel h16 hname r hcmd
        herr
    obtain ⟨f1, f2, _, f4, f5, _⟩ :=
      new_entry_fields name ATTR_DIRECTORY (allocate_cluster fs).1 0 (by decide) (by omega)
        (by norm_num)
    obtain ⟨g1, _⟩ := new_entry_live name ATTR_DIRECTORY (allocate_cluster fs).1 0 (by decide)
      (by omega) (by norm_num) hname (by decide)
    generalize (allocate_cluster fs).1 = C at *
    have hcur : r.fs.current_cluster = fs.current_cluster := hss.2.1
    have hopenW : open_in_directory r.fs name = false := by
      unfold open_in_directory
      rw [hss.2.2.2.1, hss.2.2.1]
      exact hopen
    have hempty : is_directory_empty r.fs C fuel = some true := by
      unfold is_directory_empty
      rw [hlist]
      rfl
    obtain ⟨fs1, hfree, hfr1, hzero⟩ :=
      free_cluster_chain_path [C] r.fs C _ fuel hwW hpC (eoc_not_valid _) (by simp; omega)
    have hCin : ∀ x ∈ [C], InFat r.fs x := fun x hx =>
      inFat_of_valid r.fs x hwW.2.2.2.2.2.1 (hpC.valid_of_mem x hx)
    have hw1 := hfr1.1.wellFormed hwW
    have hp1f : Path fs1 fs.current_cluster dcs1 d1 :=
      hp1.frame hfr1 hwW hCin (fun x hx h => by
        rw [List.mem_singleton] at h
        rw [h] at hx
        exact hC hx)
    have hd1f : is_valid_cluster fs1 d1 = false := (hfr1.1.valid d1).trans hd1
    have hcur1 : fs1.current_cluster = fs.current_cluster := hfr1.1.2.1.trans hcur
    have hR1 : dcs1.flatMap (cluster_slots fs1) = A ++ new_entry name ATTR_DIRECTORY C 0 :: B := by
      rw [← hs]
      apply List.flatMap_congr
      intro c hc
      exact hfr1.cluster_slots hwW hCin (fun _ h => by cases h)
        ((is_valid_cluster_iff r.fs c).1 (hp1.valid_of_mem c hc)).1 (fun h => by cases h)
    have hstop : ∀ a ∈ A, ¬ stop_slot (format_filename name) a := by
      intro a ha hq
      rcases hq with hq | hq
      · exact hA a ha (Or.inl hq)
      · exact hnone a (hin a ha) hq
    obtain ⟨fs2, y, hy, hdel, hfr2, hp2, hw2, hR2⟩ :=
      delete_directory_entry_spec fs1 hw1 hp1f hd1f name fuel (by omega) A _ B hR1 hstop g1
        f2 f1
    obtain ⟨s1, _, _⟩ := set_name0_deleted (new_entry name ATTR_DIRECTORY C 0) f1
    have hd2 : is_valid_cluster fs2 d1 = false := (hfr2.1.valid d1).trans hd1f
    have hC1 : InFat fs1 C := (hfr1.1.inFat_iff C).2 (hCin C (List.mem_singleton.2 rfl))
    have hC2 : get_fat_entry fs2 C = 0 := by
      apply get_fat_entry_zero_of_bytes fs2 hw2 C ((hfr2.1.inFat_iff C).2 hC1)
      intro j hj
      have := hfr2.fat_bytes hw1 (fun _ h => by cases h) hC1 (fun h => by cases h)
        (by rw [hfr1.1.1]; exact hwW.2.1) hj
      rw [hfr2.1.fat_addr, this, hfr1.1.fat_addr]
      exact hzero C (List.mem_singleton.2 rfl) 0 j hwW.2.1 hj
    refine ⟨CmdResult.ok fs2, ?_, rfl, hC2, dcs1, A, B, path_cluster_chain hp1 hd1 fuel (by omega),
      path_cluster_chain hp2 hd2 fuel (by omega), hs, by rw [← s1]; exact hR2⟩
    unfold cmd_rmdir
    rw [hcur, hfound, Option.some_bind]
    dsimp only
    rw [f4, if_neg (by decide), f5, hempty, Option.some_bind, if_neg (by decide), hopenW,
      if_neg (by decide)]
    unfold cmd_rm_apply
    rw [if_pos (by omega), hfree, Option.some_bind, hcur1, hdel]
    rfl

set_option maxRecDepth 1000000 in
/-- Witness for C22 (amended): the directory `D` of a small volume, which holds `.`, `..`
and the file `F`, is not empty and `rmdir D` is rejected; on the empty small volume
`mkdir D` reports no error and `rmdir D` after it returns without error, frees the
cluster and marks the slot. -/
theorem is_directory_empty_rmdir_witness :
    (∃ b, is_directory_empty nonempty_dir_volume 3 4 = some b ∧
      (b = true ↔
        ∀ e ∈ enumerate ([3].flatMap (cluster_slots nonempty_dir_volume)), e.DIR_Name0 = 46)) ∧
    is_directory_empty nonempty_dir_volume 3 4 = some false ∧
    cmd_rmdir nonempty_dir_volume [68] 4 =
      some (CmdResult.fail nonempty_dir_volume CmdError.directory_not_empty) ∧
    (cmd_mkdir empty_volume [68] 4).map (fun r => r.err) = some none ∧
    ((cmd_mkdir empty_volume [68] 4).bind fun r =>
      (cmd_rmdir r.fs [68] 4).map fun r2 => r2.err) = some none ∧
    (∃ r, cmd_mkdir empty_volume [68] 4 = some r ∧
      (r.err = none → ∃ r2, cmd_rmdir r.fs [68] 4 = some r2 ∧ r2.err = none ∧
        get_fat_entry r2.fs (allocate_cluster empty_volume).1 = 0 ∧
        ∃ (dcs1 : List Nat) (A B : List DirEntry),
          cluster_chain r.fs 4 empty_volume.current_cluster = some dcs1 ∧
          cluster_chain r2.fs 4 empty_volume.current_cluster = some dcs1 ∧
          dcs1.flatMap (cluster_slots r.fs) =
            A ++ new_entry [68] ATTR_DIRECTORY (allocate_cluster empty_volume).1 0 :: B ∧
          dcs1.flatMap (cluster_slots r2.fs) =
            A ++ (new_entry [68] ATTR_DIRECTORY (allocate_cluster empty_volume).1 0).set 0
              0xE5 :: B)) :=
  ⟨is_directory_empty_rmdir.1 nonempty_dir_volume 3 4 [3] (by decide) (by decide) (by decide),
    by decide,
    is_directory_empty_rmdir.2.1 nonempty_dir_volume [68] 4
      (new_entry [68] ATTR_DIRECTORY 3 0) [3] (by decide) (by decide) (by decide) (by decide)
      (by decide) ⟨new_entry [70] ATTR_ARCHIVE 0 0, by decide, by decide⟩,
    by decide!, by decide!,
    is_directory_empty_rmdir.2.2.1 empty_volume [68] 4 [2] (by decide) (by decide) (by decide)
      (by decide) (by decide) (by decide) (by decide) (by decide) (by decide) (by decide)
      (by decide)⟩


set_option maxRecDepth 1000000 in
/-- C23 (code at the failing input). On the tiny volume (root directory in cluster 2,
cluster 3 free) with an empty root directory: `creat F; open F -w; write F s; close F;
rm F` with 600 characters `s`.  The write claims cluster 3 as first cluster of `F`, finds
no second cluster and returns with "No free clusters available" before it rewrites the
directory entry; the entry keeps first cluster 0, so `rm F` frees nothing.  At the end the
root directory is empty again and no handle is live, but cluster 3, free at mount, is not
free: its FAT entry is the end-of-chain mark. -/
theorem failed_write_leaks_cluster :
    free_clusters tiny_empty_volume = [3] ∧
    read_directory tiny_empty_volume 2 4 = some [] ∧
    ((cmd_creat tiny_empty_volume [70] 4).bind fun r1 =>
      (cmd_open r1.fs [70] [45, 119] 4).bind fun r2 =>
        (cmd_write r2.fs [70] (List.replicate 600 88) 4).map fun r3 =>
          (r1.err, r2.err, r3.err)) = some (none, none, some CmdError.no_free_clusters) ∧
    failed_write_state.map (fun fs =>
        (read_directory fs 2 4, fs.open_files.all fun h => !h.is_open)) =
      some (some [], true) ∧
    failed_write_state.map (fun fs => (free_clusters fs, get_fat_entry fs 3)) =
      some ([], 0x0FFFFFFF) := by
  refine ⟨by decide!, by decide!, by decide!, by decide!, by decide!⟩


/-- Claim C24. Whenever one of `cmd_cd`, `cmd_mkdir`, `cmd_creat`, `cmd_open`,
`cmd_close`, `cmd_lseek`, `cmd_read`, `cmd_write`, `cmd_mv`, `cmd_rm`, `cmd_rmdir` returns
after printing the message of one of its precondition checks (`precondition_errors`), the
state it leaves is the state it was given: every byte of the image, the current cluster,
the current path and every slot of the table of open files are the same. -/
theorem precondition_failure_no_side_effect (fs : FileSystem) (c : Command) (fuel : Nat)
    (r : CmdResult) (e : CmdError) (h : run_command fs fuel c = some r)
    (he : r.err = some e) (hp : e ∈ precondition_errors) :
    r.fs = fs ∧ (∀ a, r.fs.image a = fs.image a) ∧
      r.fs.current_cluster = fs.current_cluster ∧ r.fs.current_path = fs.current_path ∧
      r.fs.open_files = fs.open_files := by
  have key : r.fs = fs := by
    cases c with
    | cd dirname => exact cmd_cd_rejected fs dirname fuel r e h he
    | mkdir dirname => exact cmd_mkdir_rejected fs dirname fuel r e h he hp
    | creat filename => exact cmd_creat_rejected fs filename fuel r e h he hp
    | open_file filename mode => exact cmd_open_rejected fs filename mode fuel r e h he
    | close filename => exact cmd_close_rejected fs filename fuel r e h he
    | lseek filename offset => exact cmd_lseek_rejected fs filename offset fuel r e h he
    | read filename size => exact cmd_read_rejected fs filename size fuel r e h he
    | write filename string => exact cmd_write_rejected fs filename string fuel r e h he hp
    | mv source dest => exact cmd_mv_rejected fs source dest fuel r e h he hp
    | rm filename => exact cmd_rm_rejected fs filename fuel r e h he
    | rmdir dirname => exact cmd_rmdir_rejected fs dirname fuel r e h he
  rw [key]
  exact ⟨rfl, fun _ => rfl, rfl, rfl, rfl⟩

/-- Witness for C24: `lseek F 9` on the volume that holds the directory `D` and the file
`F`, which is not open, is rejected with "File is not open". -/
theorem precondition_failure_no_side_effect_witness :
    run_command dir_and_file_volume 4 (Command.lseek [70] 9) =
        some (CmdResult.fail dir_and_file_volume CmdError.file_not_open) ∧
      (CmdResult.fail dir_and_file_volume CmdError.file_not_open).fs = dir_and_file_volume ∧
      (∀ a, (CmdResult.fail dir_and_file_volume CmdError.file_not_open).fs.image a =
        dir_and_file_volume.image a) ∧
      (CmdResult.fail dir_and_file_volume CmdError.file_not_open).fs.current_cluster =
        dir_and_file_volume.current_cluster ∧
      (CmdResult.fail dir_and_file_volume CmdError.file_not_open).fs.current_path =
        dir_and_file_volume.current_path ∧
      (CmdResult.fail dir_and_file_volume CmdError.file_not_open).fs.open_files =
        dir_and_file_volume.open_files :=
  ⟨by rfl,
    precondition_failure_no_side_effect dir_and_file_volume (Command.lseek [70] 9) 4
      (CmdResult.fail dir_and_file_volume CmdError.file_not_open) CmdError.file_not_open
      (by rfl) rfl (by decide)⟩


/-- C26 (counterexample). On the empty small volume, after `mkdir P; cd P` the command
`mkdir N`, for the name `N` with the two bytes `0xE5 0x41` (no `'/'`), reports no error.
The entry it writes starts with the mark of a deleted slot, so `cd N` finds no such
directory and leaves the state as it is, and the `cd ..` that follows moves from `/P`
(cluster 3) to the root directory (cluster 2): cluster and path are not restored. -/
theorem cmd_cd_hidden_directory_not_restored :
    ((cmd_mkdir empty_volume [80] 4).bind fun r1 =>
      (cmd_cd r1.fs [80] 4).bind fun r2 =>
        (cmd_mkdir r2.fs [229, 65] 4).map fun r3 => (r1.err, r2.err, r3.err)) =
      some (none, none, none) ∧
    hidden_directory_state.map (fun fs => (fs.current_cluster, fs.current_path)) =
      some (3, [47, 80]) ∧
    (hidden_directory_state.bind fun fs => cmd_cd fs [229, 65] 4).map (fun r =>
        (r.err, r.fs.current_cluster, r.fs.current_path)) =
      some (some CmdError.directory_does_not_exist, 3, [47, 80]) ∧
    (hidden_directory_state.bind fun fs =>
      (cmd_cd fs [229, 65] 4).bind fun r1 =>
        (cmd_cd r1.fs [46, 46] 4).map fun r2 =>
          (r2.err, r2.fs.current_cluster, r2.fs.current_path)) =
      some (none, 2, [47]) := by
  refine ⟨by decide!, by decide!, by decide!, by decide!⟩


/-- Claim C26 (amended). On a well-formed volume (the whole volume below 2^32 bytes,
`total_clusters + 2 ≤ 0x0FFFFFF8`) with clusters of at least 64 bytes, let the current
directory be a non-empty chain `dcs` of at most 15 allocated clusters (so that the
enumeration buffer of `16 * max_entries` entries holds its entries, also after the chain
grew by one cluster) that does not contain the name `N`, where `N` does not start with
`0xE5`, is neither `.` nor `..` and holds no `'/'`, and let the current path not be the
empty string.  Then `cmd_mkdir N` returns, and when it reports no error: `cmd_cd N`
returns without error in the new cluster with the path of the child; there `find_entry`
yields for `..` the entry written by `cmd_mkdir`, whose cluster is 0 when the starting
directory is the root and the starting cluster otherwise; `cmd_cd ..` returns without
error with `current_cluster` and the string in `current_path` as they were before the two
commands, the image and the table of open files being untouched by both.  Moreover
`cmd_cd .` returns the state it was given. -/
theorem cmd_cd_round_trip (fs : FileSystem) (name : List Nat) (fuel : Nat) (dcs : List Nat)
    (hw : WellFormed fs) (hr : fs.total_clusters + 2 ≤ 0x0FFFFFF8)
    (hbpc : 64 ≤ bytes_per_cluster fs)
    (hdir : cluster_chain fs fuel fs.current_cluster = some dcs) (hne : dcs ≠ [])
    (hdnz : ∀ c ∈ dcs, get_fat_entry fs c ≠ 0)
    (hfind : find_entry fs fs.current_cluster name fuel = some none)
    (hfuel : dcs.length + 1 ≤ fuel) (h16 : dcs.length < 16) (hname : cchar name 0 ≠ 0xE5)
    (hdot : cstr name ≠ [46]) (hdd : cstr name ≠ [46, 46]) (hslash : 47 ∉ cstr name)
    (hpath : cstr fs.current_path ≠ []) :
    (∃ r, cmd_mkdir fs name fuel = some r ∧
      (r.err = none → ∃ r1 r2,
        cmd_cd r.fs name fuel = some r1 ∧ r1.err = none ∧
        r1.fs.current_cluster = (allocate_cluster fs).1 ∧
        r1.fs.current_path = child_path fs.current_path name ∧
        find_entry r1.fs r1.fs.current_cluster [46, 46] fuel =
          some (some (dotdot_entry (if fs.current_cluster = fs.root_cluster then 0
            else fs.current_cluster))) ∧
        (dotdot_entry (if fs.current_cluster = fs.root_cluster then 0
            else fs.current_cluster)).first_cluster =
          (if fs.current_cluster = fs.root_cluster then 0 else fs.current_cluster) ∧
        cmd_cd r1.fs [46, 46] fuel = some r2 ∧ r2.err = none ∧
        r2.fs.current_cluster = fs.current_cluster ∧
        r2.fs.current_path = cstr fs.current_path ∧
        (∀ a, r2.fs.image a = r.fs.image a) ∧ r2.fs.open_files = fs.open_files)) ∧
    cmd_cd fs [46] fuel = some (CmdResult.ok fs) := by
  refine ⟨?_, by unfold cmd_cd; rw [if_pos (by decide)]⟩
  obtain ⟨r, hcmd⟩ := cmd_mkdir_returns fs name fuel dcs hw hr hbpc hdir hne hdnz hfind hfuel
  refine ⟨r, hcmd, fun herr => ?_⟩
  obtain ⟨h2, hlt, hss, hwW, hpC, hslots, dcs1, d1, A, B, hp1, hd1, hlen1, hC, hs, hA,
    hpre, _⟩ := cmd_mkdir_done fs name fuel dcs hw hr hbpc hdir hne hdnz hfind hfuel (by omega) r hcmd
      herr
  obtain ⟨hfound, hlist⟩ :=
    cmd_mkdir_found fs name fuel dcs hw hr hbpc hdir hne hdnz hfind hfuel h16 hname r hcmd
      herr
  obtain ⟨_, _, _, f4, f5, _⟩ :=
    new_entry_fields name ATTR_DIRECTORY (allocate_cluster fs).1 0 (by decide) (by omega)
      (by norm_num)
  obtain ⟨_, g2, _, _⟩ := dot_entry_fields (allocate_cluster fs).1 (by omega)
  -- the starting directory is a cluster of the volume
  obtain ⟨d, hp, hd⟩ := cluster_chain_path fs fuel _ _ hdir
  have hcv : is_valid_cluster fs fs.current_cluster = true := by
    cases hp with
    | nil => exact absurd rfl hne
    | cons _ _ _ hv _ => exact hv
  obtain ⟨hc2, hclt, _⟩ := (is_valid_cluster_iff fs _).1 hcv
  have hpar : (if fs.current_cluster = fs.root_cluster then 0 else fs.current_cluster) <
      4294967296 := by
    split
    · norm_num
    · omega
  obtain ⟨_, k2, k3, k4⟩ := dotdot_entry_fields _ hpar
  have hback : (if (if fs.current_cluster = fs.root_cluster then 0 else fs.current_cluster) = 0
      then fs.root_cluster
      else (if fs.current_cluster = fs.root_cluster then 0 else fs.current_cluster)) =
      fs.current_cluster := by
    by_cases hroot : fs.current_cluster = fs.root_cluster
    · rw [if_pos hroot, if_pos rfl, hroot]
    · rw [if_neg hroot, if_neg (by omega)]
  generalize (allocate_cluster fs).1 = C at *
  generalize (if fs.current_cluster = fs.root_cluster then 0 else fs.current_cluster) = par at *
  have hcur : r.fs.current_cluster = fs.current_cluster := hss.2.1
  have hcd1 : cmd_cd r.fs name fuel = some (CmdResult.ok { r.fs with
      current_path := child_path r.fs.current_path name
      current_cluster := C }) := by
    unfold cmd_cd
    rw [if_neg hdot, hcur, hfound, Option.some_bind]
    dsimp only
    rw [f4, if_neg (by decide), if_neg hdd, f5]
  have hfind2 : find_entry { r.fs with
      current_path := child_path r.fs.current_path name
      current_cluster := C } C [46, 46] fuel = some (some (dotdot_entry par)) := by
    rw [find_entry_eq, read_directory_moved r.fs hwW _ _ hpC (eoc_not_valid _) fuel
      (by simp; omega) (by simp), hlist]
    simp only [Option.map_some']
    unfold first_match
    rw [if_neg (by rw [g2]; decide)]
    unfold first_match
    rw [if_pos k2]
    rfl
  have hcd2 : cmd_cd { r.fs with
      current_path := child_path r.fs.current_path name
      current_cluster := C } [46, 46] fuel = some (CmdResult.ok { r.fs with
        current_path := cstr fs.current_path
        current_cluster := if par = 0 then r.fs.root_cluster else par }) := by
    unfold cmd_cd
    rw [if_neg (by decide)]
    dsimp only
    rw [hfind2, Option.some_bind]
    dsimp only
    rw [k3, if_neg (by decide), if_pos (by decide), hss.2.2.1,
      parent_path_child_path _ _ hpath hslash, k4]
    rfl
  refine ⟨_, _, hcd1, rfl, rfl, ?_, hfind2, k4, hcd2, rfl, ?_, rfl, fun _ => rfl,
    hss.2.2.2.1⟩
  · show child_path r.fs.current_path name = _
    rw [hss.2.2.1]
  · show (if par = 0 then r.fs.root_cluster else par) = fs.current_cluster
    rw [hss.2.2.2.2.2.2.1]
    exact hback

/-- Witness for C26 (amended): `mkdir D; cd D; cd ..` in the root directory of the empty small
volume, where `mkdir D` reports no error. -/
theorem cmd_cd_round_trip_witness :
    (cmd_mkdir empty_volume [68] 4).map (fun r => r.err) = some none ∧
    ((∃ r, cmd_mkdir empty_volume [68] 4 = some r ∧
      (r.err = none → ∃ r1 r2,
        cmd_cd r.fs [68] 4 = some r1 ∧ r1.err = none ∧
        r1.fs.current_cluster = (allocate_cluster empty_volume).1 ∧
        r1.fs.current_path = child_path empty_volume.current_path [68] ∧
        find_entry r1.fs r1.fs.current_cluster [46, 46] 4 =
          some (some (dotdot_entry
            (if empty_volume.current_cluster = empty_volume.root_cluster then 0
              else empty_volume.current_cluster))) ∧
        (dotdot_entry (if empty_volume.current_cluster = empty_volume.root_cluster then 0
            else empty_volume.current_cluster)).first_cluster =
          (if empty_volume.current_cluster = empty_volume.root_cluster then 0
            else empty_volume.current_cluster) ∧
        cmd_cd r1.fs [46, 46] 4 = some r2 ∧ r2.err = none ∧
        r2.fs.current_cluster = empty_volume.current_cluster ∧
        r2.fs.current_path = cstr empty_volume.current_path ∧
        (∀ a, r2.fs.image a = r.fs.image a) ∧
        r2.fs.open_files = empty_volume.open_files)) ∧
    cmd_cd empty_volume [46] 4 = some (CmdResult.ok empty_volume)) :=
  ⟨by decide!,
    cmd_cd_round_trip empty_volume [68] 4 [2] (by decide) (by decide) (by decide)
      (by decide) (by decide) (by decide) (by decide) (by decide) (by decide) (by decide)
      (by decide) (by decide) (by decide) (by decide)⟩


/-- C27 (counterexample). The boot sector `wide_fat_boot` has 32 reserved sectors and two
FAT copies of `2^31` sectors, so reserved sectors plus number of FATs times FAT size is
`4294967328`; `mount_image` returns 0 with `data_start_sector = 32` and
`total_clusters = 968`: the product and the sum are taken in `uint32_t`. -/
theorem mount_image_start_wraps :
    wide_fat_boot.length = 90 ∧
    (le16_at wide_fat_boot 14, wide_fat_boot.getD 16 0, le32_at wide_fat_boot 36,
        le32_at wide_fat_boot 32, wide_fat_boot.getD 13 0) = (32, 2, 2147483648, 1000, 1) ∧
    le16_at wide_fat_boot 14 + wide_fat_boot.getD 16 0 * le32_at wide_fat_boot 36 =
      4294967328 ∧
    (mount_image empty_volume (some wide_fat_boot)).map (fun o => o.map fun fs =>
        (fs.fat_start_sector, fs.data_start_sector, fs.total_clusters)) =
      some (some (32, 32, 968)) := by
  refine ⟨by decide, by decide, by decide, by decide⟩

/-- The unguarded division of `mount_image`: an image file of 90 zero bytes can be opened
and its boot sector can be read, but `BPB_SecPerClus` is 0 and the function divides by it,
so it returns neither 0 nor -1. -/
theorem mount_image_divides_by_zero :
    zero_boot_file.length = 90 ∧ (read_boot_sector zero_boot_file).BPB_SecPerClus = 0 ∧
      mount_image empty_volume (some zero_boot_file) = none := by
  refine ⟨by decide, by decide, ?_⟩
  unfold mount_image
  dsimp only
  rw [if_neg (by decide), if_pos (by decide)]

/-- Claim C27, amended. `mount_image` validates nothing.  For every image file that can be
opened, holds at least 90 bytes and whose byte 13 (sectors per cluster) is not 0, whatever
its other fields, it returns 0 with:
`fat_start_sector` the reserved sector count (16-bit field at offset 14);
`data_start_sector` that count plus number of FATs (byte 16) times FAT size (32-bit field
at offset 36), in 32-bit arithmetic; `root_cluster` the 32-bit field at offset 44;
`total_clusters` the total sector count (32-bit field at offset 32) minus
`data_start_sector`, in 32-bit arithmetic, divided by the sectors per cluster;
`current_cluster = root_cluster`; `current_path = "/"`; no live handle; and the image is
the file.  It returns -1 exactly when the file cannot be opened or holds fewer than 90
bytes. -/
theorem mount_image_fields (fs0 : FileSystem) :
    (∀ bytes : List Nat, 90 ≤ bytes.length → bytes.getD 13 0 ≠ 0 →
      ∃ fs, mount_image fs0 (some bytes) = some (some fs) ∧
        fs.fat_start_sector = le16_at bytes 14 ∧
        fs.data_start_sector =
          u32 (le16_at bytes 14 + u32 (bytes.getD 16 0 * le32_at bytes 36)) ∧
        fs.root_cluster = le32_at bytes 44 ∧
        fs.total_clusters =
          u32sub (le32_at bytes 32) fs.data_start_sector / bytes.getD 13 0 ∧
        fs.current_cluster = fs.root_cluster ∧ fs.current_path = [47] ∧
        (∀ h ∈ fs.open_files, h.is_open = false) ∧
        fs.boot_sector = read_boot_sector bytes ∧
        ∀ a, fs.image a = bytes.getD a 0) ∧
    (∀ file, mount_image fs0 file = some none ↔
      file = none ∨ ∃ bytes, file = some bytes ∧ bytes.length < 90) := by
  refine ⟨?_, ?_⟩
  · intro bytes hlen hspc
    have hs : ¬ (read_boot_sector bytes).BPB_SecPerClus = 0 := hspc
    refine ⟨
      { image := fun a => bytes.getD a 0
        boot_sector := read_boot_sector bytes
        current_cluster := (read_boot_sector bytes).BPB_RootClus
        current_path := [47]
        open_files := (fs0.open_files.take MAX_OPEN_FILES).map fun h =>
          { h with is_open := false }
        data_start_sector :=
          u32 ((read_boot_sector bytes).BPB_RsvdSecCnt +
            u32 ((read_boot_sector bytes).BPB_NumFATs * (read_boot_sector bytes).BPB_FATSz32))
        fat_start_sector := (read_boot_sector bytes).BPB_RsvdSecCnt
        root_cluster := (read_boot_sector bytes).BPB_RootClus
        total_clusters :=
          u32sub (read_boot_sector bytes).BPB_TotSec32
            (u32 ((read_boot_sector bytes).BPB_RsvdSecCnt +
              u32 ((read_boot_sector bytes).BPB_NumFATs *
                (read_boot_sector bytes).BPB_FATSz32))) /
            (read_boot_sector bytes).BPB_SecPerClus },
      ?_, rfl, rfl, rfl, rfl, rfl, rfl, ?_, rfl, fun _ => rfl⟩
    · unfold mount_image
      dsimp only
      rw [if_neg (by omega), if_neg hs]
    · intro h hh
      obtain ⟨g, _, hg⟩ := List.mem_map.1 hh
      rw [← hg]
  · intro file
    cases file with
    | none => exact ⟨fun _ => Or.inl rfl, fun _ => rfl⟩
    | some bytes =>
      unfold mount_image
      dsimp only
      constructor
      · intro h
        by_cases hl : bytes.length < 90
        · exact Or.inr ⟨bytes, rfl, hl⟩
        · rw [if_neg hl] at h
          split at h <;> cases h
      · intro h
        rcases h with h | ⟨b, hb, hl⟩
        · cases h
        · cases hb
          rw [if_pos hl]

/-- Witness for C27 (amended): the boot sector of the small sample volume. -/
theorem mount_image_fields_witness :
    ∃ fs, mount_image empty_volume (some small_boot_file) = some (some fs) ∧
      fs.fat_start_sector = le16_at small_boot_file 14 ∧
      fs.data_start_sector =
        u32 (le16_at small_boot_file 14 +
          u32 (small_boot_file.getD 16 0 * le32_at small_boot_file 36)) ∧
      fs.root_cluster = le32_at small_boot_file 44 ∧
      fs.total_clusters =
        u32sub (le32_at small_boot_file 32) fs.data_start_sector /
          small_boot_file.getD 13 0 ∧
      fs.current_cluster = fs.root_cluster ∧ fs.current_path = [47] ∧
      (∀ h ∈ fs.open_files, h.is_open = false) ∧
      fs.boot_sector = read_boot_sector small_boot_file ∧
      ∀ a, fs.image a = small_boot_file.getD a 0 :=
  (mount_image_fields empty_volume).1 small_boot_file (by decide) (by decide)


set_option maxRecDepth 1000000 in
/-- C28 (code at the failing input). The root directory of `long_directory_volume` is an
acyclic chain of 17 clusters that ends at an end-of-chain mark, and none of its slots
starts with `0x00`, `0xE5` or is a long-name slot, so the claim requires all
`17 * 16 = 272` slots, each the entry of `A`, to be returned.  The array of
`read_directory` is allocated for `16 * 16 = 256` entries: the 257th store of its loop
goes beyond the allocated block and the function has no defined result, although the fuel
covers the whole chain. -/
theorem read_directory_exceeds_buffer :
    cluster_chain long_directory_volume 20 2 =
      some [2, 3, 4, 5, 6, 7, 8, 9, 10, 11, 12, 13, 14, 15, 16, 17, 18] ∧
    (enumerate ([2, 3, 4, 5, 6, 7, 8, 9, 10, 11, 12, 13, 14, 15, 16, 17, 18].flatMap
        (cluster_slots long_directory_volume))).length = 272 ∧
    (enumerate ([2, 3, 4, 5, 6, 7, 8, 9, 10, 11, 12, 13, 14, 15, 16, 17, 18].flatMap
        (cluster_slots long_directory_volume))).all
      (fun e => decide (e = new_entry [65] ATTR_ARCHIVE 0 0)) = true ∧
    read_directory_capacity long_directory_volume = 256 ∧
    read_directory long_directory_volume 2 20 = none := by
  refine ⟨by decide!, by decide!, by decide!, by decide, by decide!⟩


/-- C29 (counterexample). In `far_file_state`, the volume of 4 GiB and 151 KiB after
`creat G`, `find_entry` yields an entry for `G`, so `cmd_rm G` reaches
`delete_directory_entry` with the root cluster and that name.  Every slot of the root
directory cluster is zero: no slot carries the name.  The function returns 0 all the same
and sets byte 16416 of the image, a byte of the FAT entry of cluster 8 in the first FAT
copy, from 71 to `0xE5`: the file position of the directory cluster is taken in `uint32_t`
and wraps. -/
theorem delete_directory_entry_writes_into_fat :
    far_file_state.map (fun fs =>
        (fs.boot_sector.BPB_TotSec32 * fs.boot_sector.BPB_BytsPerSec,
          find_entry fs fs.current_cluster [71] 4, cluster_chain fs 4 2)) =
      some (4295137280, some (some (new_entry [71] ATTR_ARCHIVE 0 0)), some [2]) ∧
    far_file_state.map (fun fs =>
        (cluster_slots fs 2).all fun e => decide (e = List.replicate 32 0)) = some true ∧
    far_file_state.map (fun fs => (fat_addr fs 0 8, fs.image 16416, get_fat_entry fs 8)) =
      some (16416, 71, 2105415) ∧
    (far_file_state.bind fun fs =>
      (delete_directory_entry fs 2 [71] 4).map fun r =>
        (r.2, r.1.image 16416, get_fat_entry r.1 8)) = some (true, 229, 2105573) := by
  refine ⟨by decide!, by decide!, by decide!, by decide!⟩


/-- A name that begins with `0xE5` (no command passes one: each call follows a successful
`find_entry`).  The root directory of `marked_name_volume` holds one entry, whose 11 name
bytes are those of `format_filename` for the name with the bytes `0xE5 0x41`.
`delete_directory_entry` of that name returns 0, and the image afterwards is the image
before: the byte it sets to `0xE5` held `0xE5` already. -/
theorem delete_directory_entry_changes_no_byte :
    (∃ x ∈ (cluster_slots marked_name_volume 2).takeWhile
        (fun e => decide (e.DIR_Name0 ≠ 0x00)), x.DIR_Name = format_filename [229, 65]) ∧
    ∃ fs', delete_directory_entry marked_name_volume 2 [229, 65] 4 = some (fs', true) ∧
      ∀ a, fs'.image a = marked_name_volume.image a := by
  have hchain : cluster_chain marked_name_volume 4 2 = some [2] := by decide
  obtain ⟨d, hp, hd⟩ := cluster_chain_path _ _ _ _ hchain
  have hfound : ∃ x ∈ ([2].flatMap (cluster_slots marked_name_volume)).takeWhile
      (fun e => decide (e.DIR_Name0 ≠ 0x00)), x.DIR_Name = format_filename [229, 65] := by
    decide
  refine ⟨by decide, ?_⟩
  obtain ⟨A, x, B, y, fs', _, _, _, hxn, _, _, hdel, _, himg, hbyte, _⟩ :=
    (delete_directory_entry_cases marked_name_volume (by decide) hp hd [229, 65] 4
      (by decide)).1 hfound
  refine ⟨fs', hdel, fun a => ?_⟩
  rw [himg a]
  split
  · rename_i h
    rw [h, hbyte, name0_of_name, hxn]
    decide
  · rfl

/-- Claim C29, amended. On a well-formed volume let the chain of the directory be `dcs`
(acyclic, ending in a link that is not a valid cluster), with raw slots `R`.  If some slot
before the first `0x00` slot has its 11 name bytes equal to `format_filename name`, then
`delete_directory_entry` returns 0, and with `x` the first such slot, at index `|A|` of
`R`, in cluster `y` of the chain: the image afterwards is the image before with the first
byte of that slot set to `0xE5`, so it differs from it in no other byte, and in that byte
when the name does not begin with `0xE5`; the slots of the chain are the former ones with
`x` replaced by `x` with first byte `0xE5`; a slot starts with `0x00` afterwards exactly
when it did before; and every slot in use afterwards is a slot that was there before,
unchanged.  Otherwise the function returns -1 and the state is unchanged. -/
theorem delete_directory_entry_effect (fs : FileSystem) (hw : WellFormed fs)
    (dir : Nat) (name : List Nat) (fuel : Nat) (dcs : List Nat)
    (hdir : cluster_chain fs fuel dir = some dcs) :
    ((∃ x ∈ (dcs.flatMap (cluster_slots fs)).takeWhile (fun e => decide (e.DIR_Name0 ≠ 0x00)),
        x.DIR_Name = format_filename name) →
      ∃ (A : List DirEntry) (x : DirEntry) (B : List DirEntry) (y : Nat) (fs' : FileSystem),
        dcs.flatMap (cluster_slots fs) = A ++ x :: B ∧
        (∀ a ∈ A, a.DIR_Name0 ≠ 0x00 ∧ a.DIR_Name ≠ format_filename name) ∧
        x.DIR_Name0 ≠ 0x00 ∧ x.DIR_Name = format_filename name ∧
        dcs.get? (A.length / max_entries fs) = some y ∧
        x = read_bytes fs.image (data_addr fs y + 32 * (A.length % max_entries fs)) 32 ∧
        delete_directory_entry fs dir name fuel = some (fs', true) ∧
        (∀ a, fs'.image a =
          if a = data_addr fs y + 32 * (A.length % max_entries fs) then 0xE5
          else fs.image a) ∧
        (cchar name 0 ≠ 0xE5 →
          fs.image (data_addr fs y + 32 * (A.length % max_entries fs)) ≠ 0xE5) ∧
        dcs.flatMap (cluster_slots fs') = A ++ x.set 0 0xE5 :: B ∧
        (∀ i, ((dcs.flatMap (cluster_slots fs')).getD i []).DIR_Name0 = 0x00 ↔
          ((dcs.flatMap (cluster_slots fs)).getD i []).DIR_Name0 = 0x00) ∧
        (∀ i, ((dcs.flatMap (cluster_slots fs')).getD i []).DIR_Name0 ≠ 0x00 →
          ((dcs.flatMap (cluster_slots fs')).getD i []).DIR_Name0 ≠ 0xE5 →
          (dcs.flatMap (cluster_slots fs')).getD i [] =
            (dcs.flatMap (cluster_slots fs)).getD i [])) ∧
    ((¬ ∃ x ∈ (dcs.flatMap (cluster_slots fs)).takeWhile
          (fun e => decide (e.DIR_Name0 ≠ 0x00)), x.DIR_Name = format_filename name) →
      delete_directory_entry fs dir name fuel = some (fs, false)) := by
  obtain ⟨d, hp, hd⟩ := cluster_chain_path fs fuel _ _ hdir
  have hlen := cluster_chain_length_le fs fuel _ _ hdir
  obtain ⟨c1, c2⟩ := delete_directory_entry_cases fs hw hp hd name fuel hlen
  refine ⟨fun h => ?_, c2⟩
  obtain ⟨A, x, B, y, fs', hR, hA, hx0, hxn, hy, hxe, hdel, _, himg, hbyte, hR'⟩ := c1 h
  have hxlen : x.length = 32 := @mem_dir_slots_length fs dcs x (by rw [hR]; simp)
  obtain ⟨_, s2, _⟩ := set_name0_deleted x hxlen
  have hx' : DirEntry.DIR_Name0 (x.set 0 0xE5) = 0xE5 := s2
  refine ⟨A, x, B, y, fs', hR, fun a ha => ⟨fun q => hA a ha (Or.inl q),
    fun q => hA a ha (Or.inr q)⟩, hx0, hxn, hy, hxe, hdel, himg, ?_, hR', ?_, ?_⟩
  · intro hname
    rw [hbyte, name0_of_name, hxn]
    exact (format_filename_head name).2 hname
  · intro i
    rw [hR', hR]
    by_cases hi : i = A.length
    · rw [hi, getD_append_cons_self, getD_append_cons_self, hx']
      constructor
      · intro q; cases q
      · intro q; exact absurd q hx0
    · rw [getD_append_cons_ne A B x (x.set 0 0xE5) [] i hi]
  · intro i h0 h5
    rw [hR', hR] at *
    by_cases hi : i = A.length
    · rw [hi, getD_append_cons_self, hx'] at h5
      exact absurd rfl h5
    · rw [getD_append_cons_ne A B x (x.set 0 0xE5) [] i hi]

/-- Witness for C29 (amended): deleting the entry of `F` in the root directory of the
volume that holds the directory `D` and the file `F`. -/
theorem delete_directory_entry_effect_witness :
    ∃ (A : List DirEntry) (x : DirEntry) (B : List DirEntry) (y : Nat) (fs' : FileSystem),
      [2].flatMap (cluster_slots dir_and_file_volume) = A ++ x :: B ∧
      (∀ a ∈ A, a.DIR_Name0 ≠ 0x00 ∧ a.DIR_Name ≠ format_filename [70]) ∧
      x.DIR_Name0 ≠ 0x00 ∧ x.DIR_Name = format_filename [70] ∧
      [2].get? (A.length / max_entries dir_and_file_volume) = some y ∧
      x = read_bytes dir_and_file_volume.image
        (data_addr dir_and_file_volume y +
          32 * (A.length % max_entries dir_and_file_volume)) 32 ∧
      delete_directory_entry dir_and_file_volume 2 [70] 4 = some (fs', true) ∧
      (∀ a, fs'.image a =
        if a = data_addr dir_and_file_volume y +
            32 * (A.length % max_entries dir_and_file_volume) then 0xE5
        else dir_and_file_volume.image a) ∧
      (cchar [70] 0 ≠ 0xE5 →
        dir_and_file_volume.image (data_addr dir_and_file_volume y +
          32 * (A.length % max_entries dir_and_file_volume)) ≠ 0xE5) ∧
      [2].flatMap (cluster_slots fs') = A ++ x.set 0 0xE5 :: B ∧
      (∀ i, (([2].flatMap (cluster_slots fs')).getD i []).DIR_Name0 = 0x00 ↔
        (([2].flatMap (cluster_slots dir_and_file_volume)).getD i []).DIR_Name0 = 0x00) ∧
      (∀ i, (([2].flatMap (cluster_slots fs')).getD i []).DIR_Name0 ≠ 0x00 →
        (([2].flatMap (cluster_slots fs')).getD i []).DIR_Name0 ≠ 0xE5 →
        ([2].flatMap (cluster_slots fs')).getD i [] =
          ([2].flatMap (cluster_slots dir_and_file_volume)).getD i []) :=
  (delete_directory_entry_effect dir_and_file_volume (by decide) 2 [70] 4 [2]
    (by decide)).1 (by decide)


/-- C30 (counterexample). On `overlapping_fat_volume` the entries of the clusters 130 and
2 lie inside the first FAT copy, and the entry of cluster 2 reads 0.  `set_fat_entry 130 5`
computes the file position of the entry in the second copy in 32 bits, where it wraps to
the position of the entry of cluster 2 in the first copy: afterwards `get_fat_entry 2`
returns 5. -/
theorem set_fat_entry_wraps_onto_other_entry :
    InFat overlapping_fat_volume 130 ∧ InFat overlapping_fat_volume 2 ∧
      get_fat_entry overlapping_fat_volume 2 = 0 ∧
      get_fat_entry (set_fat_entry overlapping_fat_volume 130 5) 130 = 5 ∧
      get_fat_entry (set_fat_entry overlapping_fat_volume 130 5) 2 = 5 ∧
      fat_copy_pos overlapping_fat_volume 1 130 = fat_addr overlapping_fat_volume 0 2 := by
  refine ⟨by decide, by decide, by decide, by decide, by decide, by decide⟩

/-- Claim C30, amended. On a volume with at least one FAT copy whose FAT copies all end at
or below byte offset `2^32`, for every cluster index `c` whose entry lies inside the FAT
and every value `v`: after `set_fat_entry c v`, `get_fat_entry c` returns
`v & 0x0FFFFFFF`; `get_fat_entry c'` returns its previous value for every other index
`c'` inside the FAT; no byte outside the FAT copies has changed; and `get_fat_entry c`
is the low 28 bits of the little-endian word made of the 4 bytes at byte address
`fat_start_sector * bytes_per_sector + 4 * c`. -/
theorem fat_entry_round_trip (fs : FileSystem) (c v : Nat) (hb : FatBelow4G fs)
    (hn : 1 ≤ fs.boot_sector.BPB_NumFATs) (hc : InFat fs c) :
    get_fat_entry (set_fat_entry fs c v) c = v &&& 0x0FFFFFFF ∧
      (∀ c', InFat fs c' → c' ≠ c →
        get_fat_entry (set_fat_entry fs c v) c' = get_fat_entry fs c') ∧
      (∀ a, a < fs.fat_start_sector * fs.boot_sector.BPB_BytsPerSec ∨
          (fs.fat_start_sector + fs.boot_sector.BPB_NumFATs * fs.boot_sector.BPB_FATSz32) *
            fs.boot_sector.BPB_BytsPerSec ≤ a →
        (set_fat_entry fs c v).image a = fs.image a) ∧
      get_fat_entry fs c =
        (fs.image (fs.fat_start_sector * fs.boot_sector.BPB_BytsPerSec + 4 * c) +
          256 * fs.image (fs.fat_start_sector * fs.boot_sector.BPB_BytsPerSec + 4 * c + 1) +
          65536 * fs.image (fs.fat_start_sector * fs.boot_sector.BPB_BytsPerSec + 4 * c + 2) +
          16777216 *
            fs.image (fs.fat_start_sector * fs.boot_sector.BPB_BytsPerSec + 4 * c + 3)) %
          268435456 := by
  refine ⟨get_set_fat_entry_same fs c v hb hn hc,
    fun c' hc' hne => get_set_fat_entry_other fs c v c' hb hn hc hc' hne,
    fun a ha => set_fat_entry_image_outside fs c v a hb hc ha, ?_⟩
  unfold get_fat_entry
  rw [fat_entry_pos_eq fs c hb hn hc, land_mask]
  unfold fat_addr read_le32
  rw [Nat.zero_mul, Nat.add_zero]

/-- Witness for C30 (amended): entry 5 of the empty small volume. -/
theorem fat_entry_round_trip_witness :
    get_fat_entry (set_fat_entry empty_volume 5 0x1FFFFFFF) 5 = 0x1FFFFFFF &&& 0x0FFFFFFF ∧
      (∀ c', InFat empty_volume c' → c' ≠ 5 →
        get_fat_entry (set_fat_entry empty_volume 5 0x1FFFFFFF) c' =
          get_fat_entry empty_volume c') ∧
      (∀ a, a < empty_volume.fat_start_sector * empty_volume.boot_sector.BPB_BytsPerSec ∨
          (empty_volume.fat_start_sector +
              empty_volume.boot_sector.BPB_NumFATs * empty_volume.boot_sector.BPB_FATSz32) *
            empty_volume.boot_sector.BPB_BytsPerSec ≤ a →
        (set_fat_entry empty_volume 5 0x1FFFFFFF).image a = empty_volume.image a) ∧
      get_fat_entry empty_volume 5 =
        (empty_volume.image
            (empty_volume.fat_start_sector * empty_volume.boot_sector.BPB_BytsPerSec + 4 * 5) +
          256 * empty_volume.image
            (empty_volume.fat_start_sector * empty_volume.boot_sector.BPB_BytsPerSec + 4 * 5
              + 1) +
          65536 * empty_volume.image
            (empty_volume.fat_start_sector * empty_volume.boot_sector.BPB_BytsPerSec + 4 * 5
              + 2) +
          16777216 * empty_volume.image
            (empty_volume.fat_start_sector * empty_volume.boot_sector.BPB_BytsPerSec + 4 * 5
              + 3)) % 268435456 :=
  fat_entry_round_trip empty_volume 5 0x1FFFFFFF (by decide) (by decide) (by decide)


/-- C31 (counterexample). On `overlapping_chain_volume` each FAT copy has `2^23 - 1`
sectors, so the second copy starts 512 bytes below `2^32` past the first.  The chain from
cluster 130 is the single cluster 130, and cluster 2 is not on it.  After
`free_cluster_chain 130` the entry of cluster 2 reads 0 instead of the end-of-chain mark:
the 32-bit file position of entry 130 in the second copy is the position of entry 2 in the
first.  The same happens through the shell: on `overlapping_file_volume`, where the file
`F` owns cluster 130, `cmd_rm F` reports no error and leaves 0 in the entry of the root
cluster 2. -/
theorem free_cluster_chain_clears_other_entry :
    cluster_chain overlapping_chain_volume 4 130 = some [130] ∧
    is_valid_cluster overlapping_chain_volume 2 = true ∧
    get_fat_entry overlapping_chain_volume 2 = 0x0FFFFFFF ∧
    (fat_copy_pos overlapping_chain_volume 1 130, fat_entry_pos overlapping_chain_volume 2) =
      (16392, 16392) ∧
    (free_cluster_chain overlapping_chain_volume 4 130).map
        (fun fs => (get_fat_entry fs 130, get_fat_entry fs 2)) = some (0, 0) ∧
    (find_entry overlapping_file_volume overlapping_file_volume.current_cluster [70] 4,
        get_fat_entry overlapping_file_volume 2) =
      (some (some (new_entry [70] ATTR_ARCHIVE 130 5)), 0x0FFFFFFF) ∧
    (cmd_rm overlapping_file_volume [70] 4).map (fun r => (r.err, get_fat_entry r.fs 2)) =
      some (none, 0) := by
  refine ⟨by decide, by decide, by decide, by decide, by decide!, by decide, by decide!⟩


/-- Claim C31, amended. On a volume with at least one FAT copy, whose FAT copies all end
at or below byte `2^32` and hold an entry for every cluster index below
`total_clusters + 2`, let the chain from `start` visit the valid clusters `cs` and then a
link that is not a valid cluster index.  Then `free_cluster_chain start` returns, and
afterwards: `get_fat_entry` returns 0 for every cluster of `cs`; it returns its former
value for every index inside the FAT that is not in `cs`; every byte outside the FAT
entries of the clusters of `cs` is unchanged, as is everything but the image; and the
clusters of `cs` are pairwise distinct.  When `start` is not a valid cluster index the
function returns the state it was given, on every volume. -/
theorem free_cluster_chain_effect (fs : FileSystem) (hb : FatBelow4G fs)
    (hn : 1 ≤ fs.boot_sector.BPB_NumFATs)
    (hf : 4 * (fs.total_clusters + 2) ≤ fat_bytes fs) (start fuel : Nat)
    (cs : List Nat) (hchain : cluster_chain fs fuel start = some cs) :
    (∃ fs', free_cluster_chain fs fuel start = some fs' ∧
      (∀ c ∈ cs, get_fat_entry fs' c = 0) ∧
      (∀ c, InFat fs c → c ∉ cs → get_fat_entry fs' c = get_fat_entry fs c) ∧
      (∀ a, (∀ c ∈ cs, ¬ InFatEntry fs c a) → fs'.image a = fs.image a) ∧
      SameState fs fs' ∧ cs.Nodup) ∧
    (is_valid_cluster fs start = false → free_cluster_chain fs fuel start = some fs) := by
  constructor
  · obtain ⟨d, hp, hd⟩ := cluster_chain_path fs fuel _ _ hchain
    obtain ⟨fs', hfree, hfr, hzero, hother⟩ :=
      free_cluster_chain_fat cs fs start d fuel hb hn hf hp hd
        (cluster_chain_length_le fs fuel _ _ hchain)
    exact ⟨fs', hfree, hzero, hother, fun a ha => hfr.2 a ha (fun _ h => by cases h), hfr.1,
      hp.nodup hd⟩
  · intro hv
    cases fuel <;> simp [free_cluster_chain, hv]

set_option maxRecDepth 1000000 in
/-- Witness for C31 (amended): the chain of 17 clusters of the root directory of
`long_directory_volume`. -/
theorem free_cluster_chain_effect_witness :
    (∃ fs', free_cluster_chain long_directory_volume 20 2 = some fs' ∧
      (∀ c ∈ [2, 3, 4, 5, 6, 7, 8, 9, 10, 11, 12, 13, 14, 15, 16, 17, 18],
        get_fat_entry fs' c = 0) ∧
      (∀ c, InFat long_directory_volume c →
        c ∉ [2, 3, 4, 5, 6, 7, 8, 9, 10, 11, 12, 13, 14, 15, 16, 17, 18] →
        get_fat_entry fs' c = get_fat_entry long_directory_volume c) ∧
      (∀ a, (∀ c ∈ [2, 3, 4, 5, 6, 7, 8, 9, 10, 11, 12, 13, 14, 15, 16, 17, 18],
          ¬ InFatEntry long_directory_volume c a) →
        fs'.image a = long_directory_volume.image a) ∧
      SameState long_directory_volume fs' ∧
      [2, 3, 4, 5, 6, 7, 8, 9, 10, 11, 12, 13, 14, 15, 16, 17, 18].Nodup) ∧
    (is_valid_cluster long_directory_volume 2 = false →
      free_cluster_chain long_directory_volume 20 2 = some long_directory_volume) :=
  free_cluster_chain_effect long_directory_volume (by decide) (by decide) (by decide) 2 20
    [2, 3, 4, 5, 6, 7, 8, 9, 10, 11, 12, 13, 14, 15, 16, 17, 18] (by decide!)


/-- Claim C32. On a volume with at least one FAT copy and a sector size that is not 0 (the
code divides by it), whatever the bytes of the image and whatever `start`:
`free_cluster_chain start` returns within `total_clusters + 1` iterations of its loop, and
a larger bound gives the same result, so chains with a cycle are covered.  The reason is
the one the claim gives: `set_fat_entry c 0` makes `get_fat_entry c` return 0, and an
entry that reads 0 still reads 0 after it, so a cluster that is visited again ends the
walk. -/
theorem free_cluster_chain_total (fs : FileSystem) (start : Nat)
    (hn : 1 ≤ fs.boot_sector.BPB_NumFATs) (_hbps : 0 < fs.boot_sector.BPB_BytsPerSec)
    (hbytes : ∀ a, fs.image a < 256) :
    (∃ fs', free_cluster_chain fs (fs.total_clusters + 1) start = some fs' ∧
      ∀ fuel, fs.total_clusters + 1 ≤ fuel → free_cluster_chain fs fuel start = some fs') ∧
    (∀ c, get_fat_entry (set_fat_entry fs c 0) c = 0) ∧
    (∀ c c', get_fat_entry fs c' = 0 → get_fat_entry (set_fat_entry fs c 0) c' = 0) := by
  refine ⟨?_, fun c => get_set_fat_entry_zero fs c hn,
    fun c c' h => get_fat_entry_zero_stays fs c c' hbytes h⟩
  obtain ⟨fs', h⟩ := free_cluster_chain_terminates (fs.total_clusters + 1) fs start hn hbytes
    (by have := linked_clusters_le fs; omega)
  exact ⟨fs', h, fun fuel hf => free_cluster_chain_fuel_mono _ fs fs' start fuel h hf⟩

set_option maxRecDepth 1000000 in
/-- Witness for C32: on `cyclic_fat_volume` the links 3, 4, 5, 3 form a cycle, so the
chain from cluster 3 never ends; `free_cluster_chain 3` returns after 4 iterations, with
the three entries set to 0. -/
theorem free_cluster_chain_total_witness :
    (get_fat_entry cyclic_fat_volume 3, get_fat_entry cyclic_fat_volume 4,
      get_fat_entry cyclic_fat_volume 5) = (4, 5, 3) ∧
    cluster_chain cyclic_fat_volume 100 3 = none ∧
    (free_cluster_chain cyclic_fat_volume 3 3).isSome = false ∧
    (free_cluster_chain cyclic_fat_volume 4 3).map (fun fs =>
      (get_fat_entry fs 3, get_fat_entry fs 4, get_fat_entry fs 5)) = some (0, 0, 0) ∧
    ((∃ fs', free_cluster_chain cyclic_fat_volume (cyclic_fat_volume.total_clusters + 1) 3 =
        some fs' ∧
      ∀ fuel, cyclic_fat_volume.total_clusters + 1 ≤ fuel →
        free_cluster_chain cyclic_fat_volume fuel 3 = some fs') ∧
    (∀ c, get_fat_entry (set_fat_entry cyclic_fat_volume c 0) c = 0) ∧
    (∀ c c', get_fat_entry cyclic_fat_volume c' = 0 →
      get_fat_entry (set_fat_entry cyclic_fat_volume c 0) c' = 0)) :=
  ⟨by decide, by decide!, by decide!, by decide!,
    free_cluster_chain_total cyclic_fat_volume 3 (by decide) (by decide)
      (image_of_lt _ (by decide))⟩


set_option maxRecDepth 1000000 in
/-- C33 (code at the failing input). On the empty small volume, whose root directory
enumerates nothing, the commands `creat A; creat F; rm A; open F -w; write F "x"; close F`
all report no error.  Before the write the directory enumerates the single name `F`.  The
write looks `F` up at index 0 of the enumeration, which skips the deleted slot of `A`, and
passes that index to `write_directory_entry` as a slot index: the updated entry of `F`
(first cluster 3, size 1) lands in the slot of the deleted `A`, and the old entry of `F`
(first cluster 0, size 0) stays.  Afterwards the directory enumerates two entries with the
same 11 name bytes. -/
theorem cmd_write_duplicates_name :
    read_directory empty_volume 2 4 = some [] ∧
    ((cmd_creat empty_volume [65] 4).bind fun r1 =>
      (cmd_creat r1.fs [70] 4).bind fun r2 =>
        (cmd_rm r2.fs [65] 4).map fun r3 => (r1.err, r2.err, r3.err)) =
      some (none, none, none) ∧
    ((cmd_creat empty_volume [65] 4).bind fun r1 =>
      (cmd_creat r1.fs [70] 4).bind fun r2 =>
        (cmd_rm r2.fs [65] 4).bind fun r3 =>
          (cmd_open r3.fs [70] [45, 119] 4).map fun r4 => r4.err) = some none ∧
    (deleted_before_file_state.bind fun fs => read_directory fs 2 4).map
        (fun es => es.map DirEntry.DIR_Name) = some [format_filename [70]] ∧
    (deleted_before_file_state.bind fun fs =>
      (cmd_write fs [70] [120] 4).bind fun r5 =>
        (cmd_close r5.fs [70] 4).map fun r6 => (r5.err, r6.err)) = some (none, none) ∧
    (duplicate_name_state.bind fun fs => read_directory fs 2 4).map
        (fun es => es.map DirEntry.DIR_Name) =
      some [format_filename [70], format_filename [70]] ∧
    (duplicate_name_state.bind fun fs => read_directory fs 2 4).map
        (fun es => es.map fun e => (e.first_cluster, e.DIR_FileSize)) =
      some [(3, 1), (0, 0)] ∧
    (duplicate_name_state.bind fun fs => read_directory fs 2 4).map
        (fun es => decide (es.map DirEntry.DIR_Name).Nodup) = some false := by
  refine ⟨by decide!, by decide!, by decide!, by decide!, by decide!, by decide!, by decide!,
    by decide!⟩

end Fat32
